import Mathlib

/-!
QQuickTableView: shallow embedding and verified properties.

The development embeds `src/quick/items/qquicktableview.cpp` (the private
class `QQuickTableViewPrivate`) as pure state-passing functions.

Conventions
* C++ `int` is `Int`; every value the table code computes from a valid grid
  lies between `-1` and the number of cells of the grid, so no wrap-around is
  involved.
* `qreal` is idealised as `ℚ`.
* `Qt::Edge` is `Edge`; the value `Qt::Edge(0)` ("no edge") is `none`.
* `QHash<int, FxTableItem *>` is an association list, newest entry first.
* The QML item factory (`QQmlInstanceModel::object`) is an input of the
  table: `State.factoryScript` lists the answers it gives to the successive
  requests, and `State.log` records the calls made to it.
-/

namespace TableView

/-! ## Qt value classes -/

/-- Integer point `QPoint`. -/
structure QPoint where
  x : Int
  y : Int
deriving DecidableEq, Repr

/-- Componentwise `QPoint::operator+`. -/
def QPoint.add (a b : QPoint) : QPoint := ⟨a.x + b.x, a.y + b.y⟩

/-- Componentwise `QPoint::operator-`. -/
def QPoint.sub (a b : QPoint) : QPoint := ⟨a.x - b.x, a.y - b.y⟩

/-- Integer size `QSize`. -/
structure QSize where
  width : Int
  height : Int
deriving DecidableEq, Repr

/-- `QSize::isEmpty`: either extent is smaller than one. -/
def QSize.isEmpty (s : QSize) : Bool := decide (s.width < 1) || decide (s.height < 1)

/-- Integer rectangle `QRect`, stored as in Qt by its inclusive corners. -/
structure QRect where
  x1 : Int
  y1 : Int
  x2 : Int
  y2 : Int
deriving DecidableEq, Repr

namespace QRect

/-- Default constructed `QRect()`: the null rectangle `(0,0)..(-1,-1)`. -/
def null : QRect := ⟨0, 0, -1, -1⟩

/-- Constructor `QRect(topLeft, bottomRight)`. -/
def ofPoints (tl br : QPoint) : QRect := ⟨tl.x, tl.y, br.x, br.y⟩

def left (r : QRect) : Int := r.x1
def top (r : QRect) : Int := r.y1
def right (r : QRect) : Int := r.x2
def bottom (r : QRect) : Int := r.y2
def x (r : QRect) : Int := r.x1
def y (r : QRect) : Int := r.y1
def width (r : QRect) : Int := r.x2 - r.x1 + 1
def height (r : QRect) : Int := r.y2 - r.y1 + 1
def topLeft (r : QRect) : QPoint := ⟨r.x1, r.y1⟩
def bottomRight (r : QRect) : QPoint := ⟨r.x2, r.y2⟩
def topRight (r : QRect) : QPoint := ⟨r.x2, r.y1⟩
def bottomLeft (r : QRect) : QPoint := ⟨r.x1, r.y2⟩
def setTopLeft (r : QRect) (p : QPoint) : QRect := { r with x1 := p.x, y1 := p.y }
def setBottomRight (r : QRect) (p : QPoint) : QRect := { r with x2 := p.x, y2 := p.y }

/-- Member `QRect::adjusted(dx1, dy1, dx2, dy2)`. -/
def adjusted (r : QRect) (dx1 dy1 dx2 dy2 : Int) : QRect :=
  ⟨r.x1 + dx1, r.y1 + dy1, r.x2 + dx2, r.y2 + dy2⟩

/-- A cell lies inside the rectangle (both corners inclusive). -/
def containsCell (r : QRect) (c : QPoint) : Prop :=
  r.x1 ≤ c.x ∧ c.x ≤ r.x2 ∧ r.y1 ≤ c.y ∧ c.y ≤ r.y2

instance (r : QRect) (c : QPoint) : Decidable (r.containsCell c) := by
  unfold containsCell; infer_instance

end QRect

/-- Integer line `QLine` between two points. -/
structure QLine where
  p1 : QPoint
  p2 : QPoint
deriving DecidableEq, Repr

/-- Horizontal extent `QLine::dx`. -/
def QLine.dx (l : QLine) : Int := l.p2.x - l.p1.x

/-- Default constructed `QLine()`. -/
def QLine.null : QLine := ⟨⟨0, 0⟩, ⟨0, 0⟩⟩

/-- Floating point pair `QPointF` (idealised). -/
structure QPointF where
  x : ℚ
  y : ℚ
deriving DecidableEq, Repr

/-- Floating point size `QSizeF` (idealised). -/
structure QSizeF where
  width : ℚ
  height : ℚ
deriving DecidableEq, Repr

/-- Margins `QMarginsF` (idealised). -/
structure QMarginsF where
  left : ℚ
  top : ℚ
  right : ℚ
  bottom : ℚ
deriving DecidableEq, Repr

/-- Rectangle `QRectF`, stored as in Qt by position and size. -/
structure QRectF where
  xp : ℚ
  yp : ℚ
  w : ℚ
  h : ℚ
deriving DecidableEq, Repr

namespace QRectF

/-- Conversion `QRectF(const QRect &)`. -/
def ofRect (r : QRect) : QRectF := ⟨r.x, r.y, r.width, r.height⟩

/-- Constructor `QRectF(topLeft, bottomRight)`. -/
def ofPoints (tl br : QPointF) : QRectF := ⟨tl.x, tl.y, br.x - tl.x, br.y - tl.y⟩

def left (r : QRectF) : ℚ := r.xp
def top (r : QRectF) : ℚ := r.yp
def right (r : QRectF) : ℚ := r.xp + r.w
def bottom (r : QRectF) : ℚ := r.yp + r.h
def x (r : QRectF) : ℚ := r.xp
def y (r : QRectF) : ℚ := r.yp
def width (r : QRectF) : ℚ := r.w
def height (r : QRectF) : ℚ := r.h
def topLeft (r : QRectF) : QPointF := ⟨r.xp, r.yp⟩
def bottomRight (r : QRectF) : QPointF := ⟨r.xp + r.w, r.yp + r.h⟩
def moveLeft (r : QRectF) (pos : ℚ) : QRectF := { r with xp := pos }
def moveTop (r : QRectF) (pos : ℚ) : QRectF := { r with yp := pos }
def setWidth (r : QRectF) (w : ℚ) : QRectF := { r with w := w }
def setHeight (r : QRectF) (h : ℚ) : QRectF := { r with h := h }
def isNull (r : QRectF) : Bool := decide (r.w = 0) && decide (r.h = 0)
def isValid (r : QRectF) : Bool := decide (r.w > 0) && decide (r.h > 0)

/-- Member `QRectF::adjusted(dx1, dy1, dx2, dy2)`. -/
def adjusted (r : QRectF) (dx1 dy1 dx2 dy2 : ℚ) : QRectF :=
  ⟨r.xp + dx1, r.yp + dy1, r.w + dx2 - dx1, r.h + dy2 - dy1⟩

/-- Bounding rectangle `QRectF::united` (`operator|`). -/
def united (a b : QRectF) : QRectF :=
  if a.isNull then b
  else if b.isNull then a
  else
    let l0 := if a.w < 0 then a.xp + a.w else a.xp
    let r0 := if a.w < 0 then a.xp else a.xp + a.w
    let l := if b.w < 0 then min l0 (b.xp + b.w) else min l0 b.xp
    let r := if b.w < 0 then max r0 b.xp else max r0 (b.xp + b.w)
    let t0 := if a.h < 0 then a.yp + a.h else a.yp
    let b0 := if a.h < 0 then a.yp else a.yp + a.h
    let t := if b.h < 0 then min t0 (b.yp + b.h) else min t0 b.yp
    let bt := if b.h < 0 then max b0 b.yp else max b0 (b.yp + b.h)
    ⟨l, t, r - l, bt - t⟩

end QRectF

/-- The four sides `Qt::LeftEdge`, `Qt::RightEdge`, `Qt::TopEdge`, `Qt::BottomEdge`. -/
inductive Edge where
  | LeftEdge
  | RightEdge
  | TopEdge
  | BottomEdge
deriving DecidableEq, Repr

/-- Table `allTableEdges`: the evaluation order of the four edges. -/
def allTableEdges : List Edge := [Edge.LeftEdge, Edge.RightEdge, Edge.TopEdge, Edge.BottomEdge]

/-- Helper `rectangleEdge(rect, tableEdge)`: the line of cells along one side. -/
def rectangleEdge (rect : QRect) (tableEdge : Edge) : QLine :=
  match tableEdge with
  | Edge.LeftEdge => ⟨rect.topLeft, rect.bottomLeft⟩
  | Edge.RightEdge => ⟨rect.topRight, rect.bottomRight⟩
  | Edge.TopEdge => ⟨rect.topLeft, rect.topRight⟩
  | Edge.BottomEdge => ⟨rect.bottomLeft, rect.bottomRight⟩

/-- Helper `expandedRect(rect, edge, increment)`: move one side outwards. -/
def expandedRect (rect : QRect) (edge : Edge) (increment : Int) : QRect :=
  match edge with
  | Edge.LeftEdge => rect.adjusted (-increment) 0 0 0
  | Edge.RightEdge => rect.adjusted 0 0 increment 0
  | Edge.TopEdge => rect.adjusted 0 (-increment) 0 0
  | Edge.BottomEdge => rect.adjusted 0 0 0 increment

def kLeft : QPoint := ⟨-1, 0⟩
def kRight : QPoint := ⟨1, 0⟩
def kUp : QPoint := ⟨0, -1⟩
def kDown : QPoint := ⟨0, 1⟩

/-- Inclusive integer range of a C++ loop `for (i = lo; i <= hi; ++i)`. -/
def intRange (lo hi : Int) : List Int :=
  (List.range (hi - lo + 1).toNat).map (fun (i : Nat) => lo + (i : Int))

/-! ## Items, factory and load request -/

/-- Incubation mode handed to the factory (`QQmlIncubator::IncubationMode`). -/
inductive IncubationMode where
  | Asynchronous
  | AsynchronousIfNested
deriving DecidableEq, Repr

/-- Flag `QQmlTableInstanceModel::ReusableFlag`. -/
inductive ReusableFlag where
  | NotReusable
  | Reusable
deriving DecidableEq, Repr

/-- Materialised cell `FxTableItem` together with the visual item it wraps:
the geometry is the item position and size, the implicit size is the one of
the delegate item. -/
structure FxTableItem where
  cell : QPoint
  index : Int
  ownItem : Bool
  visible : Bool
  geometry : QRectF
  implicitWidth : ℚ
  implicitHeight : ℚ
deriving DecidableEq, Repr

/-- Answer of the factory to `model->object(index, mode)`, together with
`model->incubationStatus(index)` when no object is returned. -/
inductive ObjectResult where
  | item (geometry : QRectF) (implicitWidth implicitHeight : ℚ)
  | notAnItem
  | incubating
  | failed
deriving DecidableEq, Repr

/-- Calls made to the item factory and to the flickable, in program order. -/
inductive Event where
  | object (index : Int) (mode : IncubationMode)
  | releaseObject (index : Int)
  | release (index : Int) (flag : Option ReusableFlag)
  | deleteOwnItem (index : Int)
  | cancel (index : Int)
  | begin (alreadyActive : Bool) (edge : Option Edge) (cells : QLine)
  | drainReusableItemsPool
  | setContentWidth (w : ℚ)
  | setContentHeight (h : ℚ)
deriving DecidableEq, Repr

/-- Numeric value of a JavaScript result (`QJSValue::toNumber`). -/
inductive JSNumber where
  | nan
  | num (v : ℚ)
deriving DecidableEq, Repr

/-- Size provider property (`QJSValue`): undefined, a value that is not a
function, or a function given by its finite table of results. -/
inductive SizeProvider where
  | undefined
  | notCallable
  | callable (table : List (Int × JSNumber)) (otherwise : JSNumber)
deriving DecidableEq, Repr

/-- Result of calling a provider function for a row or column. -/
def SizeProvider.call (table : List (Int × JSNumber)) (otherwise : JSNumber) (arg : Int) : JSNumber :=
  match table.find? (fun e => e.1 == arg) with
  | some e => e.2
  | none => otherwise

/-- Assigned model as seen by the table: `model` (and `tableModel` when the
table wraps the model itself). -/
structure InstanceModel where
  isTableModel : Bool
  count : Int
  columns : Int
  rows : Int
  hasDelegate : Bool
deriving DecidableEq, Repr

/-- Modelled from the spec: the load request record
`{edge, orderedCellSequence, cursor, active}` of the Load Request State
Machine. The class `TableEdgeLoadRequest` is declared in
`qquicktableview_p_p.h`, which is not part of the sources. The ordered cell
sequence is kept as the line of cells handed to `begin` and the cursor as the
current cell, which is the interface the callers in `qquicktableview.cpp` use. -/
structure TableEdgeLoadRequest where
  edge : Option Edge
  edgeCells : QLine
  currentCell : QPoint
  active : Bool
  mode : IncubationMode
deriving DecidableEq, Repr

namespace TableEdgeLoadRequest

/-- Modelled from the spec: an inactive request (`TableEdgeLoadRequest` is
declared in the missing header). -/
def idle : TableEdgeLoadRequest :=
  ⟨none, QLine.null, ⟨0, 0⟩, false, IncubationMode.AsynchronousIfNested⟩

/-- Modelled from the spec: `begin(edge, mode)` takes the cells along the new
edge, puts the cursor on the first one and becomes Active. -/
def begin (_r : TableEdgeLoadRequest) (cellsToLoad : QLine) (edgeToLoad : Edge)
    (incubationMode : IncubationMode) : TableEdgeLoadRequest :=
  ⟨some edgeToLoad, cellsToLoad, cellsToLoad.p1, true, incubationMode⟩

/-- Modelled from the spec: the "begin with no edge" path, whose sequence is
the single given cell. -/
def beginCell (_r : TableEdgeLoadRequest) (cell : QPoint)
    (incubationMode : IncubationMode) : TableEdgeLoadRequest :=
  ⟨none, ⟨cell, cell⟩, cell, true, incubationMode⟩

/-- Modelled from the spec: direction in which the cursor advances, along a
row when the line has a horizontal extent and along a column otherwise (the
same test `unloadItems` applies to a line). -/
def direction (r : TableEdgeLoadRequest) : QPoint :=
  if r.edgeCells.dx ≠ 0 then ⟨1, 0⟩ else ⟨0, 1⟩

def markAsDone (r : TableEdgeLoadRequest) : TableEdgeLoadRequest := { r with active := false }
def isActive (r : TableEdgeLoadRequest) : Bool := r.active
def firstCell (r : TableEdgeLoadRequest) : QPoint := r.edgeCells.p1
def lastCell (r : TableEdgeLoadRequest) : QPoint := r.edgeCells.p2
def previousCell (r : TableEdgeLoadRequest) : QPoint := r.currentCell.sub r.direction
def atBeginning (r : TableEdgeLoadRequest) : Bool := decide (r.currentCell = r.edgeCells.p1)

/-- Modelled from the spec: the cursor has not passed the end of the sequence. -/
def hasCurrentCell (r : TableEdgeLoadRequest) : Bool :=
  r.active && decide (r.currentCell.x ≤ r.edgeCells.p2.x) && decide (r.currentCell.y ≤ r.edgeCells.p2.y)

def moveToNextCell (r : TableEdgeLoadRequest) : TableEdgeLoadRequest :=
  { r with currentCell := r.currentCell.add r.direction }

def incubationMode (r : TableEdgeLoadRequest) : IncubationMode := r.mode

/-- Number of cells from the cursor to the end of the line, an upper bound of
the iterations of the loading loop. -/
def remaining (r : TableEdgeLoadRequest) : Nat :=
  (r.edgeCells.p2.x - r.currentCell.x + 1).toNat + (r.edgeCells.p2.y - r.currentCell.y + 1).toNat

end TableEdgeLoadRequest

/-! ## The hash of loaded items -/

/-- Type of `loadedItems`: `QHash<int, FxTableItem *>`. -/
abbrev ItemHash := List (Int × FxTableItem)

namespace ItemHash

/-- Member `QHash::contains`. -/
def contains (h : ItemHash) (k : Int) : Bool := h.any (fun e => e.1 == k)

/-- Member `QHash::value`: the entry stored under the key, if any. -/
def value (h : ItemHash) (k : Int) : Option FxTableItem :=
  (h.find? (fun e => e.1 == k)).map Prod.snd

/-- Removal of a key, as done by `QHash::take`. -/
def erase (h : ItemHash) (k : Int) : ItemHash := h.filter (fun e => !(e.1 == k))

/-- Member `QHash::insert`: an existing entry for the key is replaced. -/
def insert (h : ItemHash) (k : Int) (v : FxTableItem) : ItemHash := (k, v) :: erase h k

/-- Write through the item pointer stored under a key. -/
def modify (h : ItemHash) (k : Int) (f : FxTableItem → FxTableItem) : ItemHash :=
  h.map (fun e => if e.1 == k then (e.1, f e.2) else e)

/-- Keys of the hash. -/
def keys (h : ItemHash) : List Int := h.map Prod.fst

end ItemHash

/-- Placeholder wrapper standing for the null pointer that `QHash::value`
returns for a key that is not loaded. -/
def FxTableItem.missing : FxTableItem :=
  ⟨⟨0, 0⟩, -1, false, false, ⟨0, 0, 0, 0⟩, 0, 0⟩

/-! ## State of `QQuickTableViewPrivate` -/

/-- Members of `QQuickTableViewPrivate` and the inputs it reads from the
flickable, the model and the item factory. -/
structure State where
  loadedItems : ItemHash
  loadedTable : QRect
  loadedTableOuterRect : QRectF
  loadedTableInnerRect : QRectF
  tableSize : QSize
  cellSpacing : QSizeF
  tableMargins : QMarginsF
  contentSizeBenchMarkPoint : QPoint
  viewportRect : QRectF
  loadRequest : TableEdgeLoadRequest
  tableInvalid : Bool
  tableRebuilding : Bool
  columnRowPositionsInvalid : Bool
  layoutWarningIssued : Bool
  hasBufferedItems : Bool
  polishing : Bool
  blockItemCreatedCallback : Bool
  cacheBuffer : Int
  reusableFlag : ReusableFlag
  rowHeightProvider : SizeProvider
  columnWidthProvider : SizeProvider
  model : Option InstanceModel
  contentX : ℚ
  contentY : ℚ
  width : ℚ
  height : ℚ
  implicitWidth : ℚ
  implicitHeight : ℚ
  contentWidth : ℚ
  contentHeight : ℚ
  polishScheduled : Bool
  cacheBufferDelayTimerActive : Bool
  factoryScript : List ObjectResult
  factoryDefault : ObjectResult
  log : List Event
deriving DecidableEq, Repr

/-! ## Geometry/index mapping -/

/-- Source `QQuickTableViewPrivate::modelIndexAtCell`, over the mathematical
integers and without its assertion. `modelIndexAtCellInt` is the function in
the arithmetic of `int` with the assertion; the two agree on the valid cells
of every grid that the model counts. -/
def modelIndexAtCell (s : State) (cell : QPoint) : Int :=
  let availableRows := s.tableSize.height
  cell.y + (cell.x * availableRows)

/-- Source `QQuickTableViewPrivate::cellAtModelIndex`; `none` stands for the
failed assertion `availableRows > 0`. C++ integer division and remainder
truncate towards zero. -/
def cellAtModelIndex (s : State) (modelIndex : Int) : Option QPoint :=
  let availableRows := s.tableSize.height
  if availableRows > 0 then
    let column := Int.tdiv modelIndex availableRows
    let row := Int.tmod modelIndex availableRows
    some ⟨column, row⟩
  else none

/-- Source `QQuickTableViewPrivate::loadedTableItem`. -/
def loadedTableItem (s : State) (cell : QPoint) : FxTableItem :=
  let modelIndex := modelIndexAtCell s cell
  (s.loadedItems.value modelIndex).getD FxTableItem.missing

/-- Source `QQuickTableViewPrivate::itemNextTo`. -/
def itemNextTo (s : State) (fxTableItem : FxTableItem) (direction : QPoint) : FxTableItem :=
  loadedTableItem s (fxTableItem.cell.add direction)

/-- Write through the pointer returned by `loadedTableItem(cell)`. -/
def updateTableItem (s : State) (cell : QPoint) (f : FxTableItem → FxTableItem) : State :=
  { s with loadedItems := s.loadedItems.modify (modelIndexAtCell s cell) f }

/-- Member `QQuickFlickable::setContentWidth`, as seen by the table. -/
def setContentWidth (s : State) (w : ℚ) : State :=
  { s with contentWidth := w, log := s.log ++ [Event.setContentWidth w] }

/-- Member `QQuickFlickable::setContentHeight`, as seen by the table. -/
def setContentHeight (s : State) (h : ℚ) : State :=
  { s with contentHeight := h, log := s.log ++ [Event.setContentHeight h] }

/-- Local constant `thresholdBeforeAdjust`. -/
def thresholdBeforeAdjust : ℚ := 1 / 10

/-- Source `QQuickTableViewPrivate::updateContentWidth`. The `qreal` values are
rational numbers here: where the relative difference is exactly
`thresholdBeforeAdjust`, the comparison can come out differently in the
`double` arithmetic of the source. -/
def updateContentWidth (s : State) : State :=
  let currentRightColumn := s.loadedTable.right
  if currentRightColumn > s.contentSizeBenchMarkPoint.x then
    let s1 := { s with contentSizeBenchMarkPoint := { s.contentSizeBenchMarkPoint with x := currentRightColumn } }
    let currentWidth0 := s1.loadedTableOuterRect.right
    let averageCellSize := currentWidth0 / ((currentRightColumn + 1 : Int) : ℚ)
    let averageSize := averageCellSize + s1.cellSpacing.width
    let estimatedWith0 := ((s1.tableSize.width : Int) : ℚ) * averageSize - s1.cellSpacing.width
    let currentWidth := currentWidth0 + s1.tableMargins.right
    let estimatedWith := estimatedWith0 + s1.tableMargins.right
    if currentRightColumn ≥ s1.tableSize.width - 1 then
      if currentWidth ≠ s1.implicitWidth then setContentWidth s1 currentWidth else s1
    else if currentWidth ≥ s1.implicitWidth then
      setContentWidth s1 estimatedWith
    else
      let diff := 1 - (estimatedWith / s1.implicitWidth)
      if |diff| > thresholdBeforeAdjust then setContentWidth s1 estimatedWith else s1
  else s

/-- Source `QQuickTableViewPrivate::updateContentHeight`, with the same reading
of `qreal` as in `updateContentWidth`. -/
def updateContentHeight (s : State) : State :=
  let currentBottomRow := s.loadedTable.bottom
  if currentBottomRow > s.contentSizeBenchMarkPoint.y then
    let s1 := { s with contentSizeBenchMarkPoint := { s.contentSizeBenchMarkPoint with y := currentBottomRow } }
    let currentHeight0 := s1.loadedTableOuterRect.bottom
    let averageCellSize := currentHeight0 / ((currentBottomRow + 1 : Int) : ℚ)
    let averageSize := averageCellSize + s1.cellSpacing.height
    let estimatedHeight0 := ((s1.tableSize.height : Int) : ℚ) * averageSize - s1.cellSpacing.height
    let currentHeight := currentHeight0 + s1.tableMargins.bottom
    let estimatedHeight := estimatedHeight0 + s1.tableMargins.bottom
    if currentBottomRow ≥ s1.tableSize.height - 1 then
      if currentHeight ≠ s1.implicitHeight then setContentHeight s1 currentHeight else s1
    else if currentHeight ≥ s1.implicitHeight then
      setContentHeight s1 estimatedHeight
    else
      let diff := 1 - (estimatedHeight / s1.implicitHeight)
      if |diff| > thresholdBeforeAdjust then setContentHeight s1 estimatedHeight else s1
  else s

/-! ## Size resolver -/

/-- Modelled from the spec: the fixed default column width that replaces an
invalid resolved size (`kDefaultColumnWidth` is declared in the missing header
`qquicktableview_p_p.h`). -/
def kDefaultColumnWidth : ℚ := 50

/-- Modelled from the spec: the fixed default row height that replaces an
invalid resolved size (`kDefaultRowHeight` is declared in the missing header
`qquicktableview_p_p.h`). -/
def kDefaultRowHeight : ℚ := 50

/-- Source `QQuickTableViewPrivate::cellWidth`. -/
def cellWidth (s : State) (cell : QPoint) : ℚ := (loadedTableItem s cell).implicitWidth

/-- Source `QQuickTableViewPrivate::cellHeight`. -/
def cellHeight (s : State) (cell : QPoint) : ℚ := (loadedTableItem s cell).implicitHeight

/-- Source `QQuickTableViewPrivate::sizeHintForColumn`. -/
def sizeHintForColumn (s : State) (column : Int) : ℚ :=
  (intRange s.loadedTable.top s.loadedTable.bottom).foldl
    (fun columnWidth row => max columnWidth (cellWidth s ⟨column, row⟩)) 0

/-- Source `QQuickTableViewPrivate::sizeHintForRow`. -/
def sizeHintForRow (s : State) (row : Int) : ℚ :=
  (intRange s.loadedTable.left s.loadedTable.right).foldl
    (fun rowHeight column => max rowHeight (cellHeight s ⟨column, row⟩)) 0

/-- The guarded assignment `if (!layoutWarningIssued) { layoutWarningIssued = true; qmlWarning(..) }`. -/
def issueLayoutWarning (s : State) : State :=
  if !s.layoutWarningIssued then { s with layoutWarningIssued := true } else s

/-- Source `QQuickTableViewPrivate::resolveColumnWidth`: the resolved width
and the state after a possible warning. -/
def resolveColumnWidth (s : State) (column : Int) : ℚ × State :=
  match s.columnWidthProvider with
  | SizeProvider.callable table otherwise =>
    match SizeProvider.call table otherwise column with
    | JSNumber.nan => (kDefaultColumnWidth, issueLayoutWarning s)
    | JSNumber.num columnWidth =>
      if columnWidth ≤ 0 then (kDefaultColumnWidth, issueLayoutWarning s) else (columnWidth, s)
  | SizeProvider.notCallable => (kDefaultColumnWidth, issueLayoutWarning s)
  | SizeProvider.undefined =>
    let columnWidth := sizeHintForColumn s column
    if columnWidth ≤ 0 then (kDefaultColumnWidth, issueLayoutWarning s) else (columnWidth, s)

/-- Source `QQuickTableViewPrivate::resolveRowHeight`: the resolved height
and the state after a possible warning. -/
def resolveRowHeight (s : State) (row : Int) : ℚ × State :=
  match s.rowHeightProvider with
  | SizeProvider.callable table otherwise =>
    match SizeProvider.call table otherwise row with
    | JSNumber.nan => (kDefaultRowHeight, issueLayoutWarning s)
    | JSNumber.num rowHeight =>
      if rowHeight ≤ 0 then (kDefaultRowHeight, issueLayoutWarning s) else (rowHeight, s)
  | SizeProvider.notCallable => (kDefaultRowHeight, issueLayoutWarning s)
  | SizeProvider.undefined =>
    let rowHeight := sizeHintForRow s row
    if rowHeight ≤ 0 then (kDefaultRowHeight, issueLayoutWarning s) else (rowHeight, s)

/-! ## Layout engine -/

/-- Member `FxTableItem::setGeometry` followed by nothing else. -/
def FxTableItem.setGeometry (item : FxTableItem) (g : QRectF) : FxTableItem :=
  { item with geometry := g }

/-- Member `FxTableItem::setVisible`. -/
def FxTableItem.setVisible (item : FxTableItem) (v : Bool) : FxTableItem :=
  { item with visible := v }

/-- Inner loop of the column pass of `relayoutTableItems`. -/
def relayoutColumnCells (s : State) (column : Int) (nextColumnX width : ℚ) : State :=
  (intRange s.loadedTable.top s.loadedTable.bottom).foldl
    (fun st row =>
      updateTableItem st ⟨column, row⟩
        (fun item => item.setGeometry ((item.geometry.moveLeft nextColumnX).setWidth width)))
    s

/-- Inner loop of the row pass of `relayoutTableItems`. -/
def relayoutRowCells (s : State) (row : Int) (nextRowY height : ℚ) : State :=
  (intRange s.loadedTable.left s.loadedTable.right).foldl
    (fun st column =>
      updateTableItem st ⟨column, row⟩
        (fun item => item.setGeometry ((item.geometry.moveTop nextRowY).setHeight height)))
    s

/-- One iteration of the column pass of `relayoutTableItems`. -/
def relayoutColumnStep (acc : State × ℚ) (column : Int) : State × ℚ :=
  let r := resolveColumnWidth acc.1 column
  let s2 := relayoutColumnCells r.2 column acc.2 r.1
  (s2, acc.2 + r.1 + s2.cellSpacing.width)

/-- One iteration of the row pass of `relayoutTableItems`. -/
def relayoutRowStep (acc : State × ℚ) (row : Int) : State × ℚ :=
  let r := resolveRowHeight acc.1 row
  let s2 := relayoutRowCells r.2 row acc.2 r.1
  (s2, acc.2 + r.1 + s2.cellSpacing.height)

/-- Source `QQuickTableViewPrivate::relayoutTableItems`. -/
def relayoutTableItems (s : State) : State :=
  let s0 := { s with columnRowPositionsInvalid := false }
  let nextColumnX := s0.loadedTableOuterRect.x
  let nextRowY := s0.loadedTableOuterRect.y
  let s1 := ((intRange s0.loadedTable.left s0.loadedTable.right).foldl relayoutColumnStep (s0, nextColumnX)).1
  ((intRange s1.loadedTable.top s1.loadedTable.bottom).foldl relayoutRowStep (s1, nextRowY)).1

/-- Source `QQuickTableViewPrivate::syncLoadedTableRectFromLoadedTable`. -/
def syncLoadedTableRectFromLoadedTable (s : State) : State :=
  let topLeftRect := (loadedTableItem s s.loadedTable.topLeft).geometry
  let bottomRightRect := (loadedTableItem s s.loadedTable.bottomRight).geometry
  { s with
    loadedTableOuterRect := topLeftRect.united bottomRightRect
    loadedTableInnerRect := QRectF.ofPoints topLeftRect.bottomRight bottomRightRect.topLeft }

/-- Source `QQuickTableViewPrivate::relayoutTable`. -/
def relayoutTable (s : State) : State :=
  let s1 := relayoutTableItems s
  let s2 := { s1 with columnRowPositionsInvalid := false }
  let s3 := syncLoadedTableRectFromLoadedTable s2
  let s4 := { s3 with contentSizeBenchMarkPoint := ⟨-1, -1⟩ }
  updateContentHeight (updateContentWidth s4)

/-- Local constant `flickMargin` of `enforceFirstRowColumnAtOrigo`. -/
def flickMargin : ℚ := 50

/-- First `if`/`else if` of `enforceFirstRowColumnAtOrigo` (the columns); the
flag is the local `layoutNeeded`. The argument of the second `moveLeft` is
the C++ expression `tableMargins.left() + loadedTable.x() == 0 ? 0 : flickMargin`,
in which `==` binds tighter than `?:`. -/
def enforceFirstColumnAtOrigo (s : State) : State × Bool :=
  if s.loadedTable.x = 0 ∧ s.loadedTableOuterRect.x ≠ s.tableMargins.left then
    ({ s with loadedTableOuterRect := s.loadedTableOuterRect.moveLeft s.tableMargins.left }, true)
  else if s.loadedTableOuterRect.x < 0 then
    ({ s with loadedTableOuterRect := (s.loadedTableOuterRect.moveLeft
        (if s.tableMargins.left + ((s.loadedTable.x : Int) : ℚ) = 0 then 0 else flickMargin)) }, true)
  else (s, false)

/-- Second `if`/`else if` of `enforceFirstRowColumnAtOrigo` (the rows), with
the same reading of `tableMargins.top() + loadedTable.y() == 0 ? 0 : flickMargin`. -/
def enforceFirstRowAtOrigo (s : State) (layoutNeeded : Bool) : State × Bool :=
  if s.loadedTable.y = 0 ∧ s.loadedTableOuterRect.y ≠ s.tableMargins.top then
    ({ s with loadedTableOuterRect := s.loadedTableOuterRect.moveTop s.tableMargins.top }, true)
  else if s.loadedTableOuterRect.y < 0 then
    ({ s with loadedTableOuterRect := (s.loadedTableOuterRect.moveTop
        (if s.tableMargins.top + ((s.loadedTable.y : Int) : ℚ) = 0 then 0 else flickMargin)) }, true)
  else (s, layoutNeeded)

/-- Source `QQuickTableViewPrivate::enforceFirstRowColumnAtOrigo`. -/
def enforceFirstRowColumnAtOrigo (s : State) : State :=
  let a := enforceFirstColumnAtOrigo s
  let b := enforceFirstRowAtOrigo a.1 a.2
  if b.2 then relayoutTableItems b.1 else b.1

/-- Source `QQuickTableViewPrivate::syncLoadedTableFromLoadRequest`. -/
def syncLoadedTableFromLoadRequest (s : State) : State :=
  match s.loadRequest.edge with
  | some Edge.LeftEdge => { s with loadedTable := s.loadedTable.setTopLeft s.loadRequest.firstCell }
  | some Edge.TopEdge => { s with loadedTable := s.loadedTable.setTopLeft s.loadRequest.firstCell }
  | some Edge.RightEdge => { s with loadedTable := s.loadedTable.setBottomRight s.loadRequest.lastCell }
  | some Edge.BottomEdge => { s with loadedTable := s.loadedTable.setBottomRight s.loadRequest.lastCell }
  | none => { s with loadedTable := QRect.ofPoints s.loadRequest.firstCell s.loadRequest.lastCell }

/-- Loop body of `layoutVerticalEdge`; the accumulator carries the local `left`. -/
def layoutVerticalEdgeStep (tableEdge : Edge) (column : Int) (width : ℚ)
    (acc : State × ℚ) (row : Int) : State × ℚ :=
  let st := acc.1
  let neighbourDirection := if tableEdge = Edge.LeftEdge then kRight else kLeft
  let fxTableItem := loadedTableItem st ⟨column, row⟩
  let neighbourItem := itemNextTo st fxTableItem neighbourDirection
  let geometry := (fxTableItem.geometry.setWidth width).setHeight neighbourItem.geometry.height
  let left :=
    if acc.2 = -1 then
      (if tableEdge = Edge.LeftEdge then
        neighbourItem.geometry.left - st.cellSpacing.width - geometry.width
      else neighbourItem.geometry.right + st.cellSpacing.width)
    else acc.2
  let geometry2 := (geometry.moveLeft left).moveTop neighbourItem.geometry.top
  (updateTableItem st ⟨column, row⟩ (fun item => (item.setGeometry geometry2).setVisible true), left)

/-- Source `QQuickTableViewPrivate::layoutVerticalEdge`. -/
def layoutVerticalEdge (s : State) (tableEdge : Edge) : State :=
  let column := if tableEdge = Edge.LeftEdge then s.loadedTable.left else s.loadedTable.right
  let r := resolveColumnWidth s column
  ((intRange r.2.loadedTable.top r.2.loadedTable.bottom).foldl
    (layoutVerticalEdgeStep tableEdge column r.1) (r.2, -1)).1

/-- Loop body of `layoutHorizontalEdge`; the accumulator carries the local `top`. -/
def layoutHorizontalEdgeStep (tableEdge : Edge) (row : Int) (height : ℚ)
    (acc : State × ℚ) (column : Int) : State × ℚ :=
  let st := acc.1
  let neighbourDirection := if tableEdge = Edge.TopEdge then kDown else kUp
  let fxTableItem := loadedTableItem st ⟨column, row⟩
  let neighbourItem := itemNextTo st fxTableItem neighbourDirection
  let geometry := (fxTableItem.geometry.setWidth neighbourItem.geometry.width).setHeight height
  let top :=
    if acc.2 = -1 then
      (if tableEdge = Edge.TopEdge then
        neighbourItem.geometry.top - st.cellSpacing.height - geometry.height
      else neighbourItem.geometry.bottom + st.cellSpacing.height)
    else acc.2
  let geometry2 := (geometry.moveTop top).moveLeft neighbourItem.geometry.left
  (updateTableItem st ⟨column, row⟩ (fun item => (item.setGeometry geometry2).setVisible true), top)

/-- Source `QQuickTableViewPrivate::layoutHorizontalEdge`. -/
def layoutHorizontalEdge (s : State) (tableEdge : Edge) : State :=
  let row := if tableEdge = Edge.TopEdge then s.loadedTable.top else s.loadedTable.bottom
  let r := resolveRowHeight s row
  ((intRange r.2.loadedTable.left r.2.loadedTable.right).foldl
    (layoutHorizontalEdgeStep tableEdge row r.1) (r.2, -1)).1

/-- Conversion of a `qreal` to `int` (truncation towards zero), as applied
when `QPoint(int, int)` is constructed from `qreal` arguments. -/
def qrealToInt (v : ℚ) : Int := Int.tdiv v.num (v.den : Int)

/-- Source `QQuickTableViewPrivate::layoutTopLeftItem`. The position is built
as `QPoint(tableMargins.left(), tableMargins.top())`, an integer point. -/
def layoutTopLeftItem (s : State) : State :=
  let cell := s.loadRequest.firstCell
  let pos : QPoint := ⟨qrealToInt s.tableMargins.left, qrealToInt s.tableMargins.top⟩
  let s1 := updateTableItem s cell
    (fun item => item.setGeometry ((item.geometry.moveLeft (pos.x : ℚ)).moveTop (pos.y : ℚ)))
  let rw := resolveColumnWidth s1 cell.x
  let rh := resolveRowHeight rw.2 cell.y
  updateTableItem rh.2 cell
    (fun item => (item.setGeometry ((item.geometry.setWidth rw.1).setHeight rh.1)).setVisible true)

/-- Source `QQuickTableViewPrivate::layoutTableEdgeFromLoadRequest`. -/
def layoutTableEdgeFromLoadRequest (s : State) : State :=
  match s.loadRequest.edge with
  | some Edge.LeftEdge => layoutVerticalEdge s Edge.LeftEdge
  | some Edge.RightEdge => layoutVerticalEdge s Edge.RightEdge
  | some Edge.TopEdge => layoutHorizontalEdge s Edge.TopEdge
  | some Edge.BottomEdge => layoutHorizontalEdge s Edge.BottomEdge
  | none => layoutTopLeftItem s

/-! ## Item pool and lifecycle -/

/-- The empty owned item `new QQuickItem()` wrapped for a cell. -/
def ownedEmptyItem (cell : QPoint) (modelIndex : Int) : FxTableItem :=
  ⟨cell, modelIndex, true, false, ⟨0, 0, 0, 0⟩, 0, 0⟩

/-- Source `QQuickTableViewPrivate::createFxTableItem`; `none` is the null
pointer returned while the item is still incubating. The factory answer is the
next entry of `factoryScript` (or `factoryDefault` once the script is used up). -/
def createFxTableItem (s : State) (cell : QPoint) (incubationMode : IncubationMode) :
    Option FxTableItem × State :=
  let modelIndex := modelIndexAtCell s cell
  let object := s.factoryScript.head?.getD s.factoryDefault
  let s1 := { s with
    factoryScript := s.factoryScript.tail
    log := s.log ++ [Event.object modelIndex incubationMode] }
  match object with
  | ObjectResult.incubating => (none, s1)
  | ObjectResult.failed => (some (ownedEmptyItem cell modelIndex), s1)
  | ObjectResult.notAnItem =>
    (some (ownedEmptyItem cell modelIndex),
      { s1 with log := s1.log ++ [Event.releaseObject modelIndex] })
  | ObjectResult.item geometry implicitWidth implicitHeight =>
    (some ⟨cell, modelIndex, false, false, geometry, implicitWidth, implicitHeight⟩, s1)

/-- Source `QQuickTableViewPrivate::loadFxTableItem`: `createFxTableItem`
under the guard `QBoolBlocker guard(blockItemCreatedCallback)`. -/
def loadFxTableItem (s : State) (cell : QPoint) (incubationMode : IncubationMode) :
    Option FxTableItem × State :=
  let r := createFxTableItem { s with blockItemCreatedCallback := true } cell incubationMode
  (r.1, { r.2 with blockItemCreatedCallback := s.blockItemCreatedCallback })

/-- Source `QQuickTableViewPrivate::releaseItem`. An owned item is deleted;
any other item goes back to the model, with the reusable flag when the model
is the table model (`tableModel->release(item, flag)`) and without it
otherwise (`model->release(item)`). -/
def releaseItem (s : State) (fxTableItem : FxTableItem) (reusableFlag : ReusableFlag) : State :=
  if fxTableItem.ownItem then
    { s with log := s.log ++ [Event.deleteOwnItem fxTableItem.index] }
  else
    match s.model with
    | some m =>
      if m.isTableModel then
        { s with log := s.log ++ [Event.release fxTableItem.index (some reusableFlag)] }
      else { s with log := s.log ++ [Event.release fxTableItem.index none] }
    | none => { s with log := s.log ++ [Event.release fxTableItem.index none] }

/-- Source `QQuickTableViewPrivate::releaseLoadedItems`. -/
def releaseLoadedItems (s : State) : State :=
  let tmpList := s.loadedItems
  let s1 := { s with loadedItems := [] }
  tmpList.foldl (fun st e => releaseItem st e.2 ReusableFlag.NotReusable) s1

/-- Source `QQuickTableViewPrivate::unloadItem`. -/
def unloadItem (s : State) (cell : QPoint) : State :=
  let modelIndex := modelIndexAtCell s cell
  let taken := (s.loadedItems.value modelIndex).getD FxTableItem.missing
  releaseItem { s with loadedItems := s.loadedItems.erase modelIndex } taken s.reusableFlag

/-- Source `QQuickTableViewPrivate::unloadItems`. -/
def unloadItems (s : State) (items : QLine) : State :=
  if items.dx ≠ 0 then
    let y := items.p1.y
    (intRange items.p1.x items.p2.x).foldl (fun st x => unloadItem st ⟨x, y⟩) s
  else
    let x := items.p1.x
    (intRange items.p1.y items.p2.y).foldl (fun st y => unloadItem st ⟨x, y⟩) s

/-! ## Load request state machine -/

/-- Source `QQuickTableViewPrivate::cancelLoadRequest`. -/
def cancelLoadRequest (s : State) : State :=
  let s1 := { s with loadRequest := s.loadRequest.markAsDone }
  let s2 := { s1 with log := s1.log ++ [Event.cancel (modelIndexAtCell s1 s1.loadRequest.currentCell)] }
  if s2.tableInvalid then s2
  else if s2.loadRequest.atBeginning then s2
  else
    let rollbackItems : QLine := ⟨s2.loadRequest.firstCell, s2.loadRequest.previousCell⟩
    unloadItems s2 rollbackItems

/-- Source `QQuickTableViewPrivate::clear`. -/
def clear (s : State) : State :=
  let s1 := { s with tableInvalid := true, tableRebuilding := false }
  let s2 := if s1.loadRequest.isActive then cancelLoadRequest s1 else s1
  let s3 := releaseLoadedItems s2
  let s4 := { s3 with
    loadedTable := QRect.null
    loadedTableOuterRect := QRectF.ofRect QRect.null
    loadedTableInnerRect := QRectF.ofRect QRect.null
    contentSizeBenchMarkPoint := ⟨-1, -1⟩ }
  updateContentHeight (updateContentWidth s4)

/-- The while loop of `processLoadRequest`, bounded by the number of cells
that remain on the line. The flag tells whether the loop ran to its end
(`true`) or left the function at an item that is not ready (`false`). -/
def loadRequestedCells : Nat → State → State × Bool
  | 0, s => (s, !s.loadRequest.hasCurrentCell)
  | n + 1, s =>
    if s.loadRequest.hasCurrentCell then
      let cell := s.loadRequest.currentCell
      let r := loadFxTableItem s cell s.loadRequest.incubationMode
      match r.1 with
      | none => (r.2, false)
      | some fxTableItem =>
        loadRequestedCells n { r.2 with
          loadedItems := r.2.loadedItems.insert (modelIndexAtCell r.2 cell) fxTableItem
          loadRequest := r.2.loadRequest.moveToNextCell }
    else (s, true)

/-- Second half of `processLoadRequest`, reached when the loop has run over
all cells: the new edge is merged into the table, laid out, and the request
is marked as done. -/
def finishLoadRequest (s : State) : State :=
  let s1 := syncLoadedTableFromLoadRequest s
  let s2 := layoutTableEdgeFromLoadRequest s1
  let s3 := syncLoadedTableRectFromLoadedTable s2
  let s4 := enforceFirstRowColumnAtOrigo s3
  let s5 := updateContentHeight (updateContentWidth s4)
  let s6 := { s5 with loadRequest := s5.loadRequest.markAsDone }
  match s6.model with
  | some m =>
    if m.isTableModel then { s6 with log := s6.log ++ [Event.drainReusableItemsPool] } else s6
  | none => s6

/-- Source `QQuickTableViewPrivate::processLoadRequest`. -/
def processLoadRequest (s : State) : State :=
  let r := loadRequestedCells s.loadRequest.remaining s
  if r.2 then finishLoadRequest r.1 else r.1

/-! ## Edge load/unload controller -/

/-- Source `QQuickTableViewPrivate::canLoadTableEdge`. -/
def canLoadTableEdge (s : State) (tableEdge : Edge) (fillRect : QRectF) : Bool :=
  match tableEdge with
  | Edge.LeftEdge =>
    if s.loadedTable.topLeft.x = 0 then false
    else decide (s.loadedTableOuterRect.left > fillRect.left + s.cellSpacing.width)
  | Edge.RightEdge =>
    if s.loadedTable.bottomRight.x ≥ s.tableSize.width - 1 then false
    else decide (s.loadedTableOuterRect.right < fillRect.right - s.cellSpacing.width)
  | Edge.TopEdge =>
    if s.loadedTable.topLeft.y = 0 then false
    else decide (s.loadedTableOuterRect.top > fillRect.top + s.cellSpacing.height)
  | Edge.BottomEdge =>
    if s.loadedTable.bottomRight.y ≥ s.tableSize.height - 1 then false
    else decide (s.loadedTableOuterRect.bottom < fillRect.bottom - s.cellSpacing.height)

/-- Source `QQuickTableViewPrivate::canUnloadTableEdge`. -/
def canUnloadTableEdge (s : State) (tableEdge : Edge) (fillRect : QRectF) : Bool :=
  match tableEdge with
  | Edge.LeftEdge =>
    if s.loadedTable.width ≤ 1 then false
    else decide (s.loadedTableInnerRect.left < fillRect.left)
  | Edge.RightEdge =>
    if s.loadedTable.width ≤ 1 then false
    else decide (s.loadedTableInnerRect.right > fillRect.right)
  | Edge.TopEdge =>
    if s.loadedTable.height ≤ 1 then false
    else decide (s.loadedTableInnerRect.top < fillRect.top)
  | Edge.BottomEdge =>
    if s.loadedTable.height ≤ 1 then false
    else decide (s.loadedTableInnerRect.bottom > fillRect.bottom)

/-- The loop `for (Qt::Edge edge : allTableEdges) if (pred(edge)) return edge;`
followed by `return Qt::Edge(0)`. -/
def firstEdgeSatisfying (pred : Edge → Bool) : List Edge → Option Edge
  | [] => none
  | edge :: rest => if pred edge then some edge else firstEdgeSatisfying pred rest

/-- Source `QQuickTableViewPrivate::nextEdgeToLoad`. -/
def nextEdgeToLoad (s : State) (rect : QRectF) : Option Edge :=
  firstEdgeSatisfying (fun edge => canLoadTableEdge s edge rect) allTableEdges

/-- Source `QQuickTableViewPrivate::nextEdgeToUnload`. -/
def nextEdgeToUnload (s : State) (rect : QRectF) : Option Edge :=
  firstEdgeSatisfying (fun edge => canUnloadTableEdge s edge rect) allTableEdges

/-- Source `QQuickTableViewPrivate::calculateTableSize`. -/
def calculateTableSize (s : State) : State :=
  match s.model with
  | some m =>
    if m.isTableModel then { s with tableSize := ⟨m.columns, m.rows⟩ }
    else { s with tableSize := ⟨1, m.count⟩ }
  | none => { s with tableSize := ⟨0, 0⟩ }

/-- Source `QQuickTableViewPrivate::unloadEdge`. -/
def unloadEdge (s : State) (edge : Edge) : State :=
  let s1 := unloadItems s (rectangleEdge s.loadedTable edge)
  let s2 := { s1 with loadedTable := expandedRect s1.loadedTable edge (-1) }
  syncLoadedTableRectFromLoadedTable s2

/-- Source `QQuickTableViewPrivate::loadEdge`. -/
def loadEdge (s : State) (edge : Edge) (incubationMode : IncubationMode) : State :=
  let cellsToLoad := rectangleEdge (expandedRect s.loadedTable edge 1) edge
  let s1 := { s with
    loadRequest := s.loadRequest.begin cellsToLoad edge incubationMode
    log := s.log ++ [Event.begin s.loadRequest.isActive (some edge) cellsToLoad] }
  processLoadRequest s1

/-- Source `QQuickTableViewPrivate::loadInitialTopLeftItem`. -/
def loadInitialTopLeftItem (s : State) : State :=
  if s.tableSize.isEmpty then s
  else
    match s.model with
    | none => s
    | some m =>
      if m.count = 0 then s
      else if m.isTableModel && !m.hasDelegate then s
      else
        let s1 := { s with
          loadRequest := s.loadRequest.beginCell ⟨0, 0⟩ IncubationMode.AsynchronousIfNested
          log := s.log ++ [Event.begin s.loadRequest.isActive none ⟨⟨0, 0⟩, ⟨0, 0⟩⟩] }
        processLoadRequest s1

/-- Source `QQuickTableViewPrivate::bufferRect`. -/
def bufferRect (s : State) : QRectF :=
  s.viewportRect.adjusted (-(s.cacheBuffer : ℚ)) (-(s.cacheBuffer : ℚ)) (s.cacheBuffer : ℚ) (s.cacheBuffer : ℚ)

/-- Result of a function that contains a loop without a bound in the source:
the state it reached, and whether it returned (`finished`) or was still
iterating when the iteration budget ran out. -/
structure Run where
  state : State
  finished : Bool
deriving DecidableEq, Repr

/-- The `do ... while (tableModified)` loop of `loadAndUnloadVisibleEdges`. -/
def loadAndUnloadLoop : Nat → QRectF → State → Run
  | 0, _, s => ⟨s, false⟩
  | n + 1, unloadRect, s =>
    let u :=
      match nextEdgeToUnload s unloadRect with
      | some edge => (unloadEdge s edge, true)
      | none => (s, false)
    match nextEdgeToLoad u.1 u.1.viewportRect with
    | some edge =>
      let s2 := loadEdge u.1 edge IncubationMode.AsynchronousIfNested
      if s2.loadRequest.isActive then ⟨s2, true⟩
      else loadAndUnloadLoop n unloadRect s2
    | none =>
      if u.2 then loadAndUnloadLoop n unloadRect u.1 else ⟨u.1, true⟩

/-- Source `QQuickTableViewPrivate::loadAndUnloadVisibleEdges`. -/
def loadAndUnloadVisibleEdges (fuel : Nat) (s : State) : Run :=
  if s.loadRequest.isActive then ⟨s, true⟩
  else if s.loadedItems.isEmpty then ⟨s, true⟩
  else
    let unloadRect := if s.hasBufferedItems then bufferRect s else s.viewportRect
    loadAndUnloadLoop fuel unloadRect s

/-- The while loop of `loadBuffer`. -/
def loadBufferLoop : Nat → QRectF → State → Run
  | 0, _, s => ⟨s, false⟩
  | n + 1, loadRect, s =>
    match nextEdgeToLoad s loadRect with
    | some edge =>
      let s1 := loadEdge s edge IncubationMode.Asynchronous
      if s1.loadRequest.isActive then ⟨s1, true⟩ else loadBufferLoop n loadRect s1
    | none => ⟨s, true⟩

/-- Source `QQuickTableViewPrivate::loadBuffer`. -/
def loadBuffer (fuel : Nat) (s : State) : Run :=
  if s.cacheBuffer ≤ 0 ∨ s.loadRequest.isActive = true ∨ s.loadedItems.isEmpty = true then ⟨s, true⟩
  else
    let r := loadBufferLoop fuel (bufferRect s) s
    if r.finished then ⟨{ r.state with hasBufferedItems := true }, true⟩ else r

/-- The loop `while (Qt::Edge edge = nextEdgeToUnload(viewportRect)) unloadEdge(edge);`
of `unloadBuffer`; every iteration removes one row or column. -/
def unloadBufferLoop : Nat → State → State
  | 0, s => s
  | n + 1, s =>
    match nextEdgeToUnload s s.viewportRect with
    | some edge => unloadBufferLoop n (unloadEdge s edge)
    | none => s

/-- Source `QQuickTableViewPrivate::unloadBuffer`. -/
def unloadBuffer (s : State) : State :=
  if !s.hasBufferedItems then s
  else
    let s1 := { s with hasBufferedItems := false, cacheBufferDelayTimerActive := false }
    let s2 := if s1.loadRequest.isActive then cancelLoadRequest s1 else s1
    unloadBufferLoop (s2.loadedTable.width.toNat + s2.loadedTable.height.toNat) s2

/-- Source `QQuickTableViewPrivate::invalidateTable`. -/
def invalidateTable (s : State) : State :=
  let s1 := { s with tableInvalid := true }
  let s2 := if s1.loadRequest.isActive then cancelLoadRequest s1 else s1
  { s2 with polishScheduled := true }

/-- Source `QQuickTableViewPrivate::invalidateColumnRowPositions`. -/
def invalidateColumnRowPositions (s : State) : State :=
  { s with columnRowPositionsInvalid := true, polishScheduled := true }

/-- Source `QQuickTableViewPrivate::beginRebuildTable`. -/
def beginRebuildTable (fuel : Nat) (s : State) : Run :=
  let s1 := clear s
  let s2 := { s1 with tableInvalid := false, tableRebuilding := true }
  let s3 := calculateTableSize s2
  let s4 := loadInitialTopLeftItem s3
  loadAndUnloadVisibleEdges fuel s4

/-- Source `QQuickTableViewPrivate::endRebuildTable`. -/
def endRebuildTable (s : State) : State :=
  let s1 := { s with tableRebuilding := false }
  if s1.loadedItems.isEmpty then s1 else relayoutTable s1

/-- End of `updatePolish`, after `loadAndUnloadVisibleEdges()`: nothing more
while a request is active, else the buffer timer is started when a cache
buffer is configured. -/
def startBufferTimer (r : Run) : Run :=
  if !r.finished then r
  else if r.state.loadRequest.isActive then r
  else if r.state.cacheBuffer > 0 then
    ⟨{ r.state with cacheBufferDelayTimerActive := true }, true⟩
  else r

/-- Part of `updatePolish` that runs when items are loaded: relayout if the
positions are invalid, trim the buffer if more edges must be loaded, then the
load/unload cycle. -/
def polishLoadedTable (fuel : Nat) (s1 : State) : Run :=
  let s2 := if s1.columnRowPositionsInvalid then relayoutTable s1 else s1
  let s3 :=
    if s2.hasBufferedItems && (nextEdgeToLoad s2 s2.viewportRect).isSome then unloadBuffer s2
    else s2
  startBufferTimer (loadAndUnloadVisibleEdges fuel s3)

/-- Second half of `updatePolish`, from `if (tableRebuilding)` on. -/
def updatePolishTail (fuel : Nat) (s : State) : Run :=
  let s1 := if s.tableRebuilding then endRebuildTable s else s
  if s1.loadedItems.isEmpty then ⟨s1, true⟩
  else polishLoadedTable fuel s1

/-- Body of `updatePolish` between construction and destruction of the guard
`QBoolBlocker polishGuard(polishing, true)`. -/
def updatePolishBody (fuel : Nat) (s : State) : Run :=
  if s.loadRequest.isActive then ⟨s, true⟩
  else
    let s1 := { s with viewportRect := ⟨s.contentX, s.contentY, s.width, s.height⟩ }
    if !s1.viewportRect.isValid then ⟨s1, true⟩
    else if s1.tableInvalid then
      let r := beginRebuildTable fuel s1
      if !r.finished then r
      else if r.state.loadRequest.isActive then r
      else updatePolishTail fuel r.state
    else updatePolishTail fuel s1

/-- Source `QQuickTableViewPrivate::updatePolish`. -/
def updatePolish (fuel : Nat) (s : State) : Run :=
  let r := updatePolishBody fuel { s with polishing := true }
  ⟨{ r.state with polishing := s.polishing }, r.finished⟩

/-- Source `QQuickTableViewPrivate::itemCreatedCallback`. -/
def itemCreatedCallback (fuel : Nat) (s : State) : Run :=
  if s.blockItemCreatedCallback then ⟨s, true⟩
  else
    let s1 := processLoadRequest s
    let r := loadAndUnloadVisibleEdges fuel s1
    if !r.finished then r else updatePolish fuel r.state

/-! ## Auxiliary notions used in the statements -/

/-- A cell of the grid: `0 ≤ column < columnCount` and `0 ≤ row < rowCount`. -/
def validCell (s : State) (cell : QPoint) : Prop :=
  0 ≤ cell.x ∧ cell.x < s.tableSize.width ∧ 0 ≤ cell.y ∧ cell.y < s.tableSize.height

instance (s : State) (cell : QPoint) : Decidable (validCell s cell) := by
  unfold validCell; infer_instance

/-- Position of an edge in the evaluation order `allTableEdges`. -/
def edgeRank (edge : Edge) : Nat := allTableEdges.indexOf edge

/-- A freshly constructed view (nothing loaded, table marked invalid) on a
table model of 10 columns and 1000 rows whose factory delivers every item
at once with implicit size 100 x 50, shown in a viewport of 400 x 250. -/
def exampleView : State :=
  { loadedItems := []
    loadedTable := QRect.null
    loadedTableOuterRect := ⟨0, 0, 0, 0⟩
    loadedTableInnerRect := ⟨0, 0, 0, 0⟩
    tableSize := ⟨0, 0⟩
    cellSpacing := ⟨0, 0⟩
    tableMargins := ⟨0, 0, 0, 0⟩
    contentSizeBenchMarkPoint := ⟨-1, -1⟩
    viewportRect := ⟨0, 0, 0, 0⟩
    loadRequest := TableEdgeLoadRequest.idle
    tableInvalid := true
    tableRebuilding := false
    columnRowPositionsInvalid := false
    layoutWarningIssued := false
    hasBufferedItems := false
    polishing := false
    blockItemCreatedCallback := false
    cacheBuffer := 0
    reusableFlag := ReusableFlag.Reusable
    rowHeightProvider := SizeProvider.undefined
    columnWidthProvider := SizeProvider.undefined
    model := some ⟨true, 10000, 10, 1000, true⟩
    contentX := 0
    contentY := 0
    width := 400
    height := 250
    implicitWidth := 0
    implicitHeight := 0
    contentWidth := 0
    contentHeight := 0
    polishScheduled := false
    cacheBufferDelayTimerActive := false
    factoryScript := []
    factoryDefault := ObjectResult.item ⟨0, 0, 100, 50⟩ 100 50
    log := [] }

/-- The example view once its grid size of 10 columns and 1000 rows is known. -/
def exampleGrid : State := { exampleView with tableSize := ⟨10, 1000⟩ }

/-! ## Views of the state used in the proofs -/

/-- The event is a call of `TableEdgeLoadRequest::begin`. -/
def Event.isBegin : Event → Bool
  | Event.begin _ _ _ => true
  | _ => false

/-- Index of the cell asked from the factory, for a call of `model->object`. -/
def Event.requestedIndex : Event → Option Int
  | Event.object index _ => some index
  | _ => none

/-- The part of the state that the layout engine, the size resolver and the
content extent estimator never write: everything except item geometry and
visibility, the outer and inner rectangles, the benchmark point, the layout
flags, the content size and the content-size calls in the log. -/
structure Shape where
  loadedTable : QRect
  tableSize : QSize
  loadRequest : TableEdgeLoadRequest
  tableInvalid : Bool
  keys : List Int
  begins : List Event
  requested : List Int
  model : Option InstanceModel
  factoryScript : List ObjectResult
  factoryDefault : ObjectResult
  hasBufferedItems : Bool
  cacheBuffer : Int
  viewportRect : QRectF
  tableRebuilding : Bool
  reusableFlag : ReusableFlag
  blockItemCreatedCallback : Bool
  polishing : Bool

/-- The shape of a state. -/
def State.shape (s : State) : Shape :=
  { loadedTable := s.loadedTable
    tableSize := s.tableSize
    loadRequest := s.loadRequest
    tableInvalid := s.tableInvalid
    keys := s.loadedItems.keys
    begins := s.log.filter Event.isBegin
    requested := s.log.filterMap Event.requestedIndex
    model := s.model
    factoryScript := s.factoryScript
    factoryDefault := s.factoryDefault
    hasBufferedItems := s.hasBufferedItems
    cacheBuffer := s.cacheBuffer
    viewportRect := s.viewportRect
    tableRebuilding := s.tableRebuilding
    reusableFlag := s.reusableFlag
    blockItemCreatedCallback := s.blockItemCreatedCallback
    polishing := s.polishing }

/-! ## The structural invariant -/

/-- Linear index of a cell in a grid of the given size (the formula of
`modelIndexAtCell`). -/
def cellIndex (t : QSize) (c : QPoint) : Int := c.y + c.x * t.height

/-- A cell of a grid of the given size. -/
def cellInGrid (t : QSize) (c : QPoint) : Prop :=
  0 ≤ c.x ∧ c.x < t.width ∧ 0 ≤ c.y ∧ c.y < t.height

/-- A rectangle of cells that is not empty and lies inside the grid. -/
def InGrid (r : QRect) (t : QSize) : Prop :=
  0 ≤ r.x1 ∧ r.x1 ≤ r.x2 ∧ r.x2 < t.width ∧ 0 ≤ r.y1 ∧ r.y1 ≤ r.y2 ∧ r.y2 < t.height

/-- The cell lies on the line (a row or a column of cells). -/
def QLine.contains (l : QLine) (c : QPoint) : Prop :=
  l.p1.x ≤ c.x ∧ c.x ≤ l.p2.x ∧ l.p1.y ≤ c.y ∧ c.y ≤ l.p2.y

/-- A line of cells that runs rightwards along a row or downwards along a column. -/
def QLine.WellFormed (l : QLine) : Prop :=
  l.p1.x ≤ l.p2.x ∧ l.p1.y ≤ l.p2.y ∧ (l.dx ≠ 0 → l.p1.y = l.p2.y)

/-- The cursor of the request is on its line or one step behind its end. -/
def TableEdgeLoadRequest.cursorOk (r : TableEdgeLoadRequest) : Prop :=
  (r.edgeCells.dx ≠ 0 → r.currentCell.y = r.edgeCells.p1.y ∧
    r.edgeCells.p1.x ≤ r.currentCell.x ∧ r.currentCell.x ≤ r.edgeCells.p2.x + 1) ∧
  (r.edgeCells.dx = 0 → r.currentCell.x = r.edgeCells.p1.x ∧
    r.edgeCells.p1.y ≤ r.currentCell.y ∧ r.currentCell.y ≤ r.edgeCells.p2.y + 1)

/-- The cell is one of the cells of the request that the cursor has passed. -/
def TableEdgeLoadRequest.loadedBefore (r : TableEdgeLoadRequest) (c : QPoint) : Prop :=
  r.edgeCells.contains c ∧ (c.x < r.currentCell.x ∨ c.y < r.currentCell.y)

/-- The loaded table after a completed request, as computed by
`syncLoadedTableFromLoadRequest`. -/
def mergedTable (r : TableEdgeLoadRequest) (w : QRect) : QRect :=
  match r.edge with
  | some Edge.LeftEdge => w.setTopLeft r.firstCell
  | some Edge.TopEdge => w.setTopLeft r.firstCell
  | some Edge.RightEdge => w.setBottomRight r.lastCell
  | some Edge.BottomEdge => w.setBottomRight r.lastCell
  | none => QRect.ofPoints r.firstCell r.lastCell

/-- Structural invariant of the loaded window, the item hash and the load
request, on the shape of a state. -/
structure Shape.Loading (h : Shape) : Prop where
  /-- The window is empty, or a rectangle inside the grid all of whose cells are loaded. -/
  window : h.loadedTable = QRect.null ∨
    (InGrid h.loadedTable h.tableSize ∧
      ∀ c, h.loadedTable.containsCell c → cellIndex h.tableSize c ∈ h.keys)
  /-- With an empty window the only items are those of the request in progress. -/
  empty : h.loadedTable = QRect.null → ∀ k ∈ h.keys,
    ∃ c, h.loadRequest.active = true ∧ h.loadRequest.loadedBefore c ∧ cellIndex h.tableSize c = k
  /-- An active request runs along a line of grid cells next to the window,
  the cells it has passed are loaded, and merging the line gives a rectangle. -/
  request : h.loadRequest.active = true →
    h.loadRequest.edgeCells.WellFormed ∧ h.loadRequest.cursorOk ∧
    (h.loadedTable = QRect.null → h.loadRequest.edgeCells.p1 = h.loadRequest.edgeCells.p2) ∧
    (∀ c, h.loadRequest.edgeCells.contains c →
      cellInGrid h.tableSize c ∧ ¬ h.loadedTable.containsCell c) ∧
    (∀ c, h.loadRequest.loadedBefore c → cellIndex h.tableSize c ∈ h.keys) ∧
    InGrid (mergedTable h.loadRequest h.loadedTable) h.tableSize ∧
    (∀ c, (mergedTable h.loadRequest h.loadedTable).containsCell c ↔
      (h.loadedTable.containsCell c ∨ h.loadRequest.edgeCells.contains c))
  /-- While the table is valid, no other item is in the hash. -/
  exact : h.tableInvalid = false → ∀ k ∈ h.keys,
    ∃ c, (h.loadedTable.containsCell c ∨
        (h.loadRequest.active = true ∧ h.loadRequest.loadedBefore c)) ∧
      cellIndex h.tableSize c = k

/-- Invariant of the states between two calls into the table: the structural
invariant, and an active request waits for a cell of its line. -/
def Consistent (s : State) : Prop :=
  s.shape.Loading ∧ (s.loadRequest.active = true → s.loadRequest.hasCurrentCell = true)

/-- The guard of `canUnloadTableEdge`: more than one column (row) is loaded. -/
def edgeRemovable (w : QRect) (edge : Edge) : Prop :=
  match edge with
  | Edge.LeftEdge => 1 < w.width
  | Edge.RightEdge => 1 < w.width
  | Edge.TopEdge => 1 < w.height
  | Edge.BottomEdge => 1 < w.height

/-- The guard of `canLoadTableEdge`: the window does not touch that side of the grid. -/
def edgeHasRoom (w : QRect) (t : QSize) (edge : Edge) : Prop :=
  match edge with
  | Edge.LeftEdge => w.topLeft.x ≠ 0
  | Edge.RightEdge => ¬ w.bottomRight.x ≥ t.width - 1
  | Edge.TopEdge => w.topLeft.y ≠ 0
  | Edge.BottomEdge => ¬ w.bottomRight.y ≥ t.height - 1

/-- The part of the shape that loading and unloading cells never write. -/
structure Frame where
  tableSize : QSize
  tableInvalid : Bool
  begins : List Event
  model : Option InstanceModel
  factoryDefault : ObjectResult
  hasBufferedItems : Bool
  cacheBuffer : Int
  viewportRect : QRectF
  tableRebuilding : Bool
  reusableFlag : ReusableFlag
  blockItemCreatedCallback : Bool
  polishing : Bool

/-- The frame of a shape. -/
def Shape.frame (h : Shape) : Frame :=
  { tableSize := h.tableSize
    tableInvalid := h.tableInvalid
    begins := h.begins
    model := h.model
    factoryDefault := h.factoryDefault
    hasBufferedItems := h.hasBufferedItems
    cacheBuffer := h.cacheBuffer
    viewportRect := h.viewportRect
    tableRebuilding := h.tableRebuilding
    reusableFlag := h.reusableFlag
    blockItemCreatedCallback := h.blockItemCreatedCallback
    polishing := h.polishing }

/-- Invariant at the head of the loops that load and unload edges. -/
def LoopReady (s : State) : Prop :=
  Consistent s ∧ s.loadRequest.active = false ∧
    1 ≤ s.loadedTable.width ∧ 1 ≤ s.loadedTable.height

/-! ## Reachable states -/

/-- One call into the table, or one change of its inputs. The entry points
are those of `qquicktableview.cpp`; the operations that the source only calls
under a guard carry that guard: an edge is loaded (unloaded) only when
`nextEdgeToLoad` (`nextEdgeToUnload`) selected it, no request is active and
items are loaded; the initial load runs on an empty table; the creation
callback of the factory arrives only while a request waits for an item. -/
inductive Step : State → State → Prop where
  | updatePolish (s : State) (fuel : Nat) : Step s (updatePolish fuel s).state
  | itemCreatedCallback (s : State) (fuel : Nat) (h : s.loadRequest.isActive = true) :
      Step s (itemCreatedCallback fuel s).state
  | invalidateTable (s : State) : Step s (invalidateTable s)
  | invalidateColumnRowPositions (s : State) : Step s (invalidateColumnRowPositions s)
  | loadBuffer (s : State) (fuel : Nat) : Step s (loadBuffer fuel s).state
  | unloadBuffer (s : State) : Step s (unloadBuffer s)
  | clear (s : State) : Step s (clear s)
  | loadInitialTopLeftItem (s : State) (h1 : s.loadRequest.isActive = false)
      (h2 : s.loadedItems.isEmpty = true) : Step s (loadInitialTopLeftItem s)
  | loadEdge (s : State) (edge : Edge) (mode : IncubationMode) (rect : QRectF)
      (h1 : s.loadRequest.isActive = false) (h2 : s.loadedItems.isEmpty = false)
      (h3 : nextEdgeToLoad s rect = some edge) : Step s (loadEdge s edge mode)
  | unloadEdge (s : State) (edge : Edge) (rect : QRectF)
      (h1 : s.loadRequest.isActive = false)
      (h3 : nextEdgeToUnload s rect = some edge) : Step s (unloadEdge s edge)
  | processLoadRequest (s : State) (h : s.loadRequest.isActive = true) :
      Step s (processLoadRequest s)
  | cancelLoadRequest (s : State) (h : s.loadRequest.isActive = true) :
      Step s (cancelLoadRequest s)
  | input (s : State) (contentX contentY width height implicitWidth implicitHeight : ℚ)
      (model : Option InstanceModel) (script : List ObjectResult) (fallback : ObjectResult)
      (spacing : QSizeF) (margins : QMarginsF) (cacheBuffer : Int) (flag : ReusableFlag)
      (rowProvider columnProvider : SizeProvider) :
      Step s { s with
        contentX := contentX
        contentY := contentY
        width := width
        height := height
        implicitWidth := implicitWidth
        implicitHeight := implicitHeight
        model := model
        factoryScript := script
        factoryDefault := fallback
        cellSpacing := spacing
        tableMargins := margins
        cacheBuffer := cacheBuffer
        reusableFlag := flag
        rowHeightProvider := rowProvider
        columnWidthProvider := columnProvider }

/-- States reachable from `clear()`, applied to any state whose call log is
empty, by any sequence of steps. -/
inductive Reachable : State → Prop where
  | start (s0 : State) (h : s0.log = []) : Reachable (clear s0)
  | step (s t : State) (hs : Reachable s) (ht : Step s t) : Reachable t

/-- The example view after `clear()` and one reconciliation: the window of 4
columns and 5 rows that fills the viewport. -/
def examplePolished : State := (updatePolish 20 (clear exampleView)).state

/-- The viewport of the example view, moved down by 120. -/
def exampleScrolledRect : QRectF := ⟨0, 120, 400, 250⟩

/-- No recorded call of `TableEdgeLoadRequest::begin` found the request
already active. -/
def NoOverlap (s : State) : Prop :=
  ∀ ev ∈ s.shape.begins, ∀ edge cells, ev ≠ Event.begin true edge cells

/-- The cells visited, in order, by the loops of `unloadItems` for a line. -/
def lineCells (l : QLine) : List QPoint :=
  if l.dx ≠ 0 then (intRange l.p1.x l.p2.x).map (fun x => (⟨x, l.p1.y⟩ : QPoint))
  else (intRange l.p1.y l.p2.y).map (fun y => (⟨l.p1.x, y⟩ : QPoint))

/-- A load request is in progress in the second state: it was begun in the
first state, by `loadInitialTopLeftItem` on an empty table or by `loadEdge` on
the edge that `nextEdgeToLoad` chose, and it is still active, possibly after
`processLoadRequest` was resumed any number of times, the factory giving any
answers. -/
inductive LoadInProgress (s : State) : State → Prop where
  | initialCell (h1 : s.loadedItems.isEmpty = true)
      (h : (loadInitialTopLeftItem s).loadRequest.isActive = true) :
      LoadInProgress s (loadInitialTopLeftItem s)
  | tableEdge (edge : Edge) (mode : IncubationMode) (rect : QRectF)
      (h1 : s.loadedItems.isEmpty = false)
      (h2 : nextEdgeToLoad s rect = some edge)
      (h : (loadEdge s edge mode).loadRequest.isActive = true) :
      LoadInProgress s (loadEdge s edge mode)
  | resumed (t : State) (script : List ObjectResult) (fallback : ObjectResult)
      (ht : LoadInProgress s t)
      (h : (processLoadRequest
        { t with factoryScript := script, factoryDefault := fallback }).loadRequest.isActive = true) :
      LoadInProgress s
        (processLoadRequest { t with factoryScript := script, factoryDefault := fallback })

/-- Relation between the state in which a request was begun and a state in
which it is still being processed: the table is as it was, and the hash is the
old hash with the cells that the cursor has passed put in front. -/
def Pending (s t : State) : Prop :=
  t.shape.Loading ∧ t.loadRequest.active = true ∧ t.tableInvalid = false ∧
  t.tableSize = s.tableSize ∧ t.loadedTable = s.loadedTable ∧
  (∀ k ∈ s.loadedItems.keys, ∃ c, s.loadedTable.containsCell c ∧ cellIndex s.tableSize c = k) ∧
  ∃ front : ItemHash, t.loadedItems = front ++ s.loadedItems ∧
    ∀ e ∈ front, ∃ c, t.loadRequest.loadedBefore c ∧ cellIndex t.tableSize c = e.1

/-- The reconciled example view with a factory that delivers two more items at
once and then starts to incubate the third. -/
def exampleSlowFactory : State :=
  { examplePolished with
    factoryScript := [ObjectResult.item ⟨0, 0, 100, 50⟩ 100 50,
      ObjectResult.item ⟨0, 0, 100, 50⟩ 100 50, ObjectResult.incubating] }

/-- The example view while it loads the row below its window: the cells
`(0, 5)` and `(1, 5)` are in the hash, the cell `(2, 5)` is incubating. -/
def exampleLoading : State :=
  loadEdge exampleSlowFactory Edge.BottomEdge IncubationMode.AsynchronousIfNested

/-- The log of the second state is the log of the first with more calls at
its end. -/
def LogGrows (s t : State) : Prop := ∃ rest : List Event, t.log = s.log ++ rest

/-- The second state continues the first: the grid size is the same, the log
has grown, and every index in the hash was in the hash before or is requested
from the factory by one of the new calls. -/
def Continues (s t : State) : Prop :=
  t.tableSize = s.tableSize ∧
  ∃ rest : List Event, t.log = s.log ++ rest ∧
    ∀ k ∈ t.loadedItems.keys,
      k ∈ s.loadedItems.keys ∨ k ∈ rest.filterMap Event.requestedIndex

/-- The call that `releaseItem` makes for the item. -/
def releaseCall (s : State) (fxTableItem : FxTableItem) (reusableFlag : ReusableFlag) : Event :=
  if fxTableItem.ownItem then Event.deleteOwnItem fxTableItem.index
  else
    match s.model with
    | some m =>
      if m.isTableModel then Event.release fxTableItem.index (some reusableFlag)
      else Event.release fxTableItem.index none
    | none => Event.release fxTableItem.index none

/-- The guards at the head of `loadInitialTopLeftItem`: the function returns
without a request when the grid is empty, the model has no items, or the model
is the table model and has no delegate. -/
def nothingToLoad (s : State) : Bool :=
  s.tableSize.isEmpty ||
    match s.model with
    | some m => decide (m.count = 0) || (m.isTableModel && !m.hasDelegate)
    | none => true

/-- The example view with a column-width provider that returns 0 for column 3
and 120 for every other column. -/
def exampleZeroWidthProvider : State :=
  { examplePolished with
    columnWidthProvider := SizeProvider.callable [(3, JSNumber.num 0)] (JSNumber.num 120) }

/-- The state in which the layout of the loaded items is another one: every
item gets the geometry that the function gives for it, and nothing else
changes. -/
def State.withGeometry (s : State) (g : FxTableItem → QRectF) : State :=
  { s with loadedItems := s.loadedItems.map (fun e => (e.1, e.2.setGeometry (g e.2))) }

/-- The reconciled example view, invalidated, with its width shrunk to 0. -/
def exampleCollapsed : State := { invalidateTable examplePolished with width := 0 }

/-- Local `currentWidth` of `updateContentWidth`, the right margin added:
the exact accumulated size `loadedTableOuterRect.right() + tableMargins.right()`. -/
def currentContentWidth (s : State) : ℚ :=
  s.loadedTableOuterRect.right + s.tableMargins.right

/-- Local `estimatedWith` of `updateContentWidth`, the right margin added. -/
def estimatedContentWidth (s : State) : ℚ :=
  ((s.tableSize.width : Int) : ℚ) *
      (s.loadedTableOuterRect.right / ((s.loadedTable.right + 1 : Int) : ℚ) +
        s.cellSpacing.width) -
    s.cellSpacing.width + s.tableMargins.right

/-- Local `currentHeight` of `updateContentHeight`, the bottom margin added. -/
def currentContentHeight (s : State) : ℚ :=
  s.loadedTableOuterRect.bottom + s.tableMargins.bottom

/-- Local `estimatedHeight` of `updateContentHeight`, the bottom margin added. -/
def estimatedContentHeight (s : State) : ℚ :=
  ((s.tableSize.height : Int) : ℚ) *
      (s.loadedTableOuterRect.bottom / ((s.loadedTable.bottom + 1 : Int) : ℚ) +
        s.cellSpacing.height) -
    s.cellSpacing.height + s.tableMargins.bottom

/-- The values handed to `setContentWidth`, in the order of the calls. -/
def reportedWidths (l : List Event) : List ℚ :=
  l.filterMap (fun e => match e with
    | Event.setContentWidth w => some w
    | _ => none)

/-- The values handed to `setContentHeight`, in the order of the calls. -/
def reportedHeights (l : List Event) : List ℚ :=
  l.filterMap (fun e => match e with
    | Event.setContentHeight h => some h
    | _ => none)

/-- The example view on a grid of 4 columns, with the implicit width 400 that
the application gave it: the width of the 4 columns. -/
def exampleExactWidth : State :=
  { exampleView with model := some ⟨true, 4000, 4, 1000, true⟩, implicitWidth := 400 }

/-- The view `exampleExactWidth` reconciled, at the moment the last column has
been laid out and `updateContentWidth` is called: the benchmark is at column 2. -/
def exampleLastColumn : State :=
  { (updatePolish 20 exampleExactWidth).state with contentSizeBenchMarkPoint := ⟨2, 4⟩ }












/-- The cell at position `i` of the ordered cell sequence of the request: the
first cell moved `i` steps in the direction in which `moveToNextCell` advances
the cursor. -/
def TableEdgeLoadRequest.cellAt (r : TableEdgeLoadRequest) (i : Nat) : QPoint :=
  ⟨r.edgeCells.p1.x + (i : Int) * r.direction.x, r.edgeCells.p1.y + (i : Int) * r.direction.y⟩

/-- Number of cells of the cell sequence of the request. -/
def TableEdgeLoadRequest.cellCount (r : TableEdgeLoadRequest) : Nat :=
  (lineCells r.edgeCells).length

/-- The reconciled example view with its slow factory, a request for the
column right of the window, of 5 cells, just begun. -/
def exampleColumnRequest : State :=
  { exampleSlowFactory with
    loadRequest := exampleSlowFactory.loadRequest.begin ⟨⟨4, 0⟩, ⟨4, 4⟩⟩ Edge.RightEdge
      IncubationMode.AsynchronousIfNested }

/-- The state when the factory has other answers in store: the script and the
answer that follows it are replaced, nothing else changes. -/
def State.withFactory (s : State) (script : List ObjectResult) (fallback : ObjectResult) :
    State :=
  { s with factoryScript := script, factoryDefault := fallback }

/-- Source `QQuickTableView::rows`. -/
def rows (s : State) : Int := s.tableSize.height

/-- Source `QQuickTableView::columns`. -/
def columns (s : State) : Int := s.tableSize.width

/-- The polished example view after the content was moved down by one row
height, 50. -/
def exampleScrolledOneRow : State := { examplePolished with contentY := 50 }

end TableView

/-! ## Generator objects (qv4generatorobject.cpp) -/

namespace Generator

/-- Values of the enumeration `GeneratorState` that the source uses. -/
inductive GeneratorState where
  | SuspendedStart
  | Executing
  | SuspendedYield
  | Completed
deriving DecidableEq, Repr

/-- JavaScript values as far as the generator methods tell them apart:
`undefined`, the empty value, the TypeError object made by `throwTypeError`,
any other value, and the object made by `createIterResultObject`. -/
inductive Value where
  | undefined
  | emptyValue
  | typeError
  | other (n : Nat)
  | iterResult (value : Value) (done : Bool)
deriving DecidableEq, Repr

/-- Members of `CppStackFrame` that the generator code reads or writes; code
positions and frames are referred to by number, `none` is `nullptr`. -/
structure CppStackFrame where
  parent : Option Nat
  yield : Option Nat
  accumulator : Value
deriving DecidableEq, Repr

/-- Members of `Heap::GeneratorObject`; `address` stands for `&gp->cppFrame`. -/
structure GeneratorObject where
  state : GeneratorState
  cppFrame : CppStackFrame
  address : Nat
deriving DecidableEq, Repr

/-- Members of `ExecutionEngine` that the generator code reads or writes. -/
structure ExecutionEngine where
  hasException : Bool
  exceptionValue : Value
  currentStackFrame : Option Nat
deriving DecidableEq, Repr

/-- The `this` value of a call: a generator object, or a value for which
`thisObject->as<GeneratorObject>()` is null. -/
inductive ThisValue where
  | generator (g : GeneratorObject)
  | notGenerator (v : Value)
deriving DecidableEq, Repr

/-- What `Moth::VME::interpret` leaves behind: the value it returns, the frame
(with the next yield position, or `none` when the body ran to its end) and
the engine. -/
structure Outcome where
  result : Value
  frame : CppStackFrame
  engine : ExecutionEngine
deriving DecidableEq, Repr

/-- The bytecode interpreter `Moth::VME::interpret(frame, engine, code)`, a
parameter of the model. -/
abbrev Interpreter := CppStackFrame → ExecutionEngine → Nat → Outcome

/-- Result of a call of a method of the generator prototype: the returned
value, the `this` value and the engine after the call, and whether the call
ran the generator body (handed it to the interpreter). -/
structure Call where
  returned : Value
  thisObject : ThisValue
  engine : ExecutionEngine
  resumed : Bool
deriving DecidableEq, Repr

/-- Member `ExecutionEngine::throwTypeError`, as the generator methods use it:
an exception is pending afterwards. -/
def throwTypeError (engine : ExecutionEngine) : ExecutionEngine :=
  { engine with hasException := true, exceptionValue := Value.typeError }

/-- Member `ExecutionEngine::throwError`, as the generator methods use it. -/
def engineThrowError (engine : ExecutionEngine) (v : Value) : ExecutionEngine :=
  { engine with hasException := true, exceptionValue := v }

/-- The expression `argc ? argv[0] : Primitive::undefinedValue()`. -/
def firstArgument (argv : List Value) : Value := argv.head?.getD Value.undefined

/-- Source `GeneratorObject::resume`; `none` stands for the failed assertion
`gp->cppFrame.yield != nullptr`. -/
def resume (vm : Interpreter) (g : GeneratorObject) (engine : ExecutionEngine) (arg : Value) :
    Option Call :=
  let gp1 := { g with state := GeneratorState.Executing }
  let frame1 := { gp1.cppFrame with parent := engine.currentStackFrame }
  let engine1 := { engine with currentStackFrame := some gp1.address }
  match frame1.yield with
  | none => none
  | some code =>
    let frame2 := { frame1 with yield := none, accumulator := arg }
    let out := vm frame2 engine1 code
    let engine2 := { out.engine with currentStackFrame := out.frame.parent }
    let done := out.frame.yield.isNone
    let gp2 : GeneratorObject :=
      { gp1 with
        cppFrame := out.frame
        state := if done then GeneratorState.Completed else GeneratorState.SuspendedYield }
    if engine2.hasException then
      some ⟨Value.undefined, ThisValue.generator gp2, engine2, true⟩
    else
      some ⟨Value.iterResult out.result done, ThisValue.generator gp2, engine2, true⟩

/-- Source `GeneratorPrototype::method_next`. -/
def method_next (vm : Interpreter) (engine : ExecutionEngine) (thisObject : ThisValue)
    (argv : List Value) : Option Call :=
  match thisObject with
  | ThisValue.notGenerator _ => some ⟨Value.undefined, thisObject, throwTypeError engine, false⟩
  | ThisValue.generator g =>
    if g.state = GeneratorState.Executing then
      some ⟨Value.undefined, thisObject, throwTypeError engine, false⟩
    else if g.state = GeneratorState.Completed then
      some ⟨Value.iterResult Value.undefined true, thisObject, engine, false⟩
    else resume vm g engine (firstArgument argv)

/-- Source `GeneratorPrototype::method_return`. -/
def method_return (vm : Interpreter) (engine : ExecutionEngine) (thisObject : ThisValue)
    (argv : List Value) : Option Call :=
  match thisObject with
  | ThisValue.notGenerator _ => some ⟨Value.undefined, thisObject, throwTypeError engine, false⟩
  | ThisValue.generator g =>
    if g.state = GeneratorState.Executing then
      some ⟨Value.undefined, thisObject, throwTypeError engine, false⟩
    else
      let gp :=
        if g.state = GeneratorState.SuspendedStart then { g with state := GeneratorState.Completed }
        else g
      if gp.state = GeneratorState.Completed then
        some ⟨Value.iterResult (firstArgument argv) true, ThisValue.generator gp, engine, false⟩
      else
        resume vm gp (engineThrowError engine Value.emptyValue) (firstArgument argv)

/-- Source `GeneratorPrototype::method_throw`. -/
def method_throw (vm : Interpreter) (engine : ExecutionEngine) (thisObject : ThisValue)
    (argv : List Value) : Option Call :=
  match thisObject with
  | ThisValue.notGenerator _ => some ⟨Value.undefined, thisObject, throwTypeError engine, false⟩
  | ThisValue.generator g =>
    if g.state = GeneratorState.Executing then
      some ⟨Value.undefined, thisObject, throwTypeError engine, false⟩
    else
      let engine1 := engineThrowError engine (firstArgument argv)
      if g.state = GeneratorState.SuspendedStart ∨ g.state = GeneratorState.Completed then
        some ⟨Value.undefined,
          ThisValue.generator { g with state := GeneratorState.Completed }, engine1, false⟩
      else resume vm g engine1 Value.undefined

/-- The `this` values that the three methods refuse: a value that is not a
generator object, or a generator whose body is executing. -/
def refused (thisObject : ThisValue) : Prop :=
  match thisObject with
  | ThisValue.notGenerator _ => True
  | ThisValue.generator g => g.state = GeneratorState.Executing

/-- State of the generator of a `this` value, if it is one. -/
def ThisValue.state (thisObject : ThisValue) : Option GeneratorState :=
  match thisObject with
  | ThisValue.notGenerator _ => none
  | ThisValue.generator g => some g.state

/-- A suspended generator has a position to resume at (what the assertion in
`resume` asks for). -/
def Resumable (g : GeneratorObject) : Prop :=
  (g.state = GeneratorState.SuspendedStart ∨ g.state = GeneratorState.SuspendedYield) →
    g.cppFrame.yield ≠ none

/-- An interpreter that yields once more when resumed at position 0 and runs
to the end of the body otherwise, returning the accumulator. -/
def exampleInterpreter : Interpreter :=
  fun frame engine code =>
    ⟨frame.accumulator, { frame with yield := if code = 0 then some 1 else none }, engine⟩

/-- A generator that has not started, with its first position recorded. -/
def exampleGenerator : GeneratorObject :=
  ⟨GeneratorState.SuspendedStart, ⟨none, some 0, Value.undefined⟩, 7⟩

/-- A generator whose body is running. -/
def exampleExecuting : GeneratorObject :=
  ⟨GeneratorState.Executing, ⟨none, none, Value.undefined⟩, 7⟩

/-- An engine with no pending exception. -/
def exampleEngine : ExecutionEngine := ⟨false, Value.undefined, none⟩

end Generator

namespace TableView

end TableView

/-! ## Function scanner (qv4compilerscanfunctions.cpp) -/

namespace ScanFunctions

/-- Values of `Context::MemberType` that `enterFunction` passes to `addLocalVar`. -/
inductive MemberType where
  | FunctionDefinition
  | ThisFunctionName
  | VariableDefinition
deriving DecidableEq, Repr

/-- Values of `Context::UsesArgumentsObject` that the source uses. -/
inductive UsesArgumentsObject where
  | ArgumentsObjectUnknown
  | ArgumentsObjectNotUsed
  | ArgumentsObjectUsed
deriving DecidableEq, Repr

/-- The calls of `_cg->throwSyntaxError` made by `enterFunction`, by message. -/
inductive SyntaxError where
  | alreadyDeclared (name : String)
  | duplicateParameter (name : String)
  | reservedParameter (name : String)
deriving DecidableEq, Repr

/-- Answers of the AST class `FormalParameterList` that `enterFunction` asks
for; the class is not part of the sources here, so its answers are inputs. -/
structure FormalParameterList where
  boundNames : List String
  formals : List String
  isSimpleParameterList : Bool
  containsName : String → Bool

/-- A statement of a function body as `checkDirectivePrologue` sees it: an
expression statement whose expression is a string literal, with the offset
and length of its `literalToken`, or anything else. -/
inductive Statement where
  | stringLiteral (offset length : Nat)
  | other
deriving DecidableEq, Repr

/-- The AST node of the function as `enterFunction` sees it: a
`FunctionExpression` or `FunctionDeclaration` with its two flags, or a node
for which both casts are null. -/
inductive Node where
  | function (isArrowFunction isGenerator : Bool)
  | other
deriving DecidableEq, Repr

/-- Members of `Context` that `enterFunction` reads or writes. `locals` lists
the calls of `addLocalVar` in order; `declarable` is the answer `addLocalVar`
gives for a name (the member function is not part of the sources here). -/
structure Context where
  name : String
  isStrict : Bool
  hasNestedFunctions : Bool
  usesArgumentsObject : UsesArgumentsObject
  isArrowFunction : Bool
  isGenerator : Bool
  formals : Option FormalParameterList
  arguments : List String
  locals : List (String × MemberType)
  declarable : String → Bool

/-- Member `Context::addLocalVar(name, type, VariableScope::Var)` as its
callers here see it: the call is recorded and answered. -/
def Context.addLocalVar (c : Context) (name : String) (type : MemberType) : Bool × Context :=
  (c.declarable name, { c with locals := c.locals ++ [(name, type)] })

/-- Members of `ScanFunctions` and of the code generator that `enterFunction`
reads or writes: the stack of contexts (`_context` is its head), the flag
`_cg->_strictMode`, the source text and the syntax errors thrown so far. -/
structure Scanner where
  contextStack : List Context
  strictMode : Bool
  sourceCode : List Char
  errors : List SyntaxError

/-- Source `ScanFunctions::enterEnvironment`; `c` is the context that
`contextMap.value(node)` or else `newContext` gives. -/
def enterEnvironment (s : Scanner) (c : Context) (name : String) : Scanner :=
  let c1 := if !c.isStrict then { c with isStrict := s.strictMode } else c
  let c2 := { c1 with name := name }
  { s with contextStack := c2 :: s.contextStack }

/-- Source `ScanFunctions::checkDirectivePrologue`, on the current context.
`midRef(offset + 1, length - 2)` is the part of the source text between the
quotes of the literal. -/
def checkDirectivePrologue (sourceCode : List Char) : List Statement → Context → Context
  | [], c => c
  | Statement.other :: _, c => c
  | Statement.stringLiteral offset length :: rest, c =>
    if length < 2 then checkDirectivePrologue sourceCode rest c
    else
      let str := (sourceCode.drop (offset + 1)).take (length - 2)
      if str = "use strict".toList then
        checkDirectivePrologue sourceCode rest { c with isStrict := true }
      else checkDirectivePrologue sourceCode rest c

/-- The block `if (outerContext) \x7b ... \x7d` of `enterFunction`; the flag is
false when the function returns false there. -/
def declareInOuterContext (outerContext : Context) (name : String) (enterName : Bool) :
    Bool × Context :=
  let o1 := { outerContext with hasNestedFunctions := true }
  if enterName then
    let r := o1.addLocalVar name MemberType.FunctionDefinition
    if !r.1 then (false, r.2)
    else
      let r2 := r.2.addLocalVar name MemberType.FunctionDefinition
      (true,
        if name = "arguments" then
          { r2.2 with usesArgumentsObject := UsesArgumentsObject.ArgumentsObjectNotUsed }
        else r2.2)
  else
    (true,
      if name = "arguments" then
        { o1 with usesArgumentsObject := UsesArgumentsObject.ArgumentsObjectNotUsed }
      else o1)

/-- Part of `enterFunction` between the block for the outer context and the
loop over the bound names, on the function's own context. -/
def prepareContext (sourceCode : List Char) (c : Context) (ast : Node) (name : String)
    (formals : Option FormalParameterList) (body : Option (List Statement)) : Context :=
  let c1 := { c with name := name }
  let c2 :=
    match formals with
    | some f =>
      if f.containsName "arguments" then
        { c1 with usesArgumentsObject := UsesArgumentsObject.ArgumentsObjectNotUsed }
      else c1
    | none => c1
  let c3 :=
    match ast with
    | Node.function isArrowFunction isGenerator =>
      if isArrowFunction then { c2 with isArrowFunction := true }
      else if isGenerator then { c2 with isGenerator := true }
      else c2
    | Node.other => c2
  let declareName :=
    !name.isEmpty &&
      (match formals with
        | some f => !f.containsName name
        | none => true)
  let c4 := if declareName then (c3.addLocalVar name MemberType.ThisFunctionName).2 else c3
  let c5 := { c4 with formals := formals }
  let c6 :=
    match body with
    | some statements => if !c5.isStrict then checkDirectivePrologue sourceCode statements c5 else c5
    | none => c5
  { c6 with
    arguments :=
      match formals with
      | some f => f.formals
      | none => [] }

/-- The loop of `enterFunction` over `boundNames`, from index `i` on; `rest`
is `boundNames` after `i`, so `rest.contains arg` is
`boundNames.indexOf(arg, i + 1) != -1`. -/
def checkBoundNames (isSimpleParameterList : Bool) : List String → Context →
    Option SyntaxError × Context
  | [], c => (none, c)
  | arg :: rest, c =>
    if (c.isStrict || !isSimpleParameterList) && rest.contains arg then
      (some (SyntaxError.duplicateParameter arg), c)
    else if c.isStrict && (arg = "eval" || arg = "arguments") then
      (some (SyntaxError.reservedParameter arg), c)
    else
      checkBoundNames isSimpleParameterList rest
        (if !c.arguments.contains arg then (c.addLocalVar arg MemberType.VariableDefinition).2
          else c)

/-- The function's own context at the loop over the bound names. -/
def functionContext (s : Scanner) (c : Context) (ast : Node) (name : String)
    (formals : Option FormalParameterList) (body : Option (List Statement)) : Context :=
  match (enterEnvironment s c name).contextStack with
  | own :: _ => prepareContext s.sourceCode own ast name formals body
  | [] => c

/-- Source `ScanFunctions::enterFunction(Node *, const QString &,
FormalParameterList *, StatementList *, bool)`; `c` is the context that
`enterEnvironment` finds or makes for the node. -/
def enterFunction (s : Scanner) (c : Context) (ast : Node) (name : String)
    (formals : Option FormalParameterList) (body : Option (List Statement)) (enterName : Bool) :
    Bool × Scanner :=
  let s1 := enterEnvironment s c name
  let own := s1.contextStack.head?.getD c
  let outer :=
    match s.contextStack with
    | outerContext :: below =>
      let r := declareInOuterContext outerContext name enterName
      (r.1, r.2 :: below)
    | [] => (true, [])
  if !outer.1 then
    (false, { s1 with
      contextStack := own :: outer.2
      errors := s1.errors ++ [SyntaxError.alreadyDeclared name] })
  else
    let own1 := prepareContext s.sourceCode own ast name formals body
    let isSimpleParameterList :=
      match formals with
      | some f => f.isSimpleParameterList
      | none => false
    let boundNames :=
      match formals with
      | some f => f.boundNames
      | none => []
    let r := checkBoundNames isSimpleParameterList boundNames own1
    match r.1 with
    | some e => (false, { s1 with contextStack := r.2 :: outer.2, errors := s1.errors ++ [e] })
    | none => (true, { s1 with contextStack := r.2 :: outer.2 })

/-- The enclosing context lets the function's name in: there is no enclosing
context, the name is not entered, or `addLocalVar` accepts it. -/
def nameAccepted (s : Scanner) (name : String) (enterName : Bool) : Bool :=
  match s.contextStack with
  | outerContext :: _ => !enterName || outerContext.declarable name
  | [] => true

/-- A fresh context that accepts every name. -/
def exampleContext : Context :=
  ⟨"", false, false, UsesArgumentsObject.ArgumentsObjectUnknown, false, false, none, [], [],
    fun _ => true⟩

/-- A context in which the name `f` is already declared in a way that
`addLocalVar` refuses. -/
def exampleOuterContext : Context :=
  { exampleContext with declarable := fun name => name != "f" }

/-- The parameter list `(a, a)`: simple, with the name `a` bound twice. -/
def exampleFormals : FormalParameterList :=
  ⟨["a", "a"], ["a", "a"], true, fun name => name == "a"⟩

/-- A scanner of sloppy-mode code inside the global context `exampleContext`. -/
def exampleScanner : Scanner := ⟨[exampleContext], false, [], []⟩

/-- A scanner inside a context that refuses the name `f`. -/
def exampleRefusingScanner : Scanner := ⟨[exampleOuterContext], false, [], []⟩

/-- A scanner in strict mode. -/
def exampleStrictScanner : Scanner := ⟨[exampleContext], true, [], []⟩

end ScanFunctions

namespace TableView

/-- The polished example view with a factory that delivers four more items
and then answers that the next one is still loading. -/
def exampleFourReady : State :=
  examplePolished.withFactory
    [ObjectResult.item ⟨0, 0, 100, 50⟩ 100 50, ObjectResult.item ⟨0, 0, 100, 50⟩ 100 50,
      ObjectResult.item ⟨0, 0, 100, 50⟩ 100 50, ObjectResult.item ⟨0, 0, 100, 50⟩ 100 50]
    ObjectResult.incubating

/-- Every cell of the loaded table lies in the grid and has, under its index,
an item in the hash that was created for that cell. -/
def Filled (s : State) : Prop :=
  InGrid s.loadedTable s.tableSize ∧
  ∀ c, s.loadedTable.containsCell c →
    modelIndexAtCell s c ∈ s.loadedItems.keys ∧ (loadedTableItem s c).cell = c

/-- The cells of a rectangle, column by column. -/
def QRect.cells (r : QRect) : List QPoint :=
  (intRange r.x1 r.x2).flatMap (fun x => (intRange r.y1 r.y2).map (fun y => (⟨x, y⟩ : QPoint)))

instance (r : QRect) (t : QSize) : Decidable (InGrid r t) := by
  unfold InGrid; infer_instance

/-- Decidable form of `Filled`, over the list of cells of the loaded table. -/
def filledCheck (s : State) : Bool :=
  decide (InGrid s.loadedTable s.tableSize) &&
  s.loadedTable.cells.all (fun c =>
    decide (modelIndexAtCell s c ∈ s.loadedItems.keys) && decide ((loadedTableItem s c).cell = c))

/-- Sum of the resolved widths and spacings of the loaded columns left of a
column: its distance from the left of the loaded table after a relayout. -/
def columnOffset (s : State) (column : Int) : ℚ :=
  ((intRange s.loadedTable.left (column - 1)).map
    (fun c => (resolveColumnWidth s c).1 + s.cellSpacing.width)).sum

/-- Sum of the resolved heights and spacings of the loaded rows above a row. -/
def rowOffset (s : State) (row : Int) : ℚ :=
  ((intRange s.loadedTable.top (row - 1)).map
    (fun r => (resolveRowHeight s r).1 + s.cellSpacing.height)).sum

/-- The second state has the same table, grid, size providers, spacing and
keys as the first, and its items have the same implicit sizes and cells:
what the size resolver reads is the same. -/
def SameSizes (s t : State) : Prop :=
  t.loadedTable = s.loadedTable ∧ t.tableSize = s.tableSize ∧
  t.columnWidthProvider = s.columnWidthProvider ∧ t.rowHeightProvider = s.rowHeightProvider ∧
  t.cellSpacing = s.cellSpacing ∧ t.loadedItems.keys = s.loadedItems.keys ∧
  ∀ cell, (loadedTableItem t cell).implicitWidth = (loadedTableItem s cell).implicitWidth ∧
    (loadedTableItem t cell).implicitHeight = (loadedTableItem s cell).implicitHeight ∧
    (loadedTableItem t cell).cell = (loadedTableItem s cell).cell

/-- An update of an item that leaves its implicit size and its cell alone. -/
def KeepsSizes (f : FxTableItem → FxTableItem) : Prop :=
  ∀ item, (f item).implicitWidth = item.implicitWidth ∧
    (f item).implicitHeight = item.implicitHeight ∧ (f item).cell = item.cell

/-- The column that `layoutVerticalEdge` lays out: the local `column`. -/
def edgeColumn (s : State) (tableEdge : Edge) : Int :=
  if tableEdge = Edge.LeftEdge then s.loadedTable.left else s.loadedTable.right

/-- The column of the neighbours that `layoutVerticalEdge` reads: one to the
right of the new left column, one to the left of the new right column. -/
def neighbourColumn (s : State) (tableEdge : Edge) : Int :=
  if tableEdge = Edge.LeftEdge then s.loadedTable.left + 1 else s.loadedTable.right - 1

/-- The value that `layoutVerticalEdge` computes for the local `left` from the
neighbour in a row. -/
def edgeLeftAt (s : State) (tableEdge : Edge) (width : ℚ) (row : Int) : ℚ :=
  if tableEdge = Edge.LeftEdge then
    (loadedTableItem s ⟨neighbourColumn s tableEdge, row⟩).geometry.left -
      s.cellSpacing.width - width
  else (loadedTableItem s ⟨neighbourColumn s tableEdge, row⟩).geometry.right + s.cellSpacing.width

/-- The row that `layoutHorizontalEdge` lays out: the local `row`. -/
def edgeRow (s : State) (tableEdge : Edge) : Int :=
  if tableEdge = Edge.TopEdge then s.loadedTable.top else s.loadedTable.bottom

/-- The row of the neighbours that `layoutHorizontalEdge` reads. -/
def neighbourRow (s : State) (tableEdge : Edge) : Int :=
  if tableEdge = Edge.TopEdge then s.loadedTable.top + 1 else s.loadedTable.bottom - 1

/-- The value that `layoutHorizontalEdge` computes for the local `top` from
the neighbour in a column. -/
def edgeTopAt (s : State) (tableEdge : Edge) (height : ℚ) (column : Int) : ℚ :=
  if tableEdge = Edge.TopEdge then
    (loadedTableItem s ⟨column, neighbourRow s tableEdge⟩).geometry.top -
      s.cellSpacing.height - height
  else (loadedTableItem s ⟨column, neighbourRow s tableEdge⟩).geometry.bottom +
    s.cellSpacing.height

/-- The example view with a left margin of -10, as `setLeftMargin(-10)` leaves
it. -/
def exampleLeftMargin : State :=
  { exampleView with
    tableMargins := ⟨-10, 0, 0, 0⟩ }

/-- A freshly constructed view on a table model of 10 columns and 1 row whose
factory delivers every item at once with implicit size 100 x 50, with a left
margin of -10 and no cache buffer, 200 x 50 large and flicked to x = 120. -/
def exampleNegativeMargin : State :=
  { exampleView with
    model := some ⟨true, 10, 10, 1, true⟩
    tableMargins := ⟨-10, 0, 0, 0⟩
    contentX := 120
    width := 200
    height := 50 }

/-- The state in which `updatePolish` on `exampleNegativeMargin` enters the
fifth iteration of the loop of `loadAndUnloadVisibleEdges`. -/
def exampleStaleInnerRect : State := (updatePolish 4 exampleNegativeMargin).state

/-- The second state is the first one with another call log. -/
def SameButLog (s t : State) : Prop := ∃ l : List Event, t = { s with log := l }

/-- The state in which `updatePolish` on `exampleNegativeMargin` enters the
loop of `loadAndUnloadVisibleEdges`: the guard is set, the viewport is read,
and `beginRebuildTable` has loaded the top-left item. -/
def exampleLoopEntry : State :=
  loadInitialTopLeftItem (calculateTableSize
    { clear { exampleNegativeMargin with polishing := true, viewportRect := ⟨120, 0, 200, 50⟩ } with
      tableInvalid := false, tableRebuilding := true })

/-- Largest value of the C++ type `int` (32 bits). -/
def intMax : Int := 2147483647

/-- Value of an expression of type `int` whose mathematical result is `v`:
`v` brought into the range `-2147483648 .. 2147483647` modulo `4294967296`,
the two's complement wrap-around. -/
def wrapInt (v : Int) : Int := (v + 2147483648) % 4294967296 - 2147483648

/-- Source `QQuickTableViewPrivate::modelIndexAtCell` in the arithmetic of the
type `int`, with its assertion `modelIndex < model->count()`; `none` stands
for the failed assertion. On the valid cells of a grid that the model counts,
it returns the value of `modelIndexAtCell`. -/
def modelIndexAtCellInt (s : State) (cell : QPoint) : Option Int :=
  let availableRows := s.tableSize.height
  let modelIndex := wrapInt (cell.y + wrapInt (cell.x * availableRows))
  match s.model with
  | some m => if modelIndex < m.count then some modelIndex else none
  | none => none

/-- A table model of 65537 columns and 65536 rows, more cells than an `int`
can count, with the grid size that `calculateTableSize` reads from it. -/
def exampleHugeGrid : State :=
  calculateTableSize { exampleView with model := some ⟨true, 2147483647, 65537, 65536, true⟩ }

/-- A table model of 10 columns and 1000 rows whose `count()` is 3000, with
the grid size that `calculateTableSize` reads from it. -/
def exampleShortCount : State :=
  calculateTableSize { exampleView with model := some ⟨true, 3000, 10, 1000, true⟩ }

/-- A view of one row on the grid of 10 columns whose column 1 is 101 wide and
whose other columns are 100 wide, with a viewport that shows the first column;
the implicit width is 0, the default. -/
def exampleUnevenColumns : State :=
  { exampleView with
    width := 100
    height := 50
    columnWidthProvider := SizeProvider.callable [(1, JSNumber.num 101)] (JSNumber.num 100) }

/-- The view `exampleUnevenColumns` reconciled and then widened to 400. -/
def exampleUnevenWidened : State :=
  { (updatePolish 20 exampleUnevenColumns).state with width := 400 }

/-- A view of one row whose column 0 is 100 wide, whose column 1 is 200 wide
and whose other columns are 20 wide, with a viewport that shows the first
column. -/
def exampleNarrowing : State :=
  { exampleView with
    width := 100
    height := 50
    columnWidthProvider :=
      SizeProvider.callable [(0, JSNumber.num 100), (1, JSNumber.num 200)] (JSNumber.num 20) }

/-- The view `exampleNarrowing` reconciled and then widened to 310. -/
def exampleNarrowingWidened : State :=
  { (updatePolish 20 exampleNarrowing).state with width := 310 }

/-- A view on a grid of 5 columns and one row, all cells 100 x 50, with a
column spacing of 10 and a viewport that shows the first column. -/
def exampleSpaced : State :=
  { exampleView with
    model := some ⟨true, 5, 5, 1, true⟩
    cellSpacing := ⟨10, 0⟩
    width := 100
    height := 50 }

/-- The view `exampleSpaced` reconciled and then widened to 600. -/
def exampleSpacedWidened : State :=
  { (updatePolish 20 exampleSpaced).state with width := 600 }

/-- A view of one row whose column 0 is 100 wide, whose column 1 is 120 wide
and whose other columns are 130 wide, with a viewport that shows the first
column. -/
def exampleWidening : State :=
  { exampleView with
    width := 100
    height := 50
    columnWidthProvider :=
      SizeProvider.callable [(0, JSNumber.num 100), (1, JSNumber.num 120)] (JSNumber.num 130) }

/-- The view `exampleWidening` reconciled and then widened to 330. -/
def exampleWideningWidened : State :=
  { (updatePolish 20 exampleWidening).state with width := 330 }

/-- The view `exampleWideningWidened` after the load of column 1. -/
def exampleWideningFirst : State :=
  loadEdge exampleWideningWidened Edge.RightEdge IncubationMode.AsynchronousIfNested

/-- The example view with cells of 100 x 30 and a viewport of 400 x 150. -/
def exampleLowRows : State :=
  { exampleView with
    height := 150
    factoryDefault := ObjectResult.item ⟨0, 0, 100, 30⟩ 100 30 }

/-- The view `exampleLowRows` after `clear()` and one reconciliation: the
window of 4 columns and 5 rows that fills the viewport. -/
def exampleLowRowsPolished : State := (updatePolish 20 (clear exampleLowRows)).state

/-- The view `exampleLowRowsPolished` after the content was moved down by one
row height, 30. -/
def exampleLowRowsScrolled : State := { exampleLowRowsPolished with contentY := 30 }
/-- What the reports of the content size depend on, and the reports made so
far: the grid size, the cell spacing, the margins, and the values handed to
`setContentWidth` and to `setContentHeight`. -/
def reportFrame (s : State) : QSize × QSizeF × QMarginsF × List ℚ × List ℚ :=
  (s.tableSize, s.cellSpacing, s.tableMargins, reportedWidths s.log, reportedHeights s.log)

/-- Completed loads of one edge that follow each other with no other call in
between: the second state is reached from the first by calls of `loadEdge` for
that edge, each made when `nextEdgeToLoad` selects the edge, and each run to
completion. -/
inductive EdgeLoads (edge : Edge) : State → State → Prop where
  | start (s : State) : EdgeLoads edge s s
  | next (s u : State) (rect : QRectF) (mode : IncubationMode) (h : EdgeLoads edge s u)
      (hnext : nextEdgeToLoad u rect = some edge)
      (hdone : (loadEdge u edge mode).loadRequest.isActive = false) :
      EdgeLoads edge s (loadEdge u edge mode)

/-! ## Geometry/index mapping: proofs -/

theorem modelIndexAtCell_nonneg (s : State) (cell : QPoint) (hrows : 0 < s.tableSize.height)
    (hc : validCell s cell) : 0 ≤ modelIndexAtCell s cell := by
  obtain ⟨hx, _, hy, _⟩ := hc
  have : 0 ≤ cell.x * s.tableSize.height := Int.mul_nonneg hx (le_of_lt hrows)
  simp only [modelIndexAtCell]
  omega

theorem modelIndexAtCell_lt (s : State) (cell : QPoint) (hc : validCell s cell) :
    modelIndexAtCell s cell < s.tableSize.height * s.tableSize.width := by
  obtain ⟨_, hx2, hy, hy2⟩ := hc
  simp only [modelIndexAtCell]
  have h1 : cell.x + 1 ≤ s.tableSize.width := by omega
  have h2 : (cell.x + 1) * s.tableSize.height ≤ s.tableSize.width * s.tableSize.height :=
    Int.mul_le_mul_of_nonneg_right h1 (by omega)
  nlinarith

theorem cellAtModelIndex_modelIndexAtCell (s : State) (cell : QPoint)
    (hc : validCell s cell) : cellAtModelIndex s (modelIndexAtCell s cell) = some cell := by
  have hrows : 0 < s.tableSize.height := by
    obtain ⟨_, _, hy, hy2⟩ := hc
    omega
  have hnn := modelIndexAtCell_nonneg s cell hrows hc
  obtain ⟨hx, _, hy, hy2⟩ := hc
  simp only [cellAtModelIndex, gt_iff_lt, hrows, if_true]
  rw [Int.tdiv_eq_ediv hnn (le_of_lt hrows), Int.tmod_eq_emod hnn (le_of_lt hrows)]
  simp only [modelIndexAtCell]
  rw [Int.add_mul_ediv_right _ _ (ne_of_gt hrows), Int.add_mul_emod_self,
    Int.ediv_eq_zero_of_lt hy hy2, Int.emod_eq_of_lt hy hy2]
  simp

theorem modelIndexAtCell_injective (s : State) (c d : QPoint)
    (hc : validCell s c) (hd : validCell s d)
    (h : modelIndexAtCell s c = modelIndexAtCell s d) : c = d := by
  have h1 := cellAtModelIndex_modelIndexAtCell s c hc
  have h2 := cellAtModelIndex_modelIndexAtCell s d hd
  rw [h] at h1
  exact Option.some.inj (h1.symm.trans h2)

theorem cellAtModelIndex_valid (s : State) (i : Int) (hrows : 0 < s.tableSize.height)
    (h0 : 0 ≤ i) (h1 : i < s.tableSize.height * s.tableSize.width) :
    ∃ cell, cellAtModelIndex s i = some cell ∧ validCell s cell ∧ modelIndexAtCell s cell = i := by
  refine ⟨⟨i / s.tableSize.height, i % s.tableSize.height⟩, ?_, ?_, ?_⟩
  · simp only [cellAtModelIndex, gt_iff_lt, hrows, if_true]
    rw [Int.tdiv_eq_ediv h0 (le_of_lt hrows), Int.tmod_eq_emod h0 (le_of_lt hrows)]
  · refine ⟨Int.ediv_nonneg h0 (le_of_lt hrows), ?_, Int.emod_nonneg _ (ne_of_gt hrows),
      Int.emod_lt_of_pos _ hrows⟩
    exact Int.ediv_lt_of_lt_mul hrows (by rw [Int.mul_comm]; exact h1)
  · simp only [modelIndexAtCell]
    have := Int.emod_add_ediv i s.tableSize.height
    rw [Int.mul_comm] at this
    exact this

theorem wrapInt_of_int (v : Int) (h1 : -2147483648 ≤ v) (h2 : v ≤ intMax) : wrapInt v = v := by
  unfold intMax at h2
  unfold wrapInt
  omega

/-- On the valid cells of a grid whose cells the model counts, `count()` being
an `int`, the source function in `int` arithmetic returns the value of
`modelIndexAtCell`, and its assertion holds. -/
theorem modelIndexAtCellInt_eq (s : State) (m : InstanceModel) (hmodel : s.model = some m)
    (hcount : s.tableSize.height * s.tableSize.width ≤ m.count) (hint : m.count ≤ intMax)
    (cell : QPoint) (hc : validCell s cell) :
    modelIndexAtCellInt s cell = some (modelIndexAtCell s cell) := by
  have hrows : 0 < s.tableSize.height := by
    obtain ⟨_, _, hy, hy2⟩ := hc
    omega
  have hnn := modelIndexAtCell_nonneg s cell hrows hc
  have hlt := modelIndexAtCell_lt s cell hc
  obtain ⟨hx, _, hy, hy2⟩ := hc
  have hmul : 0 ≤ cell.x * s.tableSize.height := Int.mul_nonneg hx (le_of_lt hrows)
  simp only [modelIndexAtCell] at hnn hlt
  have e1 : wrapInt (cell.x * s.tableSize.height) = cell.x * s.tableSize.height :=
    wrapInt_of_int _ (by omega) (by omega)
  have e2 : wrapInt (cell.y + cell.x * s.tableSize.height) =
      cell.y + cell.x * s.tableSize.height := wrapInt_of_int _ (by omega) (by omega)
  simp only [modelIndexAtCellInt, modelIndexAtCell, hmodel, e1, e2]
  rw [if_pos (by omega)]

/-- Claim C1 does not hold as stated. In a grid of 65537 columns and 65536
rows the valid cells `(65536, 0)` and `(0, 0)` get the same index 0 from the
source function, which computes in `int`, where `row + column * rowCount` is
4294967296 for the first of them. In a grid of 10 columns and 1000 rows whose
model counts 3000 items, the assertion `modelIndex < model->count()` fails at
the valid cell `(3, 4)`. -/
theorem modelIndexAtCell_wraps :
    0 < exampleHugeGrid.tableSize.height ∧
    validCell exampleHugeGrid ⟨65536, 0⟩ ∧ validCell exampleHugeGrid ⟨0, 0⟩ ∧
    modelIndexAtCellInt exampleHugeGrid ⟨65536, 0⟩ = some 0 ∧
    modelIndexAtCellInt exampleHugeGrid ⟨0, 0⟩ = some 0 ∧
    (0 : Int) + 65536 * exampleHugeGrid.tableSize.height = 4294967296 ∧
    0 < exampleShortCount.tableSize.height ∧
    validCell exampleShortCount ⟨3, 4⟩ ∧
    modelIndexAtCellInt exampleShortCount ⟨3, 4⟩ = none := by
  decide

/-- Claim C1, amended. For a grid with `rowCount > 0` whose cells the model
counts, `rowCount * columnCount ≤ model->count()`, the count being an `int`:
the source function `modelIndexAtCell`, computing in `int`, maps every valid
cell to `row + column * rowCount`, it is a bijection from the valid cells onto
the indices `0 .. rowCount * columnCount - 1`, and `cellAtModelIndex` is its
inverse in both directions. -/
theorem modelIndexAtCell_bijection (s : State) (m : InstanceModel)
    (hrows : 0 < s.tableSize.height) (hmodel : s.model = some m)
    (hcount : s.tableSize.height * s.tableSize.width ≤ m.count) (hint : m.count ≤ intMax) :
    (∀ cell, validCell s cell →
      modelIndexAtCellInt s cell = some (cell.y + cell.x * s.tableSize.height) ∧
      0 ≤ cell.y + cell.x * s.tableSize.height ∧
      cell.y + cell.x * s.tableSize.height ≤ s.tableSize.height * s.tableSize.width - 1 ∧
      (modelIndexAtCellInt s cell).bind (cellAtModelIndex s) = some cell) ∧
    (∀ c d, validCell s c → validCell s d →
      modelIndexAtCellInt s c = modelIndexAtCellInt s d → c = d) ∧
    (∀ i, 0 ≤ i → i ≤ s.tableSize.height * s.tableSize.width - 1 →
      ∃ cell, cellAtModelIndex s i = some cell ∧ validCell s cell ∧
        modelIndexAtCellInt s cell = some i) := by
  refine ⟨fun cell hc => ?_, fun c d hc hd h => ?_, fun i h0 h1 => ?_⟩
  · have e := modelIndexAtCellInt_eq s m hmodel hcount hint cell hc
    have hnn := modelIndexAtCell_nonneg s cell hrows hc
    have hlt := modelIndexAtCell_lt s cell hc
    refine ⟨e, hnn, ?_, ?_⟩
    · simp only [modelIndexAtCell] at hlt
      omega
    · rw [e]
      exact cellAtModelIndex_modelIndexAtCell s cell hc
  · rw [modelIndexAtCellInt_eq s m hmodel hcount hint c hc,
      modelIndexAtCellInt_eq s m hmodel hcount hint d hd] at h
    exact modelIndexAtCell_injective s c d hc hd (Option.some.inj h)
  · obtain ⟨cell, h2, h3, h4⟩ := cellAtModelIndex_valid s i hrows h0 (by omega)
    exact ⟨cell, h2, h3, by rw [modelIndexAtCellInt_eq s m hmodel hcount hint cell h3, h4]⟩

/-- Claim C1, instance: in a grid of 10 columns and 1000 rows, whose model
counts 10000 items, the cell `(3, 4)` has index 3004 and index 3004 is mapped
back to it. -/
theorem modelIndexAtCell_bijection_witness :
    0 < exampleGrid.tableSize.height ∧
    exampleGrid.model = some ⟨true, 10000, 10, 1000, true⟩ ∧
    exampleGrid.tableSize.height * exampleGrid.tableSize.width ≤ 10000 ∧
    (10000 : Int) ≤ intMax ∧
    modelIndexAtCellInt exampleGrid ⟨3, 4⟩ = some (4 + 3 * exampleGrid.tableSize.height) ∧
    (modelIndexAtCellInt exampleGrid ⟨3, 4⟩).bind (cellAtModelIndex exampleGrid) = some ⟨3, 4⟩ :=
  ⟨by decide, rfl, by decide, by decide,
    ((modelIndexAtCell_bijection exampleGrid ⟨true, 10000, 10, 1000, true⟩ (by decide) rfl
      (by decide) (by decide)).1 ⟨3, 4⟩ (by decide)).1,
    ((modelIndexAtCell_bijection exampleGrid ⟨true, 10000, 10, 1000, true⟩ (by decide) rfl
      (by decide) (by decide)).1 ⟨3, 4⟩ (by decide)).2.2.2⟩

/-! ## Edge load/unload controller: proofs -/

/-- Claim C6. `canLoadTableEdge` is false when the loaded window already
touches the side of the grid, and otherwise it is true exactly when the outer
rectangle has not reached the corresponding side of the target rectangle by
more than the cell spacing. -/
theorem canLoadTableEdge_spec (s : State) (fillRect : QRectF) :
    (s.loadedTable.left = 0 → canLoadTableEdge s Edge.LeftEdge fillRect = false) ∧
    (s.loadedTable.left ≠ 0 → (canLoadTableEdge s Edge.LeftEdge fillRect = true ↔
      s.loadedTableOuterRect.left > fillRect.left + s.cellSpacing.width)) ∧
    (s.loadedTable.right ≥ s.tableSize.width - 1 →
      canLoadTableEdge s Edge.RightEdge fillRect = false) ∧
    (¬ s.loadedTable.right ≥ s.tableSize.width - 1 →
      (canLoadTableEdge s Edge.RightEdge fillRect = true ↔
        s.loadedTableOuterRect.right < fillRect.right - s.cellSpacing.width)) ∧
    (s.loadedTable.top = 0 → canLoadTableEdge s Edge.TopEdge fillRect = false) ∧
    (s.loadedTable.top ≠ 0 → (canLoadTableEdge s Edge.TopEdge fillRect = true ↔
      s.loadedTableOuterRect.top > fillRect.top + s.cellSpacing.height)) ∧
    (s.loadedTable.bottom ≥ s.tableSize.height - 1 →
      canLoadTableEdge s Edge.BottomEdge fillRect = false) ∧
    (¬ s.loadedTable.bottom ≥ s.tableSize.height - 1 →
      (canLoadTableEdge s Edge.BottomEdge fillRect = true ↔
        s.loadedTableOuterRect.bottom < fillRect.bottom - s.cellSpacing.height)) := by
  simp only [canLoadTableEdge, QRect.left, QRect.right, QRect.top, QRect.bottom,
    QRect.topLeft, QRect.bottomRight]
  refine ⟨?_, ?_, ?_, ?_, ?_, ?_, ?_, ?_⟩ <;> intro h <;> simp [h]

/-- Claim C7. `canUnloadTableEdge` is false when removing the edge would
leave fewer than one column or row, and otherwise it is true exactly when the
inner rectangle lies strictly outside the target rectangle on that side; the
inner rectangle set by `syncLoadedTableRectFromLoadedTable` spans from the
bottom-right corner of the top-left item to the top-left corner of the
bottom-right item, one cell in from every edge. -/
theorem canUnloadTableEdge_spec (s : State) (fillRect : QRectF) :
    (s.loadedTable.width ≤ 1 → canUnloadTableEdge s Edge.LeftEdge fillRect = false ∧
      canUnloadTableEdge s Edge.RightEdge fillRect = false) ∧
    (s.loadedTable.height ≤ 1 → canUnloadTableEdge s Edge.TopEdge fillRect = false ∧
      canUnloadTableEdge s Edge.BottomEdge fillRect = false) ∧
    (¬ s.loadedTable.width ≤ 1 →
      (canUnloadTableEdge s Edge.LeftEdge fillRect = true ↔
        s.loadedTableInnerRect.left < fillRect.left) ∧
      (canUnloadTableEdge s Edge.RightEdge fillRect = true ↔
        s.loadedTableInnerRect.right > fillRect.right)) ∧
    (¬ s.loadedTable.height ≤ 1 →
      (canUnloadTableEdge s Edge.TopEdge fillRect = true ↔
        s.loadedTableInnerRect.top < fillRect.top) ∧
      (canUnloadTableEdge s Edge.BottomEdge fillRect = true ↔
        s.loadedTableInnerRect.bottom > fillRect.bottom)) ∧
    ((syncLoadedTableRectFromLoadedTable s).loadedTableInnerRect.left =
        (loadedTableItem s s.loadedTable.topLeft).geometry.right ∧
      (syncLoadedTableRectFromLoadedTable s).loadedTableInnerRect.top =
        (loadedTableItem s s.loadedTable.topLeft).geometry.bottom ∧
      (syncLoadedTableRectFromLoadedTable s).loadedTableInnerRect.right =
        (loadedTableItem s s.loadedTable.bottomRight).geometry.left ∧
      (syncLoadedTableRectFromLoadedTable s).loadedTableInnerRect.bottom =
        (loadedTableItem s s.loadedTable.bottomRight).geometry.top) := by
  simp only [canUnloadTableEdge]
  refine ⟨?_, ?_, ?_, ?_, ?_⟩
  · intro h; simp [h]
  · intro h; simp [h]
  · intro h; simp [h]
  · intro h; simp [h]
  · simp [syncLoadedTableRectFromLoadedTable, QRectF.ofPoints, QRectF.left, QRectF.right,
      QRectF.top, QRectF.bottom, QRectF.bottomRight, QRectF.topLeft]

theorem firstEdgeSatisfying_allTableEdges (pred : Edge → Bool) :
    firstEdgeSatisfying pred allTableEdges =
      if pred Edge.LeftEdge then some Edge.LeftEdge
      else if pred Edge.RightEdge then some Edge.RightEdge
      else if pred Edge.TopEdge then some Edge.TopEdge
      else if pred Edge.BottomEdge then some Edge.BottomEdge
      else none := by
  simp [firstEdgeSatisfying, allTableEdges]

theorem firstEdgeSatisfying_some (pred : Edge → Bool) (edge : Edge) :
    firstEdgeSatisfying pred allTableEdges = some edge ↔
      (pred edge = true ∧ ∀ other, edgeRank other < edgeRank edge → pred other = false) := by
  rw [firstEdgeSatisfying_allTableEdges]
  constructor
  · intro h
    by_cases h1 : pred Edge.LeftEdge = true
    · simp [h1] at h; subst h
      exact ⟨h1, fun other ho => by cases other <;> simp [edgeRank, allTableEdges] at ho⟩
    by_cases h2 : pred Edge.RightEdge = true
    · simp [h1, h2] at h; subst h
      refine ⟨h2, fun other ho => ?_⟩
      cases other <;> simp [edgeRank, allTableEdges] at ho
      simpa using h1
    by_cases h3 : pred Edge.TopEdge = true
    · simp [h1, h2, h3] at h; subst h
      refine ⟨h3, fun other ho => ?_⟩
      cases other <;> simp [edgeRank, allTableEdges] at ho <;> first | simpa using h1 | simpa using h2
    by_cases h4 : pred Edge.BottomEdge = true
    · simp [h1, h2, h3, h4] at h; subst h
      refine ⟨h4, fun other ho => ?_⟩
      cases other <;> simp [edgeRank, allTableEdges] at ho <;>
        first | simpa using h1 | simpa using h2 | simpa using h3
    · simp [h1, h2, h3, h4] at h
  · rintro ⟨hp, hall⟩
    cases edge
    · simp [hp]
    · have := hall Edge.LeftEdge (by decide)
      simp [hp, this]
    · have h1 := hall Edge.LeftEdge (by decide)
      have h2 := hall Edge.RightEdge (by decide)
      simp [hp, h1, h2]
    · have h1 := hall Edge.LeftEdge (by decide)
      have h2 := hall Edge.RightEdge (by decide)
      have h3 := hall Edge.TopEdge (by decide)
      simp [hp, h1, h2, h3]

theorem firstEdgeSatisfying_none (pred : Edge → Bool) :
    firstEdgeSatisfying pred allTableEdges = none ↔ ∀ edge, pred edge = false := by
  rw [firstEdgeSatisfying_allTableEdges]
  constructor
  · intro h edge
    by_cases h1 : pred Edge.LeftEdge = true
    · simp [h1] at h
    by_cases h2 : pred Edge.RightEdge = true
    · simp [h1, h2] at h
    by_cases h3 : pred Edge.TopEdge = true
    · simp [h1, h2, h3] at h
    by_cases h4 : pred Edge.BottomEdge = true
    · simp [h1, h2, h3, h4] at h
    cases edge <;> simp_all
  · intro h
    simp [h]

/-- Claim C8. `nextEdgeToLoad` (`nextEdgeToUnload`) returns the first edge in
the order left, right, top, bottom for which `canLoadTableEdge`
(`canUnloadTableEdge`) holds, and no edge exactly when the predicate fails
for all four; when both the left and the bottom edge qualify, the left edge
is returned. -/
theorem nextEdge_first_in_order (s : State) (rect : QRectF) :
    allTableEdges = [Edge.LeftEdge, Edge.RightEdge, Edge.TopEdge, Edge.BottomEdge] ∧
    (∀ edge, nextEdgeToLoad s rect = some edge ↔
      (canLoadTableEdge s edge rect = true ∧
        ∀ other, edgeRank other < edgeRank edge → canLoadTableEdge s other rect = false)) ∧
    (nextEdgeToLoad s rect = none ↔ ∀ edge, canLoadTableEdge s edge rect = false) ∧
    (∀ edge, nextEdgeToUnload s rect = some edge ↔
      (canUnloadTableEdge s edge rect = true ∧
        ∀ other, edgeRank other < edgeRank edge → canUnloadTableEdge s other rect = false)) ∧
    (nextEdgeToUnload s rect = none ↔ ∀ edge, canUnloadTableEdge s edge rect = false) ∧
    (canLoadTableEdge s Edge.LeftEdge rect = true → canLoadTableEdge s Edge.BottomEdge rect = true →
      nextEdgeToLoad s rect = some Edge.LeftEdge) ∧
    (canUnloadTableEdge s Edge.LeftEdge rect = true →
      canUnloadTableEdge s Edge.BottomEdge rect = true →
      nextEdgeToUnload s rect = some Edge.LeftEdge) := by
  refine ⟨rfl, fun edge => firstEdgeSatisfying_some _ edge, firstEdgeSatisfying_none _,
    fun edge => firstEdgeSatisfying_some _ edge, firstEdgeSatisfying_none _, ?_, ?_⟩
  · intro h _
    simp [nextEdgeToLoad, firstEdgeSatisfying_allTableEdges, h]
  · intro h _
    simp [nextEdgeToUnload, firstEdgeSatisfying_allTableEdges, h]

/-! ## Invalidation: proofs -/

theorem cancelLoadRequest_of_tableInvalid (s : State) (h : s.tableInvalid = true) :
    cancelLoadRequest s =
      { s with
        loadRequest := s.loadRequest.markAsDone
        log := s.log ++ [Event.cancel (modelIndexAtCell s s.loadRequest.currentCell)] } := by
  simp [cancelLoadRequest, h, modelIndexAtCell, TableEdgeLoadRequest.markAsDone]

theorem invalidateTable_loadRequest_inactive (s : State) :
    (invalidateTable s).loadRequest.isActive = false := by
  unfold invalidateTable
  cases h : s.loadRequest.isActive
  · simp [h]
  · simp only [h, if_true]
    rw [cancelLoadRequest_of_tableInvalid _ rfl]
    rfl

theorem invalidateTable_tableInvalid (s : State) : (invalidateTable s).tableInvalid = true := by
  unfold invalidateTable
  cases h : s.loadRequest.isActive
  · simp [h]
  · simp only [h, if_true]
    rw [cancelLoadRequest_of_tableInvalid _ rfl]

theorem invalidateTable_polishScheduled (s : State) :
    (invalidateTable s).polishScheduled = true := by
  simp [invalidateTable]

theorem invalidateTable_of_invalid_inactive (s : State) (h1 : s.tableInvalid = true)
    (h2 : s.loadRequest.isActive = false) (h3 : s.polishScheduled = true) :
    invalidateTable s = s := by
  unfold invalidateTable
  cases s
  simp_all

/-- Claim C10. `invalidateTable` is idempotent: a second call in a row leaves
the whole state (the invalid flag, the load request, `loadedItems`,
`loadedTable` and everything else) as the first call left it, and therefore
the following reconciliation ends in the same state. -/
theorem invalidateTable_idempotent (s : State) (fuel : Nat) :
    invalidateTable (invalidateTable s) = invalidateTable s ∧
    (invalidateTable (invalidateTable s)).tableInvalid = (invalidateTable s).tableInvalid ∧
    (invalidateTable (invalidateTable s)).loadRequest = (invalidateTable s).loadRequest ∧
    (invalidateTable (invalidateTable s)).loadedItems = (invalidateTable s).loadedItems ∧
    (invalidateTable (invalidateTable s)).loadedTable = (invalidateTable s).loadedTable ∧
    updatePolish fuel (invalidateTable (invalidateTable s)) =
      updatePolish fuel (invalidateTable s) := by
  have h : invalidateTable (invalidateTable s) = invalidateTable s :=
    invalidateTable_of_invalid_inactive _ (invalidateTable_tableInvalid s)
      (invalidateTable_loadRequest_inactive s) (invalidateTable_polishScheduled s)
  refine ⟨h, ?_, ?_, ?_, ?_, ?_⟩ <;> rw [h]

/-! ## The item hash: lemmas -/

theorem ItemHash.keys_modify (h : ItemHash) (k : Int) (f : FxTableItem → FxTableItem) :
    (h.modify k f).keys = h.keys := by
  unfold ItemHash.modify ItemHash.keys
  rw [List.map_map]
  apply List.map_congr_left
  intro e _
  by_cases hk : e.1 = k <;> simp [hk]

theorem ItemHash.contains_iff (h : ItemHash) (k : Int) :
    h.contains k = true ↔ k ∈ h.keys := by
  simp only [ItemHash.contains, ItemHash.keys, List.any_eq_true, List.mem_map, beq_iff_eq]

theorem ItemHash.mem_keys_erase (h : ItemHash) (k j : Int) :
    j ∈ (h.erase k).keys ↔ j ≠ k ∧ j ∈ h.keys := by
  simp only [ItemHash.erase, ItemHash.keys, List.mem_map, List.mem_filter, Bool.not_eq_true',
    beq_eq_false_iff_ne, ne_eq]
  constructor
  · rintro ⟨e, ⟨he, hne⟩, rfl⟩
    exact ⟨hne, e, he, rfl⟩
  · rintro ⟨hne, e, he, rfl⟩
    exact ⟨e, ⟨he, hne⟩, rfl⟩

theorem ItemHash.mem_keys_insert (h : ItemHash) (k j : Int) (v : FxTableItem) :
    j ∈ (h.insert k v).keys ↔ j = k ∨ j ∈ h.keys := by
  have he := ItemHash.mem_keys_erase h k j
  simp only [ItemHash.keys] at he
  simp only [ItemHash.insert, ItemHash.keys, List.map_cons, List.mem_cons, he]
  constructor
  · rintro (h1 | ⟨_, h2⟩)
    · exact Or.inl h1
    · exact Or.inr h2
  · rintro (h1 | h2)
    · exact Or.inl h1
    · by_cases hjk : j = k
      · exact Or.inl hjk
      · exact Or.inr ⟨hjk, h2⟩

theorem ItemHash.erase_of_not_mem (h : ItemHash) (k : Int) (hk : k ∉ h.keys) :
    h.erase k = h := by
  unfold ItemHash.erase
  rw [List.filter_eq_self]
  intro e he
  simp only [Bool.not_eq_true', beq_eq_false_iff_ne, ne_eq]
  intro hek
  exact hk (List.mem_map.mpr ⟨e, he, hek⟩)

theorem ItemHash.isEmpty_iff (h : ItemHash) : h.isEmpty = true ↔ h.keys = [] := by
  cases h <;> simp [ItemHash.keys]

/-! ## The layout engine writes nothing of the shape -/

theorem shape_foldl {α : Type} (f : State → α → State) (h : ∀ s a, (f s a).shape = s.shape)
    (l : List α) (s : State) : (l.foldl f s).shape = s.shape := by
  induction l generalizing s with
  | nil => rfl
  | cons a l ih => simp only [List.foldl_cons]; rw [ih, h]

theorem shape_foldl_pair {α β : Type} (f : State × β → α → State × β)
    (h : ∀ acc a, (f acc a).1.shape = acc.1.shape)
    (l : List α) (acc : State × β) : (l.foldl f acc).1.shape = acc.1.shape := by
  induction l generalizing acc with
  | nil => rfl
  | cons a l ih => simp only [List.foldl_cons]; rw [ih, h]

theorem shape_updateTableItem (s : State) (cell : QPoint) (f : FxTableItem → FxTableItem) :
    (updateTableItem s cell f).shape = s.shape := by
  simp [updateTableItem, State.shape, ItemHash.keys_modify]

theorem shape_issueLayoutWarning (s : State) : (issueLayoutWarning s).shape = s.shape := by
  unfold issueLayoutWarning
  split <;> rfl

theorem shape_resolveColumnWidth (s : State) (column : Int) :
    (resolveColumnWidth s column).2.shape = s.shape := by
  unfold resolveColumnWidth
  split
  · split
    · exact shape_issueLayoutWarning s
    · split
      · exact shape_issueLayoutWarning s
      · rfl
  · exact shape_issueLayoutWarning s
  · simp only
    split
    · exact shape_issueLayoutWarning s
    · rfl

theorem shape_resolveRowHeight (s : State) (row : Int) :
    (resolveRowHeight s row).2.shape = s.shape := by
  unfold resolveRowHeight
  split
  · split
    · exact shape_issueLayoutWarning s
    · split
      · exact shape_issueLayoutWarning s
      · rfl
  · exact shape_issueLayoutWarning s
  · simp only
    split
    · exact shape_issueLayoutWarning s
    · rfl

theorem shape_setContentWidth (s : State) (w : ℚ) : (setContentWidth s w).shape = s.shape := by
  simp [setContentWidth, State.shape, Event.isBegin, Event.requestedIndex]

theorem shape_setContentHeight (s : State) (h : ℚ) : (setContentHeight s h).shape = s.shape := by
  simp [setContentHeight, State.shape, Event.isBegin, Event.requestedIndex]

theorem shape_updateContentWidth (s : State) : (updateContentWidth s).shape = s.shape := by
  unfold updateContentWidth
  simp only
  split_ifs <;> first | rfl | (rw [shape_setContentWidth]; rfl)

theorem shape_updateContentHeight (s : State) : (updateContentHeight s).shape = s.shape := by
  unfold updateContentHeight
  simp only
  split_ifs <;> first | rfl | (rw [shape_setContentHeight]; rfl)

theorem shape_relayoutColumnCells (s : State) (column : Int) (x w : ℚ) :
    (relayoutColumnCells s column x w).shape = s.shape := by
  unfold relayoutColumnCells
  exact shape_foldl _ (fun st row => shape_updateTableItem st _ _) _ s

theorem shape_relayoutRowCells (s : State) (row : Int) (y h : ℚ) :
    (relayoutRowCells s row y h).shape = s.shape := by
  unfold relayoutRowCells
  exact shape_foldl _ (fun st column => shape_updateTableItem st _ _) _ s

theorem shape_relayoutColumnStep (acc : State × ℚ) (column : Int) :
    (relayoutColumnStep acc column).1.shape = acc.1.shape := by
  simp only [relayoutColumnStep]
  rw [shape_relayoutColumnCells, shape_resolveColumnWidth]

theorem shape_relayoutRowStep (acc : State × ℚ) (row : Int) :
    (relayoutRowStep acc row).1.shape = acc.1.shape := by
  simp only [relayoutRowStep]
  rw [shape_relayoutRowCells, shape_resolveRowHeight]

theorem shape_relayoutTableItems (s : State) : (relayoutTableItems s).shape = s.shape := by
  simp only [relayoutTableItems]
  rw [shape_foldl_pair _ shape_relayoutRowStep, shape_foldl_pair _ shape_relayoutColumnStep]
  rfl

theorem shape_syncLoadedTableRectFromLoadedTable (s : State) :
    (syncLoadedTableRectFromLoadedTable s).shape = s.shape := rfl

theorem shape_with_layoutFields (s : State) (a b : QRectF) (p : QPoint) (f : Bool) :
    ({ s with
      loadedTableOuterRect := a
      loadedTableInnerRect := b
      contentSizeBenchMarkPoint := p
      columnRowPositionsInvalid := f } : State).shape = s.shape := rfl

theorem shape_with_outerRect (s : State) (a : QRectF) :
    ({ s with loadedTableOuterRect := a } : State).shape = s.shape := rfl

theorem shape_with_benchmark (s : State) (p : QPoint) :
    ({ s with contentSizeBenchMarkPoint := p } : State).shape = s.shape := rfl

theorem shape_with_positionsInvalid (s : State) (f : Bool) :
    ({ s with columnRowPositionsInvalid := f } : State).shape = s.shape := rfl

theorem shape_relayoutTable (s : State) : (relayoutTable s).shape = s.shape := by
  unfold relayoutTable
  simp only []
  rw [shape_updateContentHeight, shape_updateContentWidth, shape_with_benchmark,
    shape_syncLoadedTableRectFromLoadedTable, shape_with_positionsInvalid,
    shape_relayoutTableItems]

theorem shape_enforceFirstColumnAtOrigo (s : State) :
    (enforceFirstColumnAtOrigo s).1.shape = s.shape := by
  unfold enforceFirstColumnAtOrigo
  split_ifs <;> rfl

theorem shape_enforceFirstRowAtOrigo (s : State) (f : Bool) :
    (enforceFirstRowAtOrigo s f).1.shape = s.shape := by
  unfold enforceFirstRowAtOrigo
  split_ifs <;> rfl

theorem shape_enforceFirstRowColumnAtOrigo (s : State) :
    (enforceFirstRowColumnAtOrigo s).shape = s.shape := by
  unfold enforceFirstRowColumnAtOrigo
  simp only []
  split_ifs
  · rw [shape_relayoutTableItems, shape_enforceFirstRowAtOrigo, shape_enforceFirstColumnAtOrigo]
  · rw [shape_enforceFirstRowAtOrigo, shape_enforceFirstColumnAtOrigo]

theorem shape_layoutVerticalEdgeStep (tableEdge : Edge) (column : Int) (width : ℚ)
    (acc : State × ℚ) (row : Int) :
    (layoutVerticalEdgeStep tableEdge column width acc row).1.shape = acc.1.shape := by
  simp only [layoutVerticalEdgeStep]
  exact shape_updateTableItem _ _ _

theorem shape_layoutHorizontalEdgeStep (tableEdge : Edge) (row : Int) (height : ℚ)
    (acc : State × ℚ) (column : Int) :
    (layoutHorizontalEdgeStep tableEdge row height acc column).1.shape = acc.1.shape := by
  simp only [layoutHorizontalEdgeStep]
  exact shape_updateTableItem _ _ _

theorem shape_layoutVerticalEdge (s : State) (tableEdge : Edge) :
    (layoutVerticalEdge s tableEdge).shape = s.shape := by
  simp only [layoutVerticalEdge]
  rw [shape_foldl_pair _ (shape_layoutVerticalEdgeStep _ _ _)]
  exact shape_resolveColumnWidth _ _

theorem shape_layoutHorizontalEdge (s : State) (tableEdge : Edge) :
    (layoutHorizontalEdge s tableEdge).shape = s.shape := by
  simp only [layoutHorizontalEdge]
  rw [shape_foldl_pair _ (shape_layoutHorizontalEdgeStep _ _ _)]
  exact shape_resolveRowHeight _ _

theorem shape_layoutTopLeftItem (s : State) : (layoutTopLeftItem s).shape = s.shape := by
  simp only [layoutTopLeftItem]
  rw [shape_updateTableItem, shape_resolveRowHeight, shape_resolveColumnWidth,
    shape_updateTableItem]

theorem shape_layoutTableEdgeFromLoadRequest (s : State) :
    (layoutTableEdgeFromLoadRequest s).shape = s.shape := by
  unfold layoutTableEdgeFromLoadRequest
  split
  · exact shape_layoutVerticalEdge _ _
  · exact shape_layoutVerticalEdge _ _
  · exact shape_layoutHorizontalEdge _ _
  · exact shape_layoutHorizontalEdge _ _
  · exact shape_layoutTopLeftItem _

/-! ## Cells and indices -/

theorem cellIndex_injective (t : QSize) (c d : QPoint) (hc : cellInGrid t c)
    (hd : cellInGrid t d) (h : cellIndex t c = cellIndex t d) : c = d := by
  obtain ⟨_, _, hcy, hcy2⟩ := hc
  obtain ⟨_, _, hdy, hdy2⟩ := hd
  have hpos : 0 < t.height := by omega
  simp only [cellIndex] at h
  have h1 : (c.y + c.x * t.height) / t.height = c.x := by
    rw [Int.add_mul_ediv_right _ _ (ne_of_gt hpos), Int.ediv_eq_zero_of_lt hcy hcy2]; simp
  have h2 : (d.y + d.x * t.height) / t.height = d.x := by
    rw [Int.add_mul_ediv_right _ _ (ne_of_gt hpos), Int.ediv_eq_zero_of_lt hdy hdy2]; simp
  have h3 : (c.y + c.x * t.height) % t.height = c.y := by
    rw [Int.add_mul_emod_self, Int.emod_eq_of_lt hcy hcy2]
  have h4 : (d.y + d.x * t.height) % t.height = d.y := by
    rw [Int.add_mul_emod_self, Int.emod_eq_of_lt hdy hdy2]
  rw [h] at h1 h3
  have hx : c.x = d.x := h1.symm.trans h2
  have hy : c.y = d.y := h3.symm.trans h4
  cases c; cases d; simp_all

theorem cellInGrid_of_inGrid (r : QRect) (t : QSize) (c : QPoint) (hr : InGrid r t)
    (hc : r.containsCell c) : cellInGrid t c := by
  obtain ⟨h1, h2, h3, h4, h5, h6⟩ := hr
  obtain ⟨c1, c2, c3, c4⟩ := hc
  exact ⟨by omega, by omega, by omega, by omega⟩

theorem not_containsCell_null (c : QPoint) : ¬ QRect.null.containsCell c := by
  simp only [QRect.containsCell, QRect.null]
  omega

theorem inGrid_ne_null (r : QRect) (t : QSize) (hr : InGrid r t) : r ≠ QRect.null := by
  intro h
  subst h
  simp only [InGrid, QRect.null] at hr
  omega

theorem mem_intRange (lo hi i : Int) : i ∈ intRange lo hi ↔ lo ≤ i ∧ i ≤ hi := by
  simp only [intRange, List.mem_map, List.mem_range]
  constructor
  · rintro ⟨n, hn, rfl⟩
    omega
  · rintro ⟨h1, h2⟩
    exact ⟨(i - lo).toNat, by omega, by omega⟩

/-! ## Unloading items -/

theorem shape_releaseItem (s : State) (item : FxTableItem) (flag : ReusableFlag) :
    (releaseItem s item flag).shape = s.shape := by
  unfold releaseItem
  split_ifs
  · simp [State.shape, Event.isBegin, Event.requestedIndex]
  · split
    · split_ifs <;> simp [State.shape, Event.isBegin, Event.requestedIndex]
    · simp [State.shape, Event.isBegin, Event.requestedIndex]

theorem loadedItems_releaseItem (s : State) (item : FxTableItem) (flag : ReusableFlag) :
    (releaseItem s item flag).loadedItems = s.loadedItems := by
  unfold releaseItem
  split_ifs
  · rfl
  · split
    · split_ifs <;> rfl
    · rfl

theorem shape_with_loadedItems (s : State) (items : ItemHash) :
    ({ s with loadedItems := items } : State).shape = { s.shape with keys := items.keys } := rfl

theorem loadedItems_unloadItem (s : State) (cell : QPoint) :
    (unloadItem s cell).loadedItems = s.loadedItems.erase (modelIndexAtCell s cell) := by
  unfold unloadItem
  simp only []
  rw [loadedItems_releaseItem]

theorem shape_unloadItem (s : State) (cell : QPoint) :
    (unloadItem s cell).shape = { s.shape with keys := (unloadItem s cell).loadedItems.keys } := by
  rw [loadedItems_unloadItem]
  unfold unloadItem
  simp only []
  rw [shape_releaseItem, shape_with_loadedItems]

theorem shape_unloadCells (cells : List QPoint) (s : State) :
    (cells.foldl unloadItem s).shape =
      { s.shape with keys := (cells.foldl unloadItem s).loadedItems.keys } := by
  induction cells generalizing s with
  | nil => rfl
  | cons c cells ih =>
    simp only [List.foldl_cons]
    rw [ih (unloadItem s c), shape_unloadItem s c]

theorem mem_keys_unloadCells (cells : List QPoint) (s : State) (j : Int) :
    j ∈ (cells.foldl unloadItem s).loadedItems.keys ↔
      (j ∈ s.loadedItems.keys ∧ ∀ c ∈ cells, cellIndex s.tableSize c ≠ j) := by
  induction cells generalizing s with
  | nil => simp
  | cons c cells ih =>
    simp only [List.foldl_cons, List.mem_cons, forall_eq_or_imp]
    rw [ih (unloadItem s c), loadedItems_unloadItem, ItemHash.mem_keys_erase]
    have hts : (unloadItem s c).tableSize = s.tableSize :=
      congrArg Shape.tableSize (shape_unloadItem s c)
    rw [hts]
    simp only [modelIndexAtCell, cellIndex]
    constructor
    · rintro ⟨⟨h1, h2⟩, h3⟩
      exact ⟨h2, fun h => h1 h.symm, h3⟩
    · rintro ⟨h1, h2, h3⟩
      exact ⟨⟨fun h => h2 h.symm, h1⟩, h3⟩

/-- The cells visited by the loops of `unloadItems`. -/
theorem unloadItems_eq_foldl (s : State) (l : QLine) :
    unloadItems s l =
      (if l.dx ≠ 0 then (intRange l.p1.x l.p2.x).map (fun x => (⟨x, l.p1.y⟩ : QPoint))
        else (intRange l.p1.y l.p2.y).map (fun y => (⟨l.p1.x, y⟩ : QPoint))).foldl unloadItem s := by
  unfold unloadItems
  split_ifs <;> simp only [List.foldl_map]

theorem shape_unloadItems (s : State) (l : QLine) :
    (unloadItems s l).shape = { s.shape with keys := (unloadItems s l).loadedItems.keys } := by
  rw [unloadItems_eq_foldl]
  exact shape_unloadCells _ s

theorem mem_keys_unloadItems (s : State) (l : QLine) (hl : l.WellFormed) (j : Int) :
    j ∈ (unloadItems s l).loadedItems.keys ↔
      (j ∈ s.loadedItems.keys ∧ ∀ c, l.contains c → cellIndex s.tableSize c ≠ j) := by
  rw [unloadItems_eq_foldl, mem_keys_unloadCells]
  obtain ⟨hx, hy, hd⟩ := hl
  apply and_congr_right
  intro _
  by_cases hdx : l.dx ≠ 0
  · have hyy := hd hdx
    simp only [hdx, if_true, ne_eq, not_false_eq_true, List.mem_map, mem_intRange]
    constructor
    · intro h c hc
      obtain ⟨c1, c2, c3, c4⟩ := hc
      have : c = ⟨c.x, l.p1.y⟩ := by
        cases c; simp only [QPoint.mk.injEq, true_and]; simp only at c3 c4; omega
      exact h c ⟨c.x, ⟨c1, c2⟩, this.symm⟩
    · rintro h c ⟨x, ⟨h1, h2⟩, rfl⟩
      exact h _ ⟨h1, h2, le_refl _, by simp only; omega⟩
  · simp only [hdx, if_false, List.mem_map, mem_intRange]
    have hxx : l.p1.x = l.p2.x := by
      simp only [QLine.dx, ne_eq, not_not] at hdx; omega
    constructor
    · intro h c hc
      obtain ⟨c1, c2, c3, c4⟩ := hc
      have : c = ⟨l.p1.x, c.y⟩ := by
        cases c; simp only [QPoint.mk.injEq, and_true]; simp only at c1 c2; omega
      exact h c ⟨c.y, ⟨c3, c4⟩, this.symm⟩
    · rintro h c ⟨y, ⟨h1, h2⟩, rfl⟩
      exact h _ ⟨le_refl _, by simp only; omega, h1, h2⟩

/-! ## The structural invariant: steps of the load request -/

theorem Shape.Loading.transfer {h h' : Shape} (hl : h.Loading)
    (e1 : h'.loadedTable = h.loadedTable) (e2 : h'.tableSize = h.tableSize)
    (e3 : h'.loadRequest = h.loadRequest) (e4 : h'.tableInvalid = h.tableInvalid)
    (e5 : ∀ k, k ∈ h'.keys ↔ k ∈ h.keys) : h'.Loading := by
  obtain ⟨hw, he, hr, hx⟩ := hl
  constructor
  · rw [e1, e2]
    rcases hw with hw | ⟨hg, hf⟩
    · exact Or.inl hw
    · exact Or.inr ⟨hg, fun c hc => (e5 _).mpr (hf c hc)⟩
  · rw [e1, e2, e3]
    intro hn k hk
    exact he hn k ((e5 k).mp hk)
  · rw [e1, e2, e3]
    intro ha
    obtain ⟨r1, r2, r3, r4, r5, r6, r7⟩ := hr ha
    exact ⟨r1, r2, r3, r4, fun c hc => (e5 _).mpr (r5 c hc), r6, r7⟩
  · rw [e1, e2, e3, e4]
    intro hi k hk
    exact hx hi k ((e5 k).mp hk)

theorem hasCurrentCell_iff (r : TableEdgeLoadRequest) :
    r.hasCurrentCell = true ↔
      (r.active = true ∧ r.currentCell.x ≤ r.edgeCells.p2.x ∧ r.currentCell.y ≤ r.edgeCells.p2.y) := by
  simp [TableEdgeLoadRequest.hasCurrentCell, and_assoc]

theorem currentCell_on_line (r : TableEdgeLoadRequest) (hw : r.edgeCells.WellFormed)
    (hc : r.cursorOk) (hcur : r.hasCurrentCell = true) : r.edgeCells.contains r.currentCell := by
  obtain ⟨_, h2, h3⟩ := (hasCurrentCell_iff r).mp hcur
  obtain ⟨w1, w2, w3⟩ := hw
  obtain ⟨c1, c2⟩ := hc
  by_cases hd : r.edgeCells.dx ≠ 0
  · obtain ⟨a, b, _⟩ := c1 hd
    exact ⟨b, h2, by omega, h3⟩
  · simp only [ne_eq, not_not] at hd
    obtain ⟨a, b, _⟩ := c2 hd
    exact ⟨by omega, h2, b, h3⟩

theorem loadedBefore_moveToNextCell (r : TableEdgeLoadRequest) (hw : r.edgeCells.WellFormed)
    (hc : r.cursorOk) (c : QPoint) :
    r.moveToNextCell.loadedBefore c ↔
      (r.loadedBefore c ∨ (r.edgeCells.contains c ∧ c = r.currentCell)) := by
  obtain ⟨w1, w2, w3⟩ := hw
  obtain ⟨c1, c2⟩ := hc
  simp only [TableEdgeLoadRequest.loadedBefore, TableEdgeLoadRequest.moveToNextCell,
    TableEdgeLoadRequest.direction, QPoint.add, QLine.contains]
  by_cases hd : r.edgeCells.dx ≠ 0
  · obtain ⟨a, b, _⟩ := c1 hd
    have hyy := w3 hd
    simp only [hd, if_true, ne_eq, not_false_eq_true]
    constructor
    · rintro ⟨⟨l1, l2, l3, l4⟩, hlt⟩
      by_cases hx : c.x < r.currentCell.x
      · exact Or.inl ⟨⟨l1, l2, l3, l4⟩, Or.inl hx⟩
      · refine Or.inr ⟨⟨l1, l2, l3, l4⟩, ?_⟩
        cases c; cases hcc : r.currentCell
        simp only [hcc] at hx hlt a
        simp only [QPoint.mk.injEq]
        simp only at l3 l4
        omega
    · rintro (⟨hl, hlt⟩ | ⟨hl, rfl⟩)
      · exact ⟨hl, by omega⟩
      · exact ⟨hl, by omega⟩
  · simp only [hd, if_false]
    simp only [ne_eq, not_not] at hd
    obtain ⟨a, b, _⟩ := c2 hd
    have hxx : r.edgeCells.p1.x = r.edgeCells.p2.x := by
      simp only [QLine.dx] at hd; omega
    constructor
    · rintro ⟨⟨l1, l2, l3, l4⟩, hlt⟩
      by_cases hy : c.y < r.currentCell.y
      · exact Or.inl ⟨⟨l1, l2, l3, l4⟩, Or.inr hy⟩
      · refine Or.inr ⟨⟨l1, l2, l3, l4⟩, ?_⟩
        cases c; cases hcc : r.currentCell
        simp only [hcc] at hy hlt a
        simp only [QPoint.mk.injEq]
        simp only at l1 l2
        omega
    · rintro (⟨hl, hlt⟩ | ⟨hl, rfl⟩)
      · exact ⟨hl, by omega⟩
      · exact ⟨hl, by omega⟩

theorem cursorOk_moveToNextCell (r : TableEdgeLoadRequest) (hc : r.cursorOk)
    (hcur : r.hasCurrentCell = true) : r.moveToNextCell.cursorOk := by
  obtain ⟨_, h2, h3⟩ := (hasCurrentCell_iff r).mp hcur
  obtain ⟨c1, c2⟩ := hc
  simp only [TableEdgeLoadRequest.cursorOk, TableEdgeLoadRequest.moveToNextCell,
    TableEdgeLoadRequest.direction, QPoint.add]
  constructor
  · intro hd
    obtain ⟨a, b, _⟩ := c1 hd
    simp only [hd, if_true, ne_eq, not_false_eq_true]
    omega
  · intro hd
    obtain ⟨a, b, _⟩ := c2 hd
    simp only [hd, ne_eq, not_true_eq_false, if_false]
    omega

theorem mergedTable_moveToNextCell (r : TableEdgeLoadRequest) (w : QRect) :
    mergedTable r.moveToNextCell w = mergedTable r w := rfl

theorem Shape.Loading.advance {h h' : Shape} (hl : h.Loading)
    (hcur : h.loadRequest.hasCurrentCell = true)
    (e1 : h'.loadedTable = h.loadedTable) (e2 : h'.tableSize = h.tableSize)
    (e3 : h'.loadRequest = h.loadRequest.moveToNextCell)
    (e4 : h'.tableInvalid = h.tableInvalid)
    (e5 : ∀ k, k ∈ h'.keys ↔
      (k = cellIndex h.tableSize h.loadRequest.currentCell ∨ k ∈ h.keys)) : h'.Loading := by
  obtain ⟨hw, he, hr, hx⟩ := hl
  have hact : h.loadRequest.active = true := ((hasCurrentCell_iff _).mp hcur).1
  obtain ⟨r1, r2, r3, r4, r5, r6, r7⟩ := hr hact
  have hon := currentCell_on_line _ r1 r2 hcur
  have hb := loadedBefore_moveToNextCell _ r1 r2
  constructor
  · rw [e1, e2]
    rcases hw with hw | ⟨hg, hf⟩
    · exact Or.inl hw
    · exact Or.inr ⟨hg, fun c hc => (e5 _).mpr (Or.inr (hf c hc))⟩
  · rw [e1, e2, e3]
    intro hn k hk
    rcases (e5 k).mp hk with rfl | hk'
    · exact ⟨_, hact, (hb _).mpr (Or.inr ⟨hon, rfl⟩), rfl⟩
    · obtain ⟨c, _, hc, hk2⟩ := he hn k hk'
      exact ⟨c, hact, (hb _).mpr (Or.inl hc), hk2⟩
  · rw [e1, e2, e3]
    intro _
    refine ⟨r1, cursorOk_moveToNextCell _ r2 hcur, r3, r4, ?_, r6, r7⟩
    intro c hc
    rcases (hb c).mp hc with hc' | ⟨_, rfl⟩
    · exact (e5 _).mpr (Or.inr (r5 c hc'))
    · exact (e5 _).mpr (Or.inl rfl)
  · rw [e1, e2, e3, e4]
    intro hi k hk
    rcases (e5 k).mp hk with rfl | hk'
    · exact ⟨_, Or.inr ⟨hact, (hb _).mpr (Or.inr ⟨hon, rfl⟩)⟩, rfl⟩
    · obtain ⟨c, hc, hk2⟩ := hx hi k hk'
      rcases hc with hc | ⟨_, hc⟩
      · exact ⟨c, Or.inl hc, hk2⟩
      · exact ⟨c, Or.inr ⟨hact, (hb _).mpr (Or.inl hc)⟩, hk2⟩

theorem loadedBefore_of_done (r : TableEdgeLoadRequest) (hact : r.active = true)
    (hw : r.edgeCells.WellFormed) (hc : r.cursorOk) (hcur : r.hasCurrentCell = false)
    (c : QPoint) (hon : r.edgeCells.contains c) : r.loadedBefore c := by
  refine ⟨hon, ?_⟩
  obtain ⟨l1, l2, l3, l4⟩ := hon
  obtain ⟨w1, w2, w3⟩ := hw
  obtain ⟨c1, c2⟩ := hc
  have hn : ¬ (r.currentCell.x ≤ r.edgeCells.p2.x ∧ r.currentCell.y ≤ r.edgeCells.p2.y) := by
    intro hh
    have := (hasCurrentCell_iff r).mpr ⟨hact, hh.1, hh.2⟩
    rw [hcur] at this
    exact Bool.false_ne_true this
  by_cases hd : r.edgeCells.dx ≠ 0
  · obtain ⟨a, b, _⟩ := c1 hd
    have := w3 hd
    left
    by_contra hlt
    exact hn ⟨by omega, by omega⟩
  · simp only [ne_eq, not_not] at hd
    obtain ⟨a, b, _⟩ := c2 hd
    have hxx : r.edgeCells.p1.x = r.edgeCells.p2.x := by
      simp only [QLine.dx] at hd; omega
    right
    by_contra hlt
    exact hn ⟨by omega, by omega⟩

theorem Shape.Loading.complete {h h' : Shape} (hl : h.Loading)
    (hact : h.loadRequest.active = true) (hcur : h.loadRequest.hasCurrentCell = false)
    (e1 : h'.loadedTable = mergedTable h.loadRequest h.loadedTable)
    (e2 : h'.tableSize = h.tableSize)
    (e3 : h'.loadRequest = h.loadRequest.markAsDone)
    (e4 : h'.tableInvalid = h.tableInvalid)
    (e5 : ∀ k, k ∈ h'.keys ↔ k ∈ h.keys) : h'.Loading := by
  obtain ⟨hw, he, hr, hx⟩ := hl
  obtain ⟨r1, r2, r3, r4, r5, r6, r7⟩ := hr hact
  have hall := loadedBefore_of_done _ hact r1 r2 hcur
  have hne : h'.loadedTable ≠ QRect.null := by
    rw [e1]; exact inGrid_ne_null _ _ r6
  constructor
  · right
    rw [e1, e2]
    refine ⟨r6, fun c hc => (e5 _).mpr ?_⟩
    rcases (r7 c).mp hc with hc' | hc'
    · rcases hw with hw | ⟨_, hf⟩
      · rw [hw] at hc'; exact absurd hc' (not_containsCell_null c)
      · exact hf c hc'
    · exact r5 c (hall c hc')
  · intro hn
    exact absurd hn hne
  · rw [e3]
    intro ha
    simp [TableEdgeLoadRequest.markAsDone] at ha
  · rw [e1, e2, e4]
    intro hi k hk
    obtain ⟨c, hc, hk2⟩ := hx hi k ((e5 k).mp hk)
    refine ⟨c, Or.inl ((r7 c).mpr ?_), hk2⟩
    rcases hc with hc | ⟨_, hc⟩
    · exact Or.inl hc
    · exact Or.inr hc.1

theorem not_loadedBefore_of_atBeginning (r : TableEdgeLoadRequest)
    (hb : r.currentCell = r.edgeCells.p1) (c : QPoint) : ¬ r.loadedBefore c := by
  rintro ⟨⟨l1, _, l3, _⟩, hlt⟩
  rw [hb] at hlt
  omega

theorem Shape.Loading.cancelKeep {h h' : Shape} (hl : h.Loading)
    (hcur : h.loadRequest.hasCurrentCell = true)
    (hkeep : h.tableInvalid = true ∨ h.loadRequest.currentCell = h.loadRequest.edgeCells.p1)
    (e1 : h'.loadedTable = h.loadedTable) (e2 : h'.tableSize = h.tableSize)
    (e3 : h'.loadRequest = h.loadRequest.markAsDone)
    (e4 : h'.tableInvalid = h.tableInvalid)
    (e5 : ∀ k, k ∈ h'.keys ↔ k ∈ h.keys) : h'.Loading := by
  obtain ⟨hw, he, hr, hx⟩ := hl
  have hact : h.loadRequest.active = true := ((hasCurrentCell_iff _).mp hcur).1
  obtain ⟨r1, r2, r3, r4, r5, r6, r7⟩ := hr hact
  have hon := currentCell_on_line _ r1 r2 hcur
  constructor
  · rw [e1, e2]
    rcases hw with hw | ⟨hg, hf⟩
    · exact Or.inl hw
    · exact Or.inr ⟨hg, fun c hc => (e5 _).mpr (hf c hc)⟩
  · rw [e1]
    intro hn k hk
    exfalso
    obtain ⟨c, _, ⟨⟨l1, l2, l3, l4⟩, hlt⟩, _⟩ := he hn k ((e5 k).mp hk)
    have hp := r3 hn
    obtain ⟨m1, m2, m3, m4⟩ := hon
    rw [← hp] at l2 l4 m2 m4
    omega
  · rw [e3]
    intro ha
    simp [TableEdgeLoadRequest.markAsDone] at ha
  · rw [e1, e2, e4]
    intro hi k hk
    obtain ⟨c, hc, hk2⟩ := hx hi k ((e5 k).mp hk)
    rcases hc with hc | ⟨_, hc⟩
    · exact ⟨c, Or.inl hc, hk2⟩
    · rcases hkeep with hinv | hbeg
      · rw [hinv] at hi; exact absurd hi (by decide)
      · exact absurd hc (not_loadedBefore_of_atBeginning _ hbeg c)

theorem Shape.Loading.rollback {h h' : Shape} (hl : h.Loading)
    (hact : h.loadRequest.active = true)
    (e1 : h'.loadedTable = h.loadedTable) (e2 : h'.tableSize = h.tableSize)
    (e3 : h'.loadRequest = h.loadRequest.markAsDone)
    (e4 : h'.tableInvalid = h.tableInvalid)
    (e5 : ∀ k, k ∈ h'.keys ↔
      (k ∈ h.keys ∧ ∀ c, h.loadRequest.loadedBefore c → cellIndex h.tableSize c ≠ k)) :
    h'.Loading := by
  obtain ⟨hw, he, hr, hx⟩ := hl
  obtain ⟨r1, r2, r3, r4, r5, r6, r7⟩ := hr hact
  constructor
  · rw [e1, e2]
    rcases hw with hw | ⟨hg, hf⟩
    · exact Or.inl hw
    · refine Or.inr ⟨hg, fun c hc => (e5 _).mpr ⟨hf c hc, fun d hd hdc => ?_⟩⟩
      obtain ⟨hdv, hdn⟩ := r4 d hd.1
      have := cellIndex_injective _ d c hdv (cellInGrid_of_inGrid _ _ c hg hc) hdc
      rw [this] at hdn
      exact hdn hc
  · rw [e1]
    intro hn k hk
    exfalso
    obtain ⟨hk1, hk2⟩ := (e5 k).mp hk
    obtain ⟨c, _, hc, hkc⟩ := he hn k hk1
    exact hk2 c hc hkc
  · rw [e3]
    intro ha
    simp [TableEdgeLoadRequest.markAsDone] at ha
  · rw [e1, e2, e4]
    intro hi k hk
    obtain ⟨hk1, hk2⟩ := (e5 k).mp hk
    obtain ⟨c, hc, hkc⟩ := hx hi k hk1
    rcases hc with hc | ⟨_, hc⟩
    · exact ⟨c, Or.inl hc, hkc⟩
    · exact absurd hkc (hk2 c hc)

theorem edgeRemovable_inGrid (w : QRect) (t : QSize) (edge : Edge) (hg : InGrid w t)
    (hrem : edgeRemovable w edge) : InGrid (expandedRect w edge (-1)) t := by
  obtain ⟨g1, g2, g3, g4, g5, g6⟩ := hg
  cases edge <;>
    simp only [edgeRemovable, QRect.width, QRect.height] at hrem <;>
    simp only [InGrid, expandedRect, QRect.adjusted] <;>
    omega

theorem edgeRemovable_ne_null (w : QRect) (edge : Edge) (hrem : edgeRemovable w edge) :
    w ≠ QRect.null := by
  intro h
  subst h
  cases edge <;> simp [edgeRemovable, QRect.width, QRect.height, QRect.null] at hrem

theorem containsCell_shrunk (w : QRect) (edge : Edge) (c : QPoint) (hrem : edgeRemovable w edge) :
    (expandedRect w edge (-1)).containsCell c ↔
      (w.containsCell c ∧ ¬ (rectangleEdge w edge).contains c) := by
  cases edge <;>
    simp only [edgeRemovable, QRect.width, QRect.height] at hrem <;>
    simp only [expandedRect, QRect.adjusted, QRect.containsCell, rectangleEdge, QLine.contains,
      QRect.topLeft, QRect.bottomLeft, QRect.topRight, QRect.bottomRight] <;>
    omega

theorem rectangleEdge_subset (w : QRect) (edge : Edge) (c : QPoint)
    (hx : w.x1 ≤ w.x2) (hy : w.y1 ≤ w.y2)
    (hc : (rectangleEdge w edge).contains c) : w.containsCell c := by
  cases edge <;>
    simp only [QRect.containsCell, rectangleEdge, QLine.contains,
      QRect.topLeft, QRect.bottomLeft, QRect.topRight, QRect.bottomRight] at hc ⊢ <;>
    omega

theorem Shape.Loading.unload {h h' : Shape} (hl : h.Loading)
    (hinact : h.loadRequest.active = false) (edge : Edge)
    (hrem : edgeRemovable h.loadedTable edge)
    (e1 : h'.loadedTable = expandedRect h.loadedTable edge (-1))
    (e2 : h'.tableSize = h.tableSize)
    (e3 : h'.loadRequest = h.loadRequest)
    (e4 : h'.tableInvalid = h.tableInvalid)
    (e5 : ∀ k, k ∈ h'.keys ↔
      (k ∈ h.keys ∧ ∀ c, (rectangleEdge h.loadedTable edge).contains c →
        cellIndex h.tableSize c ≠ k)) :
    h'.Loading := by
  obtain ⟨hw, he, hr, hx⟩ := hl
  have hne := edgeRemovable_ne_null _ _ hrem
  rcases hw with hw | ⟨hg, hf⟩
  · exact absurd hw hne
  have hg' := edgeRemovable_inGrid _ _ _ hg hrem
  constructor
  · right
    rw [e1, e2]
    refine ⟨hg', fun c hc => (e5 _).mpr ?_⟩
    obtain ⟨hc1, hc2⟩ := (containsCell_shrunk _ _ c hrem).mp hc
    refine ⟨hf c hc1, fun d hd hdc => ?_⟩
    have hdw := rectangleEdge_subset _ _ d hg.2.1 hg.2.2.2.2.1 hd
    have := cellIndex_injective _ d c (cellInGrid_of_inGrid _ _ d hg hdw)
      (cellInGrid_of_inGrid _ _ c hg hc1) hdc
    rw [this] at hd
    exact hc2 hd
  · rw [e1]
    intro hn
    exact absurd hn (inGrid_ne_null _ _ hg')
  · rw [e3]
    intro ha
    rw [hinact] at ha
    exact absurd ha (by decide)
  · rw [e1, e2, e3, e4]
    intro hi k hk
    obtain ⟨hk1, hk2⟩ := (e5 k).mp hk
    obtain ⟨c, hc, hkc⟩ := hx hi k hk1
    rcases hc with hc | ⟨ha, _⟩
    · refine ⟨c, Or.inl ((containsCell_shrunk _ _ c hrem).mpr ⟨hc, fun hon => ?_⟩), hkc⟩
      exact hk2 c hon hkc
    · rw [hinact] at ha
      exact absurd ha (by decide)

theorem edgeHasRoom_merged (w : QRect) (t : QSize) (edge : Edge) (mode : IncubationMode)
    (r : TableEdgeLoadRequest) (hg : InGrid w t) (hroom : edgeHasRoom w t edge) :
    let line := rectangleEdge (expandedRect w edge 1) edge
    let r' := r.begin line edge mode
    line.WellFormed ∧ r'.cursorOk ∧
    (∀ c, line.contains c → cellInGrid t c ∧ ¬ w.containsCell c) ∧
    InGrid (mergedTable r' w) t ∧
    (∀ c, (mergedTable r' w).containsCell c ↔ (w.containsCell c ∨ line.contains c)) := by
  obtain ⟨g1, g2, g3, g4, g5, g6⟩ := hg
  cases edge <;>
    simp only [edgeHasRoom, QRect.topLeft, QRect.bottomRight] at hroom <;>
    simp only [TableEdgeLoadRequest.begin, TableEdgeLoadRequest.cursorOk, mergedTable,
      rectangleEdge, expandedRect, QRect.adjusted, QLine.WellFormed, QLine.dx, QLine.contains,
      QRect.topLeft, QRect.bottomLeft, QRect.topRight, QRect.bottomRight, QRect.setTopLeft,
      QRect.setBottomRight, TableEdgeLoadRequest.firstCell, TableEdgeLoadRequest.lastCell,
      cellInGrid, InGrid, QRect.containsCell] <;>
    refine ⟨?_, ?_, ?_, ?_, ?_⟩ <;>
    intros
  all_goals first
    | omega
    | (refine ⟨?_, ?_, ?_⟩ <;> intros <;> omega)
    | (refine ⟨?_, ?_⟩ <;> intros <;> omega)
    | (constructor <;> intro hh <;> omega)
    | exact ⟨by omega, by omega, fun _ => trivial⟩
    | (constructor <;> intro _ <;> refine ⟨trivial, ?_, ?_⟩ <;> omega)

theorem Shape.Loading.begin {h h' : Shape} (hl : h.Loading)
    (hinact : h.loadRequest.active = false) (hne : h.loadedTable ≠ QRect.null)
    (edge : Edge) (mode : IncubationMode) (hroom : edgeHasRoom h.loadedTable h.tableSize edge)
    (e1 : h'.loadedTable = h.loadedTable) (e2 : h'.tableSize = h.tableSize)
    (e3 : h'.loadRequest =
      h.loadRequest.begin (rectangleEdge (expandedRect h.loadedTable edge 1) edge) edge mode)
    (e4 : h'.tableInvalid = h.tableInvalid)
    (e5 : ∀ k, k ∈ h'.keys ↔ k ∈ h.keys) : h'.Loading := by
  obtain ⟨hw, he, hr, hx⟩ := hl
  rcases hw with hw | ⟨hg, hf⟩
  · exact absurd hw hne
  obtain ⟨m1, m2, m3, m4, m5⟩ := edgeHasRoom_merged _ _ edge mode h.loadRequest hg hroom
  have hbeg : ∀ c, ¬ (h.loadRequest.begin (rectangleEdge (expandedRect h.loadedTable edge 1) edge)
      edge mode).loadedBefore c :=
    fun c => not_loadedBefore_of_atBeginning _ rfl c
  constructor
  · rw [e1, e2]
    exact Or.inr ⟨hg, fun c hc => (e5 _).mpr (hf c hc)⟩
  · rw [e1]
    intro hn
    exact absurd hn hne
  · rw [e1, e2, e3]
    intro _
    exact ⟨m1, m2, fun hn => absurd hn hne, m3, fun c hc => absurd hc (hbeg c), m4, m5⟩
  · rw [e1, e2, e3, e4]
    intro hi k hk
    obtain ⟨c, hc, hkc⟩ := hx hi k ((e5 k).mp hk)
    rcases hc with hc | ⟨ha, _⟩
    · exact ⟨c, Or.inl hc, hkc⟩
    · rw [hinact] at ha
      exact absurd ha (by decide)

theorem Shape.Loading.beginCell {h h' : Shape} (hl : h.Loading)
    (hinact : h.loadRequest.active = false) (hnull : h.loadedTable = QRect.null)
    (mode : IncubationMode) (hsize : 1 ≤ h.tableSize.width ∧ 1 ≤ h.tableSize.height)
    (e1 : h'.loadedTable = h.loadedTable) (e2 : h'.tableSize = h.tableSize)
    (e3 : h'.loadRequest = h.loadRequest.beginCell ⟨0, 0⟩ mode)
    (_e4 : h'.tableInvalid = h.tableInvalid)
    (e5 : ∀ k, k ∈ h'.keys ↔ k ∈ h.keys) : h'.Loading := by
  obtain ⟨hw, he, hr, hx⟩ := hl
  have hbeg : ∀ c, ¬ (h.loadRequest.beginCell ⟨0, 0⟩ mode).loadedBefore c :=
    fun c => not_loadedBefore_of_atBeginning _ rfl c
  have hnokey : ∀ k, k ∉ h.keys := by
    intro k hk
    obtain ⟨c, ha, _⟩ := he hnull k hk
    rw [hinact] at ha
    exact absurd ha (by decide)
  constructor
  · rw [e1]
    exact Or.inl hnull
  · intro _ k hk
    exact absurd ((e5 k).mp hk) (hnokey k)
  · rw [e1, e2, e3, hnull]
    intro _
    refine ⟨?_, ?_, fun _ => rfl, ?_, fun c hc => absurd hc (hbeg c), ?_, ?_⟩
    · simp [TableEdgeLoadRequest.beginCell, QLine.WellFormed, QLine.dx]
    · simp [TableEdgeLoadRequest.beginCell, TableEdgeLoadRequest.cursorOk, QLine.dx]
    · intro c hc
      simp only [TableEdgeLoadRequest.beginCell, QLine.contains] at hc
      refine ⟨⟨by omega, by omega, by omega, by omega⟩, not_containsCell_null c⟩
    · simp only [TableEdgeLoadRequest.beginCell, mergedTable, QRect.ofPoints,
        TableEdgeLoadRequest.firstCell, TableEdgeLoadRequest.lastCell, InGrid]
      omega
    · intro c
      simp only [TableEdgeLoadRequest.beginCell, mergedTable, QRect.ofPoints,
        TableEdgeLoadRequest.firstCell, TableEdgeLoadRequest.lastCell, QRect.containsCell,
        QRect.null, QLine.contains]
      omega
  · intro _ k hk
    exact absurd ((e5 k).mp hk) (hnokey k)

/-! ## The loading loop -/

theorem shape_createFxTableItem (s : State) (cell : QPoint) (mode : IncubationMode) :
    (createFxTableItem s cell mode).2.shape =
      { s.shape with
        factoryScript := s.factoryScript.tail
        requested := s.shape.requested ++ [modelIndexAtCell s cell] } ∧
    (createFxTableItem s cell mode).2.loadedItems = s.loadedItems := by
  unfold createFxTableItem
  simp only []
  split <;> simp [State.shape, Event.isBegin, Event.requestedIndex]

theorem shape_loadFxTableItem (s : State) (cell : QPoint) (mode : IncubationMode) :
    (loadFxTableItem s cell mode).2.shape =
      { s.shape with
        factoryScript := s.factoryScript.tail
        requested := s.shape.requested ++ [modelIndexAtCell s cell] } ∧
    (loadFxTableItem s cell mode).2.loadedItems = s.loadedItems := by
  unfold loadFxTableItem
  obtain ⟨h1, h2⟩ := shape_createFxTableItem { s with blockItemCreatedCallback := true } cell mode
  constructor
  · have := congrArg (fun h : Shape => { h with blockItemCreatedCallback := s.blockItemCreatedCallback }) h1
    simpa [State.shape, modelIndexAtCell] using this
  · exact h2

theorem remaining_moveToNextCell (r : TableEdgeLoadRequest) (hcur : r.hasCurrentCell = true) :
    r.moveToNextCell.remaining + 1 = r.remaining := by
  obtain ⟨_, h2, h3⟩ := (hasCurrentCell_iff r).mp hcur
  simp only [TableEdgeLoadRequest.remaining, TableEdgeLoadRequest.moveToNextCell,
    TableEdgeLoadRequest.direction, QPoint.add]
  split_ifs <;> simp only [] <;> omega

theorem hasCurrentCell_of_remaining_zero (r : TableEdgeLoadRequest) (h : r.remaining = 0) :
    r.hasCurrentCell = false := by
  cases hc : r.hasCurrentCell
  · rfl
  · obtain ⟨_, h2, h3⟩ := (hasCurrentCell_iff r).mp hc
    simp only [TableEdgeLoadRequest.remaining] at h
    omega

theorem loadFxTableItem_fields (s : State) (cell : QPoint) (mode : IncubationMode) :
    (loadFxTableItem s cell mode).2.loadedTable = s.loadedTable ∧
    (loadFxTableItem s cell mode).2.tableSize = s.tableSize ∧
    (loadFxTableItem s cell mode).2.loadRequest = s.loadRequest ∧
    (loadFxTableItem s cell mode).2.tableInvalid = s.tableInvalid ∧
    (loadFxTableItem s cell mode).2.loadedItems = s.loadedItems := by
  have h := (shape_loadFxTableItem s cell mode).1
  exact ⟨(congrArg Shape.loadedTable h :), (congrArg Shape.tableSize h :),
    (congrArg Shape.loadRequest h :), (congrArg Shape.tableInvalid h :),
    (shape_loadFxTableItem s cell mode).2⟩

/-- The bound `remaining` is enough: more iterations do not change the result
of the loading loop, so the loop never stops for lack of iterations. -/
theorem loadRequestedCells_fuel (n : Nat) (s : State) (hn : s.loadRequest.remaining ≤ n) :
    loadRequestedCells (n + 1) s = loadRequestedCells n s := by
  induction n generalizing s with
  | zero =>
    have h0 := hasCurrentCell_of_remaining_zero _ (Nat.le_zero.mp hn)
    simp [loadRequestedCells, h0]
  | succ n ih =>
    rw [loadRequestedCells]
    conv_rhs => rw [loadRequestedCells]
    cases hc : s.loadRequest.hasCurrentCell
    · simp
    · simp only [if_true]
      split
      · rfl
      · rename_i item hitem
        apply ih
        have hreq := (loadFxTableItem_fields s s.loadRequest.currentCell
          s.loadRequest.incubationMode).2.2.1
        simp only [hreq]
        have := remaining_moveToNextCell _ hc
        omega

theorem loadRequestedCells_flag (n : Nat) (s : State) :
    (loadRequestedCells n s).1.loadRequest.hasCurrentCell = !(loadRequestedCells n s).2 := by
  induction n generalizing s with
  | zero => simp [loadRequestedCells]
  | succ n ih =>
    rw [loadRequestedCells]
    cases hc : s.loadRequest.hasCurrentCell
    · simp [hc]
    · simp only [if_true]
      split
      · have hreq := (loadFxTableItem_fields s s.loadRequest.currentCell
          s.loadRequest.incubationMode).2.2.1
        simp [hreq, hc]
      · exact ih _

theorem loadRequestedCells_loading (n : Nat) (s : State) (hl : s.shape.Loading)
    (hact : s.loadRequest.active = true) :
    (loadRequestedCells n s).1.shape.Loading ∧
    (loadRequestedCells n s).1.loadRequest.active = true := by
  induction n generalizing s with
  | zero => exact ⟨hl, hact⟩
  | succ n ih =>
    rw [loadRequestedCells]
    obtain ⟨f1, f2, f3, f4, f5⟩ := loadFxTableItem_fields s s.loadRequest.currentCell
      s.loadRequest.incubationMode
    cases hc : s.loadRequest.hasCurrentCell
    · exact ⟨hl, hact⟩
    · simp only [if_true]
      split
      · refine ⟨hl.transfer f1 f2 f3 f4 ?_, ?_⟩
        · intro k
          show k ∈ ItemHash.keys _ ↔ _
          rw [f5]
          rfl
        · rw [f3]; exact hact
      · rename_i item hitem
        apply ih
        · refine hl.advance hc f1 f2 ?_ f4 ?_
          · show TableEdgeLoadRequest.moveToNextCell _ = _
            rw [f3]
            rfl
          · intro k
            show k ∈ ItemHash.keys (ItemHash.insert _ _ _) ↔ _
            rw [ItemHash.mem_keys_insert, f5]
            simp only [modelIndexAtCell, f2]
            rfl
        · show (TableEdgeLoadRequest.moveToNextCell _).active = true
          rw [f3]
          exact hact

/-! ## Completion of a load request -/

theorem shape_syncLoadedTableFromLoadRequest (s : State) :
    (syncLoadedTableFromLoadRequest s).shape =
      { s.shape with loadedTable := mergedTable s.loadRequest s.loadedTable } := by
  unfold syncLoadedTableFromLoadRequest mergedTable
  split <;> simp_all [State.shape]

theorem shape_markDoneAndDrain (t : State) :
    (match ({ t with loadRequest := t.loadRequest.markAsDone } : State).model with
      | some m =>
        if m.isTableModel then
          { ({ t with loadRequest := t.loadRequest.markAsDone } : State) with
            log := ({ t with loadRequest := t.loadRequest.markAsDone } : State).log ++
              [Event.drainReusableItemsPool] }
        else ({ t with loadRequest := t.loadRequest.markAsDone } : State)
      | none => ({ t with loadRequest := t.loadRequest.markAsDone } : State)).shape =
      { t.shape with loadRequest := t.loadRequest.markAsDone } := by
  split
  · split_ifs
    · simp [State.shape, Event.isBegin, Event.requestedIndex]
    · rfl
  · rfl

theorem shape_finishLoadRequest (s : State) :
    (finishLoadRequest s).shape =
      { s.shape with
        loadedTable := mergedTable s.loadRequest s.loadedTable
        loadRequest := s.loadRequest.markAsDone } := by
  have h5 : (updateContentHeight (updateContentWidth (enforceFirstRowColumnAtOrigo
      (syncLoadedTableRectFromLoadedTable (layoutTableEdgeFromLoadRequest
        (syncLoadedTableFromLoadRequest s)))))).shape =
      { s.shape with loadedTable := mergedTable s.loadRequest s.loadedTable } := by
    rw [shape_updateContentHeight, shape_updateContentWidth, shape_enforceFirstRowColumnAtOrigo,
      shape_syncLoadedTableRectFromLoadedTable, shape_layoutTableEdgeFromLoadRequest,
      shape_syncLoadedTableFromLoadRequest]
  unfold finishLoadRequest
  simp only []
  rw [shape_markDoneAndDrain, h5]
  have hreq := (congrArg Shape.loadRequest h5 :)
  simp only [State.shape] at hreq
  rw [hreq]

theorem processLoadRequest_loading (s : State) (hl : s.shape.Loading)
    (hact : s.loadRequest.active = true) :
    (processLoadRequest s).shape.Loading ∧
    ((processLoadRequest s).loadRequest.active = true →
      (processLoadRequest s).loadRequest.hasCurrentCell = true) := by
  unfold processLoadRequest
  simp only []
  obtain ⟨h1, h2⟩ := loadRequestedCells_loading s.loadRequest.remaining s hl hact
  have h3 := loadRequestedCells_flag s.loadRequest.remaining s
  cases hflag : (loadRequestedCells s.loadRequest.remaining s).2
  · simp only [Bool.false_eq_true, if_false]
    rw [hflag] at h3
    exact ⟨h1, fun _ => by simpa using h3⟩
  · simp only [if_true]
    rw [hflag] at h3
    have hsh := shape_finishLoadRequest (loadRequestedCells s.loadRequest.remaining s).1
    refine ⟨h1.complete h2 (by simpa using h3) (congrArg Shape.loadedTable hsh :)
      (congrArg Shape.tableSize hsh :) (congrArg Shape.loadRequest hsh :)
      (congrArg Shape.tableInvalid hsh :) ?_, ?_⟩
    · intro k
      rw [(congrArg Shape.keys hsh :)]
    · intro ha
      have := (congrArg Shape.loadRequest hsh :)
      simp only [State.shape] at this
      rw [this] at ha
      simp [TableEdgeLoadRequest.markAsDone] at ha

theorem processLoadRequest_consistent (s : State) (hs : Consistent s)
    (hact : s.loadRequest.active = true) : Consistent (processLoadRequest s) :=
  processLoadRequest_loading s hs.1 hact

/-! ## Cancellation -/

theorem QPoint.eq_of_coords (a b : QPoint) (hx : a.x = b.x) (hy : a.y = b.y) : a = b := by
  cases a; cases b; simp_all

theorem rollbackLine_spec (r : TableEdgeLoadRequest) (hw : r.edgeCells.WellFormed)
    (hc : r.cursorOk) (hcur : r.hasCurrentCell = true)
    (hnb : r.currentCell ≠ r.edgeCells.p1) :
    (⟨r.firstCell, r.previousCell⟩ : QLine).WellFormed ∧
    ∀ c, (⟨r.firstCell, r.previousCell⟩ : QLine).contains c ↔ r.loadedBefore c := by
  obtain ⟨_, h2, h3⟩ := (hasCurrentCell_iff r).mp hcur
  obtain ⟨w1, w2, w3⟩ := hw
  obtain ⟨c1, c2⟩ := hc
  simp only [TableEdgeLoadRequest.firstCell, TableEdgeLoadRequest.previousCell,
    TableEdgeLoadRequest.direction, QPoint.sub, TableEdgeLoadRequest.loadedBefore]
  by_cases hd : r.edgeCells.dx ≠ 0
  · obtain ⟨a, b, _⟩ := c1 hd
    have hyy := w3 hd
    have hgt : r.edgeCells.p1.x < r.currentCell.x := by
      by_contra hle
      exact hnb (QPoint.eq_of_coords _ _ (by omega) a)
    simp only [hd, if_true, ne_eq, not_false_eq_true]
    simp only [QLine.WellFormed, QLine.contains, QLine.dx]
    refine ⟨⟨by omega, by omega, fun _ => by omega⟩, fun c => ?_⟩
    constructor
    · rintro ⟨l1, l2, l3, l4⟩
      exact ⟨⟨l1, by omega, l3, by omega⟩, Or.inl (by omega)⟩
    · rintro ⟨⟨l1, l2, l3, l4⟩, hlt⟩
      exact ⟨l1, by omega, l3, by omega⟩
  · simp only [ne_eq, not_not] at hd
    obtain ⟨a, b, _⟩ := c2 hd
    have hxx : r.edgeCells.p1.x = r.edgeCells.p2.x := by
      simp only [QLine.dx] at hd; omega
    have hgt : r.edgeCells.p1.y < r.currentCell.y := by
      by_contra hle
      exact hnb (QPoint.eq_of_coords _ _ a (by omega))
    simp only [hd, ne_eq, not_true_eq_false, if_false]
    simp only [QLine.WellFormed, QLine.contains, QLine.dx]
    refine ⟨⟨by omega, by omega, fun _ => by omega⟩, fun c => ?_⟩
    constructor
    · rintro ⟨l1, l2, l3, l4⟩
      exact ⟨⟨l1, by omega, l3, by omega⟩, Or.inr (by omega)⟩
    · rintro ⟨⟨l1, l2, l3, l4⟩, hlt⟩
      exact ⟨l1, by omega, l3, by omega⟩

theorem shape_with_cancelled (s : State) (k : Int) :
    ({ s with
      loadRequest := s.loadRequest.markAsDone
      log := s.log ++ [Event.cancel k] } : State).shape =
      { s.shape with loadRequest := s.loadRequest.markAsDone } := by
  simp [State.shape, Event.isBegin, Event.requestedIndex]

/-- The two ways `cancelLoadRequest` ends: without unloading, or by unloading
the cells from the first to the previous one. -/
theorem cancelLoadRequest_eq (s : State) :
    cancelLoadRequest s =
      if s.tableInvalid = true ∨ s.loadRequest.currentCell = s.loadRequest.edgeCells.p1 then
        { s with
          loadRequest := s.loadRequest.markAsDone
          log := s.log ++ [Event.cancel (modelIndexAtCell s s.loadRequest.currentCell)] }
      else
        unloadItems
          { s with
            loadRequest := s.loadRequest.markAsDone
            log := s.log ++ [Event.cancel (modelIndexAtCell s s.loadRequest.currentCell)] }
          ⟨s.loadRequest.firstCell, s.loadRequest.previousCell⟩ := by
  unfold cancelLoadRequest
  simp only [TableEdgeLoadRequest.atBeginning, TableEdgeLoadRequest.markAsDone,
    decide_eq_true_eq, modelIndexAtCell]
  by_cases h1 : s.tableInvalid = true
  · simp [h1]
  · by_cases h2 : s.loadRequest.currentCell = s.loadRequest.edgeCells.p1
    · simp [h1, h2]
    · simp only [h1, h2, if_false, or_self]
      rfl

theorem cancelLoadRequest_inactive (s : State) :
    (cancelLoadRequest s).loadRequest.active = false := by
  rw [cancelLoadRequest_eq]
  split_ifs
  · rfl
  · have := (congrArg Shape.loadRequest (shape_unloadItems
      { s with
        loadRequest := s.loadRequest.markAsDone
        log := s.log ++ [Event.cancel (modelIndexAtCell s s.loadRequest.currentCell)] }
      ⟨s.loadRequest.firstCell, s.loadRequest.previousCell⟩) :)
    simp only [State.shape] at this
    rw [this]
    rfl

theorem cancelLoadRequest_consistent (s : State) (hs : Consistent s)
    (hact : s.loadRequest.active = true) : Consistent (cancelLoadRequest s) := by
  obtain ⟨hl, hcur⟩ := hs
  have hcur := hcur hact
  refine ⟨?_, fun ha => ?_⟩
  swap
  · rw [cancelLoadRequest_inactive] at ha
    exact absurd ha (by decide)
  rw [cancelLoadRequest_eq]
  split_ifs with hkeep
  · have hsh := shape_with_cancelled s (modelIndexAtCell s s.loadRequest.currentCell)
    exact hl.cancelKeep hcur hkeep (congrArg Shape.loadedTable hsh :)
      (congrArg Shape.tableSize hsh :) (congrArg Shape.loadRequest hsh :)
      (congrArg Shape.tableInvalid hsh :) (fun k => by rw [(congrArg Shape.keys hsh :)])
  · have hnot : ¬ s.tableInvalid = true ∧ s.loadRequest.currentCell ≠ s.loadRequest.edgeCells.p1 :=
      not_or.mp hkeep
    obtain ⟨r1, r2, _⟩ := hl.request hact
    obtain ⟨hwf, hiff⟩ := rollbackLine_spec s.loadRequest r1 r2 hcur hnot.2
    have hsh := shape_unloadItems
      { s with
        loadRequest := s.loadRequest.markAsDone
        log := s.log ++ [Event.cancel (modelIndexAtCell s s.loadRequest.currentCell)] }
      ⟨s.loadRequest.firstCell, s.loadRequest.previousCell⟩
    rw [shape_with_cancelled] at hsh
    refine hl.rollback hact (congrArg Shape.loadedTable hsh :)
      (congrArg Shape.tableSize hsh :) (congrArg Shape.loadRequest hsh :)
      (congrArg Shape.tableInvalid hsh :) (fun k => ?_)
    show k ∈ ItemHash.keys _ ↔ _
    rw [mem_keys_unloadItems _ _ hwf]
    constructor
    · rintro ⟨h1, h2⟩
      exact ⟨h1, fun c hc => h2 c ((hiff c).mpr hc)⟩
    · rintro ⟨h1, h2⟩
      exact ⟨h1, fun c hc => h2 c ((hiff c).mp hc)⟩

/-! ## Unloading and loading an edge -/

theorem rectangleEdge_wellFormed (w : QRect) (edge : Edge) (hx : w.x1 ≤ w.x2)
    (hy : w.y1 ≤ w.y2) : (rectangleEdge w edge).WellFormed := by
  cases edge <;>
    simp only [rectangleEdge, QLine.WellFormed, QLine.dx, QRect.topLeft, QRect.bottomLeft,
      QRect.topRight, QRect.bottomRight] <;>
    exact ⟨by omega, by omega, fun _ => by first | omega | trivial⟩

theorem edgeRemovable_of_canUnload (s : State) (edge : Edge) (rect : QRectF)
    (h : canUnloadTableEdge s edge rect = true) : edgeRemovable s.loadedTable edge := by
  cases edge <;> simp only [canUnloadTableEdge] at h <;> simp only [edgeRemovable] <;>
    by_contra hle <;> simp [not_lt.mp hle] at h

theorem edgeHasRoom_of_canLoad (s : State) (edge : Edge) (rect : QRectF)
    (h : canLoadTableEdge s edge rect = true) : edgeHasRoom s.loadedTable s.tableSize edge := by
  cases edge <;> simp only [canLoadTableEdge] at h <;> simp only [edgeHasRoom] <;>
    intro hle <;> simp [hle] at h

theorem shape_unloadEdge (s : State) (edge : Edge) :
    (unloadEdge s edge).shape =
      { s.shape with
        loadedTable := expandedRect s.loadedTable edge (-1)
        keys := (unloadItems s (rectangleEdge s.loadedTable edge)).loadedItems.keys } := by
  unfold unloadEdge
  simp only []
  rw [shape_syncLoadedTableRectFromLoadedTable]
  have hsh := shape_unloadItems s (rectangleEdge s.loadedTable edge)
  have hlt := (congrArg Shape.loadedTable hsh :)
  simp only [State.shape] at hlt
  rw [hlt]
  show ({ (unloadItems s (rectangleEdge s.loadedTable edge)).shape with
    loadedTable := expandedRect s.loadedTable edge (-1) } : Shape) = _
  rw [hsh]

theorem unloadEdge_consistent (s : State) (hs : Consistent s)
    (hinact : s.loadRequest.active = false) (edge : Edge)
    (hrem : edgeRemovable s.loadedTable edge) : Consistent (unloadEdge s edge) := by
  obtain ⟨hl, _⟩ := hs
  have hsh := shape_unloadEdge s edge
  have hreq : (unloadEdge s edge).loadRequest = s.loadRequest := (congrArg Shape.loadRequest hsh :)
  refine ⟨?_, fun ha => ?_⟩
  swap
  · rw [hreq, hinact] at ha
    exact absurd ha (by decide)
  have hg : InGrid s.loadedTable s.tableSize := by
    rcases hl.window with hw | ⟨hg, _⟩
    · exact absurd hw (edgeRemovable_ne_null _ _ hrem)
    · exact hg
  have hwf := rectangleEdge_wellFormed s.loadedTable edge hg.2.1 hg.2.2.2.2.1
  refine hl.unload hinact edge hrem (congrArg Shape.loadedTable hsh :)
    (congrArg Shape.tableSize hsh :) (congrArg Shape.loadRequest hsh :)
    (congrArg Shape.tableInvalid hsh :) (fun k => ?_)
  rw [(congrArg Shape.keys hsh :)]
  exact mem_keys_unloadItems s _ hwf k

theorem unloadEdge_size (s : State) (edge : Edge) (hrem : edgeRemovable s.loadedTable edge) :
    1 ≤ (unloadEdge s edge).loadedTable.width ∧ 1 ≤ (unloadEdge s edge).loadedTable.height ∨
    s.loadedTable.height < 1 ∨ s.loadedTable.width < 1 := by
  have hlt : (unloadEdge s edge).loadedTable = expandedRect s.loadedTable edge (-1) :=
    (congrArg Shape.loadedTable (shape_unloadEdge s edge) :)
  rw [hlt]
  cases edge <;>
    simp only [edgeRemovable, QRect.width, QRect.height] at hrem <;>
    simp only [expandedRect, QRect.adjusted, QRect.width, QRect.height] <;>
    omega

theorem loadedTable_ne_null_of_items (s : State) (hs : Consistent s)
    (hinact : s.loadRequest.active = false) (hitems : s.loadedItems.isEmpty = false) :
    s.loadedTable ≠ QRect.null := by
  intro hn
  have hkeys : s.loadedItems.keys ≠ [] := by
    intro h
    rw [(ItemHash.isEmpty_iff _).mpr h] at hitems
    exact absurd hitems (by decide)
  obtain ⟨k, hk⟩ := List.exists_mem_of_ne_nil _ hkeys
  obtain ⟨c, ha, _⟩ := hs.1.empty hn k hk
  rw [show s.shape.loadRequest = s.loadRequest from rfl, hinact] at ha
  exact absurd ha (by decide)

theorem shape_with_begin (s : State) (r : TableEdgeLoadRequest) (ev : Event)
    (hev : ev.requestedIndex = none) :
    ({ s with loadRequest := r, log := s.log ++ [ev] } : State).shape =
      { s.shape with
        loadRequest := r
        begins := s.shape.begins ++ (if ev.isBegin then [ev] else []) } := by
  cases hb : ev.isBegin <;>
    simp [State.shape, hev, hb, List.filter_append, List.filterMap_append]

theorem loadEdge_consistent (s : State) (hs : Consistent s)
    (hinact : s.loadRequest.active = false) (hne : s.loadedTable ≠ QRect.null)
    (edge : Edge) (mode : IncubationMode)
    (hroom : edgeHasRoom s.loadedTable s.tableSize edge) :
    Consistent (loadEdge s edge mode) := by
  unfold loadEdge
  simp only []
  have hsh := shape_with_begin s
    (s.loadRequest.begin (rectangleEdge (expandedRect s.loadedTable edge 1) edge) edge mode)
    (Event.begin s.loadRequest.isActive (some edge)
      (rectangleEdge (expandedRect s.loadedTable edge 1) edge)) rfl
  apply processLoadRequest_consistent
  · refine ⟨hs.1.begin hinact hne edge mode hroom (congrArg Shape.loadedTable hsh :)
      (congrArg Shape.tableSize hsh :) (congrArg Shape.loadRequest hsh :)
      (congrArg Shape.tableInvalid hsh :) (fun k => by rw [(congrArg Shape.keys hsh :)]), ?_⟩
    intro _
    have hg : InGrid s.loadedTable s.tableSize := by
      rcases hs.1.window with hw | ⟨hg, _⟩
      · exact absurd hw hne
      · exact hg
    obtain ⟨⟨w1, w2, _⟩, _⟩ := edgeHasRoom_merged _ _ edge mode s.loadRequest hg hroom
    rw [hasCurrentCell_iff]
    exact ⟨rfl, w1, w2⟩
  · rfl

theorem loadInitialTopLeftItem_consistent (s : State) (hs : Consistent s)
    (hinact : s.loadRequest.active = false) (hitems : s.loadedItems.isEmpty = true) :
    Consistent (loadInitialTopLeftItem s) := by
  unfold loadInitialTopLeftItem
  cases hsz : s.tableSize.isEmpty
  swap
  · simpa using hs
  simp only [Bool.false_eq_true, if_false]
  split
  · exact hs
  · split_ifs
    · exact hs
    · exact hs
    · have hkeys : s.loadedItems.keys = [] := (ItemHash.isEmpty_iff _).mp hitems
      have hnull : s.loadedTable = QRect.null := by
        rcases hs.1.window with hw | ⟨hg, hf⟩
        · exact hw
        · have := hf ⟨s.loadedTable.x1, s.loadedTable.y1⟩
            ⟨le_refl _, hg.2.1, le_refl _, hg.2.2.2.2.1⟩
          rw [show s.shape.keys = s.loadedItems.keys from rfl, hkeys] at this
          simp at this
      have hsize : 1 ≤ s.tableSize.width ∧ 1 ≤ s.tableSize.height := by
        simp only [QSize.isEmpty, Bool.or_eq_false_iff, decide_eq_false_iff_not, not_lt] at hsz
        exact hsz
      have hsh := shape_with_begin s
        (s.loadRequest.beginCell ⟨0, 0⟩ IncubationMode.AsynchronousIfNested)
        (Event.begin s.loadRequest.isActive none ⟨⟨0, 0⟩, ⟨0, 0⟩⟩) rfl
      apply processLoadRequest_consistent
      · refine ⟨hs.1.beginCell hinact hnull IncubationMode.AsynchronousIfNested hsize
          (congrArg Shape.loadedTable hsh :) (congrArg Shape.tableSize hsh :)
          (congrArg Shape.loadRequest hsh :) (congrArg Shape.tableInvalid hsh :)
          (fun k => by rw [(congrArg Shape.keys hsh :)]), ?_⟩
        intro _
        rfl
      · rfl

/-! ## What a load request leaves unchanged -/

theorem frame_of_shape {s t : State} (h : t.shape = s.shape) : t.shape.frame = s.shape.frame := by
  rw [h]

theorem frame_loadFxTableItem (s : State) (cell : QPoint) (mode : IncubationMode) :
    (loadFxTableItem s cell mode).2.shape.frame = s.shape.frame :=
  (congrArg Shape.frame (shape_loadFxTableItem s cell mode).1 :)

theorem frame_loadRequestedCells (n : Nat) (s : State) :
    (loadRequestedCells n s).1.shape.frame = s.shape.frame ∧
    (loadRequestedCells n s).1.loadedTable = s.loadedTable ∧
    (loadRequestedCells n s).1.loadRequest.edge = s.loadRequest.edge ∧
    (loadRequestedCells n s).1.loadRequest.edgeCells = s.loadRequest.edgeCells ∧
    (loadRequestedCells n s).1.loadRequest.active = s.loadRequest.active := by
  induction n generalizing s with
  | zero => exact ⟨rfl, rfl, rfl, rfl, rfl⟩
  | succ n ih =>
    rw [loadRequestedCells]
    obtain ⟨f1, _, f3, _, _⟩ := loadFxTableItem_fields s s.loadRequest.currentCell
      s.loadRequest.incubationMode
    have ff := frame_loadFxTableItem s s.loadRequest.currentCell s.loadRequest.incubationMode
    cases hc : s.loadRequest.hasCurrentCell
    · exact ⟨rfl, rfl, rfl, rfl, rfl⟩
    · simp only [if_true]
      split
      · exact ⟨ff, f1, by rw [f3], by rw [f3], by rw [f3]⟩
      · obtain ⟨i1, i2, i3, i4, i5⟩ := ih
          { (loadFxTableItem s s.loadRequest.currentCell s.loadRequest.incubationMode).2 with
            loadedItems := (loadFxTableItem s s.loadRequest.currentCell
              s.loadRequest.incubationMode).2.loadedItems.insert
                (modelIndexAtCell (loadFxTableItem s s.loadRequest.currentCell
                  s.loadRequest.incubationMode).2 s.loadRequest.currentCell) _
            loadRequest := (loadFxTableItem s s.loadRequest.currentCell
              s.loadRequest.incubationMode).2.loadRequest.moveToNextCell }
        refine ⟨i1.trans ff, i2.trans f1, i3.trans ?_, i4.trans ?_, i5.trans ?_⟩
        · show (TableEdgeLoadRequest.moveToNextCell _).edge = _
          rw [f3]; rfl
        · show (TableEdgeLoadRequest.moveToNextCell _).edgeCells = _
          rw [f3]; rfl
        · show (TableEdgeLoadRequest.moveToNextCell _).active = _
          rw [f3]; rfl

theorem mergedTable_congr (r r' : TableEdgeLoadRequest) (w : QRect) (h1 : r'.edge = r.edge)
    (h2 : r'.edgeCells = r.edgeCells) : mergedTable r' w = mergedTable r w := by
  simp only [mergedTable, TableEdgeLoadRequest.firstCell, TableEdgeLoadRequest.lastCell, h1, h2]

theorem frame_finishLoadRequest (s : State) :
    (finishLoadRequest s).shape.frame = s.shape.frame :=
  (congrArg Shape.frame (shape_finishLoadRequest s) :)

theorem frame_processLoadRequest (s : State) :
    (processLoadRequest s).shape.frame = s.shape.frame := by
  unfold processLoadRequest
  simp only []
  split_ifs
  · exact (frame_finishLoadRequest _).trans (frame_loadRequestedCells _ s).1
  · exact (frame_loadRequestedCells _ s).1

theorem processLoadRequest_loadedTable (s : State) (hact : s.loadRequest.active = true) :
    ((processLoadRequest s).loadRequest.active = true ∧
      (processLoadRequest s).loadedTable = s.loadedTable) ∨
    ((processLoadRequest s).loadRequest.active = false ∧
      (processLoadRequest s).loadedTable = mergedTable s.loadRequest s.loadedTable) := by
  unfold processLoadRequest
  simp only []
  obtain ⟨_, h0, h1, h2, h3⟩ := frame_loadRequestedCells s.loadRequest.remaining s
  cases hflag : (loadRequestedCells s.loadRequest.remaining s).2
  · left
    simp only [Bool.false_eq_true, if_false]
    exact ⟨by rw [h3]; exact hact, h0⟩
  · right
    simp only [if_true]
    have hf := shape_finishLoadRequest (loadRequestedCells s.loadRequest.remaining s).1
    have f0 := (congrArg Shape.loadedTable hf :)
    have f4 := (congrArg Shape.loadRequest hf :)
    simp only [State.shape] at f0 f4
    refine ⟨by rw [f4]; rfl, ?_⟩
    rw [f0, h0]
    exact mergedTable_congr _ _ _ h1 h2

theorem mergedTable_begin (r : TableEdgeLoadRequest) (w : QRect) (edge : Edge)
    (mode : IncubationMode) :
    mergedTable (r.begin (rectangleEdge (expandedRect w edge 1) edge) edge mode) w =
      expandedRect w edge 1 := by
  cases edge <;>
    simp [mergedTable, TableEdgeLoadRequest.begin, TableEdgeLoadRequest.firstCell,
      TableEdgeLoadRequest.lastCell, rectangleEdge, expandedRect, QRect.adjusted,
      QRect.setTopLeft, QRect.setBottomRight, QRect.topLeft, QRect.bottomLeft,
      QRect.topRight, QRect.bottomRight]

theorem loadEdge_loadedTable (s : State) (edge : Edge) (mode : IncubationMode) :
    ((loadEdge s edge mode).loadRequest.active = true ∧
      (loadEdge s edge mode).loadedTable = s.loadedTable) ∨
    ((loadEdge s edge mode).loadRequest.active = false ∧
      (loadEdge s edge mode).loadedTable = expandedRect s.loadedTable edge 1) := by
  unfold loadEdge
  simp only []
  rcases processLoadRequest_loadedTable
    { s with
      loadRequest := s.loadRequest.begin (rectangleEdge (expandedRect s.loadedTable edge 1) edge)
        edge mode
      log := s.log ++ [Event.begin s.loadRequest.isActive (some edge)
        (rectangleEdge (expandedRect s.loadedTable edge 1) edge)] } rfl with h | h
  · exact Or.inl h
  · refine Or.inr ⟨h.1, ?_⟩
    rw [h.2]
    exact mergedTable_begin s.loadRequest s.loadedTable edge mode

theorem expandedRect_size (w : QRect) (edge : Edge) (h1 : 1 ≤ w.width) (h2 : 1 ≤ w.height) :
    1 ≤ (expandedRect w edge 1).width ∧ 1 ≤ (expandedRect w edge 1).height := by
  cases edge <;>
    simp only [expandedRect, QRect.adjusted, QRect.width, QRect.height] at h1 h2 ⊢ <;>
    omega

theorem loadEdge_size (s : State) (edge : Edge) (mode : IncubationMode)
    (h1 : 1 ≤ s.loadedTable.width) (h2 : 1 ≤ s.loadedTable.height) :
    1 ≤ (loadEdge s edge mode).loadedTable.width ∧
    1 ≤ (loadEdge s edge mode).loadedTable.height := by
  rcases loadEdge_loadedTable s edge mode with ⟨_, h⟩ | ⟨_, h⟩
  · rw [h]; exact ⟨h1, h2⟩
  · rw [h]; exact expandedRect_size _ _ h1 h2

/-! ## Consistency of the reconciliation steps -/

theorem Consistent.of_fields {s t : State} (hs : Consistent s)
    (e1 : t.loadedTable = s.loadedTable) (e2 : t.tableSize = s.tableSize)
    (e3 : t.loadRequest = s.loadRequest) (e4 : t.tableInvalid = s.tableInvalid)
    (e5 : t.loadedItems.keys = s.loadedItems.keys) : Consistent t := by
  refine ⟨hs.1.transfer e1 e2 e3 e4 (fun k => ?_), ?_⟩
  · show k ∈ t.loadedItems.keys ↔ k ∈ s.loadedItems.keys
    rw [e5]
  · rw [e3]
    exact hs.2

theorem Consistent.of_shape {s t : State} (hs : Consistent s) (h : t.shape = s.shape) :
    Consistent t :=
  hs.of_fields (congrArg Shape.loadedTable h :) (congrArg Shape.tableSize h :)
    (congrArg Shape.loadRequest h :) (congrArg Shape.tableInvalid h :)
    (congrArg Shape.keys h :)

theorem consistent_of_empty (s : State) (h1 : s.loadedTable = QRect.null)
    (h2 : s.loadedItems = []) (h3 : s.loadRequest.active = false) : Consistent s := by
  refine ⟨⟨Or.inl h1, ?_, ?_, ?_⟩, ?_⟩
  · intro _ k hk
    rw [show s.shape.keys = s.loadedItems.keys from rfl, h2] at hk
    simp [ItemHash.keys] at hk
  · intro ha
    rw [show s.shape.loadRequest = s.loadRequest from rfl, h3] at ha
    exact absurd ha (by decide)
  · intro _ k hk
    rw [show s.shape.keys = s.loadedItems.keys from rfl, h2] at hk
    simp [ItemHash.keys] at hk
  · intro ha
    rw [h3] at ha
    exact absurd ha (by decide)

theorem inGrid_of_size (s : State) (hs : Consistent s) (h1 : 1 ≤ s.loadedTable.width) :
    InGrid s.loadedTable s.tableSize := by
  rcases hs.1.window with hw | ⟨hg, _⟩
  · rw [show s.shape.loadedTable = s.loadedTable from rfl] at hw
    rw [hw] at h1
    simp [QRect.width, QRect.null] at h1
  · exact hg

theorem ne_null_of_size (w : QRect) (h1 : 1 ≤ w.width) : w ≠ QRect.null := by
  intro h
  rw [h] at h1
  simp [QRect.width, QRect.null] at h1

theorem size_of_inGrid (w : QRect) (t : QSize) (hg : InGrid w t) :
    1 ≤ w.width ∧ 1 ≤ w.height := by
  obtain ⟨g1, g2, g3, g4, g5, g6⟩ := hg
  simp only [QRect.width, QRect.height]
  omega

theorem canUnload_of_next (s : State) (rect : QRectF) (edge : Edge)
    (h : nextEdgeToUnload s rect = some edge) : canUnloadTableEdge s edge rect = true :=
  ((firstEdgeSatisfying_some _ edge).mp h).1

theorem canLoad_of_next (s : State) (rect : QRectF) (edge : Edge)
    (h : nextEdgeToLoad s rect = some edge) : canLoadTableEdge s edge rect = true :=
  ((firstEdgeSatisfying_some _ edge).mp h).1

theorem unloadEdge_loadRequest (s : State) (edge : Edge) :
    (unloadEdge s edge).loadRequest = s.loadRequest :=
  (congrArg Shape.loadRequest (shape_unloadEdge s edge) :)

theorem unloadEdge_size_ge (s : State) (edge : Edge) (hrem : edgeRemovable s.loadedTable edge)
    (h1 : 1 ≤ s.loadedTable.width) (h2 : 1 ≤ s.loadedTable.height) :
    1 ≤ (unloadEdge s edge).loadedTable.width ∧ 1 ≤ (unloadEdge s edge).loadedTable.height := by
  rcases unloadEdge_size s edge hrem with h | h | h
  · exact h
  · omega
  · omega

theorem LoopReady.unloadEdge {s : State} (h : LoopReady s) (rect : QRectF) (edge : Edge)
    (hn : nextEdgeToUnload s rect = some edge) : LoopReady (TableView.unloadEdge s edge) := by
  obtain ⟨hc, hi, h1, h2⟩ := h
  have hrem := edgeRemovable_of_canUnload s edge rect (canUnload_of_next s rect edge hn)
  obtain ⟨s1, s2⟩ := unloadEdge_size_ge s edge hrem h1 h2
  exact ⟨unloadEdge_consistent s hc hi edge hrem, by rw [unloadEdge_loadRequest]; exact hi, s1, s2⟩

theorem LoopReady.loadEdge {s : State} (h : LoopReady s) (rect : QRectF) (edge : Edge)
    (mode : IncubationMode) (hn : nextEdgeToLoad s rect = some edge) :
    Consistent (TableView.loadEdge s edge mode) ∧
    ((TableView.loadEdge s edge mode).loadRequest.active = false →
      LoopReady (TableView.loadEdge s edge mode)) := by
  obtain ⟨hc, hi, h1, h2⟩ := h
  have hroom := edgeHasRoom_of_canLoad s edge rect (canLoad_of_next s rect edge hn)
  have hcons := loadEdge_consistent s hc hi (ne_null_of_size _ h1) edge mode hroom
  obtain ⟨s1, s2⟩ := loadEdge_size s edge mode h1 h2
  exact ⟨hcons, fun ha => ⟨hcons, ha, s1, s2⟩⟩

theorem loadAndUnloadLoop_consistent (n : Nat) (rect : QRectF) (s : State) (h : LoopReady s) :
    Consistent (loadAndUnloadLoop n rect s).state := by
  induction n generalizing s with
  | zero => exact h.1
  | succ n ih =>
    rw [loadAndUnloadLoop]
    have hu : LoopReady (match nextEdgeToUnload s rect with
        | some edge => (unloadEdge s edge, true)
        | none => (s, false)).1 := by
      split
      · rename_i edge hn
        exact h.unloadEdge rect edge hn
      · exact h
    revert hu
    generalize (match nextEdgeToUnload s rect with
        | some edge => (unloadEdge s edge, true)
        | none => (s, false)) = u
    intro hu
    simp only []
    split
    · rename_i edge hn
      obtain ⟨hc, hr⟩ := hu.loadEdge _ edge IncubationMode.AsynchronousIfNested hn
      split_ifs with ha
      · exact hc
      · exact ih _ (hr (by simpa [TableEdgeLoadRequest.isActive] using ha))
    · split_ifs
      · exact ih _ hu
      · exact hu.1

theorem loopReady_of_items (s : State) (hs : Consistent s)
    (h1 : ¬ s.loadRequest.isActive = true) (h2 : ¬ s.loadedItems.isEmpty = true) :
    LoopReady s := by
  have hi : s.loadRequest.active = false := by
    simpa [TableEdgeLoadRequest.isActive] using h1
  have hne := loadedTable_ne_null_of_items s hs hi (by simpa using h2)
  have hg : InGrid s.loadedTable s.tableSize := by
    rcases hs.1.window with hw | ⟨hg, _⟩
    · exact absurd hw hne
    · exact hg
  obtain ⟨z1, z2⟩ := size_of_inGrid _ _ hg
  exact ⟨hs, hi, z1, z2⟩

theorem loadAndUnloadVisibleEdges_consistent (fuel : Nat) (s : State) (hs : Consistent s) :
    Consistent (loadAndUnloadVisibleEdges fuel s).state := by
  unfold loadAndUnloadVisibleEdges
  split_ifs with h1 h2
  · exact hs
  · exact hs
  · exact loadAndUnloadLoop_consistent fuel _ s (loopReady_of_items s hs h1 h2)
  · exact loadAndUnloadLoop_consistent fuel _ s (loopReady_of_items s hs h1 h2)

theorem shape_releaseLoadedItems (s : State) :
    (releaseLoadedItems s).shape = { s.shape with keys := [] } ∧
    (releaseLoadedItems s).loadedItems = [] := by
  unfold releaseLoadedItems
  simp only []
  have key : ∀ (l : ItemHash) (t : State),
      (l.foldl (fun st e => releaseItem st e.2 ReusableFlag.NotReusable) t).shape = t.shape ∧
      (l.foldl (fun st e => releaseItem st e.2 ReusableFlag.NotReusable) t).loadedItems =
        t.loadedItems := by
    intro l
    induction l with
    | nil => intro t; exact ⟨rfl, rfl⟩
    | cons e l ih =>
      intro t
      simp only [List.foldl_cons]
      obtain ⟨i1, i2⟩ := ih (releaseItem t e.2 ReusableFlag.NotReusable)
      exact ⟨i1.trans (shape_releaseItem _ _ _), i2.trans (loadedItems_releaseItem _ _ _)⟩
  obtain ⟨k1, k2⟩ := key s.loadedItems { s with loadedItems := [] }
  exact ⟨k1, k2⟩

theorem markAsDone_of_inactive (r : TableEdgeLoadRequest) (h : r.active = false) :
    r.markAsDone = r := by
  cases r
  simp_all [TableEdgeLoadRequest.markAsDone]

/-- Cancelling the request if one is active (the guarded call in `clear`,
`invalidateTable` and `unloadBuffer`) always leaves the request inactive. -/
theorem cancelIfActive_inactive (s : State) :
    (if s.loadRequest.isActive then cancelLoadRequest s else s).loadRequest.active = false := by
  cases h : s.loadRequest.isActive
  · simpa [TableEdgeLoadRequest.isActive] using h
  · simp only [if_true]
    exact cancelLoadRequest_inactive s

theorem cancelIfActive_consistent (s : State) (hs : Consistent s) :
    Consistent (if s.loadRequest.isActive then cancelLoadRequest s else s) := by
  cases h : s.loadRequest.isActive
  · simpa using hs
  · simp only [if_true]
    exact cancelLoadRequest_consistent s hs h

theorem frame_unloadItems (s : State) (l : QLine) :
    (unloadItems s l).shape.frame = s.shape.frame ∧
    (unloadItems s l).loadedTable = s.loadedTable ∧
    (unloadItems s l).loadRequest = s.loadRequest :=
  ⟨(congrArg Shape.frame (shape_unloadItems s l) :),
    (congrArg Shape.loadedTable (shape_unloadItems s l) :),
    (congrArg Shape.loadRequest (shape_unloadItems s l) :)⟩

theorem frame_cancelLoadRequest (s : State) :
    (cancelLoadRequest s).shape.frame = s.shape.frame ∧
    (cancelLoadRequest s).loadedTable = s.loadedTable := by
  rw [cancelLoadRequest_eq]
  have hsh := shape_with_cancelled s (modelIndexAtCell s s.loadRequest.currentCell)
  split_ifs
  · exact ⟨(congrArg Shape.frame hsh :), rfl⟩
  · obtain ⟨f1, f2, _⟩ := frame_unloadItems
      { s with
        loadRequest := s.loadRequest.markAsDone
        log := s.log ++ [Event.cancel (modelIndexAtCell s s.loadRequest.currentCell)] }
      ⟨s.loadRequest.firstCell, s.loadRequest.previousCell⟩
    exact ⟨f1.trans (congrArg Shape.frame hsh :), f2⟩

theorem clear_fields (s : State) :
    (clear s).loadedTable = QRect.null ∧ (clear s).loadedItems = [] ∧
    (clear s).loadRequest.active = false ∧ (clear s).tableInvalid = true ∧
    (clear s).tableRebuilding = false := by
  unfold clear
  simp only []
  have hsh : ∀ t : State, (updateContentHeight (updateContentWidth t)).shape = t.shape := by
    intro t
    rw [shape_updateContentHeight, shape_updateContentWidth]
  have hrel := shape_releaseLoadedItems
    (if ({ s with tableInvalid := true, tableRebuilding := false } : State).loadRequest.isActive
      then cancelLoadRequest { s with tableInvalid := true, tableRebuilding := false }
      else { s with tableInvalid := true, tableRebuilding := false })
  have hreq := cancelIfActive_inactive { s with tableInvalid := true, tableRebuilding := false }
  have hfr : (if ({ s with tableInvalid := true, tableRebuilding := false } : State).loadRequest.isActive
      then cancelLoadRequest { s with tableInvalid := true, tableRebuilding := false }
      else { s with tableInvalid := true, tableRebuilding := false }).shape.frame =
      ({ s with tableInvalid := true, tableRebuilding := false } : State).shape.frame := by
    split_ifs
    · exact (frame_cancelLoadRequest _).1
    · rfl
  generalize (if ({ s with tableInvalid := true, tableRebuilding := false } : State).loadRequest.isActive
      then cancelLoadRequest { s with tableInvalid := true, tableRebuilding := false }
      else { s with tableInvalid := true, tableRebuilding := false }) = t at hrel hreq hfr ⊢
  obtain ⟨r1, r2⟩ := hrel
  have h := hsh { releaseLoadedItems t with
    loadedTable := QRect.null
    loadedTableOuterRect := QRectF.ofRect QRect.null
    loadedTableInnerRect := QRectF.ofRect QRect.null
    contentSizeBenchMarkPoint := ⟨-1, -1⟩ }
  have k1 := (congrArg Shape.loadedTable h :)
  have k2 := (congrArg Shape.keys h :)
  have k3 := (congrArg Shape.loadRequest h :)
  have k4 := (congrArg Shape.tableInvalid h :)
  have k5 := (congrArg Shape.tableRebuilding h :)
  have q3 := (congrArg Shape.loadRequest r1 :)
  have q4 := (congrArg Shape.tableInvalid r1 :)
  have q5 := (congrArg Shape.tableRebuilding r1 :)
  have p4 := (congrArg Frame.tableInvalid hfr :)
  have p5 := (congrArg Frame.tableRebuilding hfr :)
  simp only [State.shape, Shape.frame] at k1 k2 k3 k4 k5 q3 q4 q5 p4 p5
  refine ⟨k1, ?_, ?_, ?_, ?_⟩
  · have k2b := k2.trans (show ItemHash.keys (releaseLoadedItems t).loadedItems = [] by
      rw [r2]; rfl)
    exact List.map_eq_nil_iff.mp k2b
  · rw [k3, q3]; exact hreq
  · rw [k4, q4, p4]
  · rw [k5, q5, p5]

theorem clear_consistent (s : State) : Consistent (clear s) := by
  obtain ⟨h1, h2, h3, _, _⟩ := clear_fields s
  exact consistent_of_empty _ h1 h2 h3

theorem unloadBufferLoop_consistent (n : Nat) (s : State) (hs : Consistent s)
    (hi : s.loadRequest.active = false) : Consistent (unloadBufferLoop n s) := by
  induction n generalizing s with
  | zero => exact hs
  | succ n ih =>
    rw [unloadBufferLoop]
    split
    · rename_i edge hn
      have hrem := edgeRemovable_of_canUnload s edge _ (canUnload_of_next s _ edge hn)
      exact ih _ (unloadEdge_consistent s hs hi edge hrem)
        (by rw [unloadEdge_loadRequest]; exact hi)
    · exact hs

theorem unloadBuffer_consistent (s : State) (hs : Consistent s) :
    Consistent (unloadBuffer s) := by
  unfold unloadBuffer
  split_ifs
  · exact hs
  · have h1 : Consistent
        ({ s with hasBufferedItems := false, cacheBufferDelayTimerActive := false } : State) :=
      hs.of_fields rfl rfl rfl rfl rfl
    have h2 := cancelIfActive_consistent _ h1
    have h3 := cancelIfActive_inactive
      ({ s with hasBufferedItems := false, cacheBufferDelayTimerActive := false } : State)
    exact unloadBufferLoop_consistent _ _ h2 h3

theorem loadBufferLoop_consistent (n : Nat) (rect : QRectF) (s : State) (h : LoopReady s) :
    Consistent (loadBufferLoop n rect s).state := by
  induction n generalizing s with
  | zero => exact h.1
  | succ n ih =>
    rw [loadBufferLoop]
    split
    · rename_i edge hn
      obtain ⟨hc, hr⟩ := h.loadEdge rect edge IncubationMode.Asynchronous hn
      simp only []
      split_ifs with ha
      · exact hc
      · exact ih _ (hr (by simpa [TableEdgeLoadRequest.isActive] using ha))
    · exact h.1

theorem loadBuffer_consistent (fuel : Nat) (s : State) (hs : Consistent s) :
    Consistent (loadBuffer fuel s).state := by
  unfold loadBuffer
  simp only []
  split_ifs with h1 h2
  · exact hs
  · have hready : LoopReady s :=
      loopReady_of_items s hs (fun h => h1 (Or.inr (Or.inl h))) (fun h => h1 (Or.inr (Or.inr h)))
    exact (loadBufferLoop_consistent fuel _ s hready).of_fields rfl rfl rfl rfl rfl
  · have hready : LoopReady s :=
      loopReady_of_items s hs (fun h => h1 (Or.inr (Or.inl h))) (fun h => h1 (Or.inr (Or.inr h)))
    exact loadBufferLoop_consistent fuel _ s hready

theorem calculateTableSize_fields (s : State) :
    (calculateTableSize s).loadedTable = s.loadedTable ∧
    (calculateTableSize s).loadedItems = s.loadedItems ∧
    (calculateTableSize s).loadRequest = s.loadRequest ∧
    (calculateTableSize s).tableInvalid = s.tableInvalid := by
  unfold calculateTableSize
  split
  · split_ifs <;> exact ⟨rfl, rfl, rfl, rfl⟩
  · exact ⟨rfl, rfl, rfl, rfl⟩

theorem beginRebuildTable_consistent (fuel : Nat) (s : State) :
    Consistent (beginRebuildTable fuel s).state := by
  unfold beginRebuildTable
  simp only []
  obtain ⟨h1, h2, h3, _, _⟩ := clear_fields s
  obtain ⟨c1, c2, c3, _⟩ := calculateTableSize_fields
    { clear s with tableInvalid := false, tableRebuilding := true }
  apply loadAndUnloadVisibleEdges_consistent
  apply loadInitialTopLeftItem_consistent
  · exact consistent_of_empty _ (c1.trans h1) (c2.trans h2) (by rw [c3]; exact h3)
  · rw [c3]; exact h3
  · rw [c2]
    show List.isEmpty (clear s).loadedItems = true
    rw [h2]
    rfl

theorem endRebuildTable_consistent (s : State) (hs : Consistent s) :
    Consistent (endRebuildTable s) := by
  unfold endRebuildTable
  simp only []
  have h1 : Consistent ({ s with tableRebuilding := false } : State) :=
    hs.of_fields rfl rfl rfl rfl rfl
  split_ifs
  · exact h1
  · exact h1.of_shape (shape_relayoutTable _)

theorem consistent_relayoutTable (s : State) (hs : Consistent s) :
    Consistent (relayoutTable s) :=
  hs.of_shape (shape_relayoutTable s)

theorem consistent_armTimer (s : State) (hs : Consistent s) :
    Consistent ({ s with cacheBufferDelayTimerActive := true } : State) :=
  hs.of_fields rfl rfl rfl rfl rfl

theorem startBufferTimer_consistent (r : Run) (hr : Consistent r.state) :
    Consistent (startBufferTimer r).state := by
  unfold startBufferTimer
  split_ifs
  · exact hr
  · exact hr
  · exact consistent_armTimer _ hr
  · exact hr

theorem polishLoadedTable_consistent (fuel : Nat) (s : State) (hs : Consistent s) :
    Consistent (polishLoadedTable fuel s).state := by
  unfold polishLoadedTable
  have h2 : Consistent (if s.columnRowPositionsInvalid then relayoutTable s else s) := by
    split_ifs
    · exact consistent_relayoutTable s hs
    · exact hs
  revert h2
  generalize (if s.columnRowPositionsInvalid then relayoutTable s else s) = s2
  intro h2
  have h3 : Consistent (if s2.hasBufferedItems && (nextEdgeToLoad s2 s2.viewportRect).isSome
      then unloadBuffer s2 else s2) := by
    split_ifs
    · exact unloadBuffer_consistent s2 h2
    · exact h2
  exact startBufferTimer_consistent _ (loadAndUnloadVisibleEdges_consistent fuel _ h3)

theorem updatePolishTail_consistent (fuel : Nat) (s : State) (hs : Consistent s) :
    Consistent (updatePolishTail fuel s).state := by
  unfold updatePolishTail
  have h1 : Consistent (if s.tableRebuilding then endRebuildTable s else s) := by
    split_ifs
    · exact endRebuildTable_consistent s hs
    · exact hs
  revert h1
  generalize (if s.tableRebuilding then endRebuildTable s else s) = s1
  intro h1
  simp only []
  split_ifs
  · exact h1
  · exact polishLoadedTable_consistent fuel s1 h1

theorem updatePolishBody_consistent (fuel : Nat) (s : State) (hs : Consistent s) :
    Consistent (updatePolishBody fuel s).state := by
  unfold updatePolishBody
  simp only []
  have hv : Consistent ({ s with viewportRect := ⟨s.contentX, s.contentY, s.width, s.height⟩ } : State) :=
    hs.of_fields rfl rfl rfl rfl rfl
  split_ifs
  · exact hs
  · exact hv
  · exact beginRebuildTable_consistent fuel _
  · exact beginRebuildTable_consistent fuel _
  · exact updatePolishTail_consistent fuel _ (beginRebuildTable_consistent fuel _)
  · exact updatePolishTail_consistent fuel _ hv

theorem updatePolish_consistent (fuel : Nat) (s : State) (hs : Consistent s) :
    Consistent (updatePolish fuel s).state := by
  unfold updatePolish
  simp only []
  have h1 : Consistent ({ s with polishing := true } : State) := hs.of_fields rfl rfl rfl rfl rfl
  exact (updatePolishBody_consistent fuel _ h1).of_fields rfl rfl rfl rfl rfl

theorem itemCreatedCallback_consistent (fuel : Nat) (s : State) (hs : Consistent s)
    (hact : s.loadRequest.isActive = true) : Consistent (itemCreatedCallback fuel s).state := by
  unfold itemCreatedCallback
  simp only []
  have h1 := processLoadRequest_consistent s hs hact
  have h2 := loadAndUnloadVisibleEdges_consistent fuel _ h1
  split_ifs
  · exact hs
  · exact h2
  · exact updatePolish_consistent fuel _ h2

theorem consistent_setInvalid (s : State) (hs : Consistent s) :
    Consistent ({ s with tableInvalid := true } : State) := by
  obtain ⟨⟨hw, he, hr, _⟩, hc⟩ := hs
  refine ⟨⟨hw, he, hr, ?_⟩, hc⟩
  intro hinv
  exact absurd hinv (by simp [State.shape])

theorem invalidateTable_consistent (s : State) (hs : Consistent s) :
    Consistent (invalidateTable s) := by
  unfold invalidateTable
  exact (cancelIfActive_consistent _ (consistent_setInvalid s hs)).of_fields rfl rfl rfl rfl rfl

/-! ## The invariant holds in every reachable state -/

theorem step_consistent (s t : State) (hs : Consistent s) (ht : Step s t) : Consistent t := by
  cases ht with
  | updatePolish fuel => exact updatePolish_consistent fuel s hs
  | itemCreatedCallback fuel h => exact itemCreatedCallback_consistent fuel s hs h
  | invalidateTable => exact invalidateTable_consistent s hs
  | invalidateColumnRowPositions => exact hs.of_fields rfl rfl rfl rfl rfl
  | loadBuffer fuel => exact loadBuffer_consistent fuel s hs
  | unloadBuffer => exact unloadBuffer_consistent s hs
  | clear => exact clear_consistent s
  | loadInitialTopLeftItem h1 h2 => exact loadInitialTopLeftItem_consistent s hs h1 h2
  | loadEdge edge mode rect h1 h2 h3 =>
    exact loadEdge_consistent s hs h1 (loadedTable_ne_null_of_items s hs h1 h2) edge mode
      (edgeHasRoom_of_canLoad s edge rect (canLoad_of_next s rect edge h3))
  | unloadEdge edge rect h1 h3 =>
    exact unloadEdge_consistent s hs h1 edge
      (edgeRemovable_of_canUnload s edge rect (canUnload_of_next s rect edge h3))
  | processLoadRequest h => exact processLoadRequest_consistent s hs h
  | cancelLoadRequest h => exact cancelLoadRequest_consistent s hs h
  | input => exact hs.of_fields rfl rfl rfl rfl rfl

theorem reachable_consistent (s : State) (h : Reachable s) : Consistent s := by
  induction h with
  | start s0 _ => exact clear_consistent s0
  | step s t _ ht ih => exact step_consistent s t ih ht

/-- Claim C2. In every state reachable from `clear()` by initial top-left
loads, edge loads, edge unloads, cancellations, invalidations and
reconciliations, `loadedTable` is either the empty rectangle `QRect()` or a
rectangle of width and height at least one, every cell of which has an entry
in `loadedItems` under `modelIndexAtCell(cell)`. -/
theorem loadedTable_filled_rectangle (s : State) (h : Reachable s) :
    s.loadedTable = QRect.null ∨
    (1 ≤ s.loadedTable.width ∧ 1 ≤ s.loadedTable.height ∧
      ∀ cell, s.loadedTable.containsCell cell →
        s.loadedItems.contains (modelIndexAtCell s cell) = true) := by
  rcases (reachable_consistent s h).1.window with hw | ⟨hg, hf⟩
  · exact Or.inl hw
  · obtain ⟨z1, z2⟩ := size_of_inGrid _ _ hg
    exact Or.inr ⟨z1, z2, fun cell hc => (ItemHash.contains_iff _ _).mpr (hf cell hc)⟩

theorem exampleView_polished_reachable :
    Reachable (updatePolish 20 (clear exampleView)).state :=
  Reachable.step _ _ (Reachable.start exampleView rfl) (Step.updatePolish _ 20)

set_option maxRecDepth 100000 in
theorem exampleView_polished_loadedTable :
    (updatePolish 20 (clear exampleView)).state.loadedTable = ⟨0, 0, 3, 4⟩ := by
  decide!

/-- Claim C2, instance: reconciling the example view from `clear()` loads the
window of 4 columns and 5 rows, and the cell `(3, 4)` of it is in the hash. -/
theorem loadedTable_filled_rectangle_witness :
    Reachable (updatePolish 20 (clear exampleView)).state ∧
    (updatePolish 20 (clear exampleView)).state.loadedTable = ⟨0, 0, 3, 4⟩ ∧
    (updatePolish 20 (clear exampleView)).state.loadedItems.contains
      (modelIndexAtCell (updatePolish 20 (clear exampleView)).state ⟨3, 4⟩) = true := by
  refine ⟨exampleView_polished_reachable, exampleView_polished_loadedTable, ?_⟩
  rcases loadedTable_filled_rectangle _ exampleView_polished_reachable with h | ⟨_, _, h⟩
  · rw [exampleView_polished_loadedTable] at h
    exact absurd h (by decide)
  · apply h
    rw [exampleView_polished_loadedTable]
    decide

/-! ## Unloading keeps one row and one column -/

theorem cancelIfActive_loadedTable (s : State) :
    (if s.loadRequest.isActive then cancelLoadRequest s else s).loadedTable = s.loadedTable := by
  split_ifs
  · exact (frame_cancelLoadRequest s).2
  · rfl

theorem unloadBufferLoop_size (n : Nat) (s : State) (h1 : 1 ≤ s.loadedTable.width)
    (h2 : 1 ≤ s.loadedTable.height) :
    1 ≤ (unloadBufferLoop n s).loadedTable.width ∧
    1 ≤ (unloadBufferLoop n s).loadedTable.height := by
  induction n generalizing s with
  | zero => exact ⟨h1, h2⟩
  | succ n ih =>
    rw [unloadBufferLoop]
    split
    · rename_i edge hn
      have hrem := edgeRemovable_of_canUnload s edge _ (canUnload_of_next s _ edge hn)
      obtain ⟨z1, z2⟩ := unloadEdge_size_ge s edge hrem h1 h2
      exact ih _ z1 z2
    · exact ⟨h1, h2⟩

theorem unloadBuffer_size (s : State) (h1 : 1 ≤ s.loadedTable.width)
    (h2 : 1 ≤ s.loadedTable.height) :
    1 ≤ (unloadBuffer s).loadedTable.width ∧ 1 ≤ (unloadBuffer s).loadedTable.height := by
  unfold unloadBuffer
  split_ifs
  · exact ⟨h1, h2⟩
  · have h3 := cancelIfActive_loadedTable
      ({ s with hasBufferedItems := false, cacheBufferDelayTimerActive := false } : State)
    apply unloadBufferLoop_size
    · rw [h3]; exact h1
    · rw [h3]; exact h2

theorem loadAndUnloadLoop_size (n : Nat) (rect : QRectF) (s : State)
    (h1 : 1 ≤ s.loadedTable.width) (h2 : 1 ≤ s.loadedTable.height) :
    1 ≤ (loadAndUnloadLoop n rect s).state.loadedTable.width ∧
    1 ≤ (loadAndUnloadLoop n rect s).state.loadedTable.height := by
  induction n generalizing s with
  | zero => exact ⟨h1, h2⟩
  | succ n ih =>
    rw [loadAndUnloadLoop]
    have hu : 1 ≤ (match nextEdgeToUnload s rect with
        | some edge => (unloadEdge s edge, true)
        | none => (s, false)).1.loadedTable.width ∧
        1 ≤ (match nextEdgeToUnload s rect with
        | some edge => (unloadEdge s edge, true)
        | none => (s, false)).1.loadedTable.height := by
      split
      · rename_i edge hn
        exact unloadEdge_size_ge s edge
          (edgeRemovable_of_canUnload s edge _ (canUnload_of_next s _ edge hn)) h1 h2
      · exact ⟨h1, h2⟩
    revert hu
    generalize (match nextEdgeToUnload s rect with
        | some edge => (unloadEdge s edge, true)
        | none => (s, false)) = u
    intro hu
    simp only []
    split
    · rename_i edge hn
      obtain ⟨z1, z2⟩ := loadEdge_size u.1 edge IncubationMode.AsynchronousIfNested hu.1 hu.2
      split_ifs
      · exact ⟨z1, z2⟩
      · exact ih _ z1 z2
    · split_ifs
      · exact ih _ hu.1 hu.2
      · exact hu

theorem loadAndUnloadVisibleEdges_size (fuel : Nat) (s : State)
    (h1 : 1 ≤ s.loadedTable.width) (h2 : 1 ≤ s.loadedTable.height) :
    1 ≤ (loadAndUnloadVisibleEdges fuel s).state.loadedTable.width ∧
    1 ≤ (loadAndUnloadVisibleEdges fuel s).state.loadedTable.height := by
  unfold loadAndUnloadVisibleEdges
  split_ifs
  · exact ⟨h1, h2⟩
  · exact ⟨h1, h2⟩
  · exact loadAndUnloadLoop_size fuel _ s h1 h2
  · exact loadAndUnloadLoop_size fuel _ s h1 h2

/-- Claim C5. Unloading never shrinks the loaded window below one row or one
column: from a window of width and height at least one, the edge returned by
`nextEdgeToUnload` leaves width and height at least one after `unloadEdge`,
and so do the unload loops of `loadAndUnloadVisibleEdges` (for every number of
iterations) and of `unloadBuffer`. -/
theorem unloading_keeps_one_row_and_column (s : State)
    (h1 : 1 ≤ s.loadedTable.width) (h2 : 1 ≤ s.loadedTable.height) :
    (∀ rect edge, nextEdgeToUnload s rect = some edge →
      1 ≤ (unloadEdge s edge).loadedTable.width ∧
      1 ≤ (unloadEdge s edge).loadedTable.height) ∧
    (∀ fuel, 1 ≤ (loadAndUnloadVisibleEdges fuel s).state.loadedTable.width ∧
      1 ≤ (loadAndUnloadVisibleEdges fuel s).state.loadedTable.height) ∧
    (1 ≤ (unloadBuffer s).loadedTable.width ∧ 1 ≤ (unloadBuffer s).loadedTable.height) :=
  ⟨fun rect edge hn => unloadEdge_size_ge s edge
      (edgeRemovable_of_canUnload s edge rect (canUnload_of_next s rect edge hn)) h1 h2,
    fun fuel => loadAndUnloadVisibleEdges_size fuel s h1 h2,
    unloadBuffer_size s h1 h2⟩

set_option maxRecDepth 100000 in
theorem examplePolished_loadedTable : examplePolished.loadedTable = ⟨0, 0, 3, 4⟩ := by
  decide!

set_option maxRecDepth 100000 in
theorem examplePolished_nextEdgeToUnload :
    nextEdgeToUnload examplePolished exampleScrolledRect = some Edge.TopEdge := by
  decide!

/-- Claim C5, instance: with the viewport of the example moved down by 120 the
top row of the 4 x 5 window is selected for unloading, and the window keeps at
least one row and one column. -/
theorem unloading_keeps_one_row_and_column_witness :
    1 ≤ examplePolished.loadedTable.width ∧ 1 ≤ examplePolished.loadedTable.height ∧
    nextEdgeToUnload examplePolished exampleScrolledRect = some Edge.TopEdge ∧
    1 ≤ (unloadEdge examplePolished Edge.TopEdge).loadedTable.width ∧
    1 ≤ (unloadEdge examplePolished Edge.TopEdge).loadedTable.height :=
  have h1 : 1 ≤ examplePolished.loadedTable.width := by
    rw [examplePolished_loadedTable]; decide
  have h2 : 1 ≤ examplePolished.loadedTable.height := by
    rw [examplePolished_loadedTable]; decide
  ⟨h1, h2, examplePolished_nextEdgeToUnload,
    (unloading_keeps_one_row_and_column examplePolished h1 h2).1 exampleScrolledRect
      Edge.TopEdge examplePolished_nextEdgeToUnload⟩

/-! ## A request is begun only while none is active -/

theorem NoOverlap.of_begins {s t : State} (hs : NoOverlap s)
    (h : t.shape.begins = s.shape.begins) : NoOverlap t := by
  intro ev hev
  rw [h] at hev
  exact hs ev hev

theorem NoOverlap.of_frame {s t : State} (hs : NoOverlap s)
    (h : t.shape.frame = s.shape.frame) : NoOverlap t :=
  hs.of_begins (congrArg Frame.begins h :)

theorem NoOverlap.of_same_shape {s t : State} (hs : NoOverlap s) (h : t.shape = s.shape) :
    NoOverlap t :=
  hs.of_begins (congrArg Shape.begins h :)

theorem NoOverlap.of_log {s t : State} (hs : NoOverlap s) (h : t.log = s.log) :
    NoOverlap t :=
  hs.of_begins (by simp only [State.shape, h])

theorem noOverlap_iff_log (s : State) :
    NoOverlap s ↔ ∀ edge cells, Event.begin true edge cells ∉ s.log := by
  constructor
  · intro h edge cells hmem
    exact h _ (List.mem_filter.mpr ⟨hmem, rfl⟩) edge cells rfl
  · intro h ev hev edge cells heq
    subst heq
    exact h edge cells (List.mem_filter.mp hev).1

theorem NoOverlap.beginIdle {s : State} (hs : NoOverlap s) (hi : s.loadRequest.isActive = false)
    (t : State) (edge : Option Edge) (cells : QLine)
    (h : t.shape.begins = s.shape.begins ++ [Event.begin s.loadRequest.isActive edge cells]) :
    NoOverlap t := by
  intro ev hev e l heq
  rw [h, List.mem_append] at hev
  rcases hev with hev | hev
  · exact hs ev hev e l heq
  · rw [List.mem_singleton] at hev
    rw [hev, hi] at heq
    simp at heq

theorem noOverlap_unloadEdge (s : State) (hs : NoOverlap s) (edge : Edge) :
    NoOverlap (unloadEdge s edge) :=
  hs.of_frame (congrArg Shape.frame (shape_unloadEdge s edge) :)

theorem noOverlap_processLoadRequest (s : State) (hs : NoOverlap s) :
    NoOverlap (processLoadRequest s) :=
  hs.of_frame (frame_processLoadRequest s)

theorem noOverlap_cancelLoadRequest (s : State) (hs : NoOverlap s) :
    NoOverlap (cancelLoadRequest s) :=
  hs.of_frame (frame_cancelLoadRequest s).1

theorem noOverlap_cancelIfActive (s : State) (hs : NoOverlap s) :
    NoOverlap (if s.loadRequest.isActive then cancelLoadRequest s else s) := by
  split_ifs
  · exact noOverlap_cancelLoadRequest s hs
  · exact hs

theorem noOverlap_loadEdge (s : State) (hs : NoOverlap s)
    (hi : s.loadRequest.isActive = false) (edge : Edge) (mode : IncubationMode) :
    NoOverlap (loadEdge s edge mode) := by
  unfold loadEdge
  simp only []
  apply noOverlap_processLoadRequest
  exact hs.beginIdle hi _ (some edge) (rectangleEdge (expandedRect s.loadedTable edge 1) edge)
    (congrArg Shape.begins (shape_with_begin s
      (s.loadRequest.begin (rectangleEdge (expandedRect s.loadedTable edge 1) edge) edge mode)
      (Event.begin s.loadRequest.isActive (some edge)
        (rectangleEdge (expandedRect s.loadedTable edge 1) edge)) rfl) :)

theorem noOverlap_loadInitialTopLeftItem (s : State) (hs : NoOverlap s)
    (hi : s.loadRequest.isActive = false) : NoOverlap (loadInitialTopLeftItem s) := by
  unfold loadInitialTopLeftItem
  split_ifs
  · exact hs
  · split
    · exact hs
    · split_ifs
      · exact hs
      · exact hs
      · apply noOverlap_processLoadRequest
        exact hs.beginIdle hi _ none ⟨⟨0, 0⟩, ⟨0, 0⟩⟩
          (congrArg Shape.begins (shape_with_begin s
            (s.loadRequest.beginCell ⟨0, 0⟩ IncubationMode.AsynchronousIfNested)
            (Event.begin s.loadRequest.isActive none ⟨⟨0, 0⟩, ⟨0, 0⟩⟩) rfl) :)

theorem noOverlap_clear (s : State) (hs : NoOverlap s) : NoOverlap (clear s) := by
  unfold clear
  simp only []
  have h1 : NoOverlap ({ s with tableInvalid := true, tableRebuilding := false } : State) :=
    hs.of_log rfl
  have h2 := noOverlap_cancelIfActive _ h1
  revert h2
  generalize (if ({ s with tableInvalid := true, tableRebuilding := false } : State).loadRequest.isActive
      then cancelLoadRequest { s with tableInvalid := true, tableRebuilding := false }
      else { s with tableInvalid := true, tableRebuilding := false }) = t
  intro h2
  have h3 : NoOverlap (releaseLoadedItems t) :=
    h2.of_begins (congrArg Shape.begins (shape_releaseLoadedItems t).1 :)
  have h4 : NoOverlap ({ releaseLoadedItems t with
      loadedTable := QRect.null
      loadedTableOuterRect := QRectF.ofRect QRect.null
      loadedTableInnerRect := QRectF.ofRect QRect.null
      contentSizeBenchMarkPoint := ⟨-1, -1⟩ } : State) := h3.of_log rfl
  exact (h4.of_same_shape (shape_updateContentWidth _)).of_same_shape (shape_updateContentHeight _)

theorem noOverlap_calculateTableSize (s : State) (hs : NoOverlap s) :
    NoOverlap (calculateTableSize s) := by
  unfold calculateTableSize
  split
  · split_ifs <;> exact hs.of_log rfl
  · exact hs.of_log rfl

theorem noOverlap_unloadBufferLoop (n : Nat) (s : State) (hs : NoOverlap s) :
    NoOverlap (unloadBufferLoop n s) := by
  induction n generalizing s with
  | zero => exact hs
  | succ n ih =>
    rw [unloadBufferLoop]
    split
    · exact ih _ (noOverlap_unloadEdge s hs _)
    · exact hs

theorem noOverlap_unloadBuffer (s : State) (hs : NoOverlap s) : NoOverlap (unloadBuffer s) := by
  unfold unloadBuffer
  split_ifs
  · exact hs
  · have h1 : NoOverlap
        ({ s with hasBufferedItems := false, cacheBufferDelayTimerActive := false } : State) :=
      hs.of_log rfl
    exact noOverlap_unloadBufferLoop _ _ (noOverlap_cancelIfActive _ h1)

theorem noOverlap_loadAndUnloadLoop (n : Nat) (rect : QRectF) (s : State)
    (hi : s.loadRequest.isActive = false) (hs : NoOverlap s) :
    NoOverlap (loadAndUnloadLoop n rect s).state := by
  induction n generalizing s with
  | zero => exact hs
  | succ n ih =>
    rw [loadAndUnloadLoop]
    have hu : (match nextEdgeToUnload s rect with
        | some edge => (unloadEdge s edge, true)
        | none => (s, false)).1.loadRequest.isActive = false ∧
        NoOverlap (match nextEdgeToUnload s rect with
        | some edge => (unloadEdge s edge, true)
        | none => (s, false)).1 := by
      split
      · exact ⟨by rw [unloadEdge_loadRequest]; exact hi, noOverlap_unloadEdge s hs _⟩
      · exact ⟨hi, hs⟩
    revert hu
    generalize (match nextEdgeToUnload s rect with
        | some edge => (unloadEdge s edge, true)
        | none => (s, false)) = u
    intro hu
    simp only []
    split
    · rename_i edge hn
      have hl := noOverlap_loadEdge u.1 hu.2 hu.1 edge IncubationMode.AsynchronousIfNested
      split_ifs with ha
      · exact hl
      · exact ih _ (by simpa using ha) hl
    · split_ifs
      · exact ih _ hu.1 hu.2
      · exact hu.2

theorem noOverlap_loadAndUnloadVisibleEdges (fuel : Nat) (s : State) (hs : NoOverlap s) :
    NoOverlap (loadAndUnloadVisibleEdges fuel s).state := by
  unfold loadAndUnloadVisibleEdges
  split_ifs with h1
  · exact hs
  · exact hs
  · exact noOverlap_loadAndUnloadLoop fuel _ s (by simpa using h1) hs
  · exact noOverlap_loadAndUnloadLoop fuel _ s (by simpa using h1) hs

theorem noOverlap_loadBufferLoop (n : Nat) (rect : QRectF) (s : State)
    (hi : s.loadRequest.isActive = false) (hs : NoOverlap s) :
    NoOverlap (loadBufferLoop n rect s).state := by
  induction n generalizing s with
  | zero => exact hs
  | succ n ih =>
    rw [loadBufferLoop]
    split
    · rename_i edge hn
      have hl := noOverlap_loadEdge s hs hi edge IncubationMode.Asynchronous
      simp only []
      split_ifs with ha
      · exact hl
      · exact ih _ (by simpa using ha) hl
    · exact hs

theorem noOverlap_loadBuffer (fuel : Nat) (s : State) (hs : NoOverlap s) :
    NoOverlap (loadBuffer fuel s).state := by
  unfold loadBuffer
  simp only []
  split_ifs with h1
  · exact hs
  · have hi : s.loadRequest.isActive = false := by
      cases h : s.loadRequest.isActive
      · rfl
      · exact absurd (Or.inr (Or.inl h)) h1
    exact (noOverlap_loadBufferLoop fuel _ s hi hs).of_log rfl
  · have hi : s.loadRequest.isActive = false := by
      cases h : s.loadRequest.isActive
      · rfl
      · exact absurd (Or.inr (Or.inl h)) h1
    exact noOverlap_loadBufferLoop fuel _ s hi hs

theorem noOverlap_beginRebuildTable (fuel : Nat) (s : State) (hs : NoOverlap s) :
    NoOverlap (beginRebuildTable fuel s).state := by
  unfold beginRebuildTable
  simp only []
  obtain ⟨_, _, h3, _, _⟩ := clear_fields s
  obtain ⟨_, _, c3, _⟩ := calculateTableSize_fields
    { clear s with tableInvalid := false, tableRebuilding := true }
  apply noOverlap_loadAndUnloadVisibleEdges
  apply noOverlap_loadInitialTopLeftItem
  · apply noOverlap_calculateTableSize
    exact (noOverlap_clear s hs).of_log rfl
  · show (calculateTableSize _).loadRequest.active = false
    rw [c3]
    exact h3

theorem noOverlap_endRebuildTable (s : State) (hs : NoOverlap s) :
    NoOverlap (endRebuildTable s) := by
  unfold endRebuildTable
  simp only []
  have h1 : NoOverlap ({ s with tableRebuilding := false } : State) := hs.of_log rfl
  split_ifs
  · exact h1
  · exact h1.of_same_shape (shape_relayoutTable _)

theorem noOverlap_startBufferTimer (r : Run) (hr : NoOverlap r.state) :
    NoOverlap (startBufferTimer r).state := by
  unfold startBufferTimer
  split_ifs
  · exact hr
  · exact hr
  · exact hr.of_log rfl
  · exact hr

theorem noOverlap_polishLoadedTable (fuel : Nat) (s : State) (hs : NoOverlap s) :
    NoOverlap (polishLoadedTable fuel s).state := by
  unfold polishLoadedTable
  have h2 : NoOverlap (if s.columnRowPositionsInvalid then relayoutTable s else s) := by
    split_ifs
    · exact hs.of_same_shape (shape_relayoutTable s)
    · exact hs
  revert h2
  generalize (if s.columnRowPositionsInvalid then relayoutTable s else s) = s2
  intro h2
  have h3 : NoOverlap (if s2.hasBufferedItems && (nextEdgeToLoad s2 s2.viewportRect).isSome
      then unloadBuffer s2 else s2) := by
    split_ifs
    · exact noOverlap_unloadBuffer s2 h2
    · exact h2
  exact noOverlap_startBufferTimer _ (noOverlap_loadAndUnloadVisibleEdges fuel _ h3)

theorem noOverlap_updatePolishTail (fuel : Nat) (s : State) (hs : NoOverlap s) :
    NoOverlap (updatePolishTail fuel s).state := by
  unfold updatePolishTail
  have h1 : NoOverlap (if s.tableRebuilding then endRebuildTable s else s) := by
    split_ifs
    · exact noOverlap_endRebuildTable s hs
    · exact hs
  revert h1
  generalize (if s.tableRebuilding then endRebuildTable s else s) = s1
  intro h1
  simp only []
  split_ifs
  · exact h1
  · exact noOverlap_polishLoadedTable fuel s1 h1

theorem noOverlap_updatePolishBody (fuel : Nat) (s : State) (hs : NoOverlap s) :
    NoOverlap (updatePolishBody fuel s).state := by
  unfold updatePolishBody
  simp only []
  have hv : NoOverlap ({ s with viewportRect := ⟨s.contentX, s.contentY, s.width, s.height⟩ } : State) :=
    hs.of_log rfl
  split_ifs
  · exact hs
  · exact hv
  · exact noOverlap_beginRebuildTable fuel _ hv
  · exact noOverlap_beginRebuildTable fuel _ hv
  · exact noOverlap_updatePolishTail fuel _ (noOverlap_beginRebuildTable fuel _ hv)
  · exact noOverlap_updatePolishTail fuel _ hv

theorem noOverlap_updatePolish (fuel : Nat) (s : State) (hs : NoOverlap s) :
    NoOverlap (updatePolish fuel s).state := by
  unfold updatePolish
  simp only []
  have h1 : NoOverlap ({ s with polishing := true } : State) := hs.of_log rfl
  exact (noOverlap_updatePolishBody fuel _ h1).of_log rfl

theorem noOverlap_itemCreatedCallback (fuel : Nat) (s : State) (hs : NoOverlap s) :
    NoOverlap (itemCreatedCallback fuel s).state := by
  unfold itemCreatedCallback
  simp only []
  have h2 := noOverlap_loadAndUnloadVisibleEdges fuel _ (noOverlap_processLoadRequest s hs)
  split_ifs
  · exact hs
  · exact h2
  · exact noOverlap_updatePolish fuel _ h2

theorem noOverlap_invalidateTable (s : State) (hs : NoOverlap s) :
    NoOverlap (invalidateTable s) := by
  unfold invalidateTable
  have h1 : NoOverlap ({ s with tableInvalid := true } : State) := hs.of_log rfl
  exact (noOverlap_cancelIfActive _ h1).of_log rfl

theorem step_noOverlap (s t : State) (hs : NoOverlap s) (ht : Step s t) : NoOverlap t := by
  cases ht with
  | updatePolish fuel => exact noOverlap_updatePolish fuel s hs
  | itemCreatedCallback fuel h => exact noOverlap_itemCreatedCallback fuel s hs
  | invalidateTable => exact noOverlap_invalidateTable s hs
  | invalidateColumnRowPositions => exact hs.of_log rfl
  | loadBuffer fuel => exact noOverlap_loadBuffer fuel s hs
  | unloadBuffer => exact noOverlap_unloadBuffer s hs
  | clear => exact noOverlap_clear s hs
  | loadInitialTopLeftItem h1 h2 => exact noOverlap_loadInitialTopLeftItem s hs h1
  | loadEdge edge mode rect h1 h2 h3 => exact noOverlap_loadEdge s hs h1 edge mode
  | unloadEdge edge rect h1 h3 => exact noOverlap_unloadEdge s hs edge
  | processLoadRequest h => exact noOverlap_processLoadRequest s hs
  | cancelLoadRequest h => exact noOverlap_cancelLoadRequest s hs
  | input => exact hs.of_log rfl

theorem reachable_noOverlap (s : State) (h : Reachable s) : NoOverlap s := by
  induction h with
  | start s0 h0 =>
    apply noOverlap_clear
    intro ev hev
    simp [State.shape, h0] at hev
  | step s t _ ht ih => exact step_noOverlap s t ih ht

theorem updatePolish_of_active (fuel : Nat) (s : State) (h : s.loadRequest.isActive = true) :
    updatePolish fuel s = ⟨s, true⟩ := by
  unfold updatePolish updatePolishBody
  have h2 : ({ s with polishing := true } : State).loadRequest.isActive = true := h
  simp only [h2, if_true]

/-- Claim C3. At most one load request is ever active: in every reachable
state the log holds no call of `begin` made while the request was active, the
same is true after `loadAndUnloadVisibleEdges`, `beginRebuildTable`,
`loadBuffer` and `updatePolish` run from that state, and while a request is
active these functions return at once, so that no edge is selected. -/
theorem begin_only_when_inactive (s : State) (h : Reachable s) :
    (∀ edge cells, Event.begin true edge cells ∉ s.log) ∧
    (∀ fuel edge cells,
      Event.begin true edge cells ∉ (loadAndUnloadVisibleEdges fuel s).state.log ∧
      Event.begin true edge cells ∉ (beginRebuildTable fuel s).state.log ∧
      Event.begin true edge cells ∉ (loadBuffer fuel s).state.log ∧
      Event.begin true edge cells ∉ (updatePolish fuel s).state.log) ∧
    (s.loadRequest.isActive = true → ∀ fuel,
      loadAndUnloadVisibleEdges fuel s = ⟨s, true⟩ ∧ loadBuffer fuel s = ⟨s, true⟩ ∧
      updatePolish fuel s = ⟨s, true⟩) := by
  have hn := reachable_noOverlap s h
  refine ⟨(noOverlap_iff_log s).mp hn, fun fuel edge cells => ⟨?_, ?_, ?_, ?_⟩, fun ha fuel => ?_⟩
  · exact (noOverlap_iff_log _).mp (noOverlap_loadAndUnloadVisibleEdges fuel s hn) edge cells
  · exact (noOverlap_iff_log _).mp (noOverlap_beginRebuildTable fuel s hn) edge cells
  · exact (noOverlap_iff_log _).mp (noOverlap_loadBuffer fuel s hn) edge cells
  · exact (noOverlap_iff_log _).mp (noOverlap_updatePolish fuel s hn) edge cells
  · refine ⟨?_, ?_, updatePolish_of_active fuel s ha⟩
    · simp [loadAndUnloadVisibleEdges, ha]
    · simp [loadBuffer, ha]

theorem examplePolished_reachable : Reachable examplePolished :=
  exampleView_polished_reachable

set_option maxRecDepth 100000 in
theorem examplePolished_first_begin :
    Event.begin false none ⟨⟨0, 0⟩, ⟨0, 0⟩⟩ ∈ examplePolished.log := by
  decide!

/-- Claim C3, instance: the log of the reconciled example view holds the call
of `begin` for the top-left cell, made while no request was active, and no
such call made while one was active. -/
theorem begin_only_when_inactive_witness :
    Reachable examplePolished ∧
    Event.begin false none ⟨⟨0, 0⟩, ⟨0, 0⟩⟩ ∈ examplePolished.log ∧
    Event.begin true none ⟨⟨0, 0⟩, ⟨0, 0⟩⟩ ∉ examplePolished.log :=
  ⟨examplePolished_reachable, examplePolished_first_begin,
    (begin_only_when_inactive examplePolished examplePolished_reachable).1 none
      ⟨⟨0, 0⟩, ⟨0, 0⟩⟩⟩

/-! ## Rollback -/

theorem unloadItems_eq_lineCells (s : State) (l : QLine) :
    unloadItems s l = (lineCells l).foldl unloadItem s := by
  rw [unloadItems_eq_foldl]
  rfl

theorem mem_lineCells (l : QLine) (hl : l.WellFormed) (c : QPoint) :
    c ∈ lineCells l ↔ l.contains c := by
  obtain ⟨hx, hy, hd⟩ := hl
  unfold lineCells
  by_cases hdx : l.dx ≠ 0
  · have hyy := hd hdx
    simp only [hdx, if_true, ne_eq, not_false_eq_true, List.mem_map, mem_intRange]
    constructor
    · rintro ⟨x, ⟨h1, h2⟩, rfl⟩
      exact ⟨h1, h2, le_refl _, by simp only; omega⟩
    · rintro ⟨c1, c2, c3, c4⟩
      exact ⟨c.x, ⟨c1, c2⟩, QPoint.eq_of_coords _ _ rfl (by simp only; omega)⟩
  · simp only [hdx, if_false, List.mem_map, mem_intRange]
    have hxx : l.p1.x = l.p2.x := by
      simp only [QLine.dx, ne_eq, not_not] at hdx; omega
    constructor
    · rintro ⟨y, ⟨h1, h2⟩, rfl⟩
      exact ⟨le_refl _, by simp only; omega, h1, h2⟩
    · rintro ⟨c1, c2, c3, c4⟩
      exact ⟨c.y, ⟨c3, c4⟩, QPoint.eq_of_coords _ _ (by simp only; omega) rfl⟩

theorem loadedItems_unloadCells (cells : List QPoint) (s : State) :
    (cells.foldl unloadItem s).loadedItems =
      s.loadedItems.filter (fun e => !(cells.any (fun c => cellIndex s.tableSize c == e.1))) := by
  induction cells generalizing s with
  | nil => simp
  | cons c cells ih =>
    simp only [List.foldl_cons]
    rw [ih (unloadItem s c), loadedItems_unloadItem]
    have hts : (unloadItem s c).tableSize = s.tableSize :=
      (congrArg Shape.tableSize (shape_unloadItem s c) :)
    rw [hts]
    simp only [ItemHash.erase, List.filter_filter, modelIndexAtCell, cellIndex, List.any_cons]
    apply List.filter_congr
    intro e _
    by_cases h1 : e.1 = c.y + c.x * s.tableSize.height
    · simp [h1]
    · have h2 : ¬ (c.y + c.x * s.tableSize.height = e.1) := fun h => h1 h.symm
      have b1 : (e.1 == c.y + c.x * s.tableSize.height) = false := by simpa using h1
      have b2 : (c.y + c.x * s.tableSize.height == e.1) = false := by simpa using h2
      rw [b1, b2]
      simp

theorem loadedItems_unloadItems_front (s : State) (l : QLine) (hl : l.WellFormed)
    (front rest : ItemHash) (hitems : s.loadedItems = front ++ rest)
    (hfront : ∀ e ∈ front, ∃ c, l.contains c ∧ cellIndex s.tableSize c = e.1)
    (hrest : ∀ e ∈ rest, ∀ c, l.contains c → cellIndex s.tableSize c ≠ e.1) :
    (unloadItems s l).loadedItems = rest := by
  rw [unloadItems_eq_lineCells, loadedItems_unloadCells, hitems, List.filter_append]
  have h1 : front.filter (fun e => !((lineCells l).any
      (fun c => cellIndex s.tableSize c == e.1))) = [] := by
    rw [List.filter_eq_nil_iff]
    intro e he
    obtain ⟨c, hc, hk⟩ := hfront e he
    simp only [Bool.not_eq_true', Bool.not_eq_false, List.any_eq_true, beq_iff_eq]
    exact ⟨c, (mem_lineCells l hl c).mpr hc, hk⟩
  have h2 : rest.filter (fun e => !((lineCells l).any
      (fun c => cellIndex s.tableSize c == e.1))) = rest := by
    rw [List.filter_eq_self]
    intro e he
    simp only [Bool.not_eq_true', List.any_eq_false, beq_iff_eq]
    intro c hc
    exact hrest e he c ((mem_lineCells l hl c).mp hc)
  rw [h1, h2]
  rfl

theorem pending_begin (s : State) (hs : Consistent s) (hi : s.loadRequest.active = false)
    (hv : s.tableInvalid = false) (hne : s.loadedTable ≠ QRect.null)
    (edge : Edge) (mode : IncubationMode)
    (hroom : edgeHasRoom s.loadedTable s.tableSize edge) (ev : Event)
    (hev : ev.requestedIndex = none) :
    Pending s { s with
      loadRequest := s.loadRequest.begin (rectangleEdge (expandedRect s.loadedTable edge 1) edge)
        edge mode
      log := s.log ++ [ev] } := by
  have hsh := shape_with_begin s
    (s.loadRequest.begin (rectangleEdge (expandedRect s.loadedTable edge 1) edge) edge mode)
    ev hev
  refine ⟨hs.1.begin hi hne edge mode hroom (congrArg Shape.loadedTable hsh :)
      (congrArg Shape.tableSize hsh :) (congrArg Shape.loadRequest hsh :)
      (congrArg Shape.tableInvalid hsh :) (fun k => by rw [(congrArg Shape.keys hsh :)]),
    rfl, hv, rfl, rfl, ?_, [], rfl, ?_⟩
  · intro k hk
    obtain ⟨c, hc, hkc⟩ := hs.1.exact hv k hk
    rcases hc with hc | ⟨ha, _⟩
    · exact ⟨c, hc, hkc⟩
    · rw [show s.shape.loadRequest = s.loadRequest from rfl, hi] at ha
      exact absurd ha (by decide)
  · intro e he
    simp at he

theorem pending_step (s t : State) (hp : Pending s t)
    (hcur : t.loadRequest.hasCurrentCell = true) (u : State) (item : FxTableItem)
    (f1 : u.loadedTable = t.loadedTable) (f2 : u.tableSize = t.tableSize)
    (f3 : u.loadRequest = t.loadRequest) (f4 : u.tableInvalid = t.tableInvalid)
    (f5 : u.loadedItems = t.loadedItems) :
    Pending s { u with
      loadedItems := u.loadedItems.insert (modelIndexAtCell u t.loadRequest.currentCell) item
      loadRequest := u.loadRequest.moveToNextCell } := by
  obtain ⟨hl, hact, hv, hts, hlt, hex, front, hfront, hwit⟩ := hp
  obtain ⟨r1, r2, r3, r4, r5, r6, r7⟩ := hl.request hact
  dsimp only [State.shape] at r1 r2 r3 r4 r5 r6 r7
  have hon := currentCell_on_line _ r1 r2 hcur
  have hb := loadedBefore_moveToNextCell _ r1 r2
  obtain ⟨hcv, hcw⟩ := r4 _ hon
  have hidx : modelIndexAtCell u t.loadRequest.currentCell =
      cellIndex t.tableSize t.loadRequest.currentCell := by
    simp only [modelIndexAtCell, cellIndex, f2]
  have hfresh : cellIndex t.tableSize t.loadRequest.currentCell ∉ t.loadedItems.keys := by
    intro hmem
    rw [hfront] at hmem
    simp only [ItemHash.keys, List.map_append, List.mem_append, List.mem_map] at hmem
    rcases hmem with ⟨e, he, hek⟩ | ⟨e, he, hek⟩
    · obtain ⟨c, hc, hkc⟩ := hwit e he
      have hcc := cellIndex_injective _ c _ (r4 c hc.1).1 hcv (hkc.trans hek)
      have hlt2 := hc.2
      rw [hcc] at hlt2
      omega
    · obtain ⟨c, hc, hkc⟩ := hex e.1 (List.mem_map.mpr ⟨e, he, rfl⟩)
      rw [← hlt] at hc
      have hg : InGrid t.loadedTable t.tableSize := by
        rcases hl.window with hw | ⟨hg, _⟩
        · rw [show t.shape.loadedTable = t.loadedTable from rfl] at hw
          rw [hw] at hc
          exact absurd hc (not_containsCell_null c)
        · exact hg
      rw [← hts] at hkc
      have hcc := cellIndex_injective _ c _ (cellInGrid_of_inGrid _ _ c hg hc) hcv (hkc.trans hek)
      rw [hcc] at hc
      exact hcw hc
  refine ⟨?_, ?_, ?_, ?_, ?_, hex, ?_⟩
  · refine hl.advance hcur f1 f2 ?_ f4 ?_
    · show TableEdgeLoadRequest.moveToNextCell _ = _
      rw [f3]
      rfl
    · intro k
      show k ∈ ItemHash.keys (ItemHash.insert _ _ _) ↔ _
      rw [ItemHash.mem_keys_insert, f5, hidx]
      rfl
  · show (TableEdgeLoadRequest.moveToNextCell _).active = true
    rw [f3]
    exact hact
  · exact f4.trans hv
  · exact f2.trans hts
  · exact f1.trans hlt
  · refine ⟨(modelIndexAtCell u t.loadRequest.currentCell, item) :: front, ?_, ?_⟩
    · show ItemHash.insert _ _ _ = _
      unfold ItemHash.insert
      rw [f5, hidx, ItemHash.erase_of_not_mem _ _ hfresh, hfront]
      rfl
    · intro e he
      show ∃ c, (TableEdgeLoadRequest.moveToNextCell _).loadedBefore c ∧ cellIndex u.tableSize c = e.1
      rw [f3, f2]
      rcases List.mem_cons.mp he with rfl | he'
      · exact ⟨_, (hb _).mpr (Or.inr ⟨hon, rfl⟩), hidx.symm⟩
      · obtain ⟨c, hc, hkc⟩ := hwit e he'
        exact ⟨c, (hb c).mpr (Or.inl hc), hkc⟩

theorem pending_transfer (s t u : State) (hp : Pending s t)
    (f1 : u.loadedTable = t.loadedTable) (f2 : u.tableSize = t.tableSize)
    (f3 : u.loadRequest = t.loadRequest) (f4 : u.tableInvalid = t.tableInvalid)
    (f5 : u.loadedItems = t.loadedItems) : Pending s u := by
  obtain ⟨hl, hact, hv, hts, hlt, hex, front, hfront, hwit⟩ := hp
  refine ⟨hl.transfer f1 f2 f3 f4 (fun k => ?_), by rw [f3]; exact hact, f4.trans hv,
    f2.trans hts, f1.trans hlt, hex, front, f5.trans hfront, ?_⟩
  · show k ∈ ItemHash.keys u.loadedItems ↔ k ∈ ItemHash.keys t.loadedItems
    rw [f5]
  · intro e he
    rw [f3, f2]
    exact hwit e he

theorem pending_loadRequestedCells (n : Nat) (s t : State) (hp : Pending s t) :
    Pending s (loadRequestedCells n t).1 := by
  induction n generalizing t with
  | zero => exact hp
  | succ n ih =>
    rw [loadRequestedCells]
    obtain ⟨f1, f2, f3, f4, f5⟩ := loadFxTableItem_fields t t.loadRequest.currentCell
      t.loadRequest.incubationMode
    cases hc : t.loadRequest.hasCurrentCell
    · exact hp
    · simp only [if_true]
      split
      · exact pending_transfer s t _ hp f1 f2 f3 f4 f5
      · rename_i item hitem
        exact ih _ (pending_step s t hp hc _ item f1 f2 f3 f4 f5)

theorem pending_processLoadRequest (s t : State) (hp : Pending s t)
    (ha : (processLoadRequest t).loadRequest.isActive = true) :
    Pending s (processLoadRequest t) ∧
    (processLoadRequest t).loadRequest.hasCurrentCell = true := by
  have hcur := (processLoadRequest_loading t hp.1 hp.2.1).2 ha
  refine ⟨?_, hcur⟩
  revert ha hcur
  unfold processLoadRequest
  simp only []
  cases hflag : (loadRequestedCells t.loadRequest.remaining t).2
  · intro _ _
    simp only [Bool.false_eq_true, if_false]
    exact pending_loadRequestedCells _ s t hp
  · intro ha _
    simp only [if_true] at ha
    have hf := shape_finishLoadRequest (loadRequestedCells t.loadRequest.remaining t).1
    have f4 := (congrArg Shape.loadRequest hf :)
    simp only [State.shape] at f4
    rw [show (finishLoadRequest (loadRequestedCells t.loadRequest.remaining t).1).loadRequest.isActive
      = (finishLoadRequest (loadRequestedCells t.loadRequest.remaining t).1).loadRequest.active
      from rfl, f4] at ha
    simp [TableEdgeLoadRequest.markAsDone] at ha

theorem pending_loadInitialTopLeftItem (s : State) (hs : Consistent s)
    (hi : s.loadRequest.active = false) (hv : s.tableInvalid = false)
    (hitems : s.loadedItems.isEmpty = true)
    (h : (loadInitialTopLeftItem s).loadRequest.isActive = true) :
    Pending s (loadInitialTopLeftItem s) ∧
    (loadInitialTopLeftItem s).loadRequest.hasCurrentCell = true := by
  have hno : ¬ s.loadRequest.isActive = true := by
    rw [show s.loadRequest.isActive = s.loadRequest.active from rfl, hi]
    decide
  revert h
  unfold loadInitialTopLeftItem
  cases hsz : s.tableSize.isEmpty
  swap
  · intro h
    exact absurd (by simpa using h) hno
  simp only [Bool.false_eq_true, if_false]
  split
  · intro h
    exact absurd h hno
  · split_ifs
    · intro h
      exact absurd h hno
    · intro h
      exact absurd h hno
    · intro h
      have hkeys : s.loadedItems.keys = [] := (ItemHash.isEmpty_iff _).mp hitems
      have hnull : s.loadedTable = QRect.null := by
        rcases hs.1.window with hw | ⟨hg, hf⟩
        · exact hw
        · have := hf ⟨s.loadedTable.x1, s.loadedTable.y1⟩
            ⟨le_refl _, hg.2.1, le_refl _, hg.2.2.2.2.1⟩
          rw [show s.shape.keys = s.loadedItems.keys from rfl, hkeys] at this
          simp at this
      have hsize : 1 ≤ s.tableSize.width ∧ 1 ≤ s.tableSize.height := by
        simp only [QSize.isEmpty, Bool.or_eq_false_iff, decide_eq_false_iff_not, not_lt] at hsz
        exact hsz
      have hsh := shape_with_begin s
        (s.loadRequest.beginCell ⟨0, 0⟩ IncubationMode.AsynchronousIfNested)
        (Event.begin s.loadRequest.isActive none ⟨⟨0, 0⟩, ⟨0, 0⟩⟩) rfl
      refine pending_processLoadRequest s _ ⟨hs.1.beginCell hi hnull
          IncubationMode.AsynchronousIfNested hsize
          (congrArg Shape.loadedTable hsh :) (congrArg Shape.tableSize hsh :)
          (congrArg Shape.loadRequest hsh :) (congrArg Shape.tableInvalid hsh :)
          (fun k => by rw [(congrArg Shape.keys hsh :)]),
        rfl, hv, rfl, rfl, ?_, [], rfl, ?_⟩ h
      · intro k hk
        rw [hkeys] at hk
        simp at hk
      · intro e he
        simp at he

theorem loadInProgress_pending (s : State) (hs : Consistent s)
    (hi : s.loadRequest.active = false) (hv : s.tableInvalid = false) (t : State)
    (ht : LoadInProgress s t) :
    Pending s t ∧ t.loadRequest.hasCurrentCell = true := by
  induction ht with
  | initialCell h1 h => exact pending_loadInitialTopLeftItem s hs hi hv h1 h
  | tableEdge edge mode rect h1 h2 h =>
    exact pending_processLoadRequest s _
      (pending_begin s hs hi hv (loadedTable_ne_null_of_items s hs hi h1) edge mode
        (edgeHasRoom_of_canLoad s edge rect (canLoad_of_next s rect edge h2)) _ rfl) h
  | resumed t script fallback _ h ih =>
    exact pending_processLoadRequest s _
      (pending_transfer s t _ ih.1 rfl rfl rfl rfl rfl) h

theorem cancelLoadRequest_pending (s t : State) (hp : Pending s t)
    (hcur : t.loadRequest.hasCurrentCell = true) :
    (cancelLoadRequest t).loadedItems = s.loadedItems := by
  obtain ⟨hl, hact, hv, hts, hlt, hex, front, hfront, hwit⟩ := hp
  obtain ⟨r1, r2, r3, r4, r5, r6, r7⟩ := hl.request hact
  dsimp only [State.shape] at r1 r2 r3 r4 r5 r6 r7
  rw [cancelLoadRequest_eq]
  split_ifs with hkeep
  · rcases hkeep with hinv | hbeg
    · rw [hv] at hinv
      exact absurd hinv (by decide)
    · show t.loadedItems = s.loadedItems
      rw [hfront]
      cases front with
      | nil => rfl
      | cons e front =>
        obtain ⟨c, hc, _⟩ := hwit e (List.mem_cons_self _ _)
        exact absurd hc (not_loadedBefore_of_atBeginning _ hbeg c)
  · have hnot := not_or.mp hkeep
    obtain ⟨hwf, hiff⟩ := rollbackLine_spec t.loadRequest r1 r2 hcur hnot.2
    refine loadedItems_unloadItems_front
      { t with
        loadRequest := t.loadRequest.markAsDone
        log := t.log ++ [Event.cancel (modelIndexAtCell t t.loadRequest.currentCell)] }
      _ hwf front s.loadedItems hfront ?_ ?_
    · intro e he
      obtain ⟨c, hc, hkc⟩ := hwit e he
      exact ⟨c, (hiff c).mpr hc, hkc⟩
    · intro e he c hc hkc
      have hcb := (hiff c).mp hc
      obtain ⟨hcv, hcw⟩ := r4 c hcb.1
      obtain ⟨d, hd, hkd⟩ := hex e.1 (List.mem_map.mpr ⟨e, he, rfl⟩)
      rw [← hlt] at hd
      have hg : InGrid t.loadedTable t.tableSize := by
        rcases hl.window with hw | ⟨hg, _⟩
        · rw [show t.shape.loadedTable = t.loadedTable from rfl] at hw
          rw [hw] at hd
          exact absurd hd (not_containsCell_null d)
        · exact hg
      rw [← hts] at hkd
      have := cellIndex_injective _ c d hcv (cellInGrid_of_inGrid _ _ d hg hd) (hkc.trans hkd.symm)
      rw [this] at hcw
      exact hcw hd

/-! ## Cancelling a load request -/

theorem invalidateTable_of_active (t : State) (h : t.loadRequest.isActive = true) :
    invalidateTable t =
      { t with
        tableInvalid := true
        loadRequest := t.loadRequest.markAsDone
        log := t.log ++ [Event.cancel (modelIndexAtCell t t.loadRequest.currentCell)]
        polishScheduled := true } := by
  unfold invalidateTable
  simp only [h, if_true]
  rw [cancelLoadRequest_of_tableInvalid _ rfl]
  rfl

theorem pending_fresh (s t : State) (hp : Pending s t) (c : QPoint)
    (hc : t.loadRequest.loadedBefore c) :
    modelIndexAtCell t c ∈ t.loadedItems.keys ∧ modelIndexAtCell t c ∉ s.loadedItems.keys := by
  obtain ⟨hl, hact, hv, hts, hlt, hex, front, hfront, hwit⟩ := hp
  obtain ⟨r1, r2, r3, r4, r5, r6, r7⟩ := hl.request hact
  dsimp only [State.shape] at r1 r2 r3 r4 r5 r6 r7
  refine ⟨r5 c hc, ?_⟩
  intro hk
  obtain ⟨hcv, hcw⟩ := r4 c hc.1
  obtain ⟨d, hd, hkd⟩ := hex _ hk
  rw [← hlt] at hd
  have hg : InGrid t.loadedTable t.tableSize := by
    rcases hl.window with hw | ⟨hg, _⟩
    · rw [show t.shape.loadedTable = t.loadedTable from rfl] at hw
      rw [hw] at hd
      exact absurd hd (not_containsCell_null d)
    · exact hg
  rw [← hts] at hkd
  have := cellIndex_injective _ c d hcv (cellInGrid_of_inGrid _ _ d hg hd) hkd.symm
  rw [this] at hcw
  exact hcw hd

theorem exampleSlowFactory_reachable : Reachable exampleSlowFactory :=
  Reachable.step _ _ examplePolished_reachable
    (Step.input examplePolished examplePolished.contentX examplePolished.contentY
      examplePolished.width examplePolished.height examplePolished.implicitWidth
      examplePolished.implicitHeight examplePolished.model
      [ObjectResult.item ⟨0, 0, 100, 50⟩ 100 50, ObjectResult.item ⟨0, 0, 100, 50⟩ 100 50,
        ObjectResult.incubating]
      examplePolished.factoryDefault examplePolished.cellSpacing examplePolished.tableMargins
      examplePolished.cacheBuffer examplePolished.reusableFlag examplePolished.rowHeightProvider
      examplePolished.columnWidthProvider)

set_option maxRecDepth 100000 in
theorem exampleSlowFactory_idle :
    exampleSlowFactory.loadRequest.isActive = false ∧ exampleSlowFactory.tableInvalid = false ∧
    exampleSlowFactory.loadedItems.isEmpty = false := by
  decide!

set_option maxRecDepth 100000 in
theorem exampleSlowFactory_nextEdgeToLoad :
    nextEdgeToLoad exampleSlowFactory exampleScrolledRect = some Edge.BottomEdge := by
  decide!

set_option maxRecDepth 100000 in
theorem exampleLoading_active : exampleLoading.loadRequest.isActive = true := by
  decide!

theorem exampleLoading_inProgress : LoadInProgress exampleSlowFactory exampleLoading :=
  LoadInProgress.tableEdge Edge.BottomEdge IncubationMode.AsynchronousIfNested
    exampleScrolledRect exampleSlowFactory_idle.2.2 exampleSlowFactory_nextEdgeToLoad
    exampleLoading_active

/-- Claim C4, as amended. Let a load request be begun in a reachable state
with no active request and a valid table, by `loadInitialTopLeftItem` or by
`loadEdge`, and let it still be active after any number of resumptions, some
cells of its sequence being in the hash already. Then `cancelLoadRequest`
leaves the request inactive, `loadedTable` as it was before `begin`, and
`loadedItems` equal to the hash before `begin`: the cells that this request
put in are unloaded and nothing else is removed. `invalidateTable`, which sets
`tableInvalid` before it cancels, leaves the request inactive and `loadedTable`
as it was before `begin` as well, but it unloads nothing: every cell that the
request has put in stays in `loadedItems`, and none of them was in the hash
before `begin`. -/
theorem cancelLoadRequest_rolls_back (s t : State) (hs : Reachable s)
    (hi : s.loadRequest.isActive = false) (hv : s.tableInvalid = false)
    (ht : LoadInProgress s t) :
    t.loadRequest.isActive = true ∧
    (cancelLoadRequest t).loadRequest.isActive = false ∧
    (cancelLoadRequest t).loadedTable = s.loadedTable ∧
    (cancelLoadRequest t).loadedItems = s.loadedItems ∧
    (invalidateTable t).loadRequest.isActive = false ∧
    (invalidateTable t).loadedTable = s.loadedTable ∧
    (invalidateTable t).loadedItems = t.loadedItems ∧
    ∀ c, t.loadRequest.loadedBefore c →
      modelIndexAtCell t c ∈ (invalidateTable t).loadedItems.keys ∧
      modelIndexAtCell t c ∉ s.loadedItems.keys := by
  obtain ⟨hp, hcur⟩ := loadInProgress_pending s (reachable_consistent s hs) hi hv t ht
  have hact : t.loadRequest.isActive = true := hp.2.1
  have hinv := invalidateTable_of_active t hact
  refine ⟨hact, cancelLoadRequest_inactive t, (frame_cancelLoadRequest t).2.trans hp.2.2.2.2.1,
    cancelLoadRequest_pending s t hp hcur, invalidateTable_loadRequest_inactive t, ?_, ?_, ?_⟩
  · rw [hinv]
    exact hp.2.2.2.2.1
  · rw [hinv]
  · intro c hc
    rw [hinv]
    exact pending_fresh s t hp c hc

set_option maxRecDepth 100000 in
/-- Claim C4, counterexample. The example view loads the row below its window
of 4 columns and 5 rows; the cells `(0, 5)` and `(1, 5)`, of index 5 and 1005,
are in the hash and the cell `(2, 5)` is incubating when `invalidateTable` is
called. The request is inactive afterwards, but the indices 5 and 1005, which
were not in `loadedItems` before `begin`, are still in it: the two cells that
the request materialized were not unloaded. -/
theorem invalidateTable_does_not_roll_back :
    exampleSlowFactory.loadRequest.isActive = false ∧
    exampleLoading.loadRequest.isActive = true ∧
    exampleLoading.loadRequest.edgeCells = ⟨⟨0, 5⟩, ⟨3, 5⟩⟩ ∧
    exampleLoading.loadRequest.currentCell = ⟨2, 5⟩ ∧
    (invalidateTable exampleLoading).loadRequest.isActive = false ∧
    5 ∉ exampleSlowFactory.loadedItems.keys ∧
    1005 ∉ exampleSlowFactory.loadedItems.keys ∧
    5 ∈ (invalidateTable exampleLoading).loadedItems.keys ∧
    1005 ∈ (invalidateTable exampleLoading).loadedItems.keys ∧
    (invalidateTable exampleLoading).loadedItems.keys ≠ exampleSlowFactory.loadedItems.keys := by
  decide!

/-- Claim C4, instance: the example view while it loads the row below its
window, two cells of the row in the hash and the third incubating. -/
theorem cancelLoadRequest_rolls_back_witness :
    Reachable exampleSlowFactory ∧ exampleSlowFactory.loadRequest.isActive = false ∧
    exampleSlowFactory.tableInvalid = false ∧
    LoadInProgress exampleSlowFactory exampleLoading ∧
    (cancelLoadRequest exampleLoading).loadedItems = exampleSlowFactory.loadedItems ∧
    (invalidateTable exampleLoading).loadedItems = exampleLoading.loadedItems :=
  ⟨exampleSlowFactory_reachable, exampleSlowFactory_idle.1, exampleSlowFactory_idle.2.1,
    exampleLoading_inProgress,
    (cancelLoadRequest_rolls_back exampleSlowFactory exampleLoading exampleSlowFactory_reachable
      exampleSlowFactory_idle.1 exampleSlowFactory_idle.2.1 exampleLoading_inProgress).2.2.2.1,
    (cancelLoadRequest_rolls_back exampleSlowFactory exampleLoading exampleSlowFactory_reachable
      exampleSlowFactory_idle.1 exampleSlowFactory_idle.2.1
      exampleLoading_inProgress).2.2.2.2.2.2.1⟩

/-! ## The log only grows -/

theorem LogGrows.refl (s : State) : LogGrows s s := ⟨[], (List.append_nil _).symm⟩

theorem LogGrows.trans {s t u : State} (h1 : LogGrows s t) (h2 : LogGrows t u) :
    LogGrows s u := by
  obtain ⟨r1, e1⟩ := h1
  obtain ⟨r2, e2⟩ := h2
  exact ⟨r1 ++ r2, by rw [e2, e1, List.append_assoc]⟩

theorem LogGrows.of_eq {s t : State} (h : t.log = s.log) : LogGrows s t :=
  ⟨[], by rw [h, List.append_nil]⟩

theorem logGrows_foldl {α : Type} (f : State → α → State) (h : ∀ s a, LogGrows s (f s a))
    (l : List α) (s : State) : LogGrows s (l.foldl f s) := by
  induction l generalizing s with
  | nil => exact LogGrows.refl s
  | cons a l ih =>
    simp only [List.foldl_cons]
    exact (h s a).trans (ih _)

theorem logGrows_foldl_pair {α β : Type} (f : State × β → α → State × β)
    (h : ∀ acc a, LogGrows acc.1 (f acc a).1)
    (l : List α) (acc : State × β) : LogGrows acc.1 (l.foldl f acc).1 := by
  induction l generalizing acc with
  | nil => exact LogGrows.refl _
  | cons a l ih =>
    simp only [List.foldl_cons]
    exact (h acc a).trans (ih _)

theorem logGrows_updateTableItem (s : State) (cell : QPoint) (f : FxTableItem → FxTableItem) :
    LogGrows s (updateTableItem s cell f) := LogGrows.of_eq rfl

theorem logGrows_issueLayoutWarning (s : State) : LogGrows s (issueLayoutWarning s) := by
  unfold issueLayoutWarning
  split <;> exact LogGrows.of_eq rfl

theorem logGrows_resolveColumnWidth (s : State) (column : Int) :
    LogGrows s (resolveColumnWidth s column).2 := by
  unfold resolveColumnWidth
  split
  · split
    · exact logGrows_issueLayoutWarning s
    · split
      · exact logGrows_issueLayoutWarning s
      · exact LogGrows.refl s
  · exact logGrows_issueLayoutWarning s
  · simp only
    split
    · exact logGrows_issueLayoutWarning s
    · exact LogGrows.refl s

theorem logGrows_resolveRowHeight (s : State) (row : Int) :
    LogGrows s (resolveRowHeight s row).2 := by
  unfold resolveRowHeight
  split
  · split
    · exact logGrows_issueLayoutWarning s
    · split
      · exact logGrows_issueLayoutWarning s
      · exact LogGrows.refl s
  · exact logGrows_issueLayoutWarning s
  · simp only
    split
    · exact logGrows_issueLayoutWarning s
    · exact LogGrows.refl s

theorem logGrows_setContentWidth (s : State) (w : ℚ) : LogGrows s (setContentWidth s w) :=
  ⟨[Event.setContentWidth w], rfl⟩

theorem logGrows_setContentHeight (s : State) (h : ℚ) : LogGrows s (setContentHeight s h) :=
  ⟨[Event.setContentHeight h], rfl⟩

theorem logGrows_updateContentWidth (s : State) : LogGrows s (updateContentWidth s) := by
  unfold updateContentWidth
  simp only
  split_ifs <;> first | exact LogGrows.of_eq rfl | exact ⟨[Event.setContentWidth _], rfl⟩

theorem logGrows_updateContentHeight (s : State) : LogGrows s (updateContentHeight s) := by
  unfold updateContentHeight
  simp only
  split_ifs <;> first | exact LogGrows.of_eq rfl | exact ⟨[Event.setContentHeight _], rfl⟩

theorem logGrows_relayoutColumnCells (s : State) (column : Int) (x w : ℚ) :
    LogGrows s (relayoutColumnCells s column x w) := by
  unfold relayoutColumnCells
  exact logGrows_foldl _ (fun st row => logGrows_updateTableItem st _ _) _ s

theorem logGrows_relayoutRowCells (s : State) (row : Int) (y h : ℚ) :
    LogGrows s (relayoutRowCells s row y h) := by
  unfold relayoutRowCells
  exact logGrows_foldl _ (fun st column => logGrows_updateTableItem st _ _) _ s

theorem logGrows_relayoutColumnStep (acc : State × ℚ) (column : Int) :
    LogGrows acc.1 (relayoutColumnStep acc column).1 := by
  simp only [relayoutColumnStep]
  exact (logGrows_resolveColumnWidth _ _).trans (logGrows_relayoutColumnCells _ _ _ _)

theorem logGrows_relayoutRowStep (acc : State × ℚ) (row : Int) :
    LogGrows acc.1 (relayoutRowStep acc row).1 := by
  simp only [relayoutRowStep]
  exact (logGrows_resolveRowHeight _ _).trans (logGrows_relayoutRowCells _ _ _ _)

theorem logGrows_relayoutTableItems (s : State) : LogGrows s (relayoutTableItems s) := by
  simp only [relayoutTableItems]
  have h0 : LogGrows s ({ s with columnRowPositionsInvalid := false } : State) :=
    LogGrows.of_eq rfl
  have h1 := logGrows_foldl_pair _ logGrows_relayoutColumnStep
    (intRange s.loadedTable.left s.loadedTable.right)
    (({ s with columnRowPositionsInvalid := false } : State), s.loadedTableOuterRect.x)
  exact (h0.trans h1).trans (logGrows_foldl_pair _ logGrows_relayoutRowStep _ (_, _))

theorem logGrows_relayoutTable (s : State) : LogGrows s (relayoutTable s) := by
  unfold relayoutTable
  simp only []
  refine (logGrows_relayoutTableItems s).trans ?_
  refine LogGrows.trans ?_ (logGrows_updateContentHeight _)
  refine LogGrows.trans ?_ (logGrows_updateContentWidth _)
  exact LogGrows.of_eq rfl

theorem logGrows_enforceFirstRowColumnAtOrigo (s : State) :
    LogGrows s (enforceFirstRowColumnAtOrigo s) := by
  have h1 : LogGrows s (enforceFirstColumnAtOrigo s).1 := by
    unfold enforceFirstColumnAtOrigo
    split_ifs <;> exact LogGrows.of_eq rfl
  have h2 : ∀ (t : State) (f : Bool), LogGrows t (enforceFirstRowAtOrigo t f).1 := by
    intro t f
    unfold enforceFirstRowAtOrigo
    split_ifs <;> exact LogGrows.of_eq rfl
  unfold enforceFirstRowColumnAtOrigo
  simp only []
  split_ifs
  · exact (h1.trans (h2 _ _)).trans (logGrows_relayoutTableItems _)
  · exact h1.trans (h2 _ _)

theorem logGrows_layoutVerticalEdge (s : State) (tableEdge : Edge) :
    LogGrows s (layoutVerticalEdge s tableEdge) := by
  simp only [layoutVerticalEdge]
  have hstep : ∀ (column : Int) (width : ℚ) (acc : State × ℚ) (row : Int),
      LogGrows acc.1 (layoutVerticalEdgeStep tableEdge column width acc row).1 := by
    intro column width acc row
    simp only [layoutVerticalEdgeStep]
    exact LogGrows.of_eq rfl
  exact (logGrows_resolveColumnWidth s _).trans
    (logGrows_foldl_pair _ (hstep _ _) _ (_, _))

theorem logGrows_layoutHorizontalEdge (s : State) (tableEdge : Edge) :
    LogGrows s (layoutHorizontalEdge s tableEdge) := by
  simp only [layoutHorizontalEdge]
  have hstep : ∀ (row : Int) (height : ℚ) (acc : State × ℚ) (column : Int),
      LogGrows acc.1 (layoutHorizontalEdgeStep tableEdge row height acc column).1 := by
    intro row height acc column
    simp only [layoutHorizontalEdgeStep]
    exact LogGrows.of_eq rfl
  exact (logGrows_resolveRowHeight s _).trans
    (logGrows_foldl_pair _ (hstep _ _) _ (_, _))

theorem logGrows_layoutTopLeftItem (s : State) : LogGrows s (layoutTopLeftItem s) := by
  simp only [layoutTopLeftItem]
  exact (((logGrows_updateTableItem s _ _).trans (logGrows_resolveColumnWidth _ _)).trans
    (logGrows_resolveRowHeight _ _)).trans (logGrows_updateTableItem _ _ _)

theorem logGrows_layoutTableEdgeFromLoadRequest (s : State) :
    LogGrows s (layoutTableEdgeFromLoadRequest s) := by
  unfold layoutTableEdgeFromLoadRequest
  split
  · exact logGrows_layoutVerticalEdge _ _
  · exact logGrows_layoutVerticalEdge _ _
  · exact logGrows_layoutHorizontalEdge _ _
  · exact logGrows_layoutHorizontalEdge _ _
  · exact logGrows_layoutTopLeftItem _

theorem logGrows_syncLoadedTableFromLoadRequest (s : State) :
    LogGrows s (syncLoadedTableFromLoadRequest s) := by
  unfold syncLoadedTableFromLoadRequest
  split <;> exact LogGrows.of_eq rfl

theorem logGrows_finishLoadRequest (s : State) : LogGrows s (finishLoadRequest s) := by
  have h5 : LogGrows s (updateContentHeight (updateContentWidth (enforceFirstRowColumnAtOrigo
      (syncLoadedTableRectFromLoadedTable (layoutTableEdgeFromLoadRequest
        (syncLoadedTableFromLoadRequest s)))))) :=
    (((((logGrows_syncLoadedTableFromLoadRequest s).trans
      (logGrows_layoutTableEdgeFromLoadRequest _)).trans
      (LogGrows.of_eq (t := syncLoadedTableRectFromLoadedTable _) rfl)).trans
      (logGrows_enforceFirstRowColumnAtOrigo _)).trans
      (logGrows_updateContentWidth _)).trans (logGrows_updateContentHeight _)
  refine h5.trans ?_
  unfold finishLoadRequest
  simp only []
  split
  · split_ifs
    · exact ⟨[Event.drainReusableItemsPool], rfl⟩
    · exact LogGrows.of_eq rfl
  · exact LogGrows.of_eq rfl

theorem releaseItem_eq (s : State) (item : FxTableItem) (flag : ReusableFlag) :
    releaseItem s item flag = { s with log := s.log ++ [releaseCall s item flag] } := by
  unfold releaseItem releaseCall
  split_ifs
  · rfl
  · split
    · split_ifs <;> rfl
    · rfl

theorem logGrows_unloadItem (s : State) (cell : QPoint) : LogGrows s (unloadItem s cell) := by
  unfold unloadItem
  simp only []
  rw [releaseItem_eq]
  exact ⟨[_], rfl⟩

theorem logGrows_unloadItems (s : State) (l : QLine) : LogGrows s (unloadItems s l) := by
  rw [unloadItems_eq_foldl]
  exact logGrows_foldl _ logGrows_unloadItem _ s

theorem releaseLoadedItems_log (s : State) :
    (releaseLoadedItems s).log =
      s.log ++ s.loadedItems.map (fun e => releaseCall s e.2 ReusableFlag.NotReusable) := by
  unfold releaseLoadedItems
  simp only []
  have key : ∀ (l : ItemHash) (t : State),
      (l.foldl (fun st e => releaseItem st e.2 ReusableFlag.NotReusable) t).log =
        t.log ++ l.map (fun e => releaseCall t e.2 ReusableFlag.NotReusable) := by
    intro l
    induction l with
    | nil => intro t; simp
    | cons e l ih =>
      intro t
      simp only [List.foldl_cons, List.map_cons]
      rw [ih, releaseItem_eq]
      simp [releaseCall]
  rw [key]
  rfl

/-! ## What a state after a rebuild holds was requested anew -/

theorem Continues.same (s : State) : Continues s s :=
  ⟨rfl, [], (List.append_nil _).symm, fun _ hk => Or.inl hk⟩

theorem Continues.andThen {s t u : State} (h1 : Continues s t) (h2 : Continues t u) :
    Continues s u := by
  obtain ⟨e1, r1, l1, k1⟩ := h1
  obtain ⟨e2, r2, l2, k2⟩ := h2
  refine ⟨e2.trans e1, r1 ++ r2, by rw [l2, l1, List.append_assoc], ?_⟩
  intro k hk
  rw [List.filterMap_append, List.mem_append]
  rcases k2 k hk with h | h
  · rcases k1 k h with h | h
    · exact Or.inl h
    · exact Or.inr (Or.inl h)
  · exact Or.inr (Or.inr h)

theorem Continues.of_subset {s t : State} (hl : LogGrows s t)
    (hts : t.tableSize = s.tableSize)
    (hk : ∀ k ∈ t.loadedItems.keys, k ∈ s.loadedItems.keys) : Continues s t := by
  obtain ⟨rest, e⟩ := hl
  exact ⟨hts, rest, e, fun k h => Or.inl (hk k h)⟩

theorem Continues.of_quiet {s t : State} (hl : LogGrows s t) (hsh : t.shape = s.shape) :
    Continues s t := by
  have hkeys : t.loadedItems.keys = s.loadedItems.keys := (congrArg Shape.keys hsh :)
  exact Continues.of_subset hl (congrArg Shape.tableSize hsh :)
    (fun k h => by rw [← hkeys]; exact h)

theorem Continues.logGrows {s t : State} (h : Continues s t) : LogGrows s t := by
  obtain ⟨_, rest, e, _⟩ := h
  exact ⟨rest, e⟩

theorem loadFxTableItem_log (s : State) (cell : QPoint) (mode : IncubationMode) :
    ∃ more : List Event, (loadFxTableItem s cell mode).2.log =
      s.log ++ Event.object (modelIndexAtCell s cell) mode :: more ∧
      more.filterMap Event.requestedIndex = [] := by
  unfold loadFxTableItem createFxTableItem
  simp only []
  split
  · exact ⟨[], rfl, rfl⟩
  · exact ⟨[], rfl, rfl⟩
  · exact ⟨[Event.releaseObject (modelIndexAtCell s cell)], by simp [modelIndexAtCell], rfl⟩
  · exact ⟨[], rfl, rfl⟩

theorem continues_loadRequestedCells (n : Nat) (s : State) :
    Continues s (loadRequestedCells n s).1 := by
  induction n generalizing s with
  | zero => exact Continues.same s
  | succ n ih =>
    rw [loadRequestedCells]
    cases hc : s.loadRequest.hasCurrentCell
    · simp only [Bool.false_eq_true, if_false]
      exact Continues.same s
    · simp only [if_true]
      obtain ⟨more, hlog, _⟩ := loadFxTableItem_log s s.loadRequest.currentCell
        s.loadRequest.incubationMode
      obtain ⟨_, f2, _, _, f5⟩ := loadFxTableItem_fields s s.loadRequest.currentCell
        s.loadRequest.incubationMode
      split
      · exact ⟨f2, _, hlog, fun k hk => Or.inl (by rw [← f5]; exact hk)⟩
      · rename_i item hitem
        refine Continues.andThen ?_ (ih _)
        refine ⟨f2, _, hlog, ?_⟩
        intro k hk
        rcases (ItemHash.mem_keys_insert _ _ _ _).mp hk with h | h
        · right
          rw [h]
          simp [Event.requestedIndex, modelIndexAtCell, f2]
        · left
          rw [f5] at h
          exact h

theorem loadRequestedCells_first (n : Nat) (s : State)
    (hc : s.loadRequest.hasCurrentCell = true) :
    ∃ more : List Event, (loadRequestedCells (n + 1) s).1.log =
      s.log ++ Event.object (modelIndexAtCell s s.loadRequest.currentCell)
        s.loadRequest.incubationMode :: more := by
  rw [loadRequestedCells]
  simp only [hc, if_true]
  obtain ⟨more, hlog, _⟩ := loadFxTableItem_log s s.loadRequest.currentCell
    s.loadRequest.incubationMode
  split
  · exact ⟨more, hlog⟩
  · rename_i item hitem
    obtain ⟨rest, hrest⟩ := (continues_loadRequestedCells n _).logGrows
    refine ⟨more ++ rest, ?_⟩
    rw [hrest]
    show (loadFxTableItem s s.loadRequest.currentCell s.loadRequest.incubationMode).2.log ++ rest = _
    rw [hlog]
    simp

theorem continues_finishLoadRequest (s : State) : Continues s (finishLoadRequest s) := by
  have h := shape_finishLoadRequest s
  have hkeys : (finishLoadRequest s).loadedItems.keys = s.loadedItems.keys :=
    (congrArg Shape.keys h :)
  exact Continues.of_subset (logGrows_finishLoadRequest s) (congrArg Shape.tableSize h :)
    (fun k hk => by rw [← hkeys]; exact hk)

theorem continues_processLoadRequest (s : State) : Continues s (processLoadRequest s) := by
  unfold processLoadRequest
  simp only []
  split_ifs
  · exact (continues_loadRequestedCells _ s).andThen (continues_finishLoadRequest _)
  · exact continues_loadRequestedCells _ s

theorem processLoadRequest_first (s : State) (hc : s.loadRequest.hasCurrentCell = true) :
    ∃ more : List Event, (processLoadRequest s).log =
      s.log ++ Event.object (modelIndexAtCell s s.loadRequest.currentCell)
        s.loadRequest.incubationMode :: more := by
  have hpos : ∃ n, s.loadRequest.remaining = n + 1 := by
    cases hr : s.loadRequest.remaining with
    | zero =>
      rw [hasCurrentCell_of_remaining_zero _ hr] at hc
      exact absurd hc (by decide)
    | succ n => exact ⟨n, rfl⟩
  obtain ⟨n, hn⟩ := hpos
  obtain ⟨more, hlog⟩ := loadRequestedCells_first n s hc
  unfold processLoadRequest
  simp only []
  rw [hn]
  split_ifs
  · obtain ⟨rest, hrest⟩ := logGrows_finishLoadRequest (loadRequestedCells (n + 1) s).1
    exact ⟨more ++ rest, by rw [hrest, hlog]; simp⟩
  · exact ⟨more, hlog⟩

theorem Continues.unchanged {s t : State} (h1 : t.log = s.log)
    (h2 : t.tableSize = s.tableSize) (h3 : t.loadedItems = s.loadedItems) : Continues s t :=
  Continues.of_subset (LogGrows.of_eq h1) h2 (fun k hk => by rw [← h3]; exact hk)

theorem Continues.logged (s t : State) (ev : Event) (h1 : t.log = s.log ++ [ev])
    (h2 : t.tableSize = s.tableSize) (h3 : t.loadedItems = s.loadedItems) : Continues s t :=
  Continues.of_subset ⟨[ev], h1⟩ h2 (fun k hk => by rw [← h3]; exact hk)

theorem continues_unloadItems (s : State) (l : QLine) : Continues s (unloadItems s l) := by
  refine Continues.of_subset (logGrows_unloadItems s l)
    (congrArg Shape.tableSize (shape_unloadItems s l) :) ?_
  intro k hk
  rw [unloadItems_eq_foldl] at hk
  exact ((mem_keys_unloadCells _ s k).mp hk).1

theorem continues_cancelLoadRequest (s : State) : Continues s (cancelLoadRequest s) := by
  rw [cancelLoadRequest_eq]
  have h0 : Continues s ({ s with
      loadRequest := s.loadRequest.markAsDone
      log := s.log ++ [Event.cancel (modelIndexAtCell s s.loadRequest.currentCell)] } : State) :=
    Continues.logged s _ _ rfl rfl rfl
  split_ifs
  · exact h0
  · exact h0.andThen (continues_unloadItems _ _)

theorem continues_cancelIfActive (s : State) :
    Continues s (if s.loadRequest.isActive then cancelLoadRequest s else s) := by
  split_ifs
  · exact continues_cancelLoadRequest s
  · exact Continues.same s

theorem continues_unloadEdge (s : State) (edge : Edge) : Continues s (unloadEdge s edge) := by
  unfold unloadEdge
  simp only []
  exact (continues_unloadItems s _).andThen (Continues.unchanged rfl rfl rfl)

theorem continues_loadEdge (s : State) (edge : Edge) (mode : IncubationMode) :
    Continues s (loadEdge s edge mode) := by
  unfold loadEdge
  simp only []
  refine Continues.andThen ?_ (continues_processLoadRequest _)
  exact Continues.logged s _ _ rfl rfl rfl

theorem continues_loadInitialTopLeftItem (s : State) :
    Continues s (loadInitialTopLeftItem s) := by
  unfold loadInitialTopLeftItem
  split_ifs
  · exact Continues.same s
  · split
    · exact Continues.same s
    · split_ifs
      · exact Continues.same s
      · exact Continues.same s
      · simp only []
        refine Continues.andThen ?_ (continues_processLoadRequest _)
        exact Continues.logged s _ _ rfl rfl rfl

theorem continues_unloadBufferLoop (n : Nat) (s : State) :
    Continues s (unloadBufferLoop n s) := by
  induction n generalizing s with
  | zero => exact Continues.same s
  | succ n ih =>
    rw [unloadBufferLoop]
    split
    · exact (continues_unloadEdge s _).andThen (ih _)
    · exact Continues.same s

theorem continues_unloadBuffer (s : State) : Continues s (unloadBuffer s) := by
  unfold unloadBuffer
  split_ifs
  · exact Continues.same s
  · have h1 : Continues s
        ({ s with hasBufferedItems := false, cacheBufferDelayTimerActive := false } : State) :=
      Continues.unchanged rfl rfl rfl
    exact (h1.andThen (continues_cancelIfActive _)).andThen (continues_unloadBufferLoop _ _)

theorem continues_loadAndUnloadLoop (n : Nat) (rect : QRectF) (s : State) :
    Continues s (loadAndUnloadLoop n rect s).state := by
  induction n generalizing s with
  | zero => exact Continues.same s
  | succ n ih =>
    rw [loadAndUnloadLoop]
    have hu : Continues s (match nextEdgeToUnload s rect with
        | some edge => (unloadEdge s edge, true)
        | none => (s, false)).1 := by
      split
      · exact continues_unloadEdge s _
      · exact Continues.same s
    revert hu
    generalize (match nextEdgeToUnload s rect with
        | some edge => (unloadEdge s edge, true)
        | none => (s, false)) = u
    intro hu
    simp only []
    split
    · rename_i edge hn
      have hl := hu.andThen (continues_loadEdge u.1 edge IncubationMode.AsynchronousIfNested)
      split_ifs
      · exact hl
      · exact hl.andThen (ih _)
    · split_ifs
      · exact hu.andThen (ih _)
      · exact hu

theorem continues_loadAndUnloadVisibleEdges (fuel : Nat) (s : State) :
    Continues s (loadAndUnloadVisibleEdges fuel s).state := by
  unfold loadAndUnloadVisibleEdges
  split_ifs
  · exact Continues.same s
  · exact Continues.same s
  · exact continues_loadAndUnloadLoop fuel _ s
  · exact continues_loadAndUnloadLoop fuel _ s

theorem continues_endRebuildTable (s : State) : Continues s (endRebuildTable s) := by
  unfold endRebuildTable
  simp only []
  have h1 : Continues s ({ s with tableRebuilding := false } : State) :=
    Continues.unchanged rfl rfl rfl
  split_ifs
  · exact h1
  · exact h1.andThen (Continues.of_quiet (logGrows_relayoutTable _) (shape_relayoutTable _))

theorem continues_startBufferTimer (s : State) (r : Run) (hr : Continues s r.state) :
    Continues s (startBufferTimer r).state := by
  unfold startBufferTimer
  split_ifs
  · exact hr
  · exact hr
  · exact hr.andThen (Continues.unchanged rfl rfl rfl)
  · exact hr

theorem continues_polishLoadedTable (fuel : Nat) (s : State) :
    Continues s (polishLoadedTable fuel s).state := by
  unfold polishLoadedTable
  have h2 : Continues s (if s.columnRowPositionsInvalid then relayoutTable s else s) := by
    split_ifs
    · exact Continues.of_quiet (logGrows_relayoutTable s) (shape_relayoutTable s)
    · exact Continues.same s
  revert h2
  generalize (if s.columnRowPositionsInvalid then relayoutTable s else s) = s2
  intro h2
  have h3 : Continues s (if s2.hasBufferedItems && (nextEdgeToLoad s2 s2.viewportRect).isSome
      then unloadBuffer s2 else s2) := by
    split_ifs
    · exact h2.andThen (continues_unloadBuffer s2)
    · exact h2
  exact continues_startBufferTimer s _ (h3.andThen (continues_loadAndUnloadVisibleEdges fuel _))

theorem continues_updatePolishTail (fuel : Nat) (s : State) :
    Continues s (updatePolishTail fuel s).state := by
  unfold updatePolishTail
  have h1 : Continues s (if s.tableRebuilding then endRebuildTable s else s) := by
    split_ifs
    · exact continues_endRebuildTable s
    · exact Continues.same s
  revert h1
  generalize (if s.tableRebuilding then endRebuildTable s else s) = s1
  intro h1
  simp only []
  split_ifs
  · exact h1
  · exact h1.andThen (continues_polishLoadedTable fuel s1)

/-! ## Full rebuild -/

theorem LogGrows.quiet {s t : State} (hl : LogGrows s t)
    (hsh : t.shape.requested = s.shape.requested) :
    ∃ rest : List Event, t.log = s.log ++ rest ∧ rest.filterMap Event.requestedIndex = [] := by
  obtain ⟨rest, e⟩ := hl
  refine ⟨rest, e, ?_⟩
  have h : t.log.filterMap Event.requestedIndex = s.log.filterMap Event.requestedIndex := hsh
  rw [e, List.filterMap_append] at h
  exact List.append_right_eq_self.mp h

theorem clear_tail (s3 t : State)
    (ht : t = updateContentHeight (updateContentWidth { s3 with
      loadedTable := QRect.null
      loadedTableOuterRect := QRectF.ofRect QRect.null
      loadedTableInnerRect := QRectF.ofRect QRect.null
      contentSizeBenchMarkPoint := ⟨-1, -1⟩ })) :
    (∃ quiet : List Event, t.log = s3.log ++ quiet ∧
      quiet.filterMap Event.requestedIndex = []) ∧
    t.model = s3.model ∧ t.tableSize = s3.tableSize := by
  have hsh : t.shape = ({ s3 with
      loadedTable := QRect.null
      loadedTableOuterRect := QRectF.ofRect QRect.null
      loadedTableInnerRect := QRectF.ofRect QRect.null
      contentSizeBenchMarkPoint := ⟨-1, -1⟩ } : State).shape := by
    rw [ht, shape_updateContentHeight, shape_updateContentWidth]
  have hlg : LogGrows ({ s3 with
      loadedTable := QRect.null
      loadedTableOuterRect := QRectF.ofRect QRect.null
      loadedTableInnerRect := QRectF.ofRect QRect.null
      contentSizeBenchMarkPoint := ⟨-1, -1⟩ } : State) t := by
    rw [ht]
    exact (logGrows_updateContentWidth _).trans (logGrows_updateContentHeight _)
  exact ⟨hlg.quiet (congrArg Shape.requested hsh :), (congrArg Shape.model hsh :),
    (congrArg Shape.tableSize hsh :)⟩

theorem clear_log (s : State) (hidle : s.loadRequest.isActive = false) :
    ∃ quiet : List Event,
      (clear s).log =
        s.log ++ s.loadedItems.map (fun e => releaseCall s e.2 ReusableFlag.NotReusable) ++
          quiet ∧
      quiet.filterMap Event.requestedIndex = [] ∧
      (clear s).model = s.model ∧ (clear s).tableSize = s.tableSize := by
  have hrel := releaseLoadedItems_log
    ({ s with tableInvalid := true, tableRebuilding := false } : State)
  have hshr := (shape_releaseLoadedItems
    ({ s with tableInvalid := true, tableRebuilding := false } : State)).1
  have hi : ({ s with tableInvalid := true, tableRebuilding := false } : State).loadRequest.isActive
      = false := hidle
  obtain ⟨⟨quiet, hq, hq0⟩, hm, hts⟩ := clear_tail
    (releaseLoadedItems ({ s with tableInvalid := true, tableRebuilding := false } : State))
    (clear s) (by unfold clear; simp only [hi, Bool.false_eq_true, if_false])
  refine ⟨quiet, ?_, hq0, hm.trans (congrArg Shape.model hshr :),
    hts.trans (congrArg Shape.tableSize hshr :)⟩
  rw [hq, hrel]
  rfl

theorem loadInitialTopLeftItem_skip (s : State) (h : nothingToLoad s = true) :
    loadInitialTopLeftItem s = s := by
  unfold loadInitialTopLeftItem
  unfold nothingToLoad at h
  cases hsz : s.tableSize.isEmpty
  swap
  · simp
  rw [hsz] at h
  simp only [Bool.false_eq_true, if_false]
  split
  · rfl
  · rename_i m hm
    rw [hm] at h
    simp only [Bool.false_or, Bool.or_eq_true, decide_eq_true_eq] at h
    rcases h with h | h
    · simp [h]
    · simp [h]

theorem loadInitialTopLeftItem_first (s : State) (h : nothingToLoad s = false) :
    ∃ more : List Event, (loadInitialTopLeftItem s).log =
      s.log ++ Event.begin s.loadRequest.isActive none ⟨⟨0, 0⟩, ⟨0, 0⟩⟩ ::
        Event.object 0 IncubationMode.AsynchronousIfNested :: more := by
  unfold nothingToLoad at h
  unfold loadInitialTopLeftItem
  cases hsz : s.tableSize.isEmpty
  swap
  · rw [hsz] at h
    simp at h
  rw [hsz] at h
  simp only [Bool.false_eq_true, if_false]
  split
  · rename_i hm
    rw [hm] at h
    simp at h
  · rename_i m hm
    rw [hm] at h
    simp only [Bool.false_or, Bool.or_eq_false_iff, decide_eq_false_iff_not] at h
    rw [if_neg h.1, if_neg (by rw [h.2]; decide)]
    obtain ⟨more, hlog⟩ := processLoadRequest_first
      ({ s with
        loadRequest := s.loadRequest.beginCell ⟨0, 0⟩ IncubationMode.AsynchronousIfNested
        log := s.log ++ [Event.begin s.loadRequest.isActive none ⟨⟨0, 0⟩, ⟨0, 0⟩⟩] } : State) rfl
    refine ⟨more, ?_⟩
    rw [hlog]
    simp [modelIndexAtCell, TableEdgeLoadRequest.beginCell, TableEdgeLoadRequest.incubationMode]

theorem calculateTableSize_model (s : State) :
    (calculateTableSize s).model = s.model ∧ (calculateTableSize s).log = s.log ∧
    (calculateTableSize s).tableRebuilding = s.tableRebuilding := by
  unfold calculateTableSize
  split
  · split_ifs <;> exact ⟨rfl, rfl, rfl⟩
  · exact ⟨rfl, rfl, rfl⟩

theorem calculateTableSize_congr (s t : State) (h : s.model = t.model) :
    (calculateTableSize s).tableSize = (calculateTableSize t).tableSize := by
  unfold calculateTableSize
  rw [h]
  split
  · split_ifs <;> rfl
  · rfl

theorem nothingToLoad_congr (s t : State) (h1 : s.model = t.model)
    (h2 : s.tableSize = t.tableSize) : nothingToLoad s = nothingToLoad t := by
  unfold nothingToLoad
  rw [h1, h2]

theorem updatePolishBody_rebuild (fuel : Nat) (s : State) (hinv : s.tableInvalid = true)
    (hidle : s.loadRequest.isActive = false) (hw : 0 < s.width) (hh : 0 < s.height) :
    updatePolishBody fuel s =
      if !(beginRebuildTable fuel
          { s with viewportRect := ⟨s.contentX, s.contentY, s.width, s.height⟩ }).finished then
        beginRebuildTable fuel
          { s with viewportRect := ⟨s.contentX, s.contentY, s.width, s.height⟩ }
      else if (beginRebuildTable fuel
          { s with viewportRect := ⟨s.contentX, s.contentY, s.width, s.height⟩ }).state.loadRequest.isActive
      then
        beginRebuildTable fuel
          { s with viewportRect := ⟨s.contentX, s.contentY, s.width, s.height⟩ }
      else updatePolishTail fuel (beginRebuildTable fuel
          { s with viewportRect := ⟨s.contentX, s.contentY, s.width, s.height⟩ }).state := by
  unfold updatePolishBody
  simp only [hidle, Bool.false_eq_true, if_false]
  have hvalid : (({ s with viewportRect := ⟨s.contentX, s.contentY, s.width, s.height⟩ } :
      State).viewportRect.isValid) = true := by
    simp [QRectF.isValid, hw, hh]
  have hinv2 : ({ s with viewportRect := ⟨s.contentX, s.contentY, s.width, s.height⟩ } :
      State).tableInvalid = true := hinv
  simp only [hvalid, hinv, hinv2, Bool.not_true, Bool.false_eq_true, if_false, if_true]

theorem continues_afterRebuild (fuel : Nat) (b : State) (r : Run) (hr : Continues b r.state) :
    Continues b (if !r.finished then r
      else if r.state.loadRequest.isActive then r else updatePolishTail fuel r.state).state := by
  split_ifs
  · exact hr
  · exact hr
  · exact hr.andThen (continues_updatePolishTail fuel _)

theorem afterRebuild_of_nothingToLoad (fuel : Nat) (b : State) (h : nothingToLoad b = true)
    (hitems : b.loadedItems = []) (hidle : b.loadRequest.isActive = false)
    (hreb : b.tableRebuilding = true) :
    (if !(loadAndUnloadVisibleEdges fuel (loadInitialTopLeftItem b)).finished then
        loadAndUnloadVisibleEdges fuel (loadInitialTopLeftItem b)
      else if (loadAndUnloadVisibleEdges fuel
          (loadInitialTopLeftItem b)).state.loadRequest.isActive then
        loadAndUnloadVisibleEdges fuel (loadInitialTopLeftItem b)
      else updatePolishTail fuel
        (loadAndUnloadVisibleEdges fuel (loadInitialTopLeftItem b)).state) =
      ⟨{ b with tableRebuilding := false }, true⟩ := by
  rw [loadInitialTopLeftItem_skip b h]
  have h1 : loadAndUnloadVisibleEdges fuel b = ⟨b, true⟩ := by
    unfold loadAndUnloadVisibleEdges
    simp [hidle, hitems]
  rw [h1]
  simp only [Bool.not_true, Bool.false_eq_true, if_false, hidle]
  unfold updatePolishTail endRebuildTable
  simp [hreb, hitems]

theorem rebuild_from (fuel : Nat) (b : State) (r t : Run)
    (hr : r = loadAndUnloadVisibleEdges fuel (loadInitialTopLeftItem b))
    (ht : t = if !r.finished then r
      else if r.state.loadRequest.isActive then r else updatePolishTail fuel r.state)
    (hitems : b.loadedItems = []) (hidle : b.loadRequest.isActive = false)
    (hreb : b.tableRebuilding = true) (hnull : b.loadedTable = QRect.null) :
    ∃ rest : List Event,
      t.state.log = b.log ++ rest ∧
      (∀ k ∈ t.state.loadedItems.keys, k ∈ rest.filterMap Event.requestedIndex) ∧
      t.state.tableSize = b.tableSize ∧
      (nothingToLoad b = false → (rest.filterMap Event.requestedIndex).head? = some 0) ∧
      (nothingToLoad b = true →
        rest = [] ∧ t.state.loadedItems = [] ∧ t.state.loadedTable = QRect.null ∧
        t.finished = true) := by
  have hc1 : Continues (loadInitialTopLeftItem b) t.state := by
    rw [ht]
    apply continues_afterRebuild
    rw [hr]
    exact continues_loadAndUnloadVisibleEdges fuel _
  obtain ⟨hts, rest, hlog, hkeys⟩ := (continues_loadInitialTopLeftItem b).andThen hc1
  refine ⟨rest, hlog, ?_, hts, ?_, ?_⟩
  · intro k hk
    rcases hkeys k hk with h | h
    · rw [hitems] at h
      simp [ItemHash.keys] at h
    · exact h
  · intro hn
    obtain ⟨more, hfirst⟩ := loadInitialTopLeftItem_first b hn
    obtain ⟨rest3, hlog3⟩ := hc1.logGrows
    rw [hfirst, List.append_assoc] at hlog3
    have := List.append_cancel_left (hlog.symm.trans hlog3)
    rw [this]
    simp [Event.requestedIndex]
  · intro hn
    have hfin := afterRebuild_of_nothingToLoad fuel b hn hitems hidle hreb
    rw [← hr, ← ht] at hfin
    rw [hfin] at hlog
    refine ⟨?_, ?_, ?_, ?_⟩
    · exact (List.self_eq_append_right.mp hlog)
    · rw [hfin]
      exact hitems
    · rw [hfin]
      exact hnull
    · rw [hfin]

theorem updatePolishBody_rebuilds (fuel : Nat) (s : State)
    (hinv : s.tableInvalid = true) (hidle : s.loadRequest.isActive = false)
    (hw : 0 < s.width) (hh : 0 < s.height) :
    ∃ rest : List Event,
      (updatePolishBody fuel s).state.log =
        s.log ++ s.loadedItems.map (fun e => releaseCall s e.2 ReusableFlag.NotReusable) ++
          rest ∧
      (∀ k ∈ (updatePolishBody fuel s).state.loadedItems.keys,
        k ∈ rest.filterMap Event.requestedIndex) ∧
      (updatePolishBody fuel s).state.tableSize = (calculateTableSize s).tableSize ∧
      (nothingToLoad (calculateTableSize s) = false →
        (rest.filterMap Event.requestedIndex).head? = some 0) ∧
      (nothingToLoad (calculateTableSize s) = true →
        rest.filterMap Event.requestedIndex = [] ∧
        (updatePolishBody fuel s).state.loadedItems = [] ∧
        (updatePolishBody fuel s).state.loadedTable = QRect.null ∧
        (updatePolishBody fuel s).finished = true) := by
  obtain ⟨quiet, hclog, hq0, hcm, _⟩ := clear_log
    ({ s with viewportRect := ⟨s.contentX, s.contentY, s.width, s.height⟩ } : State) hidle
  obtain ⟨c1, c2, c3, _, _⟩ := clear_fields
    ({ s with viewportRect := ⟨s.contentX, s.contentY, s.width, s.height⟩ } : State)
  obtain ⟨b1, b2, b3, _⟩ := calculateTableSize_fields
    ({ clear ({ s with viewportRect := ⟨s.contentX, s.contentY, s.width, s.height⟩ } : State) with
      tableInvalid := false, tableRebuilding := true } : State)
  obtain ⟨m1, m2, m3⟩ := calculateTableSize_model
    ({ clear ({ s with viewportRect := ⟨s.contentX, s.contentY, s.width, s.height⟩ } : State) with
      tableInvalid := false, tableRebuilding := true } : State)
  have hbts := calculateTableSize_congr
    ({ clear ({ s with viewportRect := ⟨s.contentX, s.contentY, s.width, s.height⟩ } : State) with
      tableInvalid := false, tableRebuilding := true } : State) s hcm
  have hbidle : (calculateTableSize
      ({ clear ({ s with viewportRect := ⟨s.contentX, s.contentY, s.width, s.height⟩ } : State) with
        tableInvalid := false, tableRebuilding := true } : State)).loadRequest.isActive = false := by
    rw [b3]
    exact c3
  obtain ⟨rest2, hlog, hkeys, hts, hfirst, hnone⟩ := rebuild_from fuel
    (calculateTableSize
      ({ clear ({ s with viewportRect := ⟨s.contentX, s.contentY, s.width, s.height⟩ } : State) with
        tableInvalid := false, tableRebuilding := true } : State))
    _ (updatePolishBody fuel s) rfl
    (by rw [updatePolishBody_rebuild fuel s hinv hidle hw hh]; rfl)
    (b2.trans c2) hbidle m3 (b1.trans c1)
  have hnl := nothingToLoad_congr _ (calculateTableSize s)
    (m1.trans (hcm.trans (calculateTableSize_model s).1.symm)) hbts
  refine ⟨quiet ++ rest2, ?_, ?_, hts.trans hbts, ?_, ?_⟩
  · rw [hlog, m2]
    show (clear _).log ++ rest2 = _
    rw [hclog, List.append_assoc]
    rfl
  · intro k hk
    rw [List.filterMap_append, hq0, List.nil_append]
    exact hkeys k hk
  · intro hn
    rw [List.filterMap_append, hq0, List.nil_append]
    exact hfirst (hnl.trans hn)
  · intro hn
    obtain ⟨e1, e2, e3, e4⟩ := hnone (hnl.trans hn)
    refine ⟨?_, e2, e3, e4⟩
    rw [e1, List.append_nil]
    exact hq0

/-- Claim C9. Let the table be marked invalid, no load request be active and
the viewport have positive width and height. Then `updatePolish`, for every
iteration budget of its loops, rebuilds the table: the calls it adds to the log
begin with the release of every item that was in `loadedItems`, every index
that is in `loadedItems` afterwards was requested from the factory after these
releases, `tableSize` is the size that `calculateTableSize` computes from the
model, and the first index requested from the factory is that of the cell
`(0, 0)`. When the grid is empty, the model has no items or the table model has
no delegate, nothing is requested, `loadedItems` and `loadedTable` are empty,
and the function returns. -/
theorem updatePolish_rebuilds (fuel : Nat) (s : State)
    (hinv : s.tableInvalid = true) (hidle : s.loadRequest.isActive = false)
    (hw : 0 < s.width) (hh : 0 < s.height) :
    ∃ rest : List Event,
      (updatePolish fuel s).state.log =
        s.log ++ s.loadedItems.map (fun e => releaseCall s e.2 ReusableFlag.NotReusable) ++
          rest ∧
      (∀ k ∈ (updatePolish fuel s).state.loadedItems.keys,
        k ∈ rest.filterMap Event.requestedIndex) ∧
      (updatePolish fuel s).state.tableSize = (calculateTableSize s).tableSize ∧
      (nothingToLoad (calculateTableSize s) = false →
        (rest.filterMap Event.requestedIndex).head? =
          some (modelIndexAtCell (updatePolish fuel s).state ⟨0, 0⟩)) ∧
      (nothingToLoad (calculateTableSize s) = true →
        rest.filterMap Event.requestedIndex = [] ∧
        (updatePolish fuel s).state.loadedItems = [] ∧
        (updatePolish fuel s).state.loadedTable = QRect.null ∧
        (updatePolish fuel s).finished = true) := by
  obtain ⟨rest, hlog, hkeys, hts, hfirst, hnone⟩ :=
    updatePolishBody_rebuilds fuel ({ s with polishing := true } : State) hinv hidle hw hh
  have hsize := calculateTableSize_congr ({ s with polishing := true } : State) s rfl
  have hnl := nothingToLoad_congr (calculateTableSize ({ s with polishing := true } : State))
    (calculateTableSize s)
    ((calculateTableSize_model _).1.trans (calculateTableSize_model s).1.symm) hsize
  refine ⟨rest, hlog, hkeys, hts.trans hsize, ?_, ?_⟩
  · intro hn
    rw [show modelIndexAtCell (updatePolish fuel s).state ⟨0, 0⟩ = 0 by simp [modelIndexAtCell]]
    exact hfirst (hnl.trans hn)
  · intro hn
    exact hnone (hnl.trans hn)

set_option maxRecDepth 100000 in
theorem exampleInvalidated_ready :
    (invalidateTable examplePolished).tableInvalid = true ∧
    (invalidateTable examplePolished).loadRequest.isActive = false ∧
    0 < (invalidateTable examplePolished).width ∧
    0 < (invalidateTable examplePolished).height ∧
    (invalidateTable examplePolished).loadedItems.keys.length = 20 ∧
    nothingToLoad (calculateTableSize (invalidateTable examplePolished)) = false := by
  decide!

/-- Claim C9, instance: the reconciled example view, which holds 20 items, is
invalidated and reconciled again. -/
theorem updatePolish_rebuilds_witness :
    (invalidateTable examplePolished).tableInvalid = true ∧
    (invalidateTable examplePolished).loadRequest.isActive = false ∧
    0 < (invalidateTable examplePolished).width ∧
    0 < (invalidateTable examplePolished).height ∧
    (invalidateTable examplePolished).loadedItems.keys.length = 20 ∧
    nothingToLoad (calculateTableSize (invalidateTable examplePolished)) = false ∧
    ∃ rest : List Event,
      (updatePolish 20 (invalidateTable examplePolished)).state.log =
        (invalidateTable examplePolished).log ++
          (invalidateTable examplePolished).loadedItems.map
            (fun e => releaseCall (invalidateTable examplePolished) e.2
              ReusableFlag.NotReusable) ++ rest ∧
      (∀ k ∈ (updatePolish 20 (invalidateTable examplePolished)).state.loadedItems.keys,
        k ∈ rest.filterMap Event.requestedIndex) ∧
      (updatePolish 20 (invalidateTable examplePolished)).state.tableSize =
        (calculateTableSize (invalidateTable examplePolished)).tableSize ∧
      (rest.filterMap Event.requestedIndex).head? =
        some (modelIndexAtCell (updatePolish 20 (invalidateTable examplePolished)).state ⟨0, 0⟩) :=
  ⟨exampleInvalidated_ready.1, exampleInvalidated_ready.2.1, exampleInvalidated_ready.2.2.1,
    exampleInvalidated_ready.2.2.2.1, exampleInvalidated_ready.2.2.2.2.1,
    exampleInvalidated_ready.2.2.2.2.2,
    (updatePolish_rebuilds 20 (invalidateTable examplePolished) exampleInvalidated_ready.1
      exampleInvalidated_ready.2.1 exampleInvalidated_ready.2.2.1
      exampleInvalidated_ready.2.2.2.1).imp
      (fun _ h => ⟨h.1, h.2.1, h.2.2.1, h.2.2.2.1 exampleInvalidated_ready.2.2.2.2.2⟩)⟩

/-! ## Materializing a cell -/

/-- Claim C20. `createFxTableItem` never fails. It returns no item exactly
when the factory returned no object and reports the index as still loading.
In every other case it returns an item for the requested cell, with index
`modelIndexAtCell(cell)`, not visible; the item is an owned one exactly when
the factory returned no object or an object that is not an item, and an owned
item is the empty placeholder. -/
theorem createFxTableItem_spec (s : State) (cell : QPoint) (mode : IncubationMode) :
    ((createFxTableItem s cell mode).1 = none ↔
      s.factoryScript.head?.getD s.factoryDefault = ObjectResult.incubating) ∧
    ∀ item, (createFxTableItem s cell mode).1 = some item →
      item.cell = cell ∧ item.index = modelIndexAtCell s cell ∧ item.visible = false ∧
      (item.ownItem = true ↔
        (s.factoryScript.head?.getD s.factoryDefault = ObjectResult.failed ∨
          s.factoryScript.head?.getD s.factoryDefault = ObjectResult.notAnItem)) ∧
      (item.ownItem = true → item = ownedEmptyItem cell (modelIndexAtCell s cell)) := by
  unfold createFxTableItem
  simp only []
  cases h : s.factoryScript.head?.getD s.factoryDefault with
  | incubating => simp
  | failed =>
    refine ⟨by simp, ?_⟩
    intro item hi
    simp only [Option.some.injEq] at hi
    subst hi
    simp [ownedEmptyItem]
  | notAnItem =>
    refine ⟨by simp, ?_⟩
    intro item hi
    simp only [Option.some.injEq] at hi
    subst hi
    simp [ownedEmptyItem]
  | item g iw ih =>
    refine ⟨by simp, ?_⟩
    intro item hi
    simp only [Option.some.injEq] at hi
    subst hi
    simp

/-- Claim C20, instance: on the example view the factory delivers an item for
the cell `(2, 3)`, of index 2003; when it delivers something that is not an
item the cell gets the owned placeholder, and when it is still loading no item
is returned. -/
theorem createFxTableItem_spec_witness :
    ((createFxTableItem exampleGrid ⟨2, 3⟩ IncubationMode.Asynchronous).1.map
      (fun item => (item.cell, item.index, item.ownItem, item.visible))) =
      some (⟨2, 3⟩, 2003, false, false) ∧
    (createFxTableItem { exampleGrid with factoryScript := [ObjectResult.notAnItem] } ⟨2, 3⟩
      IncubationMode.Asynchronous).1 = some (ownedEmptyItem ⟨2, 3⟩ 2003) ∧
    ((createFxTableItem { exampleGrid with factoryScript := [ObjectResult.incubating] } ⟨2, 3⟩
      IncubationMode.Asynchronous).1 = none ↔
      ObjectResult.incubating = ObjectResult.incubating) :=
  ⟨by decide, by decide,
    (createFxTableItem_spec { exampleGrid with factoryScript := [ObjectResult.incubating] }
      ⟨2, 3⟩ IncubationMode.Asynchronous).1⟩

/-! ## Size resolver -/

theorem resolveColumnWidth_value (s : State) (column : Int) :
    (resolveColumnWidth s column).1 =
      match s.columnWidthProvider with
      | SizeProvider.callable table otherwise =>
        (match SizeProvider.call table otherwise column with
          | JSNumber.nan => kDefaultColumnWidth
          | JSNumber.num v => if v ≤ 0 then kDefaultColumnWidth else v)
      | SizeProvider.notCallable => kDefaultColumnWidth
      | SizeProvider.undefined =>
        if sizeHintForColumn s column ≤ 0 then kDefaultColumnWidth
        else sizeHintForColumn s column := by
  unfold resolveColumnWidth
  split
  · split
    · rfl
    · split_ifs <;> rfl
  · rfl
  · simp only []
    split_ifs <;> rfl

theorem resolveRowHeight_value (s : State) (row : Int) :
    (resolveRowHeight s row).1 =
      match s.rowHeightProvider with
      | SizeProvider.callable table otherwise =>
        (match SizeProvider.call table otherwise row with
          | JSNumber.nan => kDefaultRowHeight
          | JSNumber.num v => if v ≤ 0 then kDefaultRowHeight else v)
      | SizeProvider.notCallable => kDefaultRowHeight
      | SizeProvider.undefined =>
        if sizeHintForRow s row ≤ 0 then kDefaultRowHeight else sizeHintForRow s row := by
  unfold resolveRowHeight
  split
  · split
    · rfl
    · split_ifs <;> rfl
  · rfl
  · simp only []
    split_ifs <;> rfl

theorem resolved_size_cases (k : ℚ) (hk : 0 < k) (provider : SizeProvider) (arg : Int)
    (hint result : ℚ)
    (h : result =
      match provider with
      | SizeProvider.callable table otherwise =>
        (match SizeProvider.call table otherwise arg with
          | JSNumber.nan => k
          | JSNumber.num v => if v ≤ 0 then k else v)
      | SizeProvider.notCallable => k
      | SizeProvider.undefined => if hint ≤ 0 then k else hint) :
    0 < result ∧
    (∀ table otherwise, provider = SizeProvider.callable table otherwise →
      (SizeProvider.call table otherwise arg = JSNumber.nan → result = k) ∧
      (∀ v, SizeProvider.call table otherwise arg = JSNumber.num v →
        (v ≤ 0 → result = k) ∧ (0 < v → result = v))) ∧
    (provider = SizeProvider.notCallable → result = k) ∧
    (provider = SizeProvider.undefined →
      (hint ≤ 0 → result = k) ∧ (0 < hint → result = hint)) := by
  subst h
  refine ⟨?_, ?_, ?_, ?_⟩
  · split
    · split
      · exact hk
      · split_ifs with hle
        · exact hk
        · exact not_le.mp hle
    · exact hk
    · split_ifs with hle
      · exact hk
      · exact not_le.mp hle
  · intro table otherwise hp
    subst hp
    refine ⟨fun hv => ?_, fun v hv => ⟨fun hle => ?_, fun hpos => ?_⟩⟩
    · simp only [hv]
    · simp only [hv, hle, if_true]
    · simp only [hv, not_le.mpr hpos, if_false]
  · intro hp
    subst hp
    rfl
  · intro hp
    subst hp
    exact ⟨fun hle => by simp only [hle, if_true],
      fun hpos => by simp only [not_le.mpr hpos, if_false]⟩

/-- Claim C12. `resolveColumnWidth` and `resolveRowHeight` return a positive
number for every column, row and provider. The result is the fixed default
when a callable provider returns NaN or a value that is not positive, when the
provider is set and not callable, and when no provider is set and the largest
implicit size is not positive; otherwise it is the value of the provider, or
the largest implicit size. Sizes are rationals here, so NaN only arises as the
result of a provider (`qMax` keeps its first argument when the second is NaN,
so the largest implicit size is never NaN in the source either). -/
theorem resolved_size_positive (s : State) (column row : Int) :
    (0 < (resolveColumnWidth s column).1 ∧
      (∀ table otherwise, s.columnWidthProvider = SizeProvider.callable table otherwise →
        (SizeProvider.call table otherwise column = JSNumber.nan →
          (resolveColumnWidth s column).1 = kDefaultColumnWidth) ∧
        (∀ v, SizeProvider.call table otherwise column = JSNumber.num v →
          (v ≤ 0 → (resolveColumnWidth s column).1 = kDefaultColumnWidth) ∧
          (0 < v → (resolveColumnWidth s column).1 = v))) ∧
      (s.columnWidthProvider = SizeProvider.notCallable →
        (resolveColumnWidth s column).1 = kDefaultColumnWidth) ∧
      (s.columnWidthProvider = SizeProvider.undefined →
        (sizeHintForColumn s column ≤ 0 →
          (resolveColumnWidth s column).1 = kDefaultColumnWidth) ∧
        (0 < sizeHintForColumn s column →
          (resolveColumnWidth s column).1 = sizeHintForColumn s column))) ∧
    (0 < (resolveRowHeight s row).1 ∧
      (∀ table otherwise, s.rowHeightProvider = SizeProvider.callable table otherwise →
        (SizeProvider.call table otherwise row = JSNumber.nan →
          (resolveRowHeight s row).1 = kDefaultRowHeight) ∧
        (∀ v, SizeProvider.call table otherwise row = JSNumber.num v →
          (v ≤ 0 → (resolveRowHeight s row).1 = kDefaultRowHeight) ∧
          (0 < v → (resolveRowHeight s row).1 = v))) ∧
      (s.rowHeightProvider = SizeProvider.notCallable →
        (resolveRowHeight s row).1 = kDefaultRowHeight) ∧
      (s.rowHeightProvider = SizeProvider.undefined →
        (sizeHintForRow s row ≤ 0 → (resolveRowHeight s row).1 = kDefaultRowHeight) ∧
        (0 < sizeHintForRow s row →
          (resolveRowHeight s row).1 = sizeHintForRow s row))) := by
  exact ⟨resolved_size_cases kDefaultColumnWidth (by norm_num [kDefaultColumnWidth])
      s.columnWidthProvider column (sizeHintForColumn s column) _
      (resolveColumnWidth_value s column),
    resolved_size_cases kDefaultRowHeight (by norm_num [kDefaultRowHeight])
      s.rowHeightProvider row (sizeHintForRow s row) _ (resolveRowHeight_value s row)⟩

set_option maxRecDepth 100000 in
theorem exampleZeroWidthProvider_call :
    SizeProvider.call [(3, JSNumber.num 0)] (JSNumber.num 120) 3 = JSNumber.num 0 ∧
    SizeProvider.call [(3, JSNumber.num 0)] (JSNumber.num 120) 2 = JSNumber.num 120 := by
  decide!

/-- Claim C12, instance: a column-width provider that returns 0 for column 3
and 120 otherwise resolves column 3 to the default width and column 2 to 120. -/
theorem resolved_size_positive_witness :
    (resolveColumnWidth exampleZeroWidthProvider 3).1 = kDefaultColumnWidth ∧
    (resolveColumnWidth exampleZeroWidthProvider 2).1 = 120 ∧
    0 < (resolveColumnWidth exampleZeroWidthProvider 3).1 :=
  ⟨(((resolved_size_positive exampleZeroWidthProvider 3 0).1.2.1 _ _ rfl).2 0
      exampleZeroWidthProvider_call.1).1 (le_refl 0),
    (((resolved_size_positive exampleZeroWidthProvider 2 0).1.2.1 _ _ rfl).2 120
      exampleZeroWidthProvider_call.2).2 (by norm_num),
    (resolved_size_positive exampleZeroWidthProvider 3 0).1.1⟩

theorem foldl_max_ge {α : Type} (f : α → ℚ) (l : List α) (init : ℚ) :
    init ≤ l.foldl (fun acc a => max acc (f a)) init ∧
    ∀ a ∈ l, f a ≤ l.foldl (fun acc a => max acc (f a)) init := by
  induction l generalizing init with
  | nil => exact ⟨le_refl _, fun a ha => by simp at ha⟩
  | cons b l ih =>
    simp only [List.foldl_cons]
    obtain ⟨h1, h2⟩ := ih (max init (f b))
    refine ⟨le_trans (le_max_left _ _) h1, ?_⟩
    intro a ha
    rcases List.mem_cons.mp ha with rfl | ha
    · exact le_trans (le_max_right _ _) h1
    · exact h2 a ha

theorem foldl_max_mem {α : Type} (f : α → ℚ) (l : List α) (init : ℚ) :
    l.foldl (fun acc a => max acc (f a)) init = init ∨
    ∃ a ∈ l, l.foldl (fun acc a => max acc (f a)) init = f a := by
  induction l generalizing init with
  | nil => exact Or.inl rfl
  | cons b l ih =>
    simp only [List.foldl_cons]
    rcases ih (max init (f b)) with h | ⟨a, ha, h⟩
    · rcases max_choice init (f b) with hm | hm
      · exact Or.inl (h.trans hm)
      · exact Or.inr ⟨b, List.mem_cons_self _ _, h.trans hm⟩
    · exact Or.inr ⟨a, List.mem_cons_of_mem _ ha, h⟩

theorem ItemHash.value_map (h : ItemHash) (F : FxTableItem → FxTableItem) (k : Int) :
    ItemHash.value (h.map (fun e => (e.1, F e.2))) k = (ItemHash.value h k).map F := by
  induction h with
  | nil => rfl
  | cons e h ih =>
    simp only [ItemHash.value, List.map_cons, List.find?_cons] at ih ⊢
    cases hk : e.1 == k
    · simpa using ih
    · simp

theorem sizeHintForColumn_largest (s : State) (column : Int)
    (hpos : ∃ row, s.loadedTable.top ≤ row ∧ row ≤ s.loadedTable.bottom ∧
      0 < cellWidth s ⟨column, row⟩) :
    0 < sizeHintForColumn s column ∧
    (∃ row, s.loadedTable.top ≤ row ∧ row ≤ s.loadedTable.bottom ∧
      sizeHintForColumn s column = cellWidth s ⟨column, row⟩) ∧
    (∀ row, s.loadedTable.top ≤ row → row ≤ s.loadedTable.bottom →
      cellWidth s ⟨column, row⟩ ≤ sizeHintForColumn s column) := by
  obtain ⟨row0, h1, h2, h3⟩ := hpos
  obtain ⟨_, hge⟩ := foldl_max_ge (fun row => cellWidth s ⟨column, row⟩)
    (intRange s.loadedTable.top s.loadedTable.bottom) 0
  have hpos : 0 < sizeHintForColumn s column :=
    lt_of_lt_of_le h3 (hge row0 ((mem_intRange _ _ _).mpr ⟨h1, h2⟩))
  refine ⟨hpos, ?_, fun row r1 r2 => hge row ((mem_intRange _ _ _).mpr ⟨r1, r2⟩)⟩
  rcases foldl_max_mem (fun row => cellWidth s ⟨column, row⟩)
    (intRange s.loadedTable.top s.loadedTable.bottom) 0 with h | ⟨row, hrow, h⟩
  · exact absurd (show sizeHintForColumn s column = 0 from h) (ne_of_gt hpos)
  · obtain ⟨r1, r2⟩ := (mem_intRange _ _ _).mp hrow
    exact ⟨row, r1, r2, h⟩

theorem sizeHintForRow_largest (s : State) (row : Int)
    (hpos : ∃ column, s.loadedTable.left ≤ column ∧ column ≤ s.loadedTable.right ∧
      0 < cellHeight s ⟨column, row⟩) :
    0 < sizeHintForRow s row ∧
    (∃ column, s.loadedTable.left ≤ column ∧ column ≤ s.loadedTable.right ∧
      sizeHintForRow s row = cellHeight s ⟨column, row⟩) ∧
    (∀ column, s.loadedTable.left ≤ column → column ≤ s.loadedTable.right →
      cellHeight s ⟨column, row⟩ ≤ sizeHintForRow s row) := by
  obtain ⟨c0, h1, h2, h3⟩ := hpos
  obtain ⟨_, hge⟩ := foldl_max_ge (fun column => cellHeight s ⟨column, row⟩)
    (intRange s.loadedTable.left s.loadedTable.right) 0
  have hpos : 0 < sizeHintForRow s row :=
    lt_of_lt_of_le h3 (hge c0 ((mem_intRange _ _ _).mpr ⟨h1, h2⟩))
  refine ⟨hpos, ?_, fun column r1 r2 => hge column ((mem_intRange _ _ _).mpr ⟨r1, r2⟩)⟩
  rcases foldl_max_mem (fun column => cellHeight s ⟨column, row⟩)
    (intRange s.loadedTable.left s.loadedTable.right) 0 with h | ⟨column, hcol, h⟩
  · exact absurd (show sizeHintForRow s row = 0 from h) (ne_of_gt hpos)
  · obtain ⟨r1, r2⟩ := (mem_intRange _ _ _).mp hcol
    exact ⟨column, r1, r2, h⟩

theorem loadedTableItem_withGeometry (s : State) (g : FxTableItem → QRectF) (cell : QPoint) :
    (loadedTableItem (s.withGeometry g) cell).implicitWidth =
      (loadedTableItem s cell).implicitWidth ∧
    (loadedTableItem (s.withGeometry g) cell).implicitHeight =
      (loadedTableItem s cell).implicitHeight := by
  have hv := ItemHash.value_map s.loadedItems (fun item => item.setGeometry (g item))
    (modelIndexAtCell s cell)
  unfold loadedTableItem
  show ((ItemHash.value (s.loadedItems.map (fun e => (e.1, e.2.setGeometry (g e.2))))
      (modelIndexAtCell s cell)).getD FxTableItem.missing).implicitWidth =
      ((ItemHash.value s.loadedItems (modelIndexAtCell s cell)).getD
        FxTableItem.missing).implicitWidth ∧
    ((ItemHash.value (s.loadedItems.map (fun e => (e.1, e.2.setGeometry (g e.2))))
      (modelIndexAtCell s cell)).getD FxTableItem.missing).implicitHeight =
      ((ItemHash.value s.loadedItems (modelIndexAtCell s cell)).getD
        FxTableItem.missing).implicitHeight
  rw [hv]
  cases ItemHash.value s.loadedItems (modelIndexAtCell s cell) with
  | none => exact ⟨rfl, rfl⟩
  | some item => exact ⟨rfl, rfl⟩

theorem sizeHint_withGeometry (s : State) (g : FxTableItem → QRectF) (column row : Int) :
    sizeHintForColumn (s.withGeometry g) column = sizeHintForColumn s column ∧
    sizeHintForRow (s.withGeometry g) row = sizeHintForRow s row := by
  have hw : ∀ cell, cellWidth (s.withGeometry g) cell = cellWidth s cell :=
    fun cell => (loadedTableItem_withGeometry s g cell).1
  have hh : ∀ cell, cellHeight (s.withGeometry g) cell = cellHeight s cell :=
    fun cell => (loadedTableItem_withGeometry s g cell).2
  unfold sizeHintForColumn sizeHintForRow
  simp only [hw, hh]
  exact ⟨rfl, rfl⟩

/-- Claim C13. When no column-width provider is set and some item loaded in
the column, over the rows of the window, has a positive implicit width,
`resolveColumnWidth` returns the largest implicit width among these items: the
result is the implicit width of one of them and none of them has a larger one.
It is the same for every layout geometry of the items. The same holds for
`resolveRowHeight`, the implicit heights and the columns of the window. -/
theorem resolved_size_is_largest_implicit (s : State) (column row : Int) :
    (s.columnWidthProvider = SizeProvider.undefined →
      (∃ r, s.loadedTable.top ≤ r ∧ r ≤ s.loadedTable.bottom ∧ 0 < cellWidth s ⟨column, r⟩) →
      (∃ r, s.loadedTable.top ≤ r ∧ r ≤ s.loadedTable.bottom ∧
        (resolveColumnWidth s column).1 = cellWidth s ⟨column, r⟩) ∧
      (∀ r, s.loadedTable.top ≤ r → r ≤ s.loadedTable.bottom →
        cellWidth s ⟨column, r⟩ ≤ (resolveColumnWidth s column).1) ∧
      ∀ g, (resolveColumnWidth (s.withGeometry g) column).1 =
        (resolveColumnWidth s column).1) ∧
    (s.rowHeightProvider = SizeProvider.undefined →
      (∃ c, s.loadedTable.left ≤ c ∧ c ≤ s.loadedTable.right ∧ 0 < cellHeight s ⟨c, row⟩) →
      (∃ c, s.loadedTable.left ≤ c ∧ c ≤ s.loadedTable.right ∧
        (resolveRowHeight s row).1 = cellHeight s ⟨c, row⟩) ∧
      (∀ c, s.loadedTable.left ≤ c → c ≤ s.loadedTable.right →
        cellHeight s ⟨c, row⟩ ≤ (resolveRowHeight s row).1) ∧
      ∀ g, (resolveRowHeight (s.withGeometry g) row).1 = (resolveRowHeight s row).1) := by
  constructor
  · intro hp hpos
    obtain ⟨h0, h1, h2⟩ := sizeHintForColumn_largest s column hpos
    have hval : (resolveColumnWidth s column).1 = sizeHintForColumn s column :=
      ((resolved_size_cases kDefaultColumnWidth (by norm_num [kDefaultColumnWidth])
        s.columnWidthProvider column (sizeHintForColumn s column) _
        (resolveColumnWidth_value s column)).2.2.2 hp).2 h0
    refine ⟨?_, ?_, ?_⟩
    · obtain ⟨r, r1, r2, r3⟩ := h1
      exact ⟨r, r1, r2, hval.trans r3⟩
    · intro r r1 r2
      rw [hval]
      exact h2 r r1 r2
    · intro g
      have hg := (sizeHint_withGeometry s g column row).1
      rw [hval]
      exact ((resolved_size_cases kDefaultColumnWidth (by norm_num [kDefaultColumnWidth])
        (s.withGeometry g).columnWidthProvider column
        (sizeHintForColumn (s.withGeometry g) column) _
        (resolveColumnWidth_value (s.withGeometry g) column)).2.2.2 hp).2
          (by rw [hg]; exact h0) |>.trans hg
  · intro hp hpos
    obtain ⟨h0, h1, h2⟩ := sizeHintForRow_largest s row hpos
    have hval : (resolveRowHeight s row).1 = sizeHintForRow s row :=
      ((resolved_size_cases kDefaultRowHeight (by norm_num [kDefaultRowHeight])
        s.rowHeightProvider row (sizeHintForRow s row) _
        (resolveRowHeight_value s row)).2.2.2 hp).2 h0
    refine ⟨?_, ?_, ?_⟩
    · obtain ⟨c, r1, r2, r3⟩ := h1
      exact ⟨c, r1, r2, hval.trans r3⟩
    · intro c r1 r2
      rw [hval]
      exact h2 c r1 r2
    · intro g
      have hg := (sizeHint_withGeometry s g column row).2
      rw [hval]
      exact ((resolved_size_cases kDefaultRowHeight (by norm_num [kDefaultRowHeight])
        (s.withGeometry g).rowHeightProvider row
        (sizeHintForRow (s.withGeometry g) row) _
        (resolveRowHeight_value (s.withGeometry g) row)).2.2.2 hp).2
          (by rw [hg]; exact h0) |>.trans hg

set_option maxRecDepth 100000 in
theorem examplePolished_implicit_sizes :
    examplePolished.columnWidthProvider = SizeProvider.undefined ∧
    examplePolished.loadedTable.top ≤ 0 ∧ 0 ≤ examplePolished.loadedTable.bottom ∧
    0 < cellWidth examplePolished ⟨2, 0⟩ ∧
    (resolveColumnWidth examplePolished 2).1 = 100 := by
  decide!

/-- Claim C13, instance: in the reconciled example view, whose items have the
implicit width 100, column 2 resolves to 100 for every layout of the items. -/
theorem resolved_size_is_largest_implicit_witness :
    (resolveColumnWidth examplePolished 2).1 = 100 ∧
    ∀ g, (resolveColumnWidth (examplePolished.withGeometry g) 2).1 =
      (resolveColumnWidth examplePolished 2).1 :=
  ⟨examplePolished_implicit_sizes.2.2.2.2,
    ((resolved_size_is_largest_implicit examplePolished 2 0).1
      examplePolished_implicit_sizes.1
      ⟨0, examplePolished_implicit_sizes.2.1, examplePolished_implicit_sizes.2.2.1,
        examplePolished_implicit_sizes.2.2.2.1⟩).2.2⟩

/-! ## Reconciliation with a degenerate viewport -/

/-- Claim C17. When no load request is active and the viewport built from the
scroll position and the size of the view has a width or a height that is not
positive, `updatePolish` returns having written only `viewportRect`:
`loadedTable`, `loadedItems` with the geometry of every item, `tableInvalid`,
`tableRebuilding`, the content size and the log of calls to the factory are as
before, whether or not the table is marked invalid. -/
theorem updatePolish_noop_on_degenerate_viewport (fuel : Nat) (s : State)
    (hidle : s.loadRequest.isActive = false) (hv : s.width ≤ 0 ∨ s.height ≤ 0) :
    (updatePolish fuel s).state =
      { s with viewportRect := ⟨s.contentX, s.contentY, s.width, s.height⟩ } ∧
    (updatePolish fuel s).finished = true ∧
    (updatePolish fuel s).state.loadedTable = s.loadedTable ∧
    (updatePolish fuel s).state.loadedItems = s.loadedItems ∧
    (updatePolish fuel s).state.tableInvalid = s.tableInvalid ∧
    (updatePolish fuel s).state.tableRebuilding = s.tableRebuilding ∧
    (updatePolish fuel s).state.contentWidth = s.contentWidth ∧
    (updatePolish fuel s).state.contentHeight = s.contentHeight ∧
    (updatePolish fuel s).state.log = s.log := by
  have hinvalid : (({ s with polishing := true, viewportRect :=
      ⟨s.contentX, s.contentY, s.width, s.height⟩ } : State).viewportRect.isValid) = false := by
    simp only [QRectF.isValid, Bool.and_eq_false_imp, decide_eq_true_eq, decide_eq_false_iff_not,
      not_lt]
    rcases hv with h | h
    · intro hw
      exact absurd hw (not_lt.mpr h)
    · intro _
      exact h
  have hbody : updatePolishBody fuel { s with polishing := true } =
      ⟨{ s with polishing := true, viewportRect :=
        ⟨s.contentX, s.contentY, s.width, s.height⟩ }, true⟩ := by
    unfold updatePolishBody
    have hi : ({ s with polishing := true } : State).loadRequest.isActive = false := hidle
    simp only [hi, Bool.false_eq_true, if_false, hinvalid, Bool.not_false, if_true]
  have hstate : (updatePolish fuel s).state =
      { s with viewportRect := ⟨s.contentX, s.contentY, s.width, s.height⟩ } := by
    unfold updatePolish
    simp only [hbody]
  have hfin : (updatePolish fuel s).finished = true := by
    unfold updatePolish
    simp only [hbody]
  refine ⟨hstate, hfin, ?_, ?_, ?_, ?_, ?_, ?_, ?_⟩ <;> rw [hstate]

set_option maxRecDepth 100000 in
theorem exampleCollapsed_ready :
    exampleCollapsed.loadRequest.isActive = false ∧ exampleCollapsed.width ≤ 0 ∧
    exampleCollapsed.tableInvalid = true ∧ exampleCollapsed.loadedItems.keys.length = 20 := by
  decide!

/-- Claim C17, instance: the reconciled example view, invalidated and shrunk
to the width 0, keeps its 20 items and stays invalid when it is reconciled. -/
theorem updatePolish_noop_on_degenerate_viewport_witness :
    exampleCollapsed.loadRequest.isActive = false ∧ exampleCollapsed.width ≤ 0 ∧
    exampleCollapsed.tableInvalid = true ∧ exampleCollapsed.loadedItems.keys.length = 20 ∧
    (updatePolish 20 exampleCollapsed).state.loadedItems = exampleCollapsed.loadedItems ∧
    (updatePolish 20 exampleCollapsed).state.tableInvalid = exampleCollapsed.tableInvalid ∧
    (updatePolish 20 exampleCollapsed).state.log = exampleCollapsed.log :=
  ⟨exampleCollapsed_ready.1, exampleCollapsed_ready.2.1, exampleCollapsed_ready.2.2.1,
    exampleCollapsed_ready.2.2.2,
    (updatePolish_noop_on_degenerate_viewport 20 exampleCollapsed exampleCollapsed_ready.1
      (Or.inl exampleCollapsed_ready.2.1)).2.2.2.1,
    (updatePolish_noop_on_degenerate_viewport 20 exampleCollapsed exampleCollapsed_ready.1
      (Or.inl exampleCollapsed_ready.2.1)).2.2.2.2.1,
    (updatePolish_noop_on_degenerate_viewport 20 exampleCollapsed exampleCollapsed_ready.1
      (Or.inl exampleCollapsed_ready.2.1)).2.2.2.2.2.2.2.2⟩

/-! ## Content extent -/

theorem updateContentWidth_eq (s : State) :
    updateContentWidth s =
      if s.loadedTable.right > s.contentSizeBenchMarkPoint.x then
        if s.loadedTable.right ≥ s.tableSize.width - 1 then
          if currentContentWidth s ≠ s.implicitWidth then
            setContentWidth { s with contentSizeBenchMarkPoint :=
              { s.contentSizeBenchMarkPoint with x := s.loadedTable.right } }
              (currentContentWidth s)
          else { s with contentSizeBenchMarkPoint :=
            { s.contentSizeBenchMarkPoint with x := s.loadedTable.right } }
        else if currentContentWidth s ≥ s.implicitWidth then
          setContentWidth { s with contentSizeBenchMarkPoint :=
            { s.contentSizeBenchMarkPoint with x := s.loadedTable.right } }
            (estimatedContentWidth s)
        else if |1 - estimatedContentWidth s / s.implicitWidth| > thresholdBeforeAdjust then
          setContentWidth { s with contentSizeBenchMarkPoint :=
            { s.contentSizeBenchMarkPoint with x := s.loadedTable.right } }
            (estimatedContentWidth s)
        else { s with contentSizeBenchMarkPoint :=
          { s.contentSizeBenchMarkPoint with x := s.loadedTable.right } }
      else s := rfl

theorem updateContentHeight_eq (s : State) :
    updateContentHeight s =
      if s.loadedTable.bottom > s.contentSizeBenchMarkPoint.y then
        if s.loadedTable.bottom ≥ s.tableSize.height - 1 then
          if currentContentHeight s ≠ s.implicitHeight then
            setContentHeight { s with contentSizeBenchMarkPoint :=
              { s.contentSizeBenchMarkPoint with y := s.loadedTable.bottom } }
              (currentContentHeight s)
          else { s with contentSizeBenchMarkPoint :=
            { s.contentSizeBenchMarkPoint with y := s.loadedTable.bottom } }
        else if currentContentHeight s ≥ s.implicitHeight then
          setContentHeight { s with contentSizeBenchMarkPoint :=
            { s.contentSizeBenchMarkPoint with y := s.loadedTable.bottom } }
            (estimatedContentHeight s)
        else if |1 - estimatedContentHeight s / s.implicitHeight| > thresholdBeforeAdjust then
          setContentHeight { s with contentSizeBenchMarkPoint :=
            { s.contentSizeBenchMarkPoint with y := s.loadedTable.bottom } }
            (estimatedContentHeight s)
        else { s with contentSizeBenchMarkPoint :=
          { s.contentSizeBenchMarkPoint with y := s.loadedTable.bottom } }
      else s := rfl

theorem updateContentWidth_reported (s : State) (w : ℚ)
    (h : (updateContentWidth s).log = s.log ++ [Event.setContentWidth w]) :
    s.loadedTable.right > s.contentSizeBenchMarkPoint.x ∧
    ((s.loadedTable.right ≥ s.tableSize.width - 1 ∧ w = currentContentWidth s) ∨
      (s.loadedTable.right < s.tableSize.width - 1 ∧ w = estimatedContentWidth s)) := by
  rw [updateContentWidth_eq] at h
  split_ifs at h with h1 h2 h3 h4 h5
  · exact ⟨h1, Or.inl ⟨h2, by simpa [setContentWidth] using h.symm⟩⟩
  · simp at h
  · exact ⟨h1, Or.inr ⟨not_le.mp h2, by simpa [setContentWidth] using h.symm⟩⟩
  · exact ⟨h1, Or.inr ⟨not_le.mp h2, by simpa [setContentWidth] using h.symm⟩⟩
  · simp at h
  · simp at h

theorem updateContentHeight_reported (s : State) (w : ℚ)
    (h : (updateContentHeight s).log = s.log ++ [Event.setContentHeight w]) :
    s.loadedTable.bottom > s.contentSizeBenchMarkPoint.y ∧
    ((s.loadedTable.bottom ≥ s.tableSize.height - 1 ∧ w = currentContentHeight s) ∨
      (s.loadedTable.bottom < s.tableSize.height - 1 ∧ w = estimatedContentHeight s)) := by
  rw [updateContentHeight_eq] at h
  split_ifs at h with h1 h2 h3 h4 h5
  · exact ⟨h1, Or.inl ⟨h2, by simpa [setContentHeight] using h.symm⟩⟩
  · simp at h
  · exact ⟨h1, Or.inr ⟨not_le.mp h2, by simpa [setContentHeight] using h.symm⟩⟩
  · exact ⟨h1, Or.inr ⟨not_le.mp h2, by simpa [setContentHeight] using h.symm⟩⟩
  · simp at h
  · simp at h

/-- At the last column `updateContentWidth` hands the exact accumulated width
to `setContentWidth`, unless that width is equal to `implicitWidth()`: then it
makes no call and the content width stays what it was. -/
theorem updateContentWidth_at_last_column (s : State)
    (hb : s.loadedTable.right > s.contentSizeBenchMarkPoint.x)
    (hl : s.loadedTable.right ≥ s.tableSize.width - 1) :
    (currentContentWidth s ≠ s.implicitWidth →
      (updateContentWidth s).contentWidth = currentContentWidth s) ∧
    (currentContentWidth s = s.implicitWidth →
      (updateContentWidth s).contentWidth = s.contentWidth ∧
      (updateContentWidth s).log = s.log) := by
  rw [updateContentWidth_eq, if_pos hb, if_pos hl]
  constructor
  · intro hne
    rw [if_pos hne]
    rfl
  · intro heq
    rw [if_neg (not_not.mpr heq)]
    exact ⟨rfl, rfl⟩

/-- The same for `updateContentHeight` at the last row. -/
theorem updateContentHeight_at_last_row (s : State)
    (hb : s.loadedTable.bottom > s.contentSizeBenchMarkPoint.y)
    (hl : s.loadedTable.bottom ≥ s.tableSize.height - 1) :
    (currentContentHeight s ≠ s.implicitHeight →
      (updateContentHeight s).contentHeight = currentContentHeight s) ∧
    (currentContentHeight s = s.implicitHeight →
      (updateContentHeight s).contentHeight = s.contentHeight ∧
      (updateContentHeight s).log = s.log) := by
  rw [updateContentHeight_eq, if_pos hb, if_pos hl]
  constructor
  · intro hne
    rw [if_pos hne]
    rfl
  · intro heq
    rw [if_neg (not_not.mpr heq)]
    exact ⟨rfl, rfl⟩

set_option maxRecDepth 100000 in
/-- Claim C14, at the failing input. The example view on a grid of 4 columns
has the implicit width 400. When its last column, column 3, has been laid out,
the exact accumulated width is 400, and `updateContentWidth`, which compares it
with `implicitWidth()`, does not call `setContentWidth`: the content width is
still 0 after the call, and after the whole reconciliation no content width has
been reported at all. -/
theorem updateContentWidth_misses_exact_width :
    exampleLastColumn.loadedTable.right = 3 ∧ exampleLastColumn.tableSize.width = 4 ∧
    exampleLastColumn.contentSizeBenchMarkPoint.x = 2 ∧
    currentContentWidth exampleLastColumn = 400 ∧
    exampleLastColumn.implicitWidth = 400 ∧
    (updateContentWidth exampleLastColumn).contentWidth = 0 ∧
    (updatePolish 20 exampleExactWidth).finished = true ∧
    (updatePolish 20 exampleExactWidth).state.loadedTable = ⟨0, 0, 3, 4⟩ ∧
    (updatePolish 20 exampleExactWidth).state.contentWidth = 0 ∧
    reportedWidths (updatePolish 20 exampleExactWidth).state.log = [] := by
  decide!

set_option maxRecDepth 100000 in
/-- Claim C15, at the failing input. The view `exampleUnevenColumns` shows
column 0 of a grid of 10 columns and has reported the content width 1000; its
implicit width is 0. When the view is widened to 400, the reconciliation loads
the columns 1, 2 and 3, none of them the last column, and every load reports
its estimate, 1005, 3010/3 and 2005/2, although each of them differs from the
value reported before it by less than 1 percent. -/
theorem updateContentWidth_reports_every_estimate :
    (updatePolish 20 exampleUnevenColumns).finished = true ∧
    (updatePolish 20 exampleUnevenColumns).state.contentWidth = 1000 ∧
    reportedWidths (updatePolish 20 exampleUnevenColumns).state.log = [1000, 1000] ∧
    exampleUnevenWidened.implicitWidth = 0 ∧
    (updatePolish 20 exampleUnevenWidened).finished = true ∧
    (updatePolish 20 exampleUnevenWidened).state.tableSize.width = 10 ∧
    (updatePolish 20 exampleUnevenWidened).state.loadedTable = ⟨0, 0, 3, 0⟩ ∧
    (updatePolish 20 exampleUnevenWidened).state.log.drop exampleUnevenWidened.log.length =
      [Event.begin false (some Edge.RightEdge) ⟨⟨1, 0⟩, ⟨1, 0⟩⟩,
       Event.object 1000 IncubationMode.AsynchronousIfNested,
       Event.setContentWidth 1005,
       Event.drainReusableItemsPool,
       Event.begin false (some Edge.RightEdge) ⟨⟨2, 0⟩, ⟨2, 0⟩⟩,
       Event.object 2000 IncubationMode.AsynchronousIfNested,
       Event.setContentWidth (3010 / 3),
       Event.drainReusableItemsPool,
       Event.begin false (some Edge.RightEdge) ⟨⟨3, 0⟩, ⟨3, 0⟩⟩,
       Event.object 3000 IncubationMode.AsynchronousIfNested,
       Event.setContentWidth (2005 / 2),
       Event.drainReusableItemsPool] ∧
    |1 - (1005 : ℚ) / 1000| ≤ 1 / 100 ∧
    |1 - (3010 / 3 : ℚ) / 1005| ≤ 1 / 100 ∧
    |1 - (2005 / 2 : ℚ) / (3010 / 3)| ≤ 1 / 100 ∧
    (updatePolish 20 exampleUnevenWidened).state.contentWidth = 2005 / 2 := by
  decide!

/-! ## A load request that waits for an item -/

theorem cellCount_eq (r : TableEdgeLoadRequest) :
    r.cellCount =
      if r.edgeCells.dx ≠ 0 then (r.edgeCells.p2.x - r.edgeCells.p1.x + 1).toNat
      else (r.edgeCells.p2.y - r.edgeCells.p1.y + 1).toNat := by
  unfold TableEdgeLoadRequest.cellCount lineCells
  split_ifs <;> simp [intRange]

theorem lineCells_eq_cellAt (r : TableEdgeLoadRequest) (hw : r.edgeCells.WellFormed) :
    lineCells r.edgeCells = (List.range r.cellCount).map r.cellAt := by
  rw [cellCount_eq]
  obtain ⟨_, _, w3⟩ := hw
  unfold lineCells TableEdgeLoadRequest.cellAt TableEdgeLoadRequest.direction intRange
  by_cases hd : r.edgeCells.dx ≠ 0
  · simp only [hd, if_true, ne_eq, not_false_eq_true, List.map_map]
    apply List.map_congr_left
    intro i _
    simp
  · simp only [hd, if_false, List.map_map]
    apply List.map_congr_left
    intro i _
    simp only [QLine.dx, ne_eq, not_not] at hd
    simp

theorem cellAt_succ (r : TableEdgeLoadRequest) (i : Nat) :
    r.cellAt (i + 1) = (r.cellAt i).add r.direction := by
  simp only [TableEdgeLoadRequest.cellAt, QPoint.add, QPoint.mk.injEq]
  constructor <;> (push_cast; ring)

theorem cellAt_zero (r : TableEdgeLoadRequest) : r.cellAt 0 = r.edgeCells.p1 := by
  simp [TableEdgeLoadRequest.cellAt]

theorem cellAt_with_cursor (r : TableEdgeLoadRequest) (c : QPoint) (i : Nat) :
    ({ r with currentCell := c } : TableEdgeLoadRequest).cellAt i = r.cellAt i := rfl

theorem cellCount_with_cursor (r : TableEdgeLoadRequest) (c : QPoint) :
    ({ r with currentCell := c } : TableEdgeLoadRequest).cellCount = r.cellCount := rfl

theorem hasCurrentCell_cellAt (r : TableEdgeLoadRequest) (hact : r.active = true)
    (hw : r.edgeCells.WellFormed) (i : Nat) (hcur : r.currentCell = r.cellAt i) :
    r.hasCurrentCell = true ↔ i < r.cellCount := by
  rw [hasCurrentCell_iff, cellCount_eq, hcur]
  obtain ⟨w1, w2, w3⟩ := hw
  simp only [TableEdgeLoadRequest.cellAt, TableEdgeLoadRequest.direction]
  by_cases hd : r.edgeCells.dx ≠ 0
  · have hy := w3 hd
    simp only [hd, if_true, ne_eq, not_false_eq_true, hact, true_and]
    constructor
    · rintro ⟨h1, _⟩
      omega
    · intro h
      constructor <;> omega
  · simp only [hd, if_false, hact, true_and]
    simp only [QLine.dx, ne_eq, not_not] at hd
    constructor
    · rintro ⟨_, h2⟩
      omega
    · intro h
      constructor <;> omega

theorem remaining_cellAt (r : TableEdgeLoadRequest) (hw : r.edgeCells.WellFormed) (i : Nat)
    (hcur : r.currentCell = r.cellAt i) (hi : i ≤ r.cellCount) :
    r.remaining = r.cellCount - i + 1 := by
  rw [cellCount_eq] at hi ⊢
  obtain ⟨w1, w2, w3⟩ := hw
  simp only [TableEdgeLoadRequest.remaining, hcur, TableEdgeLoadRequest.cellAt,
    TableEdgeLoadRequest.direction]
  by_cases hd : r.edgeCells.dx ≠ 0
  · have hy := w3 hd
    simp only [hd, if_true, ne_eq, not_false_eq_true] at hi ⊢
    omega
  · simp only [hd, if_false] at hi ⊢
    simp only [QLine.dx, ne_eq, not_not] at hd
    omega

theorem loadFxTableItem_ready (s : State) (cell : QPoint) (mode : IncubationMode)
    (a : ObjectResult) (tail : List ObjectResult) (hs : s.factoryScript = a :: tail)
    (ha : a ≠ ObjectResult.incubating) :
    ∃ item, (loadFxTableItem s cell mode).1 = some item := by
  unfold loadFxTableItem createFxTableItem
  simp only [hs, List.head?_cons, Option.getD_some]
  cases a with
  | incubating => exact absurd rfl ha
  | failed => exact ⟨_, rfl⟩
  | notAnItem => exact ⟨_, rfl⟩
  | item g iw ih => exact ⟨_, rfl⟩

theorem loadFxTableItem_incubating (s : State) (cell : QPoint) (mode : IncubationMode)
    (tail : List ObjectResult) (hs : s.factoryScript = ObjectResult.incubating :: tail) :
    (loadFxTableItem s cell mode).1 = none := by
  unfold loadFxTableItem createFxTableItem
  simp only [hs, List.head?_cons, Option.getD_some]

theorem loadRequestedCells_ready_step (f : Nat) (s : State) (a : ObjectResult)
    (tail : List ObjectResult) (hcur : s.loadRequest.hasCurrentCell = true)
    (hs : s.factoryScript = a :: tail) (ha : a ≠ ObjectResult.incubating) :
    ∃ s1 : State, loadRequestedCells (f + 1) s = loadRequestedCells f s1 ∧
      s1.loadRequest = s.loadRequest.moveToNextCell ∧ s1.factoryScript = tail ∧
      s1.loadedTable = s.loadedTable ∧ s1.tableSize = s.tableSize ∧
      ∀ j, j ∈ s1.loadedItems.keys ↔
        (j = modelIndexAtCell s s.loadRequest.currentCell ∨ j ∈ s.loadedItems.keys) := by
  obtain ⟨item, hitem⟩ := loadFxTableItem_ready s s.loadRequest.currentCell
    s.loadRequest.incubationMode a tail hs ha
  obtain ⟨hsh, hitems⟩ := shape_loadFxTableItem s s.loadRequest.currentCell
    s.loadRequest.incubationMode
  have hreq : (loadFxTableItem s s.loadRequest.currentCell
      s.loadRequest.incubationMode).2.loadRequest = s.loadRequest :=
    (congrArg Shape.loadRequest hsh :)
  have hts : (loadFxTableItem s s.loadRequest.currentCell
      s.loadRequest.incubationMode).2.tableSize = s.tableSize :=
    (congrArg Shape.tableSize hsh :)
  refine ⟨{ (loadFxTableItem s s.loadRequest.currentCell s.loadRequest.incubationMode).2 with
      loadedItems := (loadFxTableItem s s.loadRequest.currentCell
        s.loadRequest.incubationMode).2.loadedItems.insert
          (modelIndexAtCell (loadFxTableItem s s.loadRequest.currentCell
            s.loadRequest.incubationMode).2 s.loadRequest.currentCell) item
      loadRequest := (loadFxTableItem s s.loadRequest.currentCell
        s.loadRequest.incubationMode).2.loadRequest.moveToNextCell }, ?_, ?_, ?_, ?_, hts, ?_⟩
  · rw [loadRequestedCells]
    simp only [hcur, if_true, hitem]
  · show (loadFxTableItem s s.loadRequest.currentCell
      s.loadRequest.incubationMode).2.loadRequest.moveToNextCell = _
    rw [hreq]
  · have := (congrArg Shape.factoryScript hsh :)
    simp only [State.shape] at this
    rw [hs] at this
    exact this
  · exact (congrArg Shape.loadedTable hsh :)
  · intro j
    show j ∈ ItemHash.keys (ItemHash.insert _ _ item) ↔ _
    rw [ItemHash.mem_keys_insert, hitems]
    simp only [modelIndexAtCell, hts]

theorem loadRequestedCells_ready (tail : List ObjectResult) (ready : List ObjectResult) :
    ∀ (s : State) (i f : Nat),
      s.loadRequest.active = true → s.loadRequest.edgeCells.WellFormed →
      s.loadRequest.currentCell = s.loadRequest.cellAt i →
      i + ready.length ≤ s.loadRequest.cellCount →
      s.factoryScript = ready ++ tail → (∀ a ∈ ready, a ≠ ObjectResult.incubating) →
      ∃ s' : State, loadRequestedCells (ready.length + f) s = loadRequestedCells f s' ∧
        s'.loadRequest =
          { s.loadRequest with currentCell := s.loadRequest.cellAt (i + ready.length) } ∧
        s'.factoryScript = tail ∧ s'.loadedTable = s.loadedTable ∧
        s'.tableSize = s.tableSize ∧
        ∀ j, j ∈ s'.loadedItems.keys ↔
          (j ∈ s.loadedItems.keys ∨
            ∃ p, i ≤ p ∧ p < i + ready.length ∧
              j = modelIndexAtCell s (s.loadRequest.cellAt p)) := by
  induction ready with
  | nil =>
    intro s i f _ _ hcur _ hs _
    refine ⟨s, by simp, ?_, by simpa using hs, rfl, rfl, ?_⟩
    · rw [List.length_nil, Nat.add_zero, ← hcur]
    · intro j
      constructor
      · exact Or.inl
      · rintro (h | ⟨p, h1, h2, _⟩)
        · exact h
        · simp at h2
          omega
  | cons a ready ih =>
    intro s i f hact hw hcur hlen hs hready
    have hi : i < s.loadRequest.cellCount := by
      simp only [List.length_cons] at hlen
      omega
    have hcc := (hasCurrentCell_cellAt s.loadRequest hact hw i hcur).mpr hi
    obtain ⟨s1, e1, e2, e3, e4, e5, e6⟩ := loadRequestedCells_ready_step (ready.length + f) s a
      (ready ++ tail) hcc (by simpa using hs) (hready a (List.mem_cons_self _ _))
    have hcur1 : s1.loadRequest.currentCell = s1.loadRequest.cellAt (i + 1) := by
      rw [e2]
      show s.loadRequest.currentCell.add s.loadRequest.direction = s.loadRequest.cellAt (i + 1)
      rw [cellAt_succ, hcur]
    obtain ⟨s', g1, g2, g3, g4, g5, g6⟩ := ih s1 (i + 1) f (by rw [e2]; exact hact)
      (by rw [e2]; exact hw) hcur1
      (by rw [e2]; simp only [List.length_cons] at hlen; show _ ≤ s.loadRequest.cellCount; omega)
      e3 (fun b hb => hready b (List.mem_cons_of_mem _ hb))
    refine ⟨s', ?_, ?_, g3, g4.trans e4, g5.trans e5, ?_⟩
    · rw [← g1, ← e1]
      congr 1
      simp only [List.length_cons]
      omega
    · have hl : i + 1 + ready.length = i + (a :: ready).length := by
        simp only [List.length_cons]
        omega
      rw [g2, e2, ← hl]
      rfl
    · intro j
      rw [g6, e6]
      have hidx : ∀ p, modelIndexAtCell s1 (s1.loadRequest.cellAt p) =
          modelIndexAtCell s (s.loadRequest.cellAt p) := by
        intro p
        rw [e2]
        simp only [modelIndexAtCell, e5]
        rfl
      simp only [hidx, List.length_cons]
      constructor
      · rintro ((h | h) | ⟨p, h1, h2, h3⟩)
        · exact Or.inr ⟨i, le_refl _, by omega, by rw [h, hcur]⟩
        · exact Or.inl h
        · exact Or.inr ⟨p, by omega, by omega, h3⟩
      · rintro (h | ⟨p, h1, h2, h3⟩)
        · exact Or.inl (Or.inr h)
        · by_cases hp : p = i
          · subst hp
            exact Or.inl (Or.inl (by rw [h3, hcur]))
          · exact Or.inr ⟨p, by omega, by omega, h3⟩

theorem loadRequestedCells_pending_step (f : Nat) (s : State) (tail : List ObjectResult)
    (hcur : s.loadRequest.hasCurrentCell = true)
    (hs : s.factoryScript = ObjectResult.incubating :: tail) :
    loadRequestedCells (f + 1) s =
      ((loadFxTableItem s s.loadRequest.currentCell s.loadRequest.incubationMode).2, false) := by
  rw [loadRequestedCells]
  simp only [hcur, if_true,
    loadFxTableItem_incubating s s.loadRequest.currentCell s.loadRequest.incubationMode tail hs]

theorem loadRequestedCells_at_end (f : Nat) (s : State)
    (hcur : s.loadRequest.hasCurrentCell = false) : loadRequestedCells f s = (s, true) := by
  cases f with
  | zero => simp [loadRequestedCells, hcur]
  | succ f =>
    rw [loadRequestedCells]
    simp [hcur]

/-- A request whose first `k` cells the factory delivers and whose cell `k` is
still loading: `processLoadRequest` stops there. -/
theorem processLoadRequest_waits (s : State) (k : Nat) (ready rest : List ObjectResult)
    (hact : s.loadRequest.active = true) (hwf : s.loadRequest.edgeCells.WellFormed)
    (hbeg : s.loadRequest.currentCell = s.loadRequest.cellAt 0)
    (hk : k < s.loadRequest.cellCount) (hlen : ready.length = k)
    (hready : ∀ a ∈ ready, a ≠ ObjectResult.incubating)
    (hscript : s.factoryScript = ready ++ ObjectResult.incubating :: rest) :
    (processLoadRequest s).loadRequest =
      { s.loadRequest with currentCell := s.loadRequest.cellAt k } ∧
    (processLoadRequest s).loadedTable = s.loadedTable ∧
    (processLoadRequest s).tableSize = s.tableSize ∧
    ∀ j, j ∈ (processLoadRequest s).loadedItems.keys ↔
      (j ∈ s.loadedItems.keys ∨
        ∃ p, p < k ∧ j = modelIndexAtCell s (s.loadRequest.cellAt p)) := by
  have hrem : s.loadRequest.remaining = ready.length + (s.loadRequest.cellCount - k + 1) := by
    rw [remaining_cellAt s.loadRequest hwf 0 hbeg (Nat.zero_le _), hlen]
    omega
  obtain ⟨s', g1, g2, g3, g4, g5, g6⟩ := loadRequestedCells_ready
    (ObjectResult.incubating :: rest) ready s 0 (s.loadRequest.cellCount - k + 1) hact hwf hbeg
    (by rw [hlen]; omega) hscript hready
  rw [Nat.zero_add, hlen] at g2
  have hcur' : s'.loadRequest.hasCurrentCell = true := by
    rw [g2]
    exact (hasCurrentCell_cellAt
      ({ s.loadRequest with currentCell := s.loadRequest.cellAt k } : TableEdgeLoadRequest)
      hact hwf k rfl).mpr hk
  have hstep := loadRequestedCells_pending_step (s.loadRequest.cellCount - k) s' rest hcur' g3
  obtain ⟨f1, f2, f3, _, f5⟩ := loadFxTableItem_fields s' s'.loadRequest.currentCell
    s'.loadRequest.incubationMode
  have hrun : processLoadRequest s =
      (loadFxTableItem s' s'.loadRequest.currentCell s'.loadRequest.incubationMode).2 := by
    unfold processLoadRequest
    simp only [hrem, g1, hstep, Bool.false_eq_true, if_false]
  rw [hrun]
  refine ⟨f3.trans g2, f1.trans g4, f2.trans g5, ?_⟩
  intro j
  rw [f5, g6]
  constructor
  · rintro (h | ⟨p, _, h2, h3⟩)
    · exact Or.inl h
    · exact Or.inr ⟨p, by omega, h3⟩
  · rintro (h | ⟨p, h2, h3⟩)
    · exact Or.inl h
    · exact Or.inr ⟨p, Nat.zero_le _, by omega, h3⟩

/-- A request that waits at cell `k` and is resumed with a factory that
delivers the cells from `k` on: it completes. -/
theorem processLoadRequest_resumes (t : State) (k : Nat) (ready rest : List ObjectResult)
    (hact : t.loadRequest.active = true) (hwf : t.loadRequest.edgeCells.WellFormed)
    (hcur : t.loadRequest.currentCell = t.loadRequest.cellAt k)
    (hk : k < t.loadRequest.cellCount) (hlen : ready.length = t.loadRequest.cellCount - k)
    (hready : ∀ a ∈ ready, a ≠ ObjectResult.incubating)
    (hscript : t.factoryScript = ready ++ rest) :
    (processLoadRequest t).loadRequest.isActive = false ∧
    (∀ j, (j ∈ t.loadedItems.keys ∨
        ∃ p, k ≤ p ∧ p < t.loadRequest.cellCount ∧
          j = modelIndexAtCell t (t.loadRequest.cellAt p)) →
      j ∈ (processLoadRequest t).loadedItems.keys) ∧
    ∃ more : List Event, (processLoadRequest t).log =
      t.log ++ Event.object (modelIndexAtCell t (t.loadRequest.cellAt k))
        t.loadRequest.incubationMode :: more := by
  have hrem : t.loadRequest.remaining = ready.length + 1 := by
    rw [remaining_cellAt t.loadRequest hwf k hcur (le_of_lt hk), hlen]
  obtain ⟨s', g1, g2, g3, g4, g5, g6⟩ := loadRequestedCells_ready rest ready t k 1 hact hwf hcur
    (by rw [hlen]; omega) hscript hready
  have hend : s'.loadRequest.hasCurrentCell = false := by
    cases h : s'.loadRequest.hasCurrentCell with
    | false => rfl
    | true =>
      rw [g2] at h
      have hlt := (hasCurrentCell_cellAt
        ({ t.loadRequest with currentCell := t.loadRequest.cellAt (k + ready.length) } :
          TableEdgeLoadRequest) hact hwf (k + ready.length) rfl).mp h
      rw [cellCount_with_cursor, hlen] at hlt
      omega
  have hrun : processLoadRequest t = finishLoadRequest s' := by
    unfold processLoadRequest
    simp only [hrem, g1, loadRequestedCells_at_end 1 s' hend, if_true]
  have hsh := shape_finishLoadRequest s'
  have hcc := (hasCurrentCell_cellAt _ hact hwf k hcur).mpr hk
  refine ⟨?_, ?_, ?_⟩
  · rw [hrun]
    exact (congrArg (fun h : Shape => h.loadRequest.active) hsh :)
  · intro j hj
    rw [hrun]
    have hkeys : (finishLoadRequest s').loadedItems.keys = s'.loadedItems.keys :=
      (congrArg Shape.keys hsh :)
    rw [hkeys, g6]
    rcases hj with h | ⟨p, h1, h2, h3⟩
    · exact Or.inl h
    · exact Or.inr ⟨p, h1, by rw [hlen]; omega, h3⟩
  · obtain ⟨more, hmore⟩ := processLoadRequest_first t hcc
    rw [hcur] at hmore
    exact ⟨more, hmore⟩

/-- Claim C11. Let a load request over a sequence of `n` cells be active with
its cursor on the first cell, and let the factory deliver the first `k < n`
cells and answer that cell `k` is still loading. Then `processLoadRequest`
returns with the request active, the cursor on cell `k`, the indices of the
first `k` cells, and no other index, added to `loadedItems`, and `loadedTable`
unchanged. When `processLoadRequest` is then called again, as
`itemCreatedCallback` does, and the factory delivers the `n - k` remaining
cells, the first item it asks for is that of cell `k`, the request ends
inactive, and all `n` cells are in `loadedItems`. -/
theorem processLoadRequest_pending_then_resumed (s : State) (k : Nat)
    (ready rest : List ObjectResult)
    (hact : s.loadRequest.isActive = true) (hwf : s.loadRequest.edgeCells.WellFormed)
    (hbeg : s.loadRequest.atBeginning = true)
    (hk : k < s.loadRequest.cellCount) (hlen : ready.length = k)
    (hready : ∀ a ∈ ready, a ≠ ObjectResult.incubating)
    (hscript : s.factoryScript = ready ++ ObjectResult.incubating :: rest) :
    (processLoadRequest s).loadRequest.isActive = true ∧
    (processLoadRequest s).loadRequest.currentCell = s.loadRequest.cellAt k ∧
    (∀ j, j ∈ (processLoadRequest s).loadedItems.keys ↔
      (j ∈ s.loadedItems.keys ∨
        ∃ p, p < k ∧ j = modelIndexAtCell s (s.loadRequest.cellAt p))) ∧
    (processLoadRequest s).loadedTable = s.loadedTable ∧
    ∀ (ready2 rest2 : List ObjectResult) (fallback : ObjectResult),
      ready2.length = s.loadRequest.cellCount - k →
      (∀ a ∈ ready2, a ≠ ObjectResult.incubating) →
      (processLoadRequest
        ((processLoadRequest s).withFactory (ready2 ++ rest2) fallback)).loadRequest.isActive =
          false ∧
      (∀ p, p < s.loadRequest.cellCount →
        modelIndexAtCell s (s.loadRequest.cellAt p) ∈
          (processLoadRequest
            ((processLoadRequest s).withFactory (ready2 ++ rest2) fallback)).loadedItems.keys) ∧
      (∃ more : List Event,
        (processLoadRequest
          ((processLoadRequest s).withFactory (ready2 ++ rest2) fallback)).log =
          (processLoadRequest s).log ++
            Event.object (modelIndexAtCell s (s.loadRequest.cellAt k))
              s.loadRequest.incubationMode :: more) ∧
      ∀ fuel, (processLoadRequest s).blockItemCreatedCallback = false →
        itemCreatedCallback fuel
            ((processLoadRequest s).withFactory (ready2 ++ rest2) fallback) =
          if !(loadAndUnloadVisibleEdges fuel (processLoadRequest
              ((processLoadRequest s).withFactory (ready2 ++ rest2) fallback))).finished then
            loadAndUnloadVisibleEdges fuel (processLoadRequest
              ((processLoadRequest s).withFactory (ready2 ++ rest2) fallback))
          else
            updatePolish fuel (loadAndUnloadVisibleEdges fuel (processLoadRequest
              ((processLoadRequest s).withFactory (ready2 ++ rest2) fallback))).state := by
  have hbeg' : s.loadRequest.currentCell = s.loadRequest.cellAt 0 := by
    rw [cellAt_zero]
    simpa [TableEdgeLoadRequest.atBeginning] using hbeg
  obtain ⟨w1, w2, w3, w4⟩ := processLoadRequest_waits s k ready rest hact hwf hbeg' hk hlen
    hready hscript
  refine ⟨by rw [w1]; exact hact, by rw [w1], w4, w2, ?_⟩
  intro ready2 rest2 fallback hlen2 hready2
  have hreq : ((processLoadRequest s).withFactory (ready2 ++ rest2) fallback).loadRequest =
      { s.loadRequest with currentCell := s.loadRequest.cellAt k } := w1
  have hidx : ∀ c, modelIndexAtCell
      ((processLoadRequest s).withFactory (ready2 ++ rest2) fallback) c =
      modelIndexAtCell s c := by
    intro c
    simp only [modelIndexAtCell, State.withFactory, w3]
  obtain ⟨r1, r2, r3⟩ := processLoadRequest_resumes
    ((processLoadRequest s).withFactory (ready2 ++ rest2) fallback) k ready2 rest2
    (by rw [hreq]; exact hact) (by rw [hreq]; exact hwf) (by rw [hreq]; rfl)
    (by rw [hreq]; exact hk) (by rw [hreq]; exact hlen2) hready2 rfl
  refine ⟨r1, ?_, ?_, ?_⟩
  · intro p hp
    by_cases hpk : p < k
    · exact r2 _ (Or.inl ((w4 _).mpr (Or.inr ⟨p, hpk, rfl⟩)))
    · apply r2
      right
      refine ⟨p, not_lt.mp hpk, by rw [hreq]; exact hp, ?_⟩
      rw [hidx, hreq]
      rfl
  · obtain ⟨more, hmore⟩ := r3
    refine ⟨more, ?_⟩
    rw [hmore, hidx, hreq]
    rfl
  · intro fuel hblock
    have hb : ((processLoadRequest s).withFactory (ready2 ++ rest2)
        fallback).blockItemCreatedCallback = false := hblock
    unfold itemCreatedCallback
    simp only [hb, Bool.false_eq_true, if_false]

set_option maxRecDepth 100000 in
theorem exampleColumnRequest_ready :
    exampleColumnRequest.loadRequest.isActive = true ∧
    exampleColumnRequest.loadRequest.edgeCells.p1.x ≤
      exampleColumnRequest.loadRequest.edgeCells.p2.x ∧
    exampleColumnRequest.loadRequest.edgeCells.p1.y ≤
      exampleColumnRequest.loadRequest.edgeCells.p2.y ∧
    exampleColumnRequest.loadRequest.edgeCells.dx = 0 ∧
    exampleColumnRequest.loadRequest.atBeginning = true ∧
    exampleColumnRequest.loadRequest.cellCount = 5 ∧
    exampleColumnRequest.loadRequest.cellAt 2 = ⟨4, 2⟩ ∧
    exampleColumnRequest.factoryScript =
      [ObjectResult.item ⟨0, 0, 100, 50⟩ 100 50, ObjectResult.item ⟨0, 0, 100, 50⟩ 100 50] ++
        ObjectResult.incubating :: [] := by
  decide!

/-- Claim C11, instance: a request for a column of 5 cells whose third cell
is still loading waits with its cursor on cell 2, the cell `(4, 2)`; resumed
with a factory that delivers three more items, it ends inactive. -/
theorem processLoadRequest_pending_then_resumed_witness :
    exampleColumnRequest.loadRequest.cellCount = 5 ∧
    (processLoadRequest exampleColumnRequest).loadRequest.isActive = true ∧
    (processLoadRequest exampleColumnRequest).loadRequest.currentCell =
      exampleColumnRequest.loadRequest.cellAt 2 ∧
    exampleColumnRequest.loadRequest.cellAt 2 = ⟨4, 2⟩ ∧
    (processLoadRequest exampleColumnRequest).loadedTable = exampleColumnRequest.loadedTable ∧
    (processLoadRequest ((processLoadRequest exampleColumnRequest).withFactory
      ([ObjectResult.failed, ObjectResult.notAnItem,
        ObjectResult.item ⟨0, 0, 100, 50⟩ 100 50] ++ [])
      ObjectResult.incubating)).loadRequest.isActive = false := by
  have h := processLoadRequest_pending_then_resumed exampleColumnRequest 2
    [ObjectResult.item ⟨0, 0, 100, 50⟩ 100 50, ObjectResult.item ⟨0, 0, 100, 50⟩ 100 50] []
    exampleColumnRequest_ready.1
    ⟨exampleColumnRequest_ready.2.1, exampleColumnRequest_ready.2.2.1,
      fun h => absurd exampleColumnRequest_ready.2.2.2.1 h⟩
    exampleColumnRequest_ready.2.2.2.2.1
    (by rw [exampleColumnRequest_ready.2.2.2.2.2.1]; decide) rfl (by decide)
    exampleColumnRequest_ready.2.2.2.2.2.2.2
  exact ⟨exampleColumnRequest_ready.2.2.2.2.2.1, h.1, h.2.1,
    exampleColumnRequest_ready.2.2.2.2.2.2.1, h.2.2.2.1,
    (h.2.2.2.2 [ObjectResult.failed, ObjectResult.notAnItem,
      ObjectResult.item ⟨0, 0, 100, 50⟩ 100 50] [] ObjectResult.incubating
      (by rw [exampleColumnRequest_ready.2.2.2.2.2.1]; rfl) (by decide)).1⟩

/-! ## Iteration budget: a run that returned is the same with a larger budget -/

theorem loadAndUnloadLoop_more (m : Nat) (rect : QRectF) (n : Nat) :
    ∀ s : State, (loadAndUnloadLoop n rect s).finished = true →
      loadAndUnloadLoop (n + m) rect s = loadAndUnloadLoop n rect s := by
  induction n with
  | zero =>
    intro s h
    simp [loadAndUnloadLoop] at h
  | succ n ih =>
    intro s h
    rw [show n + 1 + m = (n + m) + 1 by omega]
    simp only [loadAndUnloadLoop] at h ⊢
    revert h
    generalize (match nextEdgeToUnload s rect with
        | some edge => (unloadEdge s edge, true)
        | none => (s, false)) = u
    intro h
    split
    · rename_i edge hn
      simp only [hn] at h
      split_ifs with ha
      · rfl
      · rw [if_neg ha] at h
        exact ih _ h
    · rename_i hn
      simp only [hn] at h
      split_ifs with hu
      · rw [if_pos hu] at h
        exact ih _ h
      · rfl

theorem loadAndUnloadVisibleEdges_more (m n : Nat) (s : State)
    (h : (loadAndUnloadVisibleEdges n s).finished = true) :
    loadAndUnloadVisibleEdges (n + m) s = loadAndUnloadVisibleEdges n s := by
  unfold loadAndUnloadVisibleEdges at h ⊢
  split_ifs with h1 h2 h3
  · rfl
  · rfl
  · rw [if_neg h1, if_neg h2, if_pos h3] at h
    exact loadAndUnloadLoop_more m _ n s h
  · rw [if_neg h1, if_neg h2, if_neg h3] at h
    exact loadAndUnloadLoop_more m _ n s h

theorem beginRebuildTable_more (m n : Nat) (s : State)
    (h : (beginRebuildTable n s).finished = true) :
    beginRebuildTable (n + m) s = beginRebuildTable n s :=
  loadAndUnloadVisibleEdges_more m n _ h

theorem startBufferTimer_finished (r : Run) : (startBufferTimer r).finished = r.finished := by
  unfold startBufferTimer
  split_ifs with h1 h2 h3
  · rfl
  · rfl
  · simpa using h1
  · rfl

theorem polishLoadedTable_more (m n : Nat) (s : State)
    (h : (polishLoadedTable n s).finished = true) :
    polishLoadedTable (n + m) s = polishLoadedTable n s := by
  unfold polishLoadedTable at h ⊢
  simp only [startBufferTimer_finished] at h
  simp only []
  rw [loadAndUnloadVisibleEdges_more m n _ h]

theorem updatePolishTail_more (m n : Nat) (s : State)
    (h : (updatePolishTail n s).finished = true) :
    updatePolishTail (n + m) s = updatePolishTail n s := by
  unfold updatePolishTail at h ⊢
  revert h
  generalize (if s.tableRebuilding then endRebuildTable s else s) = s1
  intro h
  simp only [] at h ⊢
  split_ifs with h1
  · rfl
  · rw [if_neg h1] at h
    exact polishLoadedTable_more m n _ h

theorem updatePolishBody_more (m n : Nat) (s : State)
    (h : (updatePolishBody n s).finished = true) :
    updatePolishBody (n + m) s = updatePolishBody n s := by
  unfold updatePolishBody at h ⊢
  revert h
  generalize ({ s with viewportRect := ⟨s.contentX, s.contentY, s.width, s.height⟩ } : State) = s1
  intro h
  simp only [] at h ⊢
  by_cases h1 : s.loadRequest.isActive = true
  · simp only [if_pos h1]
  · simp only [if_neg h1] at h ⊢
    by_cases h2 : (!s1.viewportRect.isValid) = true
    · simp only [if_pos h2]
    · simp only [if_neg h2] at h ⊢
      by_cases h3 : s1.tableInvalid = true
      · simp only [if_pos h3] at h ⊢
        cases hf : (beginRebuildTable n s1).finished
        · rw [hf] at h
          simp only [Bool.not_false, if_true] at h
          rw [hf] at h
          exact absurd h (by decide)
        · rw [beginRebuildTable_more m n _ hf]
          rw [hf] at h ⊢
          simp only [Bool.not_true, Bool.false_eq_true, if_false] at h ⊢
          split_ifs with h4
          · rfl
          · rw [if_neg h4] at h
            exact updatePolishTail_more m n _ h
      · simp only [if_neg h3] at h ⊢
        exact updatePolishTail_more m n _ h

/-- A call of `updatePolish` that returned within `n` loop iterations gives
the same result with any larger budget. -/
theorem updatePolish_more (m n : Nat) (s : State)
    (h : (updatePolish n s).finished = true) :
    updatePolish (n + m) s = updatePolish n s := by
  unfold updatePolish at h ⊢
  simp only [] at h ⊢
  rw [updatePolishBody_more m n _ h]

/-! ## Reconciliation of the example view (claims C18 and C19) -/

set_option maxRecDepth 100000 in
theorem exampleView_polished : updatePolish 8 exampleView = ⟨examplePolished, true⟩ := by
  decide!

set_option maxRecDepth 100000 in
/-- Claim C18: for the grid of 10 columns and 1000 rows with a factory that
delivers every item at once, cells of 100 x 50, no cache buffer and a
viewport of 400 x 250, `updatePolish` on the invalidated view returns (with
any budget of at least 8 loop iterations) with the loaded table equal to the
window from cell (0, 0) to cell (3, 4), which covers exactly the viewport,
with the 20 items of these cells loaded, `columns()` = 10 and `rows()` = 1000. -/
theorem updatePolish_loads_visible_window (m : Nat) :
    exampleView.tableInvalid = true ∧ exampleView.cacheBuffer = 0 ∧
    exampleView.loadedItems = [] ∧
    (updatePolish (8 + m) exampleView).finished = true ∧
    (updatePolish (8 + m) exampleView).state.tableInvalid = false ∧
    (updatePolish (8 + m) exampleView).state.loadRequest.isActive = false ∧
    (updatePolish (8 + m) exampleView).state.loadedTable = ⟨0, 0, 3, 4⟩ ∧
    (updatePolish (8 + m) exampleView).state.loadedTable.width = 4 ∧
    (updatePolish (8 + m) exampleView).state.loadedTable.height = 5 ∧
    (updatePolish (8 + m) exampleView).state.viewportRect = ⟨0, 0, 400, 250⟩ ∧
    (updatePolish (8 + m) exampleView).state.loadedTableOuterRect = ⟨0, 0, 400, 250⟩ ∧
    (updatePolish (8 + m) exampleView).state.loadedItems.keys.length = 20 ∧
    (updatePolish (8 + m) exampleView).state.loadedItems.keys =
      ((lineCells ⟨⟨0, 4⟩, ⟨3, 4⟩⟩).reverse ++ (lineCells ⟨⟨0, 3⟩, ⟨3, 3⟩⟩).reverse ++
        (lineCells ⟨⟨0, 2⟩, ⟨3, 2⟩⟩).reverse ++ (lineCells ⟨⟨0, 1⟩, ⟨3, 1⟩⟩).reverse ++
        (lineCells ⟨⟨0, 0⟩, ⟨3, 0⟩⟩).reverse).map
        (modelIndexAtCell (updatePolish (8 + m) exampleView).state) ∧
    columns (updatePolish (8 + m) exampleView).state = 10 ∧
    rows (updatePolish (8 + m) exampleView).state = 1000 := by
  have h : updatePolish (8 + m) exampleView = ⟨examplePolished, true⟩ := by
    rw [updatePolish_more m 8 exampleView (by rw [exampleView_polished]), exampleView_polished]
  rw [h]
  decide!

set_option maxRecDepth 100000 in
theorem exampleScrolledOneRow_polished :
    (updatePolish 2 exampleScrolledOneRow).finished = true := by
  decide!

set_option maxRecDepth 100000 in
/-- Claim C19 does not hold as stated: in the example view the loaded window
of 5 rows by 4 columns fills the viewport exactly, with 980 more rows below
and no cache buffer; after the content is moved down by one row height, 50,
`updatePolish` loads the bottom row 5 and unloads nothing: no item is
released, the four items of row 0 stay loaded and the window has 6 rows. -/
theorem scroll_one_row_keeps_top_row :
    examplePolished.loadedTable = ⟨0, 0, 3, 4⟩ ∧
    examplePolished.loadedTableOuterRect = ⟨0, 0, 400, 250⟩ ∧
    examplePolished.viewportRect = ⟨0, 0, 400, 250⟩ ∧
    examplePolished.cacheBuffer = 0 ∧ examplePolished.hasBufferedItems = false ∧
    rows examplePolished = 1000 ∧
    examplePolished.loadedItems.map (fun kv => kv.2.geometry.h) = List.replicate 20 50 ∧
    (updatePolish 2 exampleScrolledOneRow).finished = true ∧
    (updatePolish 2 exampleScrolledOneRow).state.viewportRect = ⟨0, 50, 400, 250⟩ ∧
    (updatePolish 2 exampleScrolledOneRow).state.loadedTable.height = 6 ∧
    (updatePolish 2 exampleScrolledOneRow).state.loadedTable.height ≠ 5 ∧
    (updatePolish 2 exampleScrolledOneRow).state.loadedTable.topLeft = ⟨0, 0⟩ ∧
    (∀ column ∈ [0, 1, 2, 3], modelIndexAtCell examplePolished ⟨column, 0⟩ ∈
      (updatePolish 2 exampleScrolledOneRow).state.loadedItems.keys) ∧
    (updatePolish 2 exampleScrolledOneRow).state.log.drop examplePolished.log.length =
      [Event.begin false (some Edge.BottomEdge) ⟨⟨0, 5⟩, ⟨3, 5⟩⟩,
       Event.object 5 IncubationMode.AsynchronousIfNested,
       Event.object 1005 IncubationMode.AsynchronousIfNested,
       Event.object 2005 IncubationMode.AsynchronousIfNested,
       Event.object 3005 IncubationMode.AsynchronousIfNested,
       Event.setContentHeight 50000,
       Event.drainReusableItemsPool] := by
  decide!

set_option maxRecDepth 100000 in
theorem exampleLowRowsScrolled_polished :
    (updatePolish 2 exampleLowRowsScrolled).finished = true := by
  decide!

set_option maxRecDepth 100000 in
/-- Claim C19, amended. `canUnloadTableEdge` accepts the top edge exactly when
more than one row is loaded and `loadedTableInnerRect.top()` is strictly less
than the top of the rectangle to fill. In the example view (window of 5 rows
by 4 columns filling the viewport, no cache buffer, more rows below), with
rows of height 50 and with rows of height 30, `loadedTableInnerRect.top()` is
the bottom of the top row, and after the content is moved down by one row
height it is equal to the top of the viewport: `updatePolish`, with any budget
of at least 2 loop iterations, performs exactly one bottom-edge load, of the
cells (0, 5) to (3, 5), and no unload, and the window afterwards has 6 rows
and 4 columns, from cell (0, 0) to cell (3, 5). -/
theorem scroll_one_row_loads_bottom_only (m : Nat) :
    (∀ (s : State) (rect : QRectF), canUnloadTableEdge s Edge.TopEdge rect = true ↔
      (1 < s.loadedTable.height ∧ s.loadedTableInnerRect.top < rect.top)) ∧
    examplePolished.loadedTable = ⟨0, 0, 3, 4⟩ ∧
    examplePolished.loadedTableOuterRect = examplePolished.viewportRect ∧
    examplePolished.loadedTableInnerRect.top = 50 ∧
    (loadedTableItem examplePolished ⟨0, 0⟩).geometry.bottom = 50 ∧
    (updatePolish (2 + m) exampleScrolledOneRow).finished = true ∧
    (updatePolish (2 + m) exampleScrolledOneRow).state.viewportRect.top = 50 ∧
    (updatePolish (2 + m) exampleScrolledOneRow).state.log =
      examplePolished.log ++
      [Event.begin false (some Edge.BottomEdge) ⟨⟨0, 5⟩, ⟨3, 5⟩⟩,
       Event.object 5 IncubationMode.AsynchronousIfNested,
       Event.object 1005 IncubationMode.AsynchronousIfNested,
       Event.object 2005 IncubationMode.AsynchronousIfNested,
       Event.object 3005 IncubationMode.AsynchronousIfNested,
       Event.setContentHeight 50000,
       Event.drainReusableItemsPool] ∧
    (updatePolish (2 + m) exampleScrolledOneRow).state.loadedTable = ⟨0, 0, 3, 5⟩ ∧
    (updatePolish (2 + m) exampleScrolledOneRow).state.loadedTable.width = 4 ∧
    (updatePolish (2 + m) exampleScrolledOneRow).state.loadedTable.height = 6 ∧
    (updatePolish (2 + m) exampleScrolledOneRow).state.loadedItems.keys.length = 24 ∧
    (updatePolish (2 + m) exampleScrolledOneRow).state.loadRequest.isActive = false ∧
    exampleLowRowsPolished.loadedTable = ⟨0, 0, 3, 4⟩ ∧
    exampleLowRowsPolished.loadedTableOuterRect = ⟨0, 0, 400, 150⟩ ∧
    exampleLowRowsPolished.viewportRect = ⟨0, 0, 400, 150⟩ ∧
    exampleLowRowsPolished.loadedItems.map (fun kv => kv.2.geometry.h) = List.replicate 20 30 ∧
    exampleLowRowsPolished.loadedTableInnerRect.top = 30 ∧
    (loadedTableItem exampleLowRowsPolished ⟨0, 0⟩).geometry.bottom = 30 ∧
    (updatePolish (2 + m) exampleLowRowsScrolled).finished = true ∧
    (updatePolish (2 + m) exampleLowRowsScrolled).state.viewportRect = ⟨0, 30, 400, 150⟩ ∧
    (updatePolish (2 + m) exampleLowRowsScrolled).state.log =
      exampleLowRowsPolished.log ++
      [Event.begin false (some Edge.BottomEdge) ⟨⟨0, 5⟩, ⟨3, 5⟩⟩,
       Event.object 5 IncubationMode.AsynchronousIfNested,
       Event.object 1005 IncubationMode.AsynchronousIfNested,
       Event.object 2005 IncubationMode.AsynchronousIfNested,
       Event.object 3005 IncubationMode.AsynchronousIfNested,
       Event.setContentHeight 30000,
       Event.drainReusableItemsPool] ∧
    (updatePolish (2 + m) exampleLowRowsScrolled).state.loadedTable = ⟨0, 0, 3, 5⟩ ∧
    (updatePolish (2 + m) exampleLowRowsScrolled).state.loadedItems.keys.length = 24 ∧
    (updatePolish (2 + m) exampleLowRowsScrolled).state.loadRequest.isActive = false := by
  refine ⟨?_, ?_⟩
  · intro s rect
    simp only [canUnloadTableEdge]
    split_ifs with h
    · constructor
      · intro h1
        exact absurd h1 (by decide)
      · intro h1
        omega
    · simp only [decide_eq_true_eq]
      constructor
      · intro h1
        exact ⟨by omega, h1⟩
      · intro h1
        exact h1.2
  · rw [updatePolish_more m 2 exampleScrolledOneRow exampleScrolledOneRow_polished,
      updatePolish_more m 2 exampleLowRowsScrolled exampleLowRowsScrolled_polished]
    decide!

end TableView

namespace Generator

/-! ## Generator methods: proofs -/

theorem resume_isSome (vm : Interpreter) (g : GeneratorObject) (engine : ExecutionEngine)
    (arg : Value) (h : g.cppFrame.yield ≠ none) : (resume vm g engine arg).isSome = true := by
  unfold resume
  cases hy : g.cppFrame.yield with
  | none => exact absurd hy h
  | some code =>
    simp only [hy]
    split_ifs <;> rfl

theorem resume_state (vm : Interpreter) (g : GeneratorObject) (engine : ExecutionEngine)
    (arg : Value) (r : Call) (h : resume vm g engine arg = some r) :
    r.resumed = true ∧
    ∃ g2, r.thisObject = ThisValue.generator g2 ∧
      (g2.state = GeneratorState.SuspendedYield ∨ g2.state = GeneratorState.Completed) ∧
      (g2.state = GeneratorState.Completed ↔ g2.cppFrame.yield = none) := by
  unfold resume at h
  cases hy : g.cppFrame.yield with
  | none => simp [hy] at h
  | some code =>
    simp only [hy] at h
    generalize vm _ _ code = out at h
    cases hq : out.frame.yield with
    | none =>
      simp only [hq, Option.isNone_none, if_true] at h
      split_ifs at h
      · have := Option.some.inj h
        subst this
        exact ⟨rfl, _, rfl, Or.inr rfl, by simp [hq]⟩
      · have := Option.some.inj h
        subst this
        exact ⟨rfl, _, rfl, Or.inr rfl, by simp [hq]⟩
    | some next =>
      simp only [hq, Option.isNone_some, Bool.false_eq_true, if_false] at h
      split_ifs at h
      · have := Option.some.inj h
        subst this
        exact ⟨rfl, _, rfl, Or.inl rfl, by simp [hq]⟩
      · have := Option.some.inj h
        subst this
        exact ⟨rfl, _, rfl, Or.inl rfl, by simp [hq]⟩

/-- Claim C28: for every `this` value that is not a generator object and for
every generator object in state Executing, each of `next`, `return` and
`throw` returns with a TypeError pending in the engine, does not hand the
generator body to the interpreter, and leaves the `this` value, with the
generator's state, as it was; whatever the interpreter and the arguments. -/
theorem executing_generator_not_reentered (vm : Interpreter) (engine : ExecutionEngine)
    (thisObject : ThisValue) (argv : List Value) (h : refused thisObject) :
    method_next vm engine thisObject argv =
      some ⟨Value.undefined, thisObject, throwTypeError engine, false⟩ ∧
    method_return vm engine thisObject argv =
      some ⟨Value.undefined, thisObject, throwTypeError engine, false⟩ ∧
    method_throw vm engine thisObject argv =
      some ⟨Value.undefined, thisObject, throwTypeError engine, false⟩ ∧
    (throwTypeError engine).hasException = true ∧
    (throwTypeError engine).exceptionValue = Value.typeError := by
  cases thisObject with
  | notGenerator v => exact ⟨rfl, rfl, rfl, rfl, rfl⟩
  | generator g =>
    have hg : g.state = GeneratorState.Executing := h
    refine ⟨?_, ?_, ?_, rfl, rfl⟩
    · simp only [method_next, hg, if_true]
    · simp only [method_return, hg, if_true]
    · simp only [method_throw, hg, if_true]

/-- Claim C28, instance: a generator whose body is running refuses `next`
with a TypeError and stays in state Executing. -/
theorem executing_generator_not_reentered_witness :
    refused (ThisValue.generator exampleExecuting) ∧
    method_next exampleInterpreter exampleEngine (ThisValue.generator exampleExecuting) [] =
      some ⟨Value.undefined, ThisValue.generator exampleExecuting,
        throwTypeError exampleEngine, false⟩ :=
  ⟨rfl, (executing_generator_not_reentered exampleInterpreter exampleEngine
    (ThisValue.generator exampleExecuting) [] rfl).1⟩

/-- Claim C29: for a generator in state Completed, `next` returns the result
object (undefined, done), `return(v)` returns (v, done) and `throw` returns
with the exception pending, each leaving the generator as it was and not
running the body. For a generator in any state but Executing, a call of
`next`, `return` or `throw` that returns leaves the generator in state
SuspendedYield or Completed, and in state Completed exactly when the body was
not run or the body that was run left no position to resume at; and the call
does return when a suspended generator has a position to resume at. -/
theorem completed_is_absorbing (vm : Interpreter) (engine : ExecutionEngine)
    (g : GeneratorObject) (argv : List Value) :
    (g.state = GeneratorState.Completed →
      method_next vm engine (ThisValue.generator g) argv =
        some ⟨Value.iterResult Value.undefined true, ThisValue.generator g, engine, false⟩ ∧
      method_return vm engine (ThisValue.generator g) argv =
        some ⟨Value.iterResult (firstArgument argv) true, ThisValue.generator g, engine, false⟩ ∧
      method_throw vm engine (ThisValue.generator g) argv =
        some ⟨Value.undefined, ThisValue.generator g,
          engineThrowError engine (firstArgument argv), false⟩) ∧
    (g.state ≠ GeneratorState.Executing →
      (Resumable g →
        (method_next vm engine (ThisValue.generator g) argv).isSome = true ∧
        (method_return vm engine (ThisValue.generator g) argv).isSome = true ∧
        (method_throw vm engine (ThisValue.generator g) argv).isSome = true) ∧
      ∀ r : Call,
        (method_next vm engine (ThisValue.generator g) argv = some r ∨
          method_return vm engine (ThisValue.generator g) argv = some r ∨
          method_throw vm engine (ThisValue.generator g) argv = some r) →
        ∃ g2, r.thisObject = ThisValue.generator g2 ∧
          (g2.state = GeneratorState.SuspendedYield ∨ g2.state = GeneratorState.Completed) ∧
          (g2.state = GeneratorState.Completed ↔
            (r.resumed = false ∨ g2.cppFrame.yield = none))) := by
  refine ⟨?_, ?_⟩
  · intro hc
    refine ⟨?_, ?_, ?_⟩
    · simp [method_next, hc]
    · simp [method_return, hc]
    · simp only [method_throw, hc]
      simp only [reduceCtorEq, if_false, or_true, if_true]
      cases g
      simp_all
  · intro hne
    have fromResume : ∀ (g1 : GeneratorObject) (e : ExecutionEngine) (a : Value) (r : Call),
        resume vm g1 e a = some r →
        ∃ g2, r.thisObject = ThisValue.generator g2 ∧
          (g2.state = GeneratorState.SuspendedYield ∨ g2.state = GeneratorState.Completed) ∧
          (g2.state = GeneratorState.Completed ↔
            (r.resumed = false ∨ g2.cppFrame.yield = none)) := by
      intro g1 e a r hr
      obtain ⟨h1, g2, h2, h3, h4⟩ := resume_state vm g1 e a r hr
      refine ⟨g2, h2, h3, ?_⟩
      rw [h1, h4]
      simp
    have notRun : ∀ (v : Value) (g1 : GeneratorObject) (e : ExecutionEngine) (r : Call),
        g1.state = GeneratorState.Completed →
        some (⟨v, ThisValue.generator g1, e, false⟩ : Call) = some r →
        ∃ g2, r.thisObject = ThisValue.generator g2 ∧
          (g2.state = GeneratorState.SuspendedYield ∨ g2.state = GeneratorState.Completed) ∧
          (g2.state = GeneratorState.Completed ↔
            (r.resumed = false ∨ g2.cppFrame.yield = none)) := by
      intro v g1 e r hc hr
      have := Option.some.inj hr
      subst this
      exact ⟨g1, rfl, Or.inr hc, by simp [hc]⟩
    refine ⟨?_, ?_⟩
    · intro hres
      cases hs : g.state with
      | Executing => exact absurd hs hne
      | Completed =>
        refine ⟨?_, ?_, ?_⟩
        · simp [method_next, hs]
        · simp [method_return, hs]
        · simp [method_throw, hs]
      | SuspendedStart =>
        have hy := hres (Or.inl hs)
        refine ⟨?_, ?_, ?_⟩
        · simp only [method_next, hs, reduceCtorEq, if_false]
          exact resume_isSome vm g engine _ hy
        · simp [method_return, hs]
        · simp [method_throw, hs]
      | SuspendedYield =>
        have hy := hres (Or.inr hs)
        refine ⟨?_, ?_, ?_⟩
        · simp only [method_next, hs, reduceCtorEq, if_false]
          exact resume_isSome vm g engine _ hy
        · simp only [method_return, hs, reduceCtorEq, if_false]
          exact resume_isSome vm g _ _ hy
        · simp only [method_throw, hs, reduceCtorEq, if_false, or_self]
          exact resume_isSome vm g _ _ hy
    · intro r hr
      rcases hr with hr | hr | hr
      · simp only [method_next, if_neg hne] at hr
        split_ifs at hr with hc
        · exact notRun _ _ _ _ hc hr
        · exact fromResume _ _ _ _ hr
      · simp only [method_return, if_neg hne] at hr
        split_ifs at hr with h1 h2 h3
        · exact notRun _ _ _ _ rfl hr
        · exact absurd rfl h2
        · exact notRun _ _ _ _ h3 hr
        · exact fromResume _ _ _ _ hr
      · simp only [method_throw, if_neg hne] at hr
        split_ifs at hr with h1
        · exact notRun _ _ _ _ rfl hr
        · exact fromResume _ _ _ _ hr

end Generator

namespace TableView

end TableView

namespace ScanFunctions

/-! ## enterFunction: proofs -/

theorem checkBoundNames_isStrict (simple : Bool) (names : List String) :
    ∀ c : Context, (checkBoundNames simple names c).2.isStrict = c.isStrict := by
  induction names with
  | nil => intro c; rfl
  | cons arg rest ih =>
    intro c
    simp only [checkBoundNames]
    split_ifs
    · rfl
    · rfl
    · rw [ih]; rfl
    · rw [ih]

theorem addLocalVar_isStrict (c : Context) (name : String) (type : MemberType) :
    (c.addLocalVar name type).2.isStrict = c.isStrict := rfl

/-- The loop stops with an error at a name that is bound twice when the
context is strict or the list is not simple. -/
theorem checkBoundNames_duplicate (simple : Bool) (names : List String) :
    ∀ c : Context, ¬ names.Nodup → (c.isStrict = true ∨ simple = false) →
      (checkBoundNames simple names c).1 ≠ none := by
  induction names with
  | nil => intro c h; exact absurd List.nodup_nil h
  | cons arg rest ih =>
    intro c hdup hs
    rw [checkBoundNames]
    have hcond : (c.isStrict || !simple) = true := by
      rcases hs with h | h <;> simp [h]
    by_cases hmem : arg ∈ rest
    · have h0 : rest.contains arg = true := by simpa using hmem
      have h1 : ((c.isStrict || !simple) && rest.contains arg) = true := by rw [hcond, h0]; rfl
      rw [if_pos h1]
      simp
    · have h0 : rest.contains arg = false := by simpa using hmem
      have h1 : ¬ ((c.isStrict || !simple) && rest.contains arg) = true := by rw [h0]; simp
      have hrest : ¬ rest.Nodup := fun h => hdup (List.nodup_cons.mpr ⟨hmem, h⟩)
      rw [if_neg h1]
      split_ifs with h2 h3
      · simp
      · exact ih _ hrest hs
      · exact ih _ hrest hs

/-- The loop reports nothing when the context is not strict and the list is
simple. -/
theorem checkBoundNames_sloppy (names : List String) :
    ∀ c : Context, c.isStrict = false → (checkBoundNames true names c).1 = none := by
  induction names with
  | nil => intro c _; rfl
  | cons arg rest ih =>
    intro c hs
    simp only [checkBoundNames, hs]
    simp only [Bool.false_or, Bool.not_true, Bool.false_and, Bool.false_eq_true, if_false]
    apply ih
    split_ifs <;> simpa [Context.addLocalVar] using hs

/-- The loop stops with an error in a strict context when a bound name is
`eval` or `arguments`. -/
theorem checkBoundNames_reserved (simple : Bool) (names : List String) :
    ∀ c : Context, c.isStrict = true → ("eval" ∈ names ∨ "arguments" ∈ names) →
      (checkBoundNames simple names c).1 ≠ none := by
  induction names with
  | nil => intro c _ h; simp at h
  | cons arg rest ih =>
    intro c hs hmem
    rw [checkBoundNames]
    split_ifs with h1 h2 h3
    · simp
    · simp
    · have h4 : ¬ (arg = "eval" ∨ arg = "arguments") := by
        intro h
        apply h2
        rcases h with h | h <;> simp [hs, h]
      refine ih _ hs ?_
      rcases hmem with h | h
      · rcases List.mem_cons.mp h with h | h
        · exact absurd (Or.inl h.symm) h4
        · exact Or.inl h
      · rcases List.mem_cons.mp h with h | h
        · exact absurd (Or.inr h.symm) h4
        · exact Or.inr h
    · have h4 : ¬ (arg = "eval" ∨ arg = "arguments") := by
        intro h
        apply h2
        rcases h with h | h <;> simp [hs, h]
      refine ih _ hs ?_
      rcases hmem with h | h
      · rcases List.mem_cons.mp h with h | h
        · exact absurd (Or.inl h.symm) h4
        · exact Or.inl h
      · rcases List.mem_cons.mp h with h | h
        · exact absurd (Or.inr h.symm) h4
        · exact Or.inr h

theorem functionContext_eq (s : Scanner) (c : Context) (ast : Node) (name : String)
    (formals : Option FormalParameterList) (body : Option (List Statement)) :
    functionContext s c ast name formals body =
      prepareContext s.sourceCode ((enterEnvironment s c name).contextStack.head?.getD c)
        ast name formals body := rfl

/-- Result of `enterFunction` when the enclosing context refuses the name. -/
theorem enterFunction_refused (s : Scanner) (c : Context) (ast : Node) (name : String)
    (formals : Option FormalParameterList) (body : Option (List Statement)) (enterName : Bool)
    (h : nameAccepted s name enterName = false) :
    (enterFunction s c ast name formals body enterName).1 = false ∧
    (enterFunction s c ast name formals body enterName).2.errors =
      s.errors ++ [SyntaxError.alreadyDeclared name] := by
  unfold nameAccepted at h
  cases hst : s.contextStack with
  | nil => simp [hst] at h
  | cons outerContext below =>
    cases enterName with
    | false => simp [hst] at h
    | true =>
      have h2 : outerContext.declarable name = false := by simpa [hst] using h
      have houter : (declareInOuterContext outerContext name true).1 = false := by
        simp [declareInOuterContext, Context.addLocalVar, h2]
      unfold enterFunction
      simp only [hst, houter, Bool.not_false, if_true]
      exact ⟨trivial, rfl⟩

/-- Result of `enterFunction` when the enclosing context lets the name in:
decided by the loop over the bound names. -/
theorem enterFunction_accepted (s : Scanner) (c : Context) (ast : Node) (name : String)
    (formals : FormalParameterList) (body : Option (List Statement)) (enterName : Bool)
    (h : nameAccepted s name enterName = true) :
    ((checkBoundNames formals.isSimpleParameterList formals.boundNames
        (functionContext s c ast name (some formals) body)).1 = none →
      (enterFunction s c ast name (some formals) body enterName).1 = true ∧
      (enterFunction s c ast name (some formals) body enterName).2.errors = s.errors) ∧
    (∀ e, (checkBoundNames formals.isSimpleParameterList formals.boundNames
        (functionContext s c ast name (some formals) body)).1 = some e →
      (enterFunction s c ast name (some formals) body enterName).1 = false ∧
      (enterFunction s c ast name (some formals) body enterName).2.errors = s.errors ++ [e]) := by
  have houter : (match s.contextStack with
      | outerContext :: below =>
        ((declareInOuterContext outerContext name enterName).1,
          (declareInOuterContext outerContext name enterName).2 :: below)
      | [] => (true, [])).1 = true := by
    unfold nameAccepted at h
    cases hst : s.contextStack with
    | nil => rfl
    | cons outerContext below =>
      simp only [hst, Bool.or_eq_true, Bool.not_eq_true'] at h
      simp only [declareInOuterContext, Context.addLocalVar]
      rcases h with h | h
      · simp [h]
      · cases enterName <;> simp [h]
  rw [functionContext_eq]
  unfold enterFunction
  simp only [houter, Bool.not_true, Bool.false_eq_true, if_false]
  constructor
  · intro hn
    simp only [hn]
    exact ⟨trivial, rfl⟩
  · intro e he
    simp only [he]
    exact ⟨trivial, rfl⟩

/-- Claim C30 does not hold as stated: the function `function f(a, a) \x7b\x7d`,
declared (its name is entered) in a context that is not strict and in which
`addLocalVar` refuses the name `f`, has a simple parameter list that binds
`a` twice and a context that is not strict, and `enterFunction` returns
false with the syntax error "Identifier f has already been declared". -/
theorem enterFunction_refuses_declared_name :
    ¬ exampleFormals.boundNames.Nodup ∧
    exampleFormals.isSimpleParameterList = true ∧
    (functionContext exampleRefusingScanner exampleContext (Node.function false false) "f"
      (some exampleFormals) (some [])).isStrict = false ∧
    (enterFunction exampleRefusingScanner exampleContext (Node.function false false) "f"
      (some exampleFormals) (some []) true).1 = false ∧
    (enterFunction exampleRefusingScanner exampleContext (Node.function false false) "f"
      (some exampleFormals) (some []) true).2.errors = [SyntaxError.alreadyDeclared "f"] := by
  refine ⟨by decide, rfl, rfl, ?_, ?_⟩
  · exact (enterFunction_refused exampleRefusingScanner exampleContext (Node.function false false)
      "f" (some exampleFormals) (some []) true (by decide)).1
  · exact (enterFunction_refused exampleRefusingScanner exampleContext (Node.function false false)
      "f" (some exampleFormals) (some []) true (by decide)).2

/-- Claim C30, amended: for a parameter list that binds some name twice,
`enterFunction` returns false and throws a syntax error whenever the
function's context is strict or the list is not simple; when the context is
not strict and the list is simple it returns true and throws nothing,
provided the enclosing context lets the function's name in (there is none,
the name is not entered, or `addLocalVar` accepts it). In a strict context a
parameter list with a bound name `eval` or `arguments` always makes it
return false with a syntax error. -/
theorem enterFunction_duplicate_parameters (s : Scanner) (c : Context) (ast : Node)
    (name : String) (formals : FormalParameterList) (body : Option (List Statement))
    (enterName : Bool) (hdup : ¬ formals.boundNames.Nodup) :
    (((functionContext s c ast name (some formals) body).isStrict = true ∨
        formals.isSimpleParameterList = false) →
      (enterFunction s c ast name (some formals) body enterName).1 = false ∧
      ∃ e, (enterFunction s c ast name (some formals) body enterName).2.errors =
        s.errors ++ [e]) ∧
    ((functionContext s c ast name (some formals) body).isStrict = false →
      formals.isSimpleParameterList = true → nameAccepted s name enterName = true →
      (enterFunction s c ast name (some formals) body enterName).1 = true ∧
      (enterFunction s c ast name (some formals) body enterName).2.errors = s.errors) ∧
    (∀ formals2 : FormalParameterList,
      (functionContext s c ast name (some formals2) body).isStrict = true →
      ("eval" ∈ formals2.boundNames ∨ "arguments" ∈ formals2.boundNames) →
      (enterFunction s c ast name (some formals2) body enterName).1 = false ∧
      ∃ e, (enterFunction s c ast name (some formals2) body enterName).2.errors =
        s.errors ++ [e]) := by
  have stops : ∀ f : FormalParameterList,
      (checkBoundNames f.isSimpleParameterList f.boundNames
        (functionContext s c ast name (some f) body)).1 ≠ none →
      (enterFunction s c ast name (some f) body enterName).1 = false ∧
      ∃ e, (enterFunction s c ast name (some f) body enterName).2.errors = s.errors ++ [e] := by
    intro f hne
    cases hacc : nameAccepted s name enterName with
    | false =>
      obtain ⟨h1, h2⟩ := enterFunction_refused s c ast name (some f) body enterName hacc
      exact ⟨h1, _, h2⟩
    | true =>
      cases he : (checkBoundNames f.isSimpleParameterList f.boundNames
          (functionContext s c ast name (some f) body)).1 with
      | none => exact absurd he hne
      | some e =>
        obtain ⟨h1, h2⟩ := (enterFunction_accepted s c ast name f body enterName hacc).2 e he
        exact ⟨h1, e, h2⟩
  refine ⟨?_, ?_, ?_⟩
  · intro hs
    exact stops formals (checkBoundNames_duplicate _ _ _ hdup hs)
  · intro hs hsimple hacc
    refine (enterFunction_accepted s c ast name formals body enterName hacc).1 ?_
    rw [hsimple]
    exact checkBoundNames_sloppy _ _ hs
  · intro formals2 hs hres
    exact stops formals2 (checkBoundNames_reserved _ _ _ hs hres)

/-- Claim C30, instance: `function f(a, a) \x7b\x7d` entered in a context that
accepts its name returns true without an error in sloppy mode, and false
with an error in strict mode. -/
theorem enterFunction_duplicate_parameters_witness :
    ¬ exampleFormals.boundNames.Nodup ∧
    (enterFunction exampleScanner exampleContext (Node.function false false) "f"
      (some exampleFormals) (some []) true).1 = true ∧
    (enterFunction exampleScanner exampleContext (Node.function false false) "f"
      (some exampleFormals) (some []) true).2.errors = [] ∧
    (enterFunction exampleStrictScanner exampleContext (Node.function false false) "f"
      (some exampleFormals) (some []) true).1 = false :=
  ⟨by decide,
    ((enterFunction_duplicate_parameters exampleScanner exampleContext (Node.function false false)
      "f" exampleFormals (some []) true (by decide)).2.1 rfl rfl (by decide)).1,
    ((enterFunction_duplicate_parameters exampleScanner exampleContext (Node.function false false)
      "f" exampleFormals (some []) true (by decide)).2.1 rfl rfl (by decide)).2,
    ((enterFunction_duplicate_parameters exampleStrictScanner exampleContext
      (Node.function false false) "f" exampleFormals (some []) true (by decide)).1
        (Or.inl rfl)).1⟩

end ScanFunctions

namespace TableView

/-! ## Content extent: the estimate (claim C25) -/

/-- Claim C25: when the right column `k` of the loaded table is beyond the
benchmark and is not the grid's last column, `updateContentWidth` either
leaves the content width as it is or reports, by one call of
`setContentWidth`, the value `columns * (W / (k + 1) + columnSpacing) -
columnSpacing + rightMargin` with `W = loadedTableOuterRect.right()`; in
both cases the benchmark becomes `k`. When `k` does not exceed the
benchmark, `updateContentWidth` changes nothing: neither the reported size
nor the benchmark. The same holds for `updateContentHeight` with the bottom
row, `H = loadedTableOuterRect.bottom()`, the row spacing and the bottom
margin. -/
theorem content_size_estimate (s : State) :
    ((s.loadedTable.right > s.contentSizeBenchMarkPoint.x ∧
        s.loadedTable.right < s.tableSize.width - 1) →
      (updateContentWidth s).contentSizeBenchMarkPoint =
        { s.contentSizeBenchMarkPoint with x := s.loadedTable.right } ∧
      (((updateContentWidth s).log = s.log ∧ (updateContentWidth s).contentWidth = s.contentWidth) ∨
        ((updateContentWidth s).log = s.log ++ [Event.setContentWidth
            (((s.tableSize.width : Int) : ℚ) *
              (s.loadedTableOuterRect.right / ((s.loadedTable.right + 1 : Int) : ℚ) +
                s.cellSpacing.width) - s.cellSpacing.width + s.tableMargins.right)] ∧
          (updateContentWidth s).contentWidth =
            ((s.tableSize.width : Int) : ℚ) *
              (s.loadedTableOuterRect.right / ((s.loadedTable.right + 1 : Int) : ℚ) +
                s.cellSpacing.width) - s.cellSpacing.width + s.tableMargins.right))) ∧
    (s.loadedTable.right ≤ s.contentSizeBenchMarkPoint.x → updateContentWidth s = s) ∧
    ((s.loadedTable.bottom > s.contentSizeBenchMarkPoint.y ∧
        s.loadedTable.bottom < s.tableSize.height - 1) →
      (updateContentHeight s).contentSizeBenchMarkPoint =
        { s.contentSizeBenchMarkPoint with y := s.loadedTable.bottom } ∧
      (((updateContentHeight s).log = s.log ∧
          (updateContentHeight s).contentHeight = s.contentHeight) ∨
        ((updateContentHeight s).log = s.log ++ [Event.setContentHeight
            (((s.tableSize.height : Int) : ℚ) *
              (s.loadedTableOuterRect.bottom / ((s.loadedTable.bottom + 1 : Int) : ℚ) +
                s.cellSpacing.height) - s.cellSpacing.height + s.tableMargins.bottom)] ∧
          (updateContentHeight s).contentHeight =
            ((s.tableSize.height : Int) : ℚ) *
              (s.loadedTableOuterRect.bottom / ((s.loadedTable.bottom + 1 : Int) : ℚ) +
                s.cellSpacing.height) - s.cellSpacing.height + s.tableMargins.bottom))) ∧
    (s.loadedTable.bottom ≤ s.contentSizeBenchMarkPoint.y → updateContentHeight s = s) := by
  refine ⟨?_, ?_, ?_, ?_⟩
  · rintro ⟨h1, h2⟩
    rw [updateContentWidth_eq, if_pos h1, if_neg (not_le.mpr h2)]
    split_ifs
    · exact ⟨rfl, Or.inr ⟨rfl, rfl⟩⟩
    · exact ⟨rfl, Or.inr ⟨rfl, rfl⟩⟩
    · exact ⟨rfl, Or.inl ⟨rfl, rfl⟩⟩
  · intro h
    rw [updateContentWidth_eq, if_neg (not_lt.mpr h)]
  · rintro ⟨h1, h2⟩
    rw [updateContentHeight_eq, if_pos h1, if_neg (not_le.mpr h2)]
    split_ifs
    · exact ⟨rfl, Or.inr ⟨rfl, rfl⟩⟩
    · exact ⟨rfl, Or.inr ⟨rfl, rfl⟩⟩
    · exact ⟨rfl, Or.inl ⟨rfl, rfl⟩⟩
  · intro h
    rw [updateContentHeight_eq, if_neg (not_lt.mpr h)]

/-! ## Loading one edge (claim C22) -/

theorem loadRequestedCells_requested_step (f : Nat) (s : State) (a : ObjectResult)
    (tail : List ObjectResult) (hcur : s.loadRequest.hasCurrentCell = true)
    (hs : s.factoryScript = a :: tail) (ha : a ≠ ObjectResult.incubating) :
    ∃ s1 : State, loadRequestedCells (f + 1) s = loadRequestedCells f s1 ∧
      s1.loadRequest = s.loadRequest.moveToNextCell ∧ s1.factoryScript = tail ∧
      s1.tableSize = s.tableSize ∧
      s1.log.filterMap Event.requestedIndex =
        s.log.filterMap Event.requestedIndex ++
          [modelIndexAtCell s s.loadRequest.currentCell] := by
  obtain ⟨item, hitem⟩ := loadFxTableItem_ready s s.loadRequest.currentCell
    s.loadRequest.incubationMode a tail hs ha
  obtain ⟨hsh, _⟩ := shape_loadFxTableItem s s.loadRequest.currentCell
    s.loadRequest.incubationMode
  have hreq : (loadFxTableItem s s.loadRequest.currentCell
      s.loadRequest.incubationMode).2.loadRequest = s.loadRequest :=
    (congrArg Shape.loadRequest hsh :)
  have hts : (loadFxTableItem s s.loadRequest.currentCell
      s.loadRequest.incubationMode).2.tableSize = s.tableSize :=
    (congrArg Shape.tableSize hsh :)
  refine ⟨{ (loadFxTableItem s s.loadRequest.currentCell s.loadRequest.incubationMode).2 with
      loadedItems := (loadFxTableItem s s.loadRequest.currentCell
        s.loadRequest.incubationMode).2.loadedItems.insert
          (modelIndexAtCell (loadFxTableItem s s.loadRequest.currentCell
            s.loadRequest.incubationMode).2 s.loadRequest.currentCell) item
      loadRequest := (loadFxTableItem s s.loadRequest.currentCell
        s.loadRequest.incubationMode).2.loadRequest.moveToNextCell }, ?_, ?_, ?_, hts, ?_⟩
  · rw [loadRequestedCells]
    simp only [hcur, if_true, hitem]
  · show (loadFxTableItem s s.loadRequest.currentCell
      s.loadRequest.incubationMode).2.loadRequest.moveToNextCell = _
    rw [hreq]
  · have := (congrArg Shape.factoryScript hsh :)
    simp only [State.shape] at this
    rw [hs] at this
    exact this
  · exact (congrArg Shape.requested hsh :)

theorem loadRequestedCells_requested (tail : List ObjectResult) (ready : List ObjectResult) :
    ∀ (s : State) (i f : Nat),
      s.loadRequest.active = true → s.loadRequest.edgeCells.WellFormed →
      s.loadRequest.currentCell = s.loadRequest.cellAt i →
      i + ready.length ≤ s.loadRequest.cellCount →
      s.factoryScript = ready ++ tail → (∀ a ∈ ready, a ≠ ObjectResult.incubating) →
      ∃ s' : State, loadRequestedCells (ready.length + f) s = loadRequestedCells f s' ∧
        s'.loadRequest =
          { s.loadRequest with currentCell := s.loadRequest.cellAt (i + ready.length) } ∧
        s'.log.filterMap Event.requestedIndex =
          s.log.filterMap Event.requestedIndex ++
            (List.range ready.length).map
              (fun p => modelIndexAtCell s (s.loadRequest.cellAt (i + p))) := by
  induction ready with
  | nil =>
    intro s i f _ _ hcur _ _ _
    refine ⟨s, by simp, ?_, by simp⟩
    rw [List.length_nil, Nat.add_zero, ← hcur]
  | cons a ready ih =>
    intro s i f hact hw hcur hlen hs hready
    have hi : i < s.loadRequest.cellCount := by
      simp only [List.length_cons] at hlen
      omega
    have hcc := (hasCurrentCell_cellAt s.loadRequest hact hw i hcur).mpr hi
    obtain ⟨s1, e1, e2, e3, e5, e6⟩ := loadRequestedCells_requested_step (ready.length + f) s a
      (ready ++ tail) hcc (by simpa using hs) (hready a (List.mem_cons_self _ _))
    have hcur1 : s1.loadRequest.currentCell = s1.loadRequest.cellAt (i + 1) := by
      rw [e2]
      show s.loadRequest.currentCell.add s.loadRequest.direction = s.loadRequest.cellAt (i + 1)
      rw [cellAt_succ, hcur]
    obtain ⟨s', g1, g2, g6⟩ := ih s1 (i + 1) f (by rw [e2]; exact hact)
      (by rw [e2]; exact hw) hcur1
      (by rw [e2]; simp only [List.length_cons] at hlen; show _ ≤ s.loadRequest.cellCount; omega)
      e3 (fun b hb => hready b (List.mem_cons_of_mem _ hb))
    refine ⟨s', ?_, ?_, ?_⟩
    · rw [← g1, ← e1]
      congr 1
      simp only [List.length_cons]
      omega
    · have hl : i + 1 + ready.length = i + (a :: ready).length := by
        simp only [List.length_cons]
        omega
      rw [g2, e2, ← hl]
      rfl
    · have hidx : ∀ p, modelIndexAtCell s1 (s1.loadRequest.cellAt p) =
          modelIndexAtCell s (s.loadRequest.cellAt p) := by
        intro p
        rw [e2]
        simp only [modelIndexAtCell, e5]
        rfl
      rw [g6, e6, List.length_cons, List.range_succ_eq_map, List.map_cons, List.map_map,
        List.append_assoc]
      simp only [hidx, Nat.add_zero, hcur, List.singleton_append, List.cons.injEq,
        List.append_cancel_left_eq, true_and]
      apply List.map_congr_left
      intro p _
      simp only [Function.comp]
      congr 2
      omega

/-- A request at its first cell whose cells the factory all delivers: the
request completes, and what was asked from the factory and what was added to
the hash are the cells of the line. -/
theorem processLoadRequest_completes (t : State) (ready rest : List ObjectResult)
    (hact : t.loadRequest.active = true) (hwf : t.loadRequest.edgeCells.WellFormed)
    (hcur : t.loadRequest.currentCell = t.loadRequest.cellAt 0)
    (hpos : 0 < t.loadRequest.cellCount) (hlen : ready.length = t.loadRequest.cellCount)
    (hready : ∀ a ∈ ready, a ≠ ObjectResult.incubating)
    (hscript : t.factoryScript = ready ++ rest) :
    (processLoadRequest t).loadRequest.isActive = false ∧
    (processLoadRequest t).loadedTable = mergedTable t.loadRequest t.loadedTable ∧
    (∀ j, j ∈ (processLoadRequest t).loadedItems.keys ↔
      (j ∈ t.loadedItems.keys ∨ ∃ c ∈ lineCells t.loadRequest.edgeCells,
        j = modelIndexAtCell t c)) ∧
    (processLoadRequest t).log.filterMap Event.requestedIndex =
      t.log.filterMap Event.requestedIndex ++
        (lineCells t.loadRequest.edgeCells).map (modelIndexAtCell t) := by
  have hrem : t.loadRequest.remaining = ready.length + 1 := by
    rw [remaining_cellAt t.loadRequest hwf 0 hcur (Nat.zero_le _), hlen]
    omega
  have hend : ∀ s' : State, s'.loadRequest =
      { t.loadRequest with currentCell := t.loadRequest.cellAt (0 + ready.length) } →
      s'.loadRequest.hasCurrentCell = false := by
    intro s' g2
    cases h : s'.loadRequest.hasCurrentCell with
    | false => rfl
    | true =>
      rw [g2] at h
      have hlt := (hasCurrentCell_cellAt
        ({ t.loadRequest with currentCell := t.loadRequest.cellAt (0 + ready.length) } :
          TableEdgeLoadRequest) hact hwf (0 + ready.length) rfl).mp h
      rw [cellCount_with_cursor, hlen] at hlt
      omega
  obtain ⟨s', g1, g2, g3, g4, g5, g6⟩ := loadRequestedCells_ready rest ready t 0 1 hact hwf hcur
    (by rw [hlen]; omega) hscript hready
  obtain ⟨s2, k1, k2, k3⟩ := loadRequestedCells_requested rest ready t 0 1 hact hwf hcur
    (by rw [hlen]; omega) hscript hready
  have hrun : processLoadRequest t = finishLoadRequest s' := by
    unfold processLoadRequest
    simp only [hrem, g1, loadRequestedCells_at_end 1 s' (hend s' g2), if_true]
  have hrun2 : processLoadRequest t = finishLoadRequest s2 := by
    unfold processLoadRequest
    simp only [hrem, k1, loadRequestedCells_at_end 1 s2 (hend s2 k2), if_true]
  have hsh := shape_finishLoadRequest s'
  have hsh2 := shape_finishLoadRequest s2
  have hcells : ∀ j, (∃ p, 0 ≤ p ∧ p < 0 + ready.length ∧
      j = modelIndexAtCell t (t.loadRequest.cellAt p)) ↔
      ∃ c ∈ lineCells t.loadRequest.edgeCells, j = modelIndexAtCell t c := by
    intro j
    rw [lineCells_eq_cellAt t.loadRequest hwf, ← hlen]
    constructor
    · rintro ⟨p, _, h2, h3⟩
      exact ⟨_, List.mem_map.mpr ⟨p, List.mem_range.mpr (by omega), rfl⟩, h3⟩
    · rintro ⟨c, hc, h3⟩
      obtain ⟨p, hp, rfl⟩ := List.mem_map.mp hc
      exact ⟨p, Nat.zero_le _, by have := List.mem_range.mp hp; omega, h3⟩
  refine ⟨?_, ?_, ?_, ?_⟩
  · rw [hrun]
    exact (congrArg (fun h : Shape => h.loadRequest.active) hsh :)
  · rw [hrun]
    have h0 : (finishLoadRequest s').loadedTable = mergedTable s'.loadRequest s'.loadedTable :=
      (congrArg Shape.loadedTable hsh :)
    rw [h0, g4, g2]
    rfl
  · intro j
    rw [hrun]
    have hkeys : (finishLoadRequest s').loadedItems.keys = s'.loadedItems.keys :=
      (congrArg Shape.keys hsh :)
    rw [hkeys, g6, hcells]
  · rw [hrun2]
    have hr : (finishLoadRequest s2).log.filterMap Event.requestedIndex =
        s2.log.filterMap Event.requestedIndex := (congrArg Shape.requested hsh2 :)
    rw [hr, k3, lineCells_eq_cellAt t.loadRequest hwf, ← hlen, List.map_map]
    congr 1
    apply List.map_congr_left
    intro p _
    simp only [Function.comp, Nat.zero_add]
theorem processLoadRequest_edgeCells (s : State) :
    (processLoadRequest s).loadRequest.edge = s.loadRequest.edge ∧
    (processLoadRequest s).loadRequest.edgeCells = s.loadRequest.edgeCells := by
  obtain ⟨_, _, h1, h2, _⟩ := frame_loadRequestedCells s.loadRequest.remaining s
  unfold processLoadRequest
  simp only []
  split_ifs
  · have hsh := shape_finishLoadRequest (loadRequestedCells s.loadRequest.remaining s).1
    have hr : (finishLoadRequest (loadRequestedCells s.loadRequest.remaining s).1).loadRequest =
        (loadRequestedCells s.loadRequest.remaining s).1.loadRequest.markAsDone :=
      (congrArg Shape.loadRequest hsh :)
    rw [hr]
    exact ⟨h1, h2⟩
  · exact ⟨h1, h2⟩

theorem lineCells_rectangleEdge (w : QRect) (edge : Edge) (h1 : 1 ≤ w.width)
    (h2 : 1 ≤ w.height) (c : QPoint) :
    c ∈ lineCells (rectangleEdge (expandedRect w edge 1) edge) ↔
      ((expandedRect w edge 1).containsCell c ∧ ¬ w.containsCell c) := by
  have hx : w.x1 ≤ w.x2 := by simp only [QRect.width] at h1; omega
  have hy : w.y1 ≤ w.y2 := by simp only [QRect.height] at h2; omega
  have hwf : (rectangleEdge (expandedRect w edge 1) edge).WellFormed := by
    apply rectangleEdge_wellFormed <;> cases edge <;>
      simp only [expandedRect, QRect.adjusted] <;> omega
  rw [mem_lineCells _ hwf]
  cases edge <;>
    simp only [rectangleEdge, expandedRect, QRect.adjusted, QLine.contains, QRect.containsCell,
      QRect.topLeft, QRect.bottomLeft, QRect.topRight, QRect.bottomRight] <;>
    omega

theorem length_lineCells_rectangleEdge (w : QRect) (edge : Edge) (h1 : 1 ≤ w.width)
    (h2 : 1 ≤ w.height) :
    ((lineCells (rectangleEdge (expandedRect w edge 1) edge)).length : Int) =
      match edge with
      | Edge.LeftEdge => w.height
      | Edge.RightEdge => w.height
      | Edge.TopEdge => w.width
      | Edge.BottomEdge => w.width := by
  simp only [QRect.width, QRect.height] at h1 h2 ⊢
  cases edge <;>
    simp only [lineCells, rectangleEdge, expandedRect, QRect.adjusted, QLine.dx,
      QRect.topLeft, QRect.bottomLeft, QRect.topRight, QRect.bottomRight] <;>
    split_ifs <;> simp only [List.length_map, intRange, List.length_range] <;> omega

theorem loadEdge_begins (s : State) (edge : Edge) (mode : IncubationMode) :
    (loadEdge s edge mode).log.filter Event.isBegin =
      s.log.filter Event.isBegin ++
        [Event.begin s.loadRequest.isActive (some edge)
          (rectangleEdge (expandedRect s.loadedTable edge 1) edge)] := by
  have hb := (congrArg Frame.begins (frame_processLoadRequest
    { s with
      loadRequest := s.loadRequest.begin (rectangleEdge (expandedRect s.loadedTable edge 1) edge)
        edge mode
      log := s.log ++ [Event.begin s.loadRequest.isActive (some edge)
        (rectangleEdge (expandedRect s.loadedTable edge 1) edge)] }) :)
  simp only [Shape.frame, State.shape, List.filter_append] at hb
  exact hb

theorem expandedRect_sides (w : QRect) (edge : Edge) :
    (expandedRect w edge 1).x1 = (if edge = Edge.LeftEdge then w.x1 - 1 else w.x1) ∧
    (expandedRect w edge 1).x2 = (if edge = Edge.RightEdge then w.x2 + 1 else w.x2) ∧
    (expandedRect w edge 1).y1 = (if edge = Edge.TopEdge then w.y1 - 1 else w.y1) ∧
    (expandedRect w edge 1).y2 = (if edge = Edge.BottomEdge then w.y2 + 1 else w.y2) := by
  cases edge <;> simp [expandedRect, QRect.adjusted] <;> omega

/-- Claim C22: for a loaded table `W` with at least one row and one column
and an inactive request, `loadEdge(e)` begins exactly one request, for the
line `rectangleEdge(expandedRect(W, e, 1), e)`, whose cells are the cells of
`expandedRect(W, e, 1)` that are not in `W`: `height(W)` cells for the left
or right edge, `width(W)` cells for the top or bottom edge. When the request
has completed, `loadedTable` is `expandedRect(W, e, 1)`: the side `e` has
moved out by one and the three other sides are those of `W`. With a factory
that delivers an object for each cell the request does complete, the factory
was asked for the cells of the line in order and for nothing else, and their
indices are what was added to `loadedItems`. -/
theorem loadEdge_loads_adjacent_line (s : State) (edge : Edge) (mode : IncubationMode)
    (h1 : 1 ≤ s.loadedTable.width) (h2 : 1 ≤ s.loadedTable.height)
    (hi : s.loadRequest.isActive = false) :
    (∀ c, c ∈ lineCells (rectangleEdge (expandedRect s.loadedTable edge 1) edge) ↔
      ((expandedRect s.loadedTable edge 1).containsCell c ∧ ¬ s.loadedTable.containsCell c)) ∧
    ((lineCells (rectangleEdge (expandedRect s.loadedTable edge 1) edge)).length : Int) =
      (match edge with
        | Edge.LeftEdge => s.loadedTable.height
        | Edge.RightEdge => s.loadedTable.height
        | Edge.TopEdge => s.loadedTable.width
        | Edge.BottomEdge => s.loadedTable.width) ∧
    (loadEdge s edge mode).log.filter Event.isBegin =
      s.log.filter Event.isBegin ++
        [Event.begin false (some edge) (rectangleEdge (expandedRect s.loadedTable edge 1) edge)] ∧
    (loadEdge s edge mode).loadRequest.edge = some edge ∧
    (loadEdge s edge mode).loadRequest.edgeCells =
      rectangleEdge (expandedRect s.loadedTable edge 1) edge ∧
    ((loadEdge s edge mode).loadRequest.isActive = false →
      (loadEdge s edge mode).loadedTable = expandedRect s.loadedTable edge 1) ∧
    (expandedRect s.loadedTable edge 1).x1 =
      (if edge = Edge.LeftEdge then s.loadedTable.x1 - 1 else s.loadedTable.x1) ∧
    (expandedRect s.loadedTable edge 1).x2 =
      (if edge = Edge.RightEdge then s.loadedTable.x2 + 1 else s.loadedTable.x2) ∧
    (expandedRect s.loadedTable edge 1).y1 =
      (if edge = Edge.TopEdge then s.loadedTable.y1 - 1 else s.loadedTable.y1) ∧
    (expandedRect s.loadedTable edge 1).y2 =
      (if edge = Edge.BottomEdge then s.loadedTable.y2 + 1 else s.loadedTable.y2) ∧
    ∀ ready rest : List ObjectResult, s.factoryScript = ready ++ rest →
      ready.length = (lineCells (rectangleEdge (expandedRect s.loadedTable edge 1) edge)).length →
      (∀ a ∈ ready, a ≠ ObjectResult.incubating) →
      (loadEdge s edge mode).loadRequest.isActive = false ∧
      (loadEdge s edge mode).loadedTable = expandedRect s.loadedTable edge 1 ∧
      (∀ j, j ∈ (loadEdge s edge mode).loadedItems.keys ↔
        (j ∈ s.loadedItems.keys ∨
          ∃ c ∈ lineCells (rectangleEdge (expandedRect s.loadedTable edge 1) edge),
            j = modelIndexAtCell s c)) ∧
      (loadEdge s edge mode).log.filterMap Event.requestedIndex =
        s.log.filterMap Event.requestedIndex ++
          (lineCells (rectangleEdge (expandedRect s.loadedTable edge 1) edge)).map
            (modelIndexAtCell s) := by
  have hx : s.loadedTable.x1 ≤ s.loadedTable.x2 := by simp only [QRect.width] at h1; omega
  have hy : s.loadedTable.y1 ≤ s.loadedTable.y2 := by simp only [QRect.height] at h2; omega
  have hwf : (rectangleEdge (expandedRect s.loadedTable edge 1) edge).WellFormed := by
    apply rectangleEdge_wellFormed <;> cases edge <;>
      simp only [expandedRect, QRect.adjusted] <;> omega
  have hlen := length_lineCells_rectangleEdge s.loadedTable edge h1 h2
  have hedge := processLoadRequest_edgeCells
    { s with
      loadRequest := s.loadRequest.begin (rectangleEdge (expandedRect s.loadedTable edge 1) edge)
        edge mode
      log := s.log ++ [Event.begin s.loadRequest.isActive (some edge)
        (rectangleEdge (expandedRect s.loadedTable edge 1) edge)] }
  obtain ⟨hs1, hs2, hs3, hs4⟩ := expandedRect_sides s.loadedTable edge
  refine ⟨lineCells_rectangleEdge s.loadedTable edge h1 h2, hlen, ?_, hedge.1, hedge.2, ?_,
    hs1, hs2, hs3, hs4, ?_⟩
  · rw [loadEdge_begins, hi]
  · intro hdone
    rcases loadEdge_loadedTable s edge mode with ⟨ha, _⟩ | ⟨_, h⟩
    · rw [show (loadEdge s edge mode).loadRequest.isActive =
        (loadEdge s edge mode).loadRequest.active from rfl, ha] at hdone
      exact absurd hdone (by decide)
    · exact h
  · intro ready rest hscript hready hall
    have hpos : 0 < (lineCells (rectangleEdge (expandedRect s.loadedTable edge 1) edge)).length := by
      have : (0 : Int) < ((lineCells (rectangleEdge (expandedRect s.loadedTable edge 1)
          edge)).length : Int) := by
        rw [hlen]
        cases edge <;> simp only <;> omega
      exact_mod_cast this
    obtain ⟨c1, c2, c3, c4⟩ := processLoadRequest_completes
      { s with
        loadRequest := s.loadRequest.begin (rectangleEdge (expandedRect s.loadedTable edge 1) edge)
          edge mode
        log := s.log ++ [Event.begin s.loadRequest.isActive (some edge)
          (rectangleEdge (expandedRect s.loadedTable edge 1) edge)] }
      ready rest rfl hwf
      (cellAt_zero (s.loadRequest.begin (rectangleEdge (expandedRect s.loadedTable edge 1) edge)
        edge mode)).symm hpos hready hall hscript
    refine ⟨c1, ?_, c3, ?_⟩
    · rw [show loadEdge s edge mode = processLoadRequest _ from rfl, c2]
      exact mergedTable_begin s.loadRequest s.loadedTable edge mode
    · rw [show loadEdge s edge mode = processLoadRequest _ from rfl, c4]
      simp [List.filterMap_append, Event.requestedIndex]
      rfl
set_option maxRecDepth 100000 in
theorem exampleFourReady_ready :
    exampleFourReady.loadedTable = ⟨0, 0, 3, 4⟩ ∧
    exampleFourReady.loadRequest.isActive = false ∧
    exampleFourReady.factoryScript =
      [ObjectResult.item ⟨0, 0, 100, 50⟩ 100 50, ObjectResult.item ⟨0, 0, 100, 50⟩ 100 50,
        ObjectResult.item ⟨0, 0, 100, 50⟩ 100 50, ObjectResult.item ⟨0, 0, 100, 50⟩ 100 50] ++ [] := by
  decide!

/-- Claim C22, instance: in the polished example view, whose loaded table is
the window from cell (0, 0) to cell (3, 4), loading the bottom edge with a
factory that delivers four items ends with the request inactive and the
loaded table grown by one row at the bottom. -/
theorem loadEdge_loads_adjacent_line_witness :
    1 ≤ exampleFourReady.loadedTable.width ∧ 1 ≤ exampleFourReady.loadedTable.height ∧
    exampleFourReady.loadRequest.isActive = false ∧
    ((lineCells (rectangleEdge (expandedRect exampleFourReady.loadedTable Edge.BottomEdge 1)
      Edge.BottomEdge)).length : Int) = exampleFourReady.loadedTable.width ∧
    (loadEdge exampleFourReady Edge.BottomEdge
      IncubationMode.AsynchronousIfNested).loadRequest.isActive = false ∧
    (loadEdge exampleFourReady Edge.BottomEdge IncubationMode.AsynchronousIfNested).loadedTable =
      expandedRect exampleFourReady.loadedTable Edge.BottomEdge 1 ∧
    expandedRect exampleFourReady.loadedTable Edge.BottomEdge 1 = ⟨0, 0, 3, 5⟩ := by
  have hw : 1 ≤ exampleFourReady.loadedTable.width := by
    rw [exampleFourReady_ready.1]; decide
  have hh : 1 ≤ exampleFourReady.loadedTable.height := by
    rw [exampleFourReady_ready.1]; decide
  have h := loadEdge_loads_adjacent_line exampleFourReady Edge.BottomEdge
    IncubationMode.AsynchronousIfNested hw hh exampleFourReady_ready.2.1
  have hdone := h.2.2.2.2.2.2.2.2.2.2 _ [] exampleFourReady_ready.2.2
    (by rw [exampleFourReady_ready.1]; decide) (by decide)
  exact ⟨hw, hh, exampleFourReady_ready.2.1, h.2.1, hdone.1, hdone.2.1,
    by rw [exampleFourReady_ready.1]; decide⟩

/-! ## Items of the loaded table under the layout engine -/

theorem ItemHash.value_modify (h : ItemHash) (k j : Int) (f : FxTableItem → FxTableItem) :
    (h.modify k f).value j = if j = k then (h.value j).map f else h.value j := by
  induction h with
  | nil => simp [ItemHash.modify, ItemHash.value]
  | cons e h ih =>
    simp only [ItemHash.value, ItemHash.modify, List.map_cons, List.find?_cons] at ih ⊢
    by_cases hek : e.1 = k
    · by_cases hj : j = k
      · subst hj
        simp [hek]
      · have hne : ¬ e.1 = j := fun h => hj (h.symm.trans hek)
        simp only [hek, beq_self_eq_true, if_true, hj, if_false] at ih ⊢
        have : (k == j) = false := by simpa using fun h => hj h.symm
        simp only [this]
        exact ih
    · have hb : (e.1 == k) = false := by simpa using hek
      simp only [hb, Bool.false_eq_true, if_false]
      by_cases hej : e.1 = j
      · have hj : ¬ j = k := fun h => hek (hej.trans h)
        simp [hej, hj]
      · have : (e.1 == j) = false := by simpa using hej
        simp only [this]
        exact ih

theorem ItemHash.value_of_mem_keys (h : ItemHash) (k : Int) (hk : k ∈ h.keys) :
    ∃ item, h.value k = some item := by
  induction h with
  | nil => simp [ItemHash.keys] at hk
  | cons e h ih =>
    simp only [ItemHash.value, List.find?_cons]
    by_cases hek : e.1 = k
    · simp [hek]
    · have hb : (e.1 == k) = false := by simpa using hek
      simp only [hb]
      simp only [ItemHash.keys, List.map_cons, List.mem_cons] at hk
      rcases hk with hk | hk
      · exact absurd hk.symm hek
      · exact ih hk

theorem loadedTableItem_updateTableItem_same (s : State) (cell : QPoint)
    (f : FxTableItem → FxTableItem) (hk : modelIndexAtCell s cell ∈ s.loadedItems.keys) :
    loadedTableItem (updateTableItem s cell f) cell = f (loadedTableItem s cell) := by
  obtain ⟨item, hitem⟩ := ItemHash.value_of_mem_keys _ _ hk
  show ((s.loadedItems.modify (modelIndexAtCell s cell) f).value (modelIndexAtCell s cell)).getD
    FxTableItem.missing = f ((s.loadedItems.value (modelIndexAtCell s cell)).getD FxTableItem.missing)
  rw [ItemHash.value_modify, if_pos rfl, hitem]
  rfl

theorem loadedTableItem_updateTableItem_other (s : State) (cell other : QPoint)
    (f : FxTableItem → FxTableItem)
    (hne : modelIndexAtCell s other ≠ modelIndexAtCell s cell) :
    loadedTableItem (updateTableItem s cell f) other = loadedTableItem s other := by
  show ((s.loadedItems.modify (modelIndexAtCell s cell) f).value (modelIndexAtCell s other)).getD
    FxTableItem.missing = (s.loadedItems.value (modelIndexAtCell s other)).getD FxTableItem.missing
  rw [ItemHash.value_modify, if_neg hne]

theorem loadedTableItem_updateTableItem_keeps (s : State) (cell other : QPoint)
    (f : FxTableItem → FxTableItem) (hf : KeepsSizes f) :
    (loadedTableItem (updateTableItem s cell f) other).implicitWidth =
      (loadedTableItem s other).implicitWidth ∧
    (loadedTableItem (updateTableItem s cell f) other).implicitHeight =
      (loadedTableItem s other).implicitHeight ∧
    (loadedTableItem (updateTableItem s cell f) other).cell = (loadedTableItem s other).cell := by
  show (((s.loadedItems.modify (modelIndexAtCell s cell) f).value
      (modelIndexAtCell s other)).getD FxTableItem.missing).implicitWidth = _ ∧
    (((s.loadedItems.modify (modelIndexAtCell s cell) f).value
      (modelIndexAtCell s other)).getD FxTableItem.missing).implicitHeight = _ ∧
    (((s.loadedItems.modify (modelIndexAtCell s cell) f).value
      (modelIndexAtCell s other)).getD FxTableItem.missing).cell = _
  rw [ItemHash.value_modify]
  unfold loadedTableItem
  simp only []
  split_ifs with h
  · cases hv : s.loadedItems.value (modelIndexAtCell s other) with
    | none => exact ⟨rfl, rfl, rfl⟩
    | some item => exact hf item
  · exact ⟨rfl, rfl, rfl⟩

theorem SameSizes.self (s : State) : SameSizes s s :=
  ⟨rfl, rfl, rfl, rfl, rfl, rfl, fun _ => ⟨rfl, rfl, rfl⟩⟩

theorem SameSizes.chain {s t u : State} (h1 : SameSizes s t) (h2 : SameSizes t u) :
    SameSizes s u := by
  obtain ⟨a1, a2, a3, a4, a5, a6, a7⟩ := h1
  obtain ⟨b1, b2, b3, b4, b5, b6, b7⟩ := h2
  refine ⟨b1.trans a1, b2.trans a2, b3.trans a3, b4.trans a4, b5.trans a5, b6.trans a6, ?_⟩
  intro cell
  exact ⟨(b7 cell).1.trans (a7 cell).1, (b7 cell).2.1.trans (a7 cell).2.1,
    (b7 cell).2.2.trans (a7 cell).2.2⟩

theorem sameSizes_updateTableItem (s : State) (cell : QPoint) (f : FxTableItem → FxTableItem)
    (hf : KeepsSizes f) : SameSizes s (updateTableItem s cell f) :=
  ⟨rfl, rfl, rfl, rfl, rfl, ItemHash.keys_modify _ _ _,
    fun other => loadedTableItem_updateTableItem_keeps s cell other f hf⟩

theorem sameSizes_issueLayoutWarning (s : State) : SameSizes s (issueLayoutWarning s) := by
  unfold issueLayoutWarning
  split_ifs
  · exact ⟨rfl, rfl, rfl, rfl, rfl, rfl, fun _ => ⟨rfl, rfl, rfl⟩⟩
  · exact SameSizes.self s

theorem sameSizes_resolveColumnWidth (s : State) (column : Int) :
    SameSizes s (resolveColumnWidth s column).2 := by
  unfold resolveColumnWidth
  split
  · split
    · exact sameSizes_issueLayoutWarning s
    · split_ifs
      · exact sameSizes_issueLayoutWarning s
      · exact SameSizes.self s
  · exact sameSizes_issueLayoutWarning s
  · simp only []
    split_ifs
    · exact sameSizes_issueLayoutWarning s
    · exact SameSizes.self s

theorem sameSizes_resolveRowHeight (s : State) (row : Int) :
    SameSizes s (resolveRowHeight s row).2 := by
  unfold resolveRowHeight
  split
  · split
    · exact sameSizes_issueLayoutWarning s
    · split_ifs
      · exact sameSizes_issueLayoutWarning s
      · exact SameSizes.self s
  · exact sameSizes_issueLayoutWarning s
  · simp only []
    split_ifs
    · exact sameSizes_issueLayoutWarning s
    · exact SameSizes.self s

theorem sizeHint_sameSizes {s t : State} (h : SameSizes s t) (column row : Int) :
    sizeHintForColumn t column = sizeHintForColumn s column ∧
    sizeHintForRow t row = sizeHintForRow s row := by
  obtain ⟨a1, _, _, _, _, _, a7⟩ := h
  unfold sizeHintForColumn sizeHintForRow cellWidth cellHeight
  rw [a1]
  constructor
  · congr 1
    funext w r
    rw [(a7 ⟨column, r⟩).1]
  · congr 1
    funext w c
    rw [(a7 ⟨c, row⟩).2.1]

theorem resolved_sameSizes {s t : State} (h : SameSizes s t) (column row : Int) :
    (resolveColumnWidth t column).1 = (resolveColumnWidth s column).1 ∧
    (resolveRowHeight t row).1 = (resolveRowHeight s row).1 := by
  obtain ⟨hc, hr⟩ := sizeHint_sameSizes h column row
  obtain ⟨_, _, a3, a4, _, _, _⟩ := h
  rw [resolveColumnWidth_value, resolveRowHeight_value, resolveColumnWidth_value,
    resolveRowHeight_value, a3, a4, hc, hr]
  exact ⟨rfl, rfl⟩

theorem cellInGrid_of_filled {s : State} (hs : Filled s) {c : QPoint}
    (hc : s.loadedTable.containsCell c) : cellInGrid s.tableSize c := by
  obtain ⟨⟨g1, g2, g3, g4, g5, g6⟩, _⟩ := hs
  obtain ⟨c1, c2, c3, c4⟩ := hc
  exact ⟨by omega, by omega, by omega, by omega⟩

theorem modelIndexAtCell_ne {s : State} (hs : Filled s) {c d : QPoint}
    (hc : s.loadedTable.containsCell c) (hd : s.loadedTable.containsCell d) (hne : c ≠ d) :
    modelIndexAtCell s c ≠ modelIndexAtCell s d := fun h =>
  hne (cellIndex_injective s.tableSize c d (cellInGrid_of_filled hs hc)
    (cellInGrid_of_filled hs hd) h)

theorem QRect.mem_cells (r : QRect) (c : QPoint) : c ∈ r.cells ↔ r.containsCell c := by
  simp only [QRect.cells, List.mem_flatMap, List.mem_map, mem_intRange, QRect.containsCell]
  constructor
  · rintro ⟨x, ⟨h1, h2⟩, y, ⟨h3, h4⟩, rfl⟩
    exact ⟨h1, h2, h3, h4⟩
  · rintro ⟨h1, h2, h3, h4⟩
    exact ⟨c.x, ⟨h1, h2⟩, c.y, ⟨h3, h4⟩, rfl⟩

theorem filled_of_check (s : State) (h : filledCheck s = true) : Filled s := by
  simp only [filledCheck, Bool.and_eq_true, decide_eq_true_eq, List.all_eq_true] at h
  exact ⟨h.1, fun c hc => h.2 c ((QRect.mem_cells _ _).mpr hc)⟩

theorem intRange_nodup (lo hi : Int) : (intRange lo hi).Nodup := by
  unfold intRange
  refine List.Nodup.map ?_ (List.nodup_range _)
  intro a b h
  simpa using h

theorem intRange_succ (lo hi : Int) (h : lo ≤ hi + 1) :
    intRange lo (hi + 1) = intRange lo hi ++ [hi + 1] := by
  unfold intRange
  have e : (hi + 1 - lo + 1).toNat = (hi - lo + 1).toNat + 1 := by omega
  rw [e, List.range_succ, List.map_append, List.map_singleton]
  congr 2
  omega

theorem intRange_empty (lo hi : Int) (h : hi < lo) : intRange lo hi = [] := by
  unfold intRange
  have e : (hi - lo + 1).toNat = 0 := by omega
  rw [e]
  rfl

theorem intRange_eq_range (lo hi : Int) :
    intRange lo hi = (List.range (hi - lo + 1).toNat).map (fun (i : Nat) => lo + (i : Int)) := rfl

theorem Filled.of_sameSizes {s t : State} (hs : Filled s) (h : SameSizes s t) : Filled t := by
  obtain ⟨a1, a2, _, _, _, a6, a7⟩ := h
  obtain ⟨hg, hc⟩ := hs
  refine ⟨by rw [a1, a2]; exact hg, ?_⟩
  intro c hcell
  rw [a1] at hcell
  refine ⟨?_, ?_⟩
  · rw [a6]
    have := (hc c hcell).1
    simpa only [modelIndexAtCell, a2] using this
  · rw [(a7 c).2.2]
    exact (hc c hcell).2

theorem SameSizes.symm {s t : State} (h : SameSizes s t) : SameSizes t s := by
  obtain ⟨a1, a2, a3, a4, a5, a6, a7⟩ := h
  exact ⟨a1.symm, a2.symm, a3.symm, a4.symm, a5.symm, a6.symm,
    fun c => ⟨(a7 c).1.symm, (a7 c).2.1.symm, (a7 c).2.2.symm⟩⟩

/-- A loop that writes, through `loadedTableItem`, the items of distinct
loaded cells: each of these items is replaced by its image and every other
item is left alone. -/
theorem foldl_updateTableItem (F : QPoint → FxTableItem → FxTableItem) (cells : List QPoint) :
    ∀ s : State, (∀ c ∈ cells, cellInGrid s.tableSize c) →
      (∀ c ∈ cells, modelIndexAtCell s c ∈ s.loadedItems.keys) → cells.Nodup →
      cells.foldl (fun st c => updateTableItem st c (F c)) s =
        { s with loadedItems :=
          (cells.foldl (fun st c => updateTableItem st c (F c)) s).loadedItems } ∧
      (cells.foldl (fun st c => updateTableItem st c (F c)) s).loadedItems.keys =
        s.loadedItems.keys ∧
      ∀ cell, cellInGrid s.tableSize cell →
        loadedTableItem (cells.foldl (fun st c => updateTableItem st c (F c)) s) cell =
          if cell ∈ cells then F cell (loadedTableItem s cell) else loadedTableItem s cell := by
  induction cells with
  | nil =>
    intro s _ _ _
    exact ⟨rfl, rfl, fun cell _ => by simp⟩
  | cons c rest ih =>
    intro s hgrid hkeys hnd
    rw [List.foldl_cons]
    obtain ⟨hc, hrest⟩ := List.nodup_cons.mp hnd
    have hk1 : (updateTableItem s c (F c)).loadedItems.keys = s.loadedItems.keys :=
      ItemHash.keys_modify _ _ _
    obtain ⟨i1, i2, i3⟩ := ih (updateTableItem s c (F c))
      (fun d hd => hgrid d (List.mem_cons_of_mem _ hd))
      (fun d hd => by rw [hk1]; exact hkeys d (List.mem_cons_of_mem _ hd)) hrest
    refine ⟨?_, i2.trans hk1, ?_⟩
    · rw [i1]
      rfl
    · intro cell hcell
      rw [i3 cell hcell]
      by_cases hcc : cell = c
      · subst hcc
        rw [if_neg hc, if_pos (List.mem_cons_self _ _)]
        exact loadedTableItem_updateTableItem_same s cell (F cell)
          (hkeys cell (List.mem_cons_self _ _))
      · have hne : modelIndexAtCell s cell ≠ modelIndexAtCell s c := fun h =>
          hcc (cellIndex_injective s.tableSize cell c hcell (hgrid c (List.mem_cons_self _ _)) h)
        rw [loadedTableItem_updateTableItem_other s c cell (F c) hne]
        by_cases hr : cell ∈ rest
        · rw [if_pos hr, if_pos (List.mem_cons_of_mem _ hr)]
        · rw [if_neg hr, if_neg (by simpa [hcc] using hr)]

theorem sameSizes_foldl_updateTableItem (F : QPoint → FxTableItem → FxTableItem)
    (hF : ∀ c, KeepsSizes (F c)) (cells : List QPoint) :
    ∀ s : State, SameSizes s (cells.foldl (fun st c => updateTableItem st c (F c)) s) := by
  induction cells with
  | nil => intro s; exact SameSizes.self s
  | cons c rest ih =>
    intro s
    rw [List.foldl_cons]
    exact (sameSizes_updateTableItem s c (F c) (hF c)).chain (ih _)

theorem resolveColumnWidth_items (s : State) (column : Int) :
    (resolveColumnWidth s column).2 =
      { s with layoutWarningIssued := (resolveColumnWidth s column).2.layoutWarningIssued } := by
  unfold resolveColumnWidth issueLayoutWarning
  split
  · split
    · split_ifs <;> rfl
    · split_ifs <;> rfl
  · split_ifs <;> rfl
  · simp only []
    split_ifs <;> rfl

theorem resolveRowHeight_items (s : State) (row : Int) :
    (resolveRowHeight s row).2 =
      { s with layoutWarningIssued := (resolveRowHeight s row).2.layoutWarningIssued } := by
  unfold resolveRowHeight issueLayoutWarning
  split
  · split
    · split_ifs <;> rfl
    · split_ifs <;> rfl
  · split_ifs <;> rfl
  · simp only []
    split_ifs <;> rfl

theorem loadedTableItem_resolveColumnWidth (s : State) (column : Int) (cell : QPoint) :
    loadedTableItem (resolveColumnWidth s column).2 cell = loadedTableItem s cell := by
  rw [resolveColumnWidth_items]
  rfl

theorem loadedTableItem_resolveRowHeight (s : State) (row : Int) (cell : QPoint) :
    loadedTableItem (resolveRowHeight s row).2 cell = loadedTableItem s cell := by
  rw [resolveRowHeight_items]
  rfl

theorem columnOffset_left (s : State) : columnOffset s s.loadedTable.left = 0 := by
  unfold columnOffset
  rw [intRange_empty _ _ (by omega)]
  rfl

theorem columnOffset_succ (s : State) (c : Int) (h : s.loadedTable.left ≤ c) :
    columnOffset s (c + 1) =
      columnOffset s c + ((resolveColumnWidth s c).1 + s.cellSpacing.width) := by
  unfold columnOffset
  have e : c + 1 - 1 = (c - 1) + 1 := by omega
  rw [e, intRange_succ _ _ (by omega), List.map_append, List.sum_append]
  have e2 : c - 1 + 1 = c := by omega
  simp only [List.map_singleton, List.sum_singleton, e2]

theorem rowOffset_top (s : State) : rowOffset s s.loadedTable.top = 0 := by
  unfold rowOffset
  rw [intRange_empty _ _ (by omega)]
  rfl

theorem rowOffset_succ (s : State) (r : Int) (h : s.loadedTable.top ≤ r) :
    rowOffset s (r + 1) =
      rowOffset s r + ((resolveRowHeight s r).1 + s.cellSpacing.height) := by
  unfold rowOffset
  have e : r + 1 - 1 = (r - 1) + 1 := by omega
  rw [e, intRange_succ _ _ (by omega), List.map_append, List.sum_append]
  have e2 : r - 1 + 1 = r := by omega
  simp only [List.map_singleton, List.sum_singleton, e2]

/-! ## relayoutTableItems (claim C23) -/

theorem relayoutColumnCells_spec (u : State) (hu : Filled u) (column : Int)
    (h1 : u.loadedTable.left ≤ column) (h2 : column ≤ u.loadedTable.right) (x w : ℚ) :
    SameSizes u (relayoutColumnCells u column x w) ∧
    ∀ cell, u.loadedTable.containsCell cell →
      (loadedTableItem (relayoutColumnCells u column x w) cell).geometry =
        if cell.x = column then
          ⟨x, (loadedTableItem u cell).geometry.yp, w, (loadedTableItem u cell).geometry.h⟩
        else (loadedTableItem u cell).geometry := by
  have e : relayoutColumnCells u column x w =
      ((intRange u.loadedTable.top u.loadedTable.bottom).map
        (fun row => (⟨column, row⟩ : QPoint))).foldl
        (fun st c => updateTableItem st c
          ((fun _ item => item.setGeometry ((item.geometry.moveLeft x).setWidth w)) c)) u := by
    rw [List.foldl_map]
    rfl
  have hin : ∀ c ∈ (intRange u.loadedTable.top u.loadedTable.bottom).map
      (fun row => (⟨column, row⟩ : QPoint)), u.loadedTable.containsCell c := by
    intro c hc
    obtain ⟨row, hrow, rfl⟩ := List.mem_map.mp hc
    obtain ⟨r1, r2⟩ := (mem_intRange _ _ _).mp hrow
    exact ⟨h1, h2, r1, r2⟩
  obtain ⟨_, _, g3⟩ := foldl_updateTableItem
    (fun _ item => item.setGeometry ((item.geometry.moveLeft x).setWidth w))
    ((intRange u.loadedTable.top u.loadedTable.bottom).map (fun row => (⟨column, row⟩ : QPoint)))
    u (fun c hc => cellInGrid_of_filled hu (hin c hc)) (fun c hc => (hu.2 c (hin c hc)).1)
    (List.Nodup.map (fun a b h => by simpa using h) (intRange_nodup _ _))
  rw [e]
  refine ⟨sameSizes_foldl_updateTableItem
    (fun _ item => item.setGeometry ((item.geometry.moveLeft x).setWidth w))
    (fun _ item => ⟨rfl, rfl, rfl⟩) _ u, ?_⟩
  intro cell hcell
  rw [g3 cell (cellInGrid_of_filled hu hcell)]
  by_cases hx : cell.x = column
  · have hmem : cell ∈ (intRange u.loadedTable.top u.loadedTable.bottom).map
        (fun row => (⟨column, row⟩ : QPoint)) :=
      List.mem_map.mpr ⟨cell.y, (mem_intRange _ _ _).mpr ⟨hcell.2.2.1, hcell.2.2.2⟩, by
        rw [← hx]⟩
    rw [if_pos hmem, if_pos hx]
    rfl
  · have hmem : cell ∉ (intRange u.loadedTable.top u.loadedTable.bottom).map
        (fun row => (⟨column, row⟩ : QPoint)) := by
      intro hc
      obtain ⟨row, _, hrow⟩ := List.mem_map.mp hc
      exact hx (by rw [← hrow])
    rw [if_neg hmem, if_neg hx]

theorem relayoutRowCells_spec (u : State) (hu : Filled u) (row : Int)
    (h1 : u.loadedTable.top ≤ row) (h2 : row ≤ u.loadedTable.bottom) (y h : ℚ) :
    SameSizes u (relayoutRowCells u row y h) ∧
    ∀ cell, u.loadedTable.containsCell cell →
      (loadedTableItem (relayoutRowCells u row y h) cell).geometry =
        if cell.y = row then
          ⟨(loadedTableItem u cell).geometry.xp, y, (loadedTableItem u cell).geometry.w, h⟩
        else (loadedTableItem u cell).geometry := by
  have e : relayoutRowCells u row y h =
      ((intRange u.loadedTable.left u.loadedTable.right).map
        (fun column => (⟨column, row⟩ : QPoint))).foldl
        (fun st c => updateTableItem st c
          ((fun _ item => item.setGeometry ((item.geometry.moveTop y).setHeight h)) c)) u := by
    rw [List.foldl_map]
    rfl
  have hin : ∀ c ∈ (intRange u.loadedTable.left u.loadedTable.right).map
      (fun column => (⟨column, row⟩ : QPoint)), u.loadedTable.containsCell c := by
    intro c hc
    obtain ⟨column, hcolumn, rfl⟩ := List.mem_map.mp hc
    obtain ⟨r1, r2⟩ := (mem_intRange _ _ _).mp hcolumn
    exact ⟨r1, r2, h1, h2⟩
  obtain ⟨_, _, g3⟩ := foldl_updateTableItem
    (fun _ item => item.setGeometry ((item.geometry.moveTop y).setHeight h))
    ((intRange u.loadedTable.left u.loadedTable.right).map
      (fun column => (⟨column, row⟩ : QPoint)))
    u (fun c hc => cellInGrid_of_filled hu (hin c hc)) (fun c hc => (hu.2 c (hin c hc)).1)
    (List.Nodup.map (fun a b h => by simpa using h) (intRange_nodup _ _))
  rw [e]
  refine ⟨sameSizes_foldl_updateTableItem
    (fun _ item => item.setGeometry ((item.geometry.moveTop y).setHeight h))
    (fun _ item => ⟨rfl, rfl, rfl⟩) _ u, ?_⟩
  intro cell hcell
  rw [g3 cell (cellInGrid_of_filled hu hcell)]
  by_cases hx : cell.y = row
  · have hmem : cell ∈ (intRange u.loadedTable.left u.loadedTable.right).map
        (fun column => (⟨column, row⟩ : QPoint)) :=
      List.mem_map.mpr ⟨cell.x, (mem_intRange _ _ _).mpr ⟨hcell.1, hcell.2.1⟩, by
        rw [← hx]⟩
    rw [if_pos hmem, if_pos hx]
    rfl
  · have hmem : cell ∉ (intRange u.loadedTable.left u.loadedTable.right).map
        (fun column => (⟨column, row⟩ : QPoint)) := by
      intro hc
      obtain ⟨column, _, hcolumn⟩ := List.mem_map.mp hc
      exact hx (by rw [← hcolumn])
    rw [if_neg hmem, if_neg hx]
theorem relayoutColumns_prefix (s : State) (hs : Filled s) (x0 : ℚ) (n : Nat)
    (hn : (n : Int) ≤ s.loadedTable.width) :
    SameSizes s (((List.range n).map (fun (i : Nat) => s.loadedTable.left + (i : Int))).foldl
      relayoutColumnStep (s, x0)).1 ∧
    (((List.range n).map (fun (i : Nat) => s.loadedTable.left + (i : Int))).foldl
      relayoutColumnStep (s, x0)).2 = x0 + columnOffset s (s.loadedTable.left + n) ∧
    ∀ cell, s.loadedTable.containsCell cell →
      (loadedTableItem (((List.range n).map
          (fun (i : Nat) => s.loadedTable.left + (i : Int))).foldl
            relayoutColumnStep (s, x0)).1 cell).geometry =
        if cell.x < s.loadedTable.left + n then
          (⟨x0 + columnOffset s cell.x, (loadedTableItem s cell).geometry.yp,
            (resolveColumnWidth s cell.x).1, (loadedTableItem s cell).geometry.h⟩ : QRectF)
        else (loadedTableItem s cell).geometry := by
  induction n with
  | zero =>
    refine ⟨SameSizes.self s, ?_, ?_⟩
    · simp [columnOffset_left]
    · intro cell hcell
      have : ¬ cell.x < s.loadedTable.left + ((0 : Nat) : Int) := by
        have := hcell.1
        simp only [QRect.left]
        omega
      rw [if_neg this]
      rfl
  | succ n ih =>
    have hn' : (n : Int) ≤ s.loadedTable.width := by omega
    obtain ⟨i1, i2, i3⟩ := ih hn'
    rw [List.range_succ, List.map_append, List.foldl_append, List.map_singleton,
      List.foldl_cons, List.foldl_nil]
    generalize ((List.range n).map (fun (i : Nat) => s.loadedTable.left + (i : Int))).foldl
      relayoutColumnStep (s, x0) = acc at i1 i2 i3 ⊢
    have hc1 : s.loadedTable.left ≤ s.loadedTable.left + (n : Int) := by omega
    have hc2 : s.loadedTable.left + (n : Int) ≤ s.loadedTable.right := by
      simp only [QRect.width, QRect.left, QRect.right] at hn ⊢
      omega
    have hur := sameSizes_resolveColumnWidth acc.1 (s.loadedTable.left + (n : Int))
    have hsr := i1.chain hur
    have hfr : Filled (resolveColumnWidth acc.1 (s.loadedTable.left + (n : Int))).2 :=
      hs.of_sameSizes hsr
    have hr1 := (resolved_sameSizes i1 (s.loadedTable.left + (n : Int)) 0).1
    obtain ⟨k1, k2⟩ := relayoutColumnCells_spec
      (resolveColumnWidth acc.1 (s.loadedTable.left + (n : Int))).2 hfr
      (s.loadedTable.left + (n : Int)) (by rw [hsr.1]; exact hc1) (by rw [hsr.1]; exact hc2)
      acc.2 (resolveColumnWidth acc.1 (s.loadedTable.left + (n : Int))).1
    have hall := hsr.chain k1
    refine ⟨hall, ?_, ?_⟩
    · show acc.2 + (resolveColumnWidth acc.1 (s.loadedTable.left + (n : Int))).1 +
        (relayoutColumnCells _ _ _ _).cellSpacing.width = _
      rw [hall.2.2.2.2.1, hr1, i2]
      have := columnOffset_succ s (s.loadedTable.left + (n : Int)) hc1
      have e : s.loadedTable.left + ((n + 1 : Nat) : Int) = s.loadedTable.left + (n : Int) + 1 := by
        push_cast
        ring
      rw [e, this]
      ring
    · intro cell hcell
      show (loadedTableItem (relayoutColumnCells _ _ _ _) cell).geometry = _
      rw [k2 cell (by rw [hsr.1]; exact hcell), loadedTableItem_resolveColumnWidth,
        i3 cell hcell, hr1, i2]
      by_cases hx : cell.x = s.loadedTable.left + (n : Int)
      · have h1 : ¬ cell.x < s.loadedTable.left + (n : Int) := by omega
        have h2 : cell.x < s.loadedTable.left + ((n + 1 : Nat) : Int) := by
          push_cast
          omega
        rw [if_pos hx, if_neg h1, if_pos h2, hx]
      · rw [if_neg hx]
        by_cases h1 : cell.x < s.loadedTable.left + (n : Int)
        · have h2 : cell.x < s.loadedTable.left + ((n + 1 : Nat) : Int) := by
            push_cast
            omega
          rw [if_pos h1, if_pos h2]
        · have h2 : ¬ cell.x < s.loadedTable.left + ((n + 1 : Nat) : Int) := by
            push_cast
            omega
          rw [if_neg h1, if_neg h2]

theorem relayoutRows_prefix (s : State) (hs : Filled s) (y0 : ℚ) (n : Nat)
    (hn : (n : Int) ≤ s.loadedTable.height) :
    SameSizes s (((List.range n).map (fun (i : Nat) => s.loadedTable.top + (i : Int))).foldl
      relayoutRowStep (s, y0)).1 ∧
    (((List.range n).map (fun (i : Nat) => s.loadedTable.top + (i : Int))).foldl
      relayoutRowStep (s, y0)).2 = y0 + rowOffset s (s.loadedTable.top + n) ∧
    ∀ cell, s.loadedTable.containsCell cell →
      (loadedTableItem (((List.range n).map
          (fun (i : Nat) => s.loadedTable.top + (i : Int))).foldl
            relayoutRowStep (s, y0)).1 cell).geometry =
        if cell.y < s.loadedTable.top + n then
          (⟨(loadedTableItem s cell).geometry.xp, y0 + rowOffset s cell.y,
            (loadedTableItem s cell).geometry.w, (resolveRowHeight s cell.y).1⟩ : QRectF)
        else (loadedTableItem s cell).geometry := by
  induction n with
  | zero =>
    refine ⟨SameSizes.self s, ?_, ?_⟩
    · simp [rowOffset_top]
    · intro cell hcell
      have : ¬ cell.y < s.loadedTable.top + ((0 : Nat) : Int) := by
        have := hcell.2.2.1
        simp only [QRect.top]
        omega
      rw [if_neg this]
      rfl
  | succ n ih =>
    have hn' : (n : Int) ≤ s.loadedTable.height := by omega
    obtain ⟨i1, i2, i3⟩ := ih hn'
    rw [List.range_succ, List.map_append, List.foldl_append, List.map_singleton,
      List.foldl_cons, List.foldl_nil]
    generalize ((List.range n).map (fun (i : Nat) => s.loadedTable.top + (i : Int))).foldl
      relayoutRowStep (s, y0) = acc at i1 i2 i3 ⊢
    have hc1 : s.loadedTable.top ≤ s.loadedTable.top + (n : Int) := by omega
    have hc2 : s.loadedTable.top + (n : Int) ≤ s.loadedTable.bottom := by
      simp only [QRect.height, QRect.top, QRect.bottom] at hn ⊢
      omega
    have hur := sameSizes_resolveRowHeight acc.1 (s.loadedTable.top + (n : Int))
    have hsr := i1.chain hur
    have hfr : Filled (resolveRowHeight acc.1 (s.loadedTable.top + (n : Int))).2 :=
      hs.of_sameSizes hsr
    have hr1 := (resolved_sameSizes i1 0 (s.loadedTable.top + (n : Int))).2
    obtain ⟨k1, k2⟩ := relayoutRowCells_spec
      (resolveRowHeight acc.1 (s.loadedTable.top + (n : Int))).2 hfr
      (s.loadedTable.top + (n : Int)) (by rw [hsr.1]; exact hc1) (by rw [hsr.1]; exact hc2)
      acc.2 (resolveRowHeight acc.1 (s.loadedTable.top + (n : Int))).1
    have hall := hsr.chain k1
    refine ⟨hall, ?_, ?_⟩
    · show acc.2 + (resolveRowHeight acc.1 (s.loadedTable.top + (n : Int))).1 +
        (relayoutRowCells _ _ _ _).cellSpacing.height = _
      rw [hall.2.2.2.2.1, hr1, i2]
      have := rowOffset_succ s (s.loadedTable.top + (n : Int)) hc1
      have e : s.loadedTable.top + ((n + 1 : Nat) : Int) = s.loadedTable.top + (n : Int) + 1 := by
        push_cast
        ring
      rw [e, this]
      ring
    · intro cell hcell
      show (loadedTableItem (relayoutRowCells _ _ _ _) cell).geometry = _
      rw [k2 cell (by rw [hsr.1]; exact hcell), loadedTableItem_resolveRowHeight,
        i3 cell hcell, hr1, i2]
      by_cases hx : cell.y = s.loadedTable.top + (n : Int)
      · have h1 : ¬ cell.y < s.loadedTable.top + (n : Int) := by omega
        have h2 : cell.y < s.loadedTable.top + ((n + 1 : Nat) : Int) := by
          push_cast
          omega
        rw [if_pos hx, if_neg h1, if_pos h2, hx]
      · rw [if_neg hx]
        by_cases h1 : cell.y < s.loadedTable.top + (n : Int)
        · have h2 : cell.y < s.loadedTable.top + ((n + 1 : Nat) : Int) := by
            push_cast
            omega
          rw [if_pos h1, if_pos h2]
        · have h2 : ¬ cell.y < s.loadedTable.top + ((n + 1 : Nat) : Int) := by
            push_cast
            omega
          rw [if_neg h1, if_neg h2]
theorem columnOffset_sameSizes {s t : State} (h : SameSizes s t) (column : Int) :
    columnOffset t column = columnOffset s column := by
  unfold columnOffset
  rw [h.1, h.2.2.2.2.1]
  congr 1
  apply List.map_congr_left
  intro c _
  rw [(resolved_sameSizes h c 0).1]

theorem rowOffset_sameSizes {s t : State} (h : SameSizes s t) (row : Int) :
    rowOffset t row = rowOffset s row := by
  unfold rowOffset
  rw [h.1, h.2.2.2.2.1]
  congr 1
  apply List.map_congr_left
  intro r _
  rw [(resolved_sameSizes h 0 r).2]

theorem sameSizes_relayoutTableItems (s : State) (hs : Filled s) :
    SameSizes s (relayoutTableItems s) ∧
    ∀ cell, s.loadedTable.containsCell cell →
      (loadedTableItem (relayoutTableItems s) cell).geometry =
        (⟨s.loadedTableOuterRect.x + columnOffset s cell.x,
          s.loadedTableOuterRect.y + rowOffset s cell.y,
          (resolveColumnWidth s cell.x).1, (resolveRowHeight s cell.y).1⟩ : QRectF) := by
  have h0 : SameSizes s ({ s with columnRowPositionsInvalid := false } : State) :=
    ⟨rfl, rfl, rfl, rfl, rfl, rfl, fun _ => ⟨rfl, rfl, rfl⟩⟩
  have hf0 := hs.of_sameSizes h0
  have hw : ((s.loadedTable.right - s.loadedTable.left + 1).toNat : Int) = s.loadedTable.width := by
    have := hs.1.2.1
    simp only [QRect.width, QRect.left, QRect.right]
    omega
  have hh : ((s.loadedTable.bottom - s.loadedTable.top + 1).toNat : Int) =
      s.loadedTable.height := by
    have := hs.1.2.2.2.2.1
    simp only [QRect.height, QRect.top, QRect.bottom]
    omega
  obtain ⟨c1, _, c3⟩ := relayoutColumns_prefix ({ s with columnRowPositionsInvalid := false } : State)
    hf0 s.loadedTableOuterRect.x (s.loadedTable.right - s.loadedTable.left + 1).toNat
    (le_of_eq hw)
  have hs1 := h0.chain c1
  have hf1 := hs.of_sameSizes hs1
  have e1 := hs1.1
  obtain ⟨r1, _, r3⟩ := relayoutRows_prefix _ hf1 s.loadedTableOuterRect.y
    (s.loadedTable.bottom - s.loadedTable.top + 1).toNat (by rw [e1]; exact le_of_eq hh)
  have hrun : relayoutTableItems s =
      (((List.range (s.loadedTable.bottom - s.loadedTable.top + 1).toNat).map
        (fun (i : Nat) => (((List.range (s.loadedTable.right - s.loadedTable.left + 1).toNat).map
          (fun (i : Nat) => ({ s with columnRowPositionsInvalid := false } : State).loadedTable.left +
            (i : Int))).foldl relayoutColumnStep
              (({ s with columnRowPositionsInvalid := false } : State),
                s.loadedTableOuterRect.x)).1.loadedTable.top + (i : Int))).foldl relayoutRowStep
        ((((List.range (s.loadedTable.right - s.loadedTable.left + 1).toNat).map
          (fun (i : Nat) => ({ s with columnRowPositionsInvalid := false } : State).loadedTable.left +
            (i : Int))).foldl relayoutColumnStep
              (({ s with columnRowPositionsInvalid := false } : State),
                s.loadedTableOuterRect.x)).1, s.loadedTableOuterRect.y)).1 := by
    unfold relayoutTableItems
    simp only [intRange_eq_range]
    rw [e1]
  rw [hrun]
  refine ⟨hs1.chain r1, ?_⟩
  intro cell hcell
  rw [r3 cell (by rw [e1]; exact hcell), c3 cell hcell]
  have hx : cell.x < ({ s with columnRowPositionsInvalid := false } : State).loadedTable.left +
      ((s.loadedTable.right - s.loadedTable.left + 1).toNat : Int) := by
    have := hcell.2.1
    rw [hw]
    show cell.x < s.loadedTable.left + s.loadedTable.width
    simp only [QRect.width, QRect.left]
    omega
  have hy : cell.y < (((List.range (s.loadedTable.right - s.loadedTable.left + 1).toNat).map
      (fun (i : Nat) => ({ s with columnRowPositionsInvalid := false } : State).loadedTable.left +
        (i : Int))).foldl relayoutColumnStep
          (({ s with columnRowPositionsInvalid := false } : State),
            s.loadedTableOuterRect.x)).1.loadedTable.top +
      ((s.loadedTable.bottom - s.loadedTable.top + 1).toNat : Int) := by
    have := hcell.2.2.2
    rw [hh, e1]
    simp only [QRect.height, QRect.top]
    omega
  rw [if_pos hy, if_pos hx, rowOffset_sameSizes hs1, (resolved_sameSizes hs1 0 cell.y).2,
    columnOffset_sameSizes h0, (resolved_sameSizes h0 cell.x 0).1]

/-- Claim C23: after `relayoutTableItems` on a loaded table that lies in the
grid and has an item for each of its cells, the item of every loaded cell
`(c, r)` has the width `resolveColumnWidth(c)`, the left
`loadedTableOuterRect.x()` plus the sum of `resolveColumnWidth(c') +
columnSpacing` over the loaded columns `c'` left of `c`, the height
`resolveRowHeight(r)` and the top `loadedTableOuterRect.y()` plus the sum of
`resolveRowHeight(r') + rowSpacing` over the loaded rows `r'` above `r`; so
the items of one column share left and width and the items of one row share
top and height. The resolved sizes are the same before and after. -/
theorem relayoutTableItems_geometry (s : State) (hs : Filled s) :
    (∀ cell, s.loadedTable.containsCell cell →
      (loadedTableItem (relayoutTableItems s) cell).geometry.width =
        (resolveColumnWidth s cell.x).1 ∧
      (loadedTableItem (relayoutTableItems s) cell).geometry.left =
        s.loadedTableOuterRect.x +
          ((intRange s.loadedTable.left (cell.x - 1)).map
            (fun c => (resolveColumnWidth s c).1 + s.cellSpacing.width)).sum ∧
      (loadedTableItem (relayoutTableItems s) cell).geometry.height =
        (resolveRowHeight s cell.y).1 ∧
      (loadedTableItem (relayoutTableItems s) cell).geometry.top =
        s.loadedTableOuterRect.y +
          ((intRange s.loadedTable.top (cell.y - 1)).map
            (fun r => (resolveRowHeight s r).1 + s.cellSpacing.height)).sum) ∧
    (∀ c d, s.loadedTable.containsCell c → s.loadedTable.containsCell d →
      (c.x = d.x →
        (loadedTableItem (relayoutTableItems s) c).geometry.left =
          (loadedTableItem (relayoutTableItems s) d).geometry.left ∧
        (loadedTableItem (relayoutTableItems s) c).geometry.width =
          (loadedTableItem (relayoutTableItems s) d).geometry.width) ∧
      (c.y = d.y →
        (loadedTableItem (relayoutTableItems s) c).geometry.top =
          (loadedTableItem (relayoutTableItems s) d).geometry.top ∧
        (loadedTableItem (relayoutTableItems s) c).geometry.height =
          (loadedTableItem (relayoutTableItems s) d).geometry.height)) ∧
    (∀ column row,
      (resolveColumnWidth (relayoutTableItems s) column).1 = (resolveColumnWidth s column).1 ∧
      (resolveRowHeight (relayoutTableItems s) row).1 = (resolveRowHeight s row).1) := by
  obtain ⟨h1, h2⟩ := sameSizes_relayoutTableItems s hs
  refine ⟨?_, ?_, fun column row => resolved_sameSizes h1 column row⟩
  · intro cell hcell
    rw [h2 cell hcell]
    exact ⟨rfl, rfl, rfl, rfl⟩
  · intro c d hc hd
    rw [h2 c hc, h2 d hd]
    constructor
    · intro h
      simp only [QRectF.left, QRectF.width, h]
      exact ⟨trivial, trivial⟩
    · intro h
      simp only [QRectF.top, QRectF.height, h]
      exact ⟨trivial, trivial⟩

set_option maxRecDepth 100000 in
theorem examplePolished_filled : filledCheck examplePolished = true := by
  decide!

/-- Claim C23, instance: in the polished example view, whose items are 100
wide and 50 high with no spacing, a relayout puts the item of cell (2, 3) at
(200, 150) with size 100 x 50. -/
theorem relayoutTableItems_geometry_witness :
    Filled examplePolished ∧ examplePolished.loadedTable.containsCell ⟨2, 3⟩ ∧
    (loadedTableItem (relayoutTableItems examplePolished) ⟨2, 3⟩).geometry.width =
      (resolveColumnWidth examplePolished 2).1 ∧
    (loadedTableItem (relayoutTableItems examplePolished) ⟨2, 3⟩).geometry.left =
      examplePolished.loadedTableOuterRect.x +
        ((intRange examplePolished.loadedTable.left (2 - 1)).map
          (fun c => (resolveColumnWidth examplePolished c).1 +
            examplePolished.cellSpacing.width)).sum :=
  ⟨filled_of_check _ examplePolished_filled, by rw [examplePolished_loadedTable]; decide,
    ((relayoutTableItems_geometry examplePolished (filled_of_check _ examplePolished_filled)).1
      ⟨2, 3⟩ (by rw [examplePolished_loadedTable]; decide)).1,
    ((relayoutTableItems_geometry examplePolished (filled_of_check _ examplePolished_filled)).1
      ⟨2, 3⟩ (by rw [examplePolished_loadedTable]; decide)).2.1⟩

/-! ## Layout of a new edge (claim C24) -/

theorem layoutVerticalEdgeStep_eq (tableEdge : Edge) (column : Int) (width : ℚ)
    (acc : State × ℚ) (row : Int) :
    layoutVerticalEdgeStep tableEdge column width acc row =
      (updateTableItem acc.1 ⟨column, row⟩ (fun item => (item.setGeometry
          ⟨(if acc.2 = -1 then
              (if tableEdge = Edge.LeftEdge then
                (loadedTableItem acc.1 ((loadedTableItem acc.1 ⟨column, row⟩).cell.add
                  (if tableEdge = Edge.LeftEdge then kRight else kLeft))).geometry.left -
                    acc.1.cellSpacing.width - width
              else (loadedTableItem acc.1 ((loadedTableItem acc.1 ⟨column, row⟩).cell.add
                (if tableEdge = Edge.LeftEdge then kRight else kLeft))).geometry.right +
                  acc.1.cellSpacing.width)
            else acc.2),
            (loadedTableItem acc.1 ((loadedTableItem acc.1 ⟨column, row⟩).cell.add
              (if tableEdge = Edge.LeftEdge then kRight else kLeft))).geometry.yp,
            width,
            (loadedTableItem acc.1 ((loadedTableItem acc.1 ⟨column, row⟩).cell.add
              (if tableEdge = Edge.LeftEdge then kRight else kLeft))).geometry.h⟩).setVisible true),
        (if acc.2 = -1 then
          (if tableEdge = Edge.LeftEdge then
            (loadedTableItem acc.1 ((loadedTableItem acc.1 ⟨column, row⟩).cell.add
              (if tableEdge = Edge.LeftEdge then kRight else kLeft))).geometry.left -
                acc.1.cellSpacing.width - width
          else (loadedTableItem acc.1 ((loadedTableItem acc.1 ⟨column, row⟩).cell.add
            (if tableEdge = Edge.LeftEdge then kRight else kLeft))).geometry.right +
              acc.1.cellSpacing.width)
        else acc.2)) := rfl

theorem neighbour_of_edgeColumn (s : State) (tableEdge : Edge) (row : Int) :
    (⟨edgeColumn s tableEdge, row⟩ : QPoint).add
      (if tableEdge = Edge.LeftEdge then kRight else kLeft) =
      ⟨neighbourColumn s tableEdge, row⟩ := by
  unfold edgeColumn neighbourColumn
  split_ifs
  · simp [QPoint.add, kRight]
  · simp [QPoint.add, kLeft]
    omega

theorem layoutVerticalEdge_prefix (s : State) (hs : Filled s) (tableEdge : Edge)
    (hw : 1 < s.loadedTable.width) (width : ℚ)
    (hsent : edgeLeftAt s tableEdge width s.loadedTable.top ≠ -1 ∨
      ∀ row, s.loadedTable.top ≤ row → row ≤ s.loadedTable.bottom →
        edgeLeftAt s tableEdge width row = edgeLeftAt s tableEdge width s.loadedTable.top)
    (k : Nat) (hk : (k : Int) ≤ s.loadedTable.height) :
    SameSizes s (((List.range k).map (fun (i : Nat) => s.loadedTable.top + (i : Int))).foldl
      (layoutVerticalEdgeStep tableEdge (edgeColumn s tableEdge) width) (s, -1)).1 ∧
    (k = 0 → (((List.range k).map (fun (i : Nat) => s.loadedTable.top + (i : Int))).foldl
      (layoutVerticalEdgeStep tableEdge (edgeColumn s tableEdge) width) (s, -1)).2 = -1) ∧
    (0 < k → (((List.range k).map (fun (i : Nat) => s.loadedTable.top + (i : Int))).foldl
      (layoutVerticalEdgeStep tableEdge (edgeColumn s tableEdge) width) (s, -1)).2 =
        edgeLeftAt s tableEdge width s.loadedTable.top) ∧
    ∀ cell, s.loadedTable.containsCell cell →
      loadedTableItem (((List.range k).map
        (fun (i : Nat) => s.loadedTable.top + (i : Int))).foldl
          (layoutVerticalEdgeStep tableEdge (edgeColumn s tableEdge) width) (s, -1)).1 cell =
        if cell.x = edgeColumn s tableEdge ∧ cell.y < s.loadedTable.top + k then
          ((loadedTableItem s cell).setGeometry
            ⟨edgeLeftAt s tableEdge width s.loadedTable.top,
              (loadedTableItem s ⟨neighbourColumn s tableEdge, cell.y⟩).geometry.yp, width,
              (loadedTableItem s ⟨neighbourColumn s tableEdge, cell.y⟩).geometry.h⟩).setVisible
                true
        else loadedTableItem s cell := by
  have hcol : s.loadedTable.left ≤ edgeColumn s tableEdge ∧
      edgeColumn s tableEdge ≤ s.loadedTable.right := by
    simp only [QRect.width, QRect.left, QRect.right] at hw ⊢
    unfold edgeColumn
    simp only [QRect.left, QRect.right]
    split_ifs <;> constructor <;> omega
  have hnb : s.loadedTable.left ≤ neighbourColumn s tableEdge ∧
      neighbourColumn s tableEdge ≤ s.loadedTable.right ∧
      neighbourColumn s tableEdge ≠ edgeColumn s tableEdge := by
    simp only [QRect.width, QRect.left, QRect.right] at hw ⊢
    unfold neighbourColumn edgeColumn
    simp only [QRect.left, QRect.right]
    split_ifs <;> refine ⟨?_, ?_, ?_⟩ <;> omega
  induction k with
  | zero =>
    refine ⟨SameSizes.self s, fun _ => rfl, fun h => absurd h (by decide), ?_⟩
    intro cell hcell
    have : ¬ (cell.x = edgeColumn s tableEdge ∧ cell.y < s.loadedTable.top + ((0 : Nat) : Int)) := by
      have := hcell.2.2.1
      simp only [QRect.top]
      omega
    rw [if_neg this]
    rfl
  | succ k ih =>
    have hk' : (k : Int) ≤ s.loadedTable.height := by omega
    obtain ⟨i1, i2, i3, i4⟩ := ih hk'
    rw [List.range_succ, List.map_append, List.foldl_append, List.map_singleton,
      List.foldl_cons, List.foldl_nil]
    generalize ((List.range k).map (fun (i : Nat) => s.loadedTable.top + (i : Int))).foldl
      (layoutVerticalEdgeStep tableEdge (edgeColumn s tableEdge) width) (s, -1) = acc
      at i1 i2 i3 i4 ⊢
    have hr1 : s.loadedTable.top ≤ s.loadedTable.top + (k : Int) := by omega
    have hr2 : s.loadedTable.top + (k : Int) ≤ s.loadedTable.bottom := by
      simp only [QRect.height, QRect.top, QRect.bottom] at hk ⊢
      omega
    have hown : s.loadedTable.containsCell ⟨edgeColumn s tableEdge, s.loadedTable.top + (k : Int)⟩ :=
      ⟨hcol.1, hcol.2, hr1, hr2⟩
    have hnbc : s.loadedTable.containsCell
        ⟨neighbourColumn s tableEdge, s.loadedTable.top + (k : Int)⟩ :=
      ⟨hnb.1, hnb.2.1, hr1, hr2⟩
    have e1 : loadedTableItem acc.1 ⟨edgeColumn s tableEdge, s.loadedTable.top + (k : Int)⟩ =
        loadedTableItem s ⟨edgeColumn s tableEdge, s.loadedTable.top + (k : Int)⟩ := by
      rw [i4 _ hown, if_neg]
      simp only [not_and, not_lt]
      intro _
      exact le_refl _
    have e2 : loadedTableItem acc.1 ⟨neighbourColumn s tableEdge, s.loadedTable.top + (k : Int)⟩ =
        loadedTableItem s ⟨neighbourColumn s tableEdge, s.loadedTable.top + (k : Int)⟩ := by
      rw [i4 _ hnbc, if_neg]
      simp only [not_and]
      intro h
      exact absurd h hnb.2.2
    have e3 : (loadedTableItem acc.1 ⟨edgeColumn s tableEdge, s.loadedTable.top + (k : Int)⟩).cell.add
        (if tableEdge = Edge.LeftEdge then kRight else kLeft) =
        ⟨neighbourColumn s tableEdge, s.loadedTable.top + (k : Int)⟩ := by
      rw [e1, (hs.2 _ hown).2]
      exact neighbour_of_edgeColumn s tableEdge _
    have hleft : (if acc.2 = -1 then
          (if tableEdge = Edge.LeftEdge then
            (loadedTableItem s ⟨neighbourColumn s tableEdge,
              s.loadedTable.top + (k : Int)⟩).geometry.left - s.cellSpacing.width - width
          else (loadedTableItem s ⟨neighbourColumn s tableEdge,
            s.loadedTable.top + (k : Int)⟩).geometry.right + s.cellSpacing.width)
        else acc.2) = edgeLeftAt s tableEdge width s.loadedTable.top := by
      have hcomp : (if tableEdge = Edge.LeftEdge then
            (loadedTableItem s ⟨neighbourColumn s tableEdge,
              s.loadedTable.top + (k : Int)⟩).geometry.left - s.cellSpacing.width - width
          else (loadedTableItem s ⟨neighbourColumn s tableEdge,
            s.loadedTable.top + (k : Int)⟩).geometry.right + s.cellSpacing.width) =
          edgeLeftAt s tableEdge width (s.loadedTable.top + (k : Int)) := rfl
      rw [hcomp]
      cases k with
      | zero =>
        rw [if_pos (i2 rfl)]
        simp
      | succ j =>
        have hacc := i3 (Nat.succ_pos j)
        by_cases hm : acc.2 = -1
        · rw [if_pos hm]
          rcases hsent with h | h
          · exact absurd (hacc.symm.trans hm) h
          · exact h _ hr1 hr2
        · rw [if_neg hm]
          exact hacc
    rw [layoutVerticalEdgeStep_eq, e3, e2, i1.2.2.2.2.1, hleft]
    refine ⟨i1.chain (sameSizes_updateTableItem _ _ _ (fun item => ⟨rfl, rfl, rfl⟩)),
      fun h => absurd h (Nat.succ_ne_zero k), fun _ => rfl, ?_⟩
    intro cell hcell
    have hkey : modelIndexAtCell acc.1 ⟨edgeColumn s tableEdge, s.loadedTable.top + (k : Int)⟩ ∈
        acc.1.loadedItems.keys := by
      rw [i1.2.2.2.2.2.1]
      have := (hs.2 _ hown).1
      simpa only [modelIndexAtCell, i1.2.1] using this
    by_cases hcc : cell = ⟨edgeColumn s tableEdge, s.loadedTable.top + (k : Int)⟩
    · subst hcc
      have hc : (edgeColumn s tableEdge = edgeColumn s tableEdge ∧
          s.loadedTable.top + (k : Int) < s.loadedTable.top + ((k + 1 : Nat) : Int)) := by
        refine ⟨rfl, ?_⟩
        push_cast
        omega
      rw [if_pos hc]
      show loadedTableItem (updateTableItem acc.1 _ _) _ = _
      rw [loadedTableItem_updateTableItem_same _ _ _ hkey, e1]
    · have hne : modelIndexAtCell acc.1 cell ≠ modelIndexAtCell acc.1
          ⟨edgeColumn s tableEdge, s.loadedTable.top + (k : Int)⟩ := by
        intro h
        apply hcc
        have hf := hs.of_sameSizes i1
        exact cellIndex_injective acc.1.tableSize _ _
          (cellInGrid_of_filled hf (by rw [i1.1]; exact hcell))
          (cellInGrid_of_filled hf (by rw [i1.1]; exact hown)) h
      show loadedTableItem (updateTableItem acc.1 _ _) _ = _
      rw [loadedTableItem_updateTableItem_other _ _ _ _ hne, i4 cell hcell]
      have hiff : (cell.x = edgeColumn s tableEdge ∧ cell.y < s.loadedTable.top + (k : Int)) ↔
          (cell.x = edgeColumn s tableEdge ∧
            cell.y < s.loadedTable.top + ((k + 1 : Nat) : Int)) := by
        constructor
        · rintro ⟨h1, h2⟩
          exact ⟨h1, by push_cast; omega⟩
        · rintro ⟨h1, h2⟩
          refine ⟨h1, ?_⟩
          push_cast at h2
          by_contra hge
          apply hcc
          have : cell.y = s.loadedTable.top + (k : Int) := by omega
          cases cell
          simp only [QPoint.mk.injEq]
          exact ⟨h1, this⟩
      by_cases hcond : cell.x = edgeColumn s tableEdge ∧ cell.y < s.loadedTable.top + (k : Int)
      · rw [if_pos hcond, if_pos (hiff.mp hcond)]
      · rw [if_neg hcond, if_neg (fun h => hcond (hiff.mpr h))]
theorem layoutHorizontalEdgeStep_eq (tableEdge : Edge) (row : Int) (height : ℚ)
    (acc : State × ℚ) (column : Int) :
    layoutHorizontalEdgeStep tableEdge row height acc column =
      (updateTableItem acc.1 ⟨column, row⟩ (fun item => (item.setGeometry
          ⟨(loadedTableItem acc.1 ((loadedTableItem acc.1 ⟨column, row⟩).cell.add
              (if tableEdge = Edge.TopEdge then kDown else kUp))).geometry.xp,
            (if acc.2 = -1 then
              (if tableEdge = Edge.TopEdge then
                (loadedTableItem acc.1 ((loadedTableItem acc.1 ⟨column, row⟩).cell.add
                  (if tableEdge = Edge.TopEdge then kDown else kUp))).geometry.top -
                    acc.1.cellSpacing.height - height
              else (loadedTableItem acc.1 ((loadedTableItem acc.1 ⟨column, row⟩).cell.add
                (if tableEdge = Edge.TopEdge then kDown else kUp))).geometry.bottom +
                  acc.1.cellSpacing.height)
            else acc.2),
            (loadedTableItem acc.1 ((loadedTableItem acc.1 ⟨column, row⟩).cell.add
              (if tableEdge = Edge.TopEdge then kDown else kUp))).geometry.w,
            height⟩).setVisible true),
        (if acc.2 = -1 then
          (if tableEdge = Edge.TopEdge then
            (loadedTableItem acc.1 ((loadedTableItem acc.1 ⟨column, row⟩).cell.add
              (if tableEdge = Edge.TopEdge then kDown else kUp))).geometry.top -
                acc.1.cellSpacing.height - height
          else (loadedTableItem acc.1 ((loadedTableItem acc.1 ⟨column, row⟩).cell.add
            (if tableEdge = Edge.TopEdge then kDown else kUp))).geometry.bottom +
              acc.1.cellSpacing.height)
        else acc.2)) := rfl

theorem neighbour_of_edgeRow (s : State) (tableEdge : Edge) (column : Int) :
    (⟨column, edgeRow s tableEdge⟩ : QPoint).add
      (if tableEdge = Edge.TopEdge then kDown else kUp) =
      ⟨column, neighbourRow s tableEdge⟩ := by
  unfold edgeRow neighbourRow
  split_ifs
  · simp [QPoint.add, kDown]
  · simp [QPoint.add, kUp]
    omega

theorem layoutHorizontalEdge_prefix (s : State) (hs : Filled s) (tableEdge : Edge)
    (hw : 1 < s.loadedTable.height) (height : ℚ)
    (hsent : edgeTopAt s tableEdge height s.loadedTable.left ≠ -1 ∨
      ∀ column, s.loadedTable.left ≤ column → column ≤ s.loadedTable.right →
        edgeTopAt s tableEdge height column = edgeTopAt s tableEdge height s.loadedTable.left)
    (k : Nat) (hk : (k : Int) ≤ s.loadedTable.width) :
    SameSizes s (((List.range k).map (fun (i : Nat) => s.loadedTable.left + (i : Int))).foldl
      (layoutHorizontalEdgeStep tableEdge (edgeRow s tableEdge) height) (s, -1)).1 ∧
    (k = 0 → (((List.range k).map (fun (i : Nat) => s.loadedTable.left + (i : Int))).foldl
      (layoutHorizontalEdgeStep tableEdge (edgeRow s tableEdge) height) (s, -1)).2 = -1) ∧
    (0 < k → (((List.range k).map (fun (i : Nat) => s.loadedTable.left + (i : Int))).foldl
      (layoutHorizontalEdgeStep tableEdge (edgeRow s tableEdge) height) (s, -1)).2 =
        edgeTopAt s tableEdge height s.loadedTable.left) ∧
    ∀ cell, s.loadedTable.containsCell cell →
      loadedTableItem (((List.range k).map
        (fun (i : Nat) => s.loadedTable.left + (i : Int))).foldl
          (layoutHorizontalEdgeStep tableEdge (edgeRow s tableEdge) height) (s, -1)).1 cell =
        if cell.y = edgeRow s tableEdge ∧ cell.x < s.loadedTable.left + k then
          ((loadedTableItem s cell).setGeometry
            ⟨(loadedTableItem s ⟨cell.x, neighbourRow s tableEdge⟩).geometry.xp,
              edgeTopAt s tableEdge height s.loadedTable.left,
              (loadedTableItem s ⟨cell.x, neighbourRow s tableEdge⟩).geometry.w,
              height⟩).setVisible true
        else loadedTableItem s cell := by
  have hcol : s.loadedTable.top ≤ edgeRow s tableEdge ∧
      edgeRow s tableEdge ≤ s.loadedTable.bottom := by
    simp only [QRect.height, QRect.top, QRect.bottom] at hw ⊢
    unfold edgeRow
    simp only [QRect.top, QRect.bottom]
    split_ifs <;> constructor <;> omega
  have hnb : s.loadedTable.top ≤ neighbourRow s tableEdge ∧
      neighbourRow s tableEdge ≤ s.loadedTable.bottom ∧
      neighbourRow s tableEdge ≠ edgeRow s tableEdge := by
    simp only [QRect.height, QRect.top, QRect.bottom] at hw ⊢
    unfold neighbourRow edgeRow
    simp only [QRect.top, QRect.bottom]
    split_ifs <;> refine ⟨?_, ?_, ?_⟩ <;> omega
  induction k with
  | zero =>
    refine ⟨SameSizes.self s, fun _ => rfl, fun h => absurd h (by decide), ?_⟩
    intro cell hcell
    have : ¬ (cell.y = edgeRow s tableEdge ∧ cell.x < s.loadedTable.left + ((0 : Nat) : Int)) := by
      have := hcell.1
      simp only [QRect.left]
      omega
    rw [if_neg this]
    rfl
  | succ k ih =>
    have hk' : (k : Int) ≤ s.loadedTable.width := by omega
    obtain ⟨i1, i2, i3, i4⟩ := ih hk'
    rw [List.range_succ, List.map_append, List.foldl_append, List.map_singleton,
      List.foldl_cons, List.foldl_nil]
    generalize ((List.range k).map (fun (i : Nat) => s.loadedTable.left + (i : Int))).foldl
      (layoutHorizontalEdgeStep tableEdge (edgeRow s tableEdge) height) (s, -1) = acc
      at i1 i2 i3 i4 ⊢
    have hr1 : s.loadedTable.left ≤ s.loadedTable.left + (k : Int) := by omega
    have hr2 : s.loadedTable.left + (k : Int) ≤ s.loadedTable.right := by
      simp only [QRect.width, QRect.left, QRect.right] at hk ⊢
      omega
    have hown : s.loadedTable.containsCell ⟨s.loadedTable.left + (k : Int), edgeRow s tableEdge⟩ :=
      ⟨hr1, hr2, hcol.1, hcol.2⟩
    have hnbc : s.loadedTable.containsCell
        ⟨s.loadedTable.left + (k : Int), neighbourRow s tableEdge⟩ :=
      ⟨hr1, hr2, hnb.1, hnb.2.1⟩
    have e1 : loadedTableItem acc.1 ⟨s.loadedTable.left + (k : Int), edgeRow s tableEdge⟩ =
        loadedTableItem s ⟨s.loadedTable.left + (k : Int), edgeRow s tableEdge⟩ := by
      rw [i4 _ hown, if_neg]
      simp only [not_and, not_lt]
      intro _
      exact le_refl _
    have e2 : loadedTableItem acc.1 ⟨s.loadedTable.left + (k : Int), neighbourRow s tableEdge⟩ =
        loadedTableItem s ⟨s.loadedTable.left + (k : Int), neighbourRow s tableEdge⟩ := by
      rw [i4 _ hnbc, if_neg]
      simp only [not_and]
      intro h
      exact absurd h hnb.2.2
    have e3 : (loadedTableItem acc.1 ⟨s.loadedTable.left + (k : Int), edgeRow s tableEdge⟩).cell.add
        (if tableEdge = Edge.TopEdge then kDown else kUp) =
        ⟨s.loadedTable.left + (k : Int), neighbourRow s tableEdge⟩ := by
      rw [e1, (hs.2 _ hown).2]
      exact neighbour_of_edgeRow s tableEdge _
    have htop : (if acc.2 = -1 then
          (if tableEdge = Edge.TopEdge then
            (loadedTableItem s ⟨s.loadedTable.left + (k : Int),
              neighbourRow s tableEdge⟩).geometry.top - s.cellSpacing.height - height
          else (loadedTableItem s ⟨s.loadedTable.left + (k : Int),
            neighbourRow s tableEdge⟩).geometry.bottom + s.cellSpacing.height)
        else acc.2) = edgeTopAt s tableEdge height s.loadedTable.left := by
      have hcomp : (if tableEdge = Edge.TopEdge then
            (loadedTableItem s ⟨s.loadedTable.left + (k : Int),
              neighbourRow s tableEdge⟩).geometry.top - s.cellSpacing.height - height
          else (loadedTableItem s ⟨s.loadedTable.left + (k : Int),
            neighbourRow s tableEdge⟩).geometry.bottom + s.cellSpacing.height) =
          edgeTopAt s tableEdge height (s.loadedTable.left + (k : Int)) := rfl
      rw [hcomp]
      cases k with
      | zero =>
        rw [if_pos (i2 rfl)]
        simp
      | succ j =>
        have hacc := i3 (Nat.succ_pos j)
        by_cases hm : acc.2 = -1
        · rw [if_pos hm]
          rcases hsent with h | h
          · exact absurd (hacc.symm.trans hm) h
          · exact h _ hr1 hr2
        · rw [if_neg hm]
          exact hacc
    rw [layoutHorizontalEdgeStep_eq, e3, e2, i1.2.2.2.2.1, htop]
    refine ⟨i1.chain (sameSizes_updateTableItem _ _ _ (fun item => ⟨rfl, rfl, rfl⟩)),
      fun h => absurd h (Nat.succ_ne_zero k), fun _ => rfl, ?_⟩
    intro cell hcell
    have hkey : modelIndexAtCell acc.1 ⟨s.loadedTable.left + (k : Int), edgeRow s tableEdge⟩ ∈
        acc.1.loadedItems.keys := by
      rw [i1.2.2.2.2.2.1]
      have := (hs.2 _ hown).1
      simpa only [modelIndexAtCell, i1.2.1] using this
    by_cases hcc : cell = ⟨s.loadedTable.left + (k : Int), edgeRow s tableEdge⟩
    · subst hcc
      have hc : (edgeRow s tableEdge = edgeRow s tableEdge ∧
          s.loadedTable.left + (k : Int) < s.loadedTable.left + ((k + 1 : Nat) : Int)) := by
        refine ⟨rfl, ?_⟩
        push_cast
        omega
      rw [if_pos hc]
      show loadedTableItem (updateTableItem acc.1 _ _) _ = _
      rw [loadedTableItem_updateTableItem_same _ _ _ hkey, e1]
    · have hne : modelIndexAtCell acc.1 cell ≠ modelIndexAtCell acc.1
          ⟨s.loadedTable.left + (k : Int), edgeRow s tableEdge⟩ := by
        intro h
        apply hcc
        have hf := hs.of_sameSizes i1
        exact cellIndex_injective acc.1.tableSize _ _
          (cellInGrid_of_filled hf (by rw [i1.1]; exact hcell))
          (cellInGrid_of_filled hf (by rw [i1.1]; exact hown)) h
      show loadedTableItem (updateTableItem acc.1 _ _) _ = _
      rw [loadedTableItem_updateTableItem_other _ _ _ _ hne, i4 cell hcell]
      have hiff : (cell.y = edgeRow s tableEdge ∧ cell.x < s.loadedTable.left + (k : Int)) ↔
          (cell.y = edgeRow s tableEdge ∧
            cell.x < s.loadedTable.left + ((k + 1 : Nat) : Int)) := by
        constructor
        · rintro ⟨h1, h2⟩
          exact ⟨h1, by push_cast; omega⟩
        · rintro ⟨h1, h2⟩
          refine ⟨h1, ?_⟩
          push_cast at h2
          by_contra hge
          apply hcc
          have : cell.x = s.loadedTable.left + (k : Int) := by omega
          cases cell
          simp only [QPoint.mk.injEq]
          exact ⟨this, h1⟩
      by_cases hcond : cell.y = edgeRow s tableEdge ∧ cell.x < s.loadedTable.left + (k : Int)
      · rw [if_pos hcond, if_pos (hiff.mp hcond)]
      · rw [if_neg hcond, if_neg (fun h => hcond (hiff.mpr h))]
theorem filled_with_warning (s : State) (hs : Filled s) (b : Bool) :
    Filled ({ s with layoutWarningIssued := b } : State) :=
  hs.of_sameSizes ⟨rfl, rfl, rfl, rfl, rfl, rfl, fun _ => ⟨rfl, rfl, rfl⟩⟩

theorem layoutVerticalEdge_items (s : State) (hs : Filled s) (tableEdge : Edge)
    (hw : 1 < s.loadedTable.width)
    (hsent : edgeLeftAt s tableEdge (resolveColumnWidth s (edgeColumn s tableEdge)).1
        s.loadedTable.top ≠ -1 ∨
      ∀ row, s.loadedTable.top ≤ row → row ≤ s.loadedTable.bottom →
        edgeLeftAt s tableEdge (resolveColumnWidth s (edgeColumn s tableEdge)).1 row =
          edgeLeftAt s tableEdge (resolveColumnWidth s (edgeColumn s tableEdge)).1
            s.loadedTable.top) :
    SameSizes s (layoutVerticalEdge s tableEdge) ∧
    ∀ cell, s.loadedTable.containsCell cell →
      loadedTableItem (layoutVerticalEdge s tableEdge) cell =
        if cell.x = edgeColumn s tableEdge then
          ((loadedTableItem s cell).setGeometry
            ⟨edgeLeftAt s tableEdge (resolveColumnWidth s (edgeColumn s tableEdge)).1
                s.loadedTable.top,
              (loadedTableItem s ⟨neighbourColumn s tableEdge, cell.y⟩).geometry.yp,
              (resolveColumnWidth s (edgeColumn s tableEdge)).1,
              (loadedTableItem s ⟨neighbourColumn s tableEdge, cell.y⟩).geometry.h⟩).setVisible
                true
        else loadedTableItem s cell := by
  have hh : ((s.loadedTable.bottom - s.loadedTable.top + 1).toNat : Int) =
      s.loadedTable.height := by
    have := hs.1.2.2.2.2.1
    simp only [QRect.height, QRect.top, QRect.bottom]
    omega
  have hrun : layoutVerticalEdge s tableEdge =
      (((List.range (s.loadedTable.bottom - s.loadedTable.top + 1).toNat).map
        (fun (i : Nat) => s.loadedTable.top + (i : Int))).foldl
        (layoutVerticalEdgeStep tableEdge (edgeColumn s tableEdge)
          (resolveColumnWidth s (edgeColumn s tableEdge)).1)
        (({ s with layoutWarningIssued :=
          (resolveColumnWidth s (edgeColumn s tableEdge)).2.layoutWarningIssued } : State),
          -1)).1 := by
    unfold layoutVerticalEdge
    simp only [intRange_eq_range]
    rw [resolveColumnWidth_items s]
    rfl
  obtain ⟨p1, _, _, p4⟩ := layoutVerticalEdge_prefix
    ({ s with layoutWarningIssued :=
      (resolveColumnWidth s (edgeColumn s tableEdge)).2.layoutWarningIssued } : State)
    (filled_with_warning s hs _) tableEdge hw
    (resolveColumnWidth s (edgeColumn s tableEdge)).1 hsent
    (s.loadedTable.bottom - s.loadedTable.top + 1).toNat (le_of_eq hh)
  rw [hrun]
  refine ⟨SameSizes.chain ⟨rfl, rfl, rfl, rfl, rfl, rfl, fun _ => ⟨rfl, rfl, rfl⟩⟩ p1, ?_⟩
  intro cell hcell
  have hy : cell.y < s.loadedTable.top +
      ((s.loadedTable.bottom - s.loadedTable.top + 1).toNat : Int) := by
    have := hcell.2.2.2
    rw [hh]
    simp only [QRect.height, QRect.top]
    omega
  have := p4 cell hcell
  by_cases hx : cell.x = edgeColumn s tableEdge
  · rw [if_pos hx]
    rw [if_pos ⟨hx, hy⟩] at this
    exact this
  · rw [if_neg hx]
    rw [if_neg (fun h => hx h.1)] at this
    exact this

theorem layoutHorizontalEdge_items (s : State) (hs : Filled s) (tableEdge : Edge)
    (hw : 1 < s.loadedTable.height)
    (hsent : edgeTopAt s tableEdge (resolveRowHeight s (edgeRow s tableEdge)).1
        s.loadedTable.left ≠ -1 ∨
      ∀ column, s.loadedTable.left ≤ column → column ≤ s.loadedTable.right →
        edgeTopAt s tableEdge (resolveRowHeight s (edgeRow s tableEdge)).1 column =
          edgeTopAt s tableEdge (resolveRowHeight s (edgeRow s tableEdge)).1
            s.loadedTable.left) :
    SameSizes s (layoutHorizontalEdge s tableEdge) ∧
    ∀ cell, s.loadedTable.containsCell cell →
      loadedTableItem (layoutHorizontalEdge s tableEdge) cell =
        if cell.y = edgeRow s tableEdge then
          ((loadedTableItem s cell).setGeometry
            ⟨(loadedTableItem s ⟨cell.x, neighbourRow s tableEdge⟩).geometry.xp,
              edgeTopAt s tableEdge (resolveRowHeight s (edgeRow s tableEdge)).1
                s.loadedTable.left,
              (loadedTableItem s ⟨cell.x, neighbourRow s tableEdge⟩).geometry.w,
              (resolveRowHeight s (edgeRow s tableEdge)).1⟩).setVisible true
        else loadedTableItem s cell := by
  have hh : ((s.loadedTable.right - s.loadedTable.left + 1).toNat : Int) =
      s.loadedTable.width := by
    have := hs.1.2.1
    simp only [QRect.width, QRect.left, QRect.right]
    omega
  have hrun : layoutHorizontalEdge s tableEdge =
      (((List.range (s.loadedTable.right - s.loadedTable.left + 1).toNat).map
        (fun (i : Nat) => s.loadedTable.left + (i : Int))).foldl
        (layoutHorizontalEdgeStep tableEdge (edgeRow s tableEdge)
          (resolveRowHeight s (edgeRow s tableEdge)).1)
        (({ s with layoutWarningIssued :=
          (resolveRowHeight s (edgeRow s tableEdge)).2.layoutWarningIssued } : State),
          -1)).1 := by
    unfold layoutHorizontalEdge
    simp only [intRange_eq_range]
    rw [resolveRowHeight_items s]
    rfl
  obtain ⟨p1, _, _, p4⟩ := layoutHorizontalEdge_prefix
    ({ s with layoutWarningIssued :=
      (resolveRowHeight s (edgeRow s tableEdge)).2.layoutWarningIssued } : State)
    (filled_with_warning s hs _) tableEdge hw
    (resolveRowHeight s (edgeRow s tableEdge)).1 hsent
    (s.loadedTable.right - s.loadedTable.left + 1).toNat (le_of_eq hh)
  rw [hrun]
  refine ⟨SameSizes.chain ⟨rfl, rfl, rfl, rfl, rfl, rfl, fun _ => ⟨rfl, rfl, rfl⟩⟩ p1, ?_⟩
  intro cell hcell
  have hy : cell.x < s.loadedTable.left +
      ((s.loadedTable.right - s.loadedTable.left + 1).toNat : Int) := by
    have := hcell.2.1
    rw [hh]
    simp only [QRect.width, QRect.left]
    omega
  have := p4 cell hcell
  by_cases hx : cell.y = edgeRow s tableEdge
  · rw [if_pos hx]
    rw [if_pos ⟨hx, hy⟩] at this
    exact this
  · rw [if_neg hx]
    rw [if_neg (fun h => hx h.1)] at this
    exact this
/-- Claim C24: let the loaded table, with the new column (row) merged, lie in
the grid and have for each cell an item created for that cell, and let the
neighbours of the new items share their left and right (top and bottom), or
the position computed from the first neighbour differ from the value -1 by
which the source marks "not computed yet". After `layoutVerticalEdge` every
item of the new column has the height and top of its neighbour in the same
row, the width `resolveColumnWidth(column)` and one shared left, computed
from the neighbour in the first row: `neighbour.left - columnSpacing - width`
for the left edge, `neighbour.right + columnSpacing` for the right edge; it is
visible, and the other items are untouched. After `layoutHorizontalEdge`
every item of the new row has the width and left of its neighbour in the
same column, the height `resolveRowHeight(row)` and one shared top,
`neighbour.top - rowSpacing - height` for the top edge and
`neighbour.bottom + rowSpacing` for the bottom edge; it is visible, and the
other items are untouched. -/
theorem layoutEdge_geometry (s : State) (hs : Filled s) :
    (∀ tableEdge : Edge, 1 < s.loadedTable.width →
      (edgeLeftAt s tableEdge (resolveColumnWidth s (edgeColumn s tableEdge)).1
          s.loadedTable.top ≠ -1 ∨
        ∀ row, s.loadedTable.top ≤ row → row ≤ s.loadedTable.bottom →
          (loadedTableItem s ⟨neighbourColumn s tableEdge, row⟩).geometry.left =
            (loadedTableItem s ⟨neighbourColumn s tableEdge, s.loadedTable.top⟩).geometry.left ∧
          (loadedTableItem s ⟨neighbourColumn s tableEdge, row⟩).geometry.right =
            (loadedTableItem s ⟨neighbourColumn s tableEdge, s.loadedTable.top⟩).geometry.right) →
      ∀ row, s.loadedTable.top ≤ row → row ≤ s.loadedTable.bottom →
        (loadedTableItem (layoutVerticalEdge s tableEdge)
            ⟨edgeColumn s tableEdge, row⟩).geometry.height =
          (loadedTableItem s ⟨neighbourColumn s tableEdge, row⟩).geometry.height ∧
        (loadedTableItem (layoutVerticalEdge s tableEdge)
            ⟨edgeColumn s tableEdge, row⟩).geometry.top =
          (loadedTableItem s ⟨neighbourColumn s tableEdge, row⟩).geometry.top ∧
        (loadedTableItem (layoutVerticalEdge s tableEdge)
            ⟨edgeColumn s tableEdge, row⟩).geometry.width =
          (resolveColumnWidth s (edgeColumn s tableEdge)).1 ∧
        (loadedTableItem (layoutVerticalEdge s tableEdge)
            ⟨edgeColumn s tableEdge, row⟩).geometry.left =
          (if tableEdge = Edge.LeftEdge then
            (loadedTableItem s ⟨neighbourColumn s tableEdge, s.loadedTable.top⟩).geometry.left -
              s.cellSpacing.width - (resolveColumnWidth s (edgeColumn s tableEdge)).1
          else
            (loadedTableItem s ⟨neighbourColumn s tableEdge, s.loadedTable.top⟩).geometry.right +
              s.cellSpacing.width) ∧
        (loadedTableItem (layoutVerticalEdge s tableEdge)
            ⟨edgeColumn s tableEdge, row⟩).visible = true ∧
        ∀ cell, s.loadedTable.containsCell cell → cell.x ≠ edgeColumn s tableEdge →
          loadedTableItem (layoutVerticalEdge s tableEdge) cell = loadedTableItem s cell) ∧
    (∀ tableEdge : Edge, 1 < s.loadedTable.height →
      (edgeTopAt s tableEdge (resolveRowHeight s (edgeRow s tableEdge)).1
          s.loadedTable.left ≠ -1 ∨
        ∀ column, s.loadedTable.left ≤ column → column ≤ s.loadedTable.right →
          (loadedTableItem s ⟨column, neighbourRow s tableEdge⟩).geometry.top =
            (loadedTableItem s ⟨s.loadedTable.left, neighbourRow s tableEdge⟩).geometry.top ∧
          (loadedTableItem s ⟨column, neighbourRow s tableEdge⟩).geometry.bottom =
            (loadedTableItem s ⟨s.loadedTable.left, neighbourRow s tableEdge⟩).geometry.bottom) →
      ∀ column, s.loadedTable.left ≤ column → column ≤ s.loadedTable.right →
        (loadedTableItem (layoutHorizontalEdge s tableEdge)
            ⟨column, edgeRow s tableEdge⟩).geometry.width =
          (loadedTableItem s ⟨column, neighbourRow s tableEdge⟩).geometry.width ∧
        (loadedTableItem (layoutHorizontalEdge s tableEdge)
            ⟨column, edgeRow s tableEdge⟩).geometry.left =
          (loadedTableItem s ⟨column, neighbourRow s tableEdge⟩).geometry.left ∧
        (loadedTableItem (layoutHorizontalEdge s tableEdge)
            ⟨column, edgeRow s tableEdge⟩).geometry.height =
          (resolveRowHeight s (edgeRow s tableEdge)).1 ∧
        (loadedTableItem (layoutHorizontalEdge s tableEdge)
            ⟨column, edgeRow s tableEdge⟩).geometry.top =
          (if tableEdge = Edge.TopEdge then
            (loadedTableItem s ⟨s.loadedTable.left, neighbourRow s tableEdge⟩).geometry.top -
              s.cellSpacing.height - (resolveRowHeight s (edgeRow s tableEdge)).1
          else
            (loadedTableItem s ⟨s.loadedTable.left, neighbourRow s tableEdge⟩).geometry.bottom +
              s.cellSpacing.height) ∧
        (loadedTableItem (layoutHorizontalEdge s tableEdge)
            ⟨column, edgeRow s tableEdge⟩).visible = true ∧
        ∀ cell, s.loadedTable.containsCell cell → cell.y ≠ edgeRow s tableEdge →
          loadedTableItem (layoutHorizontalEdge s tableEdge) cell = loadedTableItem s cell) := by
  refine ⟨?_, ?_⟩
  · intro tableEdge hw hal row hr1 hr2
    have hsent : edgeLeftAt s tableEdge (resolveColumnWidth s (edgeColumn s tableEdge)).1
          s.loadedTable.top ≠ -1 ∨
        ∀ row, s.loadedTable.top ≤ row → row ≤ s.loadedTable.bottom →
          edgeLeftAt s tableEdge (resolveColumnWidth s (edgeColumn s tableEdge)).1 row =
            edgeLeftAt s tableEdge (resolveColumnWidth s (edgeColumn s tableEdge)).1
              s.loadedTable.top := by
      rcases hal with h | h
      · exact Or.inl h
      · right
        intro r h1 h2
        unfold edgeLeftAt
        rw [(h r h1 h2).1, (h r h1 h2).2]
    obtain ⟨_, hitems⟩ := layoutVerticalEdge_items s hs tableEdge hw hsent
    have hcol : s.loadedTable.left ≤ edgeColumn s tableEdge ∧
        edgeColumn s tableEdge ≤ s.loadedTable.right := by
      simp only [QRect.width, QRect.left, QRect.right] at hw ⊢
      unfold edgeColumn
      simp only [QRect.left, QRect.right]
      split_ifs <;> constructor <;> omega
    have hown : s.loadedTable.containsCell ⟨edgeColumn s tableEdge, row⟩ :=
      ⟨hcol.1, hcol.2, hr1, hr2⟩
    rw [hitems _ hown, if_pos rfl]
    refine ⟨rfl, rfl, rfl, rfl, rfl, ?_⟩
    intro cell hcell hne
    rw [hitems cell hcell, if_neg hne]
  · intro tableEdge hw hal column hr1 hr2
    have hsent : edgeTopAt s tableEdge (resolveRowHeight s (edgeRow s tableEdge)).1
          s.loadedTable.left ≠ -1 ∨
        ∀ column, s.loadedTable.left ≤ column → column ≤ s.loadedTable.right →
          edgeTopAt s tableEdge (resolveRowHeight s (edgeRow s tableEdge)).1 column =
            edgeTopAt s tableEdge (resolveRowHeight s (edgeRow s tableEdge)).1
              s.loadedTable.left := by
      rcases hal with h | h
      · exact Or.inl h
      · right
        intro c h1 h2
        unfold edgeTopAt
        rw [(h c h1 h2).1, (h c h1 h2).2]
    obtain ⟨_, hitems⟩ := layoutHorizontalEdge_items s hs tableEdge hw hsent
    have hcol : s.loadedTable.top ≤ edgeRow s tableEdge ∧
        edgeRow s tableEdge ≤ s.loadedTable.bottom := by
      simp only [QRect.height, QRect.top, QRect.bottom] at hw ⊢
      unfold edgeRow
      simp only [QRect.top, QRect.bottom]
      split_ifs <;> constructor <;> omega
    have hown : s.loadedTable.containsCell ⟨column, edgeRow s tableEdge⟩ :=
      ⟨hr1, hr2, hcol.1, hcol.2⟩
    rw [hitems _ hown, if_pos rfl]
    refine ⟨rfl, rfl, rfl, rfl, rfl, ?_⟩
    intro cell hcell hne
    rw [hitems cell hcell, if_neg hne]

set_option maxRecDepth 100000 in
theorem examplePolished_edge :
    edgeLeftAt examplePolished Edge.RightEdge
      (resolveColumnWidth examplePolished (edgeColumn examplePolished Edge.RightEdge)).1
      examplePolished.loadedTable.top ≠ -1 ∧
    edgeColumn examplePolished Edge.RightEdge = 3 ∧
    neighbourColumn examplePolished Edge.RightEdge = 2 ∧
    (loadedTableItem examplePolished ⟨2, 0⟩).geometry.right = 300 ∧
    examplePolished.cellSpacing.width = 0 := by
  decide!

/-- Claim C24, instance: in the polished example view, `layoutVerticalEdge`
for the right edge puts the item of cell (3, 1) at the left 300, the right of
its neighbours in column 2, and makes it visible. -/
theorem layoutEdge_geometry_witness :
    Filled examplePolished ∧ 1 < examplePolished.loadedTable.width ∧
    (loadedTableItem (layoutVerticalEdge examplePolished Edge.RightEdge)
        ⟨edgeColumn examplePolished Edge.RightEdge, 1⟩).geometry.left =
      (if Edge.RightEdge = Edge.LeftEdge then
        (loadedTableItem examplePolished ⟨neighbourColumn examplePolished Edge.RightEdge,
          examplePolished.loadedTable.top⟩).geometry.left -
            examplePolished.cellSpacing.width -
              (resolveColumnWidth examplePolished (edgeColumn examplePolished Edge.RightEdge)).1
      else
        (loadedTableItem examplePolished ⟨neighbourColumn examplePolished Edge.RightEdge,
          examplePolished.loadedTable.top⟩).geometry.right +
            examplePolished.cellSpacing.width) ∧
    (loadedTableItem (layoutVerticalEdge examplePolished Edge.RightEdge)
        ⟨edgeColumn examplePolished Edge.RightEdge, 1⟩).visible = true :=
  ⟨filled_of_check _ examplePolished_filled, by rw [examplePolished_loadedTable]; decide,
    ((layoutEdge_geometry examplePolished (filled_of_check _ examplePolished_filled)).1
      Edge.RightEdge (by rw [examplePolished_loadedTable]; decide)
      (Or.inl examplePolished_edge.1) 1 (by rw [examplePolished_loadedTable]; decide)
      (by rw [examplePolished_loadedTable]; decide)).2.2.2.1,
    ((layoutEdge_geometry examplePolished (filled_of_check _ examplePolished_filled)).1
      Edge.RightEdge (by rw [examplePolished_loadedTable]; decide)
      (Or.inl examplePolished_edge.1) 1 (by rw [examplePolished_loadedTable]; decide)
      (by rw [examplePolished_loadedTable]; decide)).2.2.2.2.1⟩

/-! ## Negative margins -/

set_option maxRecDepth 100000 in
/-- Claim C26, at the failing input. With a left margin of -10 the
initial load of cell (0,0) into the empty window completes with the window
starting at column 0, and both `loadedTableOuterRect.x()` and the item are at
50, the flick margin, not at the left margin; the vertical position is the top
margin. -/
theorem initial_load_at_flick_margin :
    (loadInitialTopLeftItem (calculateTableSize
      { clear exampleLeftMargin with tableInvalid := false, tableRebuilding := true })).loadRequest.isActive = false ∧
    (loadInitialTopLeftItem (calculateTableSize
      { clear exampleLeftMargin with tableInvalid := false, tableRebuilding := true })).loadedTable = ⟨0, 0, 0, 0⟩ ∧
    (loadInitialTopLeftItem (calculateTableSize
      { clear exampleLeftMargin with tableInvalid := false, tableRebuilding := true })).tableMargins = ⟨-10, 0, 0, 0⟩ ∧
    (loadInitialTopLeftItem (calculateTableSize
      { clear exampleLeftMargin with tableInvalid := false, tableRebuilding := true })).loadedTableOuterRect = ⟨50, 0, 100, 50⟩ ∧
    (loadedTableItem (loadInitialTopLeftItem (calculateTableSize
      { clear exampleLeftMargin with tableInvalid := false, tableRebuilding := true })) ⟨0, 0⟩).geometry = ⟨50, 0, 100, 50⟩ := by
  decide!

set_option maxRecDepth 100000 in
/-- On `exampleNegativeMargin` the sixth and seventh iteration of the loop of
`loadAndUnloadVisibleEdges` unload column 0, load column 0, unload column 3
and load column 3, and take the state to itself in every field but the log. -/
theorem exampleNegativeMargin_two_iterations :
    { (updatePolish 6 exampleNegativeMargin).state with log := [] } =
      { (updatePolish 4 exampleNegativeMargin).state with log := [] } ∧
    (updatePolish 6 exampleNegativeMargin).state.log =
      (updatePolish 4 exampleNegativeMargin).state.log ++
        [Event.release 0 (some ReusableFlag.Reusable),
         Event.begin false (some Edge.LeftEdge) ⟨⟨0, 0⟩, ⟨0, 0⟩⟩,
         Event.object 0 IncubationMode.AsynchronousIfNested,
         Event.drainReusableItemsPool,
         Event.release 3 (some ReusableFlag.Reusable),
         Event.begin false (some Edge.RightEdge) ⟨⟨3, 0⟩, ⟨3, 0⟩⟩,
         Event.object 3 IncubationMode.AsynchronousIfNested,
         Event.drainReusableItemsPool] ∧
    (updatePolish 4 exampleNegativeMargin).state.tableSize = ⟨10, 1⟩ ∧
    (updatePolish 4 exampleNegativeMargin).state.cacheBuffer = 0 ∧
    (updatePolish 4 exampleNegativeMargin).state.viewportRect = ⟨120, 0, 200, 50⟩ := by
  decide!

set_option maxRecDepth 100000 in
/-- Claim C27, at the failing input. In `exampleStaleInnerRect` the
window of columns 0 to 3 is filled, the items are 100 wide and adjacent with
spacing 0, the left edge can be unloaded against the viewport, and after
`unloadEdge` the left edge can be loaded against the same viewport. -/
theorem unloaded_left_edge_is_loadable :
    Filled exampleStaleInnerRect ∧
    exampleStaleInnerRect.loadRequest.isActive = false ∧
    exampleStaleInnerRect.loadedTable = ⟨0, 0, 3, 0⟩ ∧
    exampleStaleInnerRect.cellSpacing = ⟨0, 0⟩ ∧
    exampleStaleInnerRect.loadedItems.map (fun kv => (kv.1, kv.2.geometry)) =
      [(3, ⟨350, 0, 100, 50⟩), (0, ⟨50, 0, 100, 50⟩), (2, ⟨250, 0, 100, 50⟩), (1, ⟨150, 0, 100, 50⟩)] ∧
    exampleStaleInnerRect.viewportRect = ⟨120, 0, 200, 50⟩ ∧
    canUnloadTableEdge exampleStaleInnerRect Edge.LeftEdge exampleStaleInnerRect.viewportRect = true ∧
    canLoadTableEdge (unloadEdge exampleStaleInnerRect Edge.LeftEdge) Edge.LeftEdge
      exampleStaleInnerRect.viewportRect = true := by
  refine ⟨filled_of_check _ (by decide!), ?_⟩
  decide!

/-! ## The load/unload cycle does not read the call log -/

theorem sameButLog_of_eq {s t : State}
    (h : ({ s with log := [] } : State) = { t with log := [] }) : SameButLog s t :=
  ⟨t.log, by
    have e := congrArg (fun u : State => ({ u with log := t.log } : State)) h.symm
    exact e⟩

theorem SameButLog.with_log (s : State) (l : List Event) : SameButLog s { s with log := l } :=
  ⟨l, rfl⟩

theorem sameButLog_foldl {α : Type} (f : State → α → State)
    (h : ∀ s t a, SameButLog s t → SameButLog (f s a) (f t a))
    (l : List α) (s t : State) (hst : SameButLog s t) :
    SameButLog (l.foldl f s) (l.foldl f t) := by
  induction l generalizing s t with
  | nil => exact hst
  | cons a l ih =>
    simp only [List.foldl_cons]
    exact ih _ _ (h s t a hst)

theorem sameButLog_foldl_pair {α β : Type} (f : State × β → α → State × β)
    (h : ∀ (a1 a2 : State × β) (a : α), SameButLog a1.1 a2.1 → a2.2 = a1.2 →
      SameButLog (f a1 a).1 (f a2 a).1 ∧ (f a2 a).2 = (f a1 a).2)
    (l : List α) (a1 a2 : State × β) (hst : SameButLog a1.1 a2.1) (h2 : a2.2 = a1.2) :
    SameButLog (l.foldl f a1).1 (l.foldl f a2).1 ∧ (l.foldl f a2).2 = (l.foldl f a1).2 := by
  induction l generalizing a1 a2 with
  | nil => exact ⟨hst, h2⟩
  | cons a l ih =>
    simp only [List.foldl_cons]
    exact ih _ _ (h a1 a2 a hst h2).1 (h a1 a2 a hst h2).2

theorem sameButLog_loadedTableItem {s t : State} (h : SameButLog s t) (cell : QPoint) :
    loadedTableItem t cell = loadedTableItem s cell := by
  obtain ⟨l, rfl⟩ := h
  rfl

theorem sameButLog_updateTableItem {s t : State} (h : SameButLog s t) (cell : QPoint)
    (f : FxTableItem → FxTableItem) :
    SameButLog (updateTableItem s cell f) (updateTableItem t cell f) := by
  obtain ⟨l, rfl⟩ := h
  exact ⟨l, rfl⟩

theorem sameButLog_updateContentWidth {s t : State} (h : SameButLog s t) :
    SameButLog (updateContentWidth s) (updateContentWidth t) := by
  obtain ⟨l, rfl⟩ := h
  unfold updateContentWidth setContentWidth
  simp only []
  split_ifs <;> exact ⟨_, rfl⟩

theorem sameButLog_updateContentHeight {s t : State} (h : SameButLog s t) :
    SameButLog (updateContentHeight s) (updateContentHeight t) := by
  obtain ⟨l, rfl⟩ := h
  unfold updateContentHeight setContentHeight
  simp only []
  split_ifs <;> exact ⟨_, rfl⟩

theorem sameButLog_issueLayoutWarning {s t : State} (h : SameButLog s t) :
    SameButLog (issueLayoutWarning s) (issueLayoutWarning t) := by
  obtain ⟨l, rfl⟩ := h
  unfold issueLayoutWarning
  simp only []
  split_ifs <;> exact ⟨_, rfl⟩

theorem sameButLog_sizeHintForColumn {s t : State} (h : SameButLog s t) (column : Int) :
    sizeHintForColumn t column = sizeHintForColumn s column := by
  obtain ⟨l, rfl⟩ := h
  rfl

theorem sameButLog_sizeHintForRow {s t : State} (h : SameButLog s t) (row : Int) :
    sizeHintForRow t row = sizeHintForRow s row := by
  obtain ⟨l, rfl⟩ := h
  rfl

theorem sameButLog_resolveColumnWidth {s t : State} (h : SameButLog s t) (column : Int) :
    SameButLog (resolveColumnWidth s column).2 (resolveColumnWidth t column).2 ∧
      (resolveColumnWidth t column).1 = (resolveColumnWidth s column).1 := by
  have hw := sameButLog_issueLayoutWarning h
  have hh := sameButLog_sizeHintForColumn h column
  obtain ⟨l, rfl⟩ := h
  unfold resolveColumnWidth
  simp only [hh]
  split
  · split
    · exact ⟨hw, rfl⟩
    · split
      · exact ⟨hw, rfl⟩
      · exact ⟨⟨l, rfl⟩, rfl⟩
  · exact ⟨hw, rfl⟩
  · split
    · exact ⟨hw, rfl⟩
    · exact ⟨⟨l, rfl⟩, rfl⟩

theorem sameButLog_resolveRowHeight {s t : State} (h : SameButLog s t) (row : Int) :
    SameButLog (resolveRowHeight s row).2 (resolveRowHeight t row).2 ∧
      (resolveRowHeight t row).1 = (resolveRowHeight s row).1 := by
  have hw := sameButLog_issueLayoutWarning h
  have hh := sameButLog_sizeHintForRow h row
  obtain ⟨l, rfl⟩ := h
  unfold resolveRowHeight
  simp only [hh]
  split
  · split
    · exact ⟨hw, rfl⟩
    · split
      · exact ⟨hw, rfl⟩
      · exact ⟨⟨l, rfl⟩, rfl⟩
  · exact ⟨hw, rfl⟩
  · split
    · exact ⟨hw, rfl⟩
    · exact ⟨⟨l, rfl⟩, rfl⟩

theorem sameButLog_relayoutColumnCells {s t : State} (h : SameButLog s t) (column : Int)
    (x w : ℚ) : SameButLog (relayoutColumnCells s column x w) (relayoutColumnCells t column x w) := by
  have e : t.loadedTable = s.loadedTable := by obtain ⟨l, rfl⟩ := h; rfl
  unfold relayoutColumnCells
  rw [e]
  apply sameButLog_foldl _ _ _ s t h
  intro a b row hab
  exact sameButLog_updateTableItem hab _ _

theorem sameButLog_relayoutRowCells {s t : State} (h : SameButLog s t) (row : Int)
    (y v : ℚ) : SameButLog (relayoutRowCells s row y v) (relayoutRowCells t row y v) := by
  have e : t.loadedTable = s.loadedTable := by obtain ⟨l, rfl⟩ := h; rfl
  unfold relayoutRowCells
  rw [e]
  apply sameButLog_foldl _ _ _ s t h
  intro a b column hab
  exact sameButLog_updateTableItem hab _ _

theorem sameButLog_cellSpacing {s t : State} (h : SameButLog s t) :
    t.cellSpacing = s.cellSpacing := by
  obtain ⟨l, rfl⟩ := h; rfl

theorem sameButLog_loadedTable {s t : State} (h : SameButLog s t) :
    t.loadedTable = s.loadedTable := by
  obtain ⟨l, rfl⟩ := h; rfl

theorem sameButLog_relayoutColumnStep (a1 a2 : State × ℚ) (column : Int)
    (h : SameButLog a1.1 a2.1) (h2 : a2.2 = a1.2) :
    SameButLog (relayoutColumnStep a1 column).1 (relayoutColumnStep a2 column).1 ∧
      (relayoutColumnStep a2 column).2 = (relayoutColumnStep a1 column).2 := by
  have hr := sameButLog_resolveColumnWidth h column
  simp only [relayoutColumnStep, h2, hr.2]
  have hc := sameButLog_relayoutColumnCells hr.1 column a1.2 (resolveColumnWidth a1.1 column).1
  exact ⟨hc, by rw [sameButLog_cellSpacing hc]⟩

theorem sameButLog_relayoutRowStep (a1 a2 : State × ℚ) (row : Int)
    (h : SameButLog a1.1 a2.1) (h2 : a2.2 = a1.2) :
    SameButLog (relayoutRowStep a1 row).1 (relayoutRowStep a2 row).1 ∧
      (relayoutRowStep a2 row).2 = (relayoutRowStep a1 row).2 := by
  have hr := sameButLog_resolveRowHeight h row
  simp only [relayoutRowStep, h2, hr.2]
  have hc := sameButLog_relayoutRowCells hr.1 row a1.2 (resolveRowHeight a1.1 row).1
  exact ⟨hc, by rw [sameButLog_cellSpacing hc]⟩

theorem sameButLog_columnPass (a b : State) (x : ℚ) (h : SameButLog a b) :
    SameButLog
      ((intRange a.loadedTable.left a.loadedTable.right).foldl relayoutColumnStep (a, x)).1
      ((intRange b.loadedTable.left b.loadedTable.right).foldl relayoutColumnStep (b, x)).1 := by
  rw [sameButLog_loadedTable h]
  exact (sameButLog_foldl_pair relayoutColumnStep
    (fun a1 a2 c => sameButLog_relayoutColumnStep a1 a2 c) _ (a, x) (b, x) h rfl).1

theorem sameButLog_rowPass (a b : State) (y : ℚ) (h : SameButLog a b) :
    SameButLog
      ((intRange a.loadedTable.top a.loadedTable.bottom).foldl relayoutRowStep (a, y)).1
      ((intRange b.loadedTable.top b.loadedTable.bottom).foldl relayoutRowStep (b, y)).1 := by
  rw [sameButLog_loadedTable h]
  exact (sameButLog_foldl_pair relayoutRowStep
    (fun a1 a2 c => sameButLog_relayoutRowStep a1 a2 c) _ (a, y) (b, y) h rfl).1

theorem sameButLog_relayoutTableItems {s t : State} (h : SameButLog s t) :
    SameButLog (relayoutTableItems s) (relayoutTableItems t) := by
  obtain ⟨l, rfl⟩ := h
  exact sameButLog_rowPass _ _ _ (sameButLog_columnPass _ _ _ ⟨l, rfl⟩)

theorem sameButLog_syncLoadedTableRectFromLoadedTable {s t : State} (h : SameButLog s t) :
    SameButLog (syncLoadedTableRectFromLoadedTable s) (syncLoadedTableRectFromLoadedTable t) := by
  obtain ⟨l, rfl⟩ := h
  exact ⟨l, rfl⟩

theorem sameButLog_enforceFirstColumnAtOrigo {s t : State} (h : SameButLog s t) :
    SameButLog (enforceFirstColumnAtOrigo s).1 (enforceFirstColumnAtOrigo t).1 ∧
      (enforceFirstColumnAtOrigo t).2 = (enforceFirstColumnAtOrigo s).2 := by
  obtain ⟨l, rfl⟩ := h
  unfold enforceFirstColumnAtOrigo
  simp only []
  split_ifs <;> exact ⟨⟨l, rfl⟩, rfl⟩

theorem sameButLog_enforceFirstRowAtOrigo {s t : State} (h : SameButLog s t) (f : Bool) :
    SameButLog (enforceFirstRowAtOrigo s f).1 (enforceFirstRowAtOrigo t f).1 ∧
      (enforceFirstRowAtOrigo t f).2 = (enforceFirstRowAtOrigo s f).2 := by
  obtain ⟨l, rfl⟩ := h
  unfold enforceFirstRowAtOrigo
  simp only []
  split_ifs <;> exact ⟨⟨l, rfl⟩, rfl⟩

theorem sameButLog_enforceFirstRowColumnAtOrigo {s t : State} (h : SameButLog s t) :
    SameButLog (enforceFirstRowColumnAtOrigo s) (enforceFirstRowColumnAtOrigo t) := by
  have h1 := sameButLog_enforceFirstColumnAtOrigo h
  have h2 := sameButLog_enforceFirstRowAtOrigo h1.1 (enforceFirstColumnAtOrigo s).2
  unfold enforceFirstRowColumnAtOrigo
  simp only [h1.2, h2.2]
  split_ifs
  · exact sameButLog_relayoutTableItems h2.1
  · exact h2.1

theorem sameButLog_syncLoadedTableFromLoadRequest {s t : State} (h : SameButLog s t) :
    SameButLog (syncLoadedTableFromLoadRequest s) (syncLoadedTableFromLoadRequest t) := by
  obtain ⟨l, rfl⟩ := h
  unfold syncLoadedTableFromLoadRequest
  simp only []
  split <;> exact ⟨l, rfl⟩

theorem sameButLog_layoutVerticalEdgeStep (tableEdge : Edge) (column : Int) (width : ℚ)
    (a1 a2 : State × ℚ) (row : Int) (h : SameButLog a1.1 a2.1) (h2 : a2.2 = a1.2) :
    SameButLog (layoutVerticalEdgeStep tableEdge column width a1 row).1
        (layoutVerticalEdgeStep tableEdge column width a2 row).1 ∧
      (layoutVerticalEdgeStep tableEdge column width a2 row).2 =
        (layoutVerticalEdgeStep tableEdge column width a1 row).2 := by
  obtain ⟨s1, x1⟩ := a1
  obtain ⟨s2, x2⟩ := a2
  simp only at h h2
  subst h2
  obtain ⟨l, rfl⟩ := h
  exact ⟨⟨l, rfl⟩, rfl⟩

theorem sameButLog_layoutHorizontalEdgeStep (tableEdge : Edge) (row : Int) (height : ℚ)
    (a1 a2 : State × ℚ) (column : Int) (h : SameButLog a1.1 a2.1) (h2 : a2.2 = a1.2) :
    SameButLog (layoutHorizontalEdgeStep tableEdge row height a1 column).1
        (layoutHorizontalEdgeStep tableEdge row height a2 column).1 ∧
      (layoutHorizontalEdgeStep tableEdge row height a2 column).2 =
        (layoutHorizontalEdgeStep tableEdge row height a1 column).2 := by
  obtain ⟨s1, x1⟩ := a1
  obtain ⟨s2, x2⟩ := a2
  simp only at h h2
  subst h2
  obtain ⟨l, rfl⟩ := h
  exact ⟨⟨l, rfl⟩, rfl⟩

theorem sameButLog_layoutVerticalEdge {s t : State} (h : SameButLog s t) (tableEdge : Edge) :
    SameButLog (layoutVerticalEdge s tableEdge) (layoutVerticalEdge t tableEdge) := by
  have e1 : t.loadedTable = s.loadedTable := sameButLog_loadedTable h
  simp only [layoutVerticalEdge, e1]
  have hr := sameButLog_resolveColumnWidth h
    (if tableEdge = Edge.LeftEdge then s.loadedTable.left else s.loadedTable.right)
  rw [hr.2, sameButLog_loadedTable hr.1]
  exact (sameButLog_foldl_pair _
    (fun a1 a2 a => sameButLog_layoutVerticalEdgeStep tableEdge _ _ a1 a2 a) _ (_, _) (_, _)
    hr.1 rfl).1

theorem sameButLog_layoutHorizontalEdge {s t : State} (h : SameButLog s t) (tableEdge : Edge) :
    SameButLog (layoutHorizontalEdge s tableEdge) (layoutHorizontalEdge t tableEdge) := by
  have e1 : t.loadedTable = s.loadedTable := sameButLog_loadedTable h
  simp only [layoutHorizontalEdge, e1]
  have hr := sameButLog_resolveRowHeight h
    (if tableEdge = Edge.TopEdge then s.loadedTable.top else s.loadedTable.bottom)
  rw [hr.2, sameButLog_loadedTable hr.1]
  exact (sameButLog_foldl_pair _
    (fun a1 a2 a => sameButLog_layoutHorizontalEdgeStep tableEdge _ _ a1 a2 a) _ (_, _) (_, _)
    hr.1 rfl).1

theorem sameButLog_layoutTopLeftItem {s t : State} (h : SameButLog s t) :
    SameButLog (layoutTopLeftItem s) (layoutTopLeftItem t) := by
  have e1 : t.loadRequest = s.loadRequest := by obtain ⟨l, rfl⟩ := h; rfl
  have e2 : t.tableMargins = s.tableMargins := by obtain ⟨l, rfl⟩ := h; rfl
  simp only [layoutTopLeftItem, e1, e2]
  have h1 := sameButLog_updateTableItem h s.loadRequest.firstCell
    (fun item => item.setGeometry ((item.geometry.moveLeft
      ((qrealToInt s.tableMargins.left : Int) : ℚ)).moveTop ((qrealToInt s.tableMargins.top : Int) : ℚ)))
  have h2 := sameButLog_resolveColumnWidth h1 s.loadRequest.firstCell.x
  have h3 := sameButLog_resolveRowHeight h2.1 s.loadRequest.firstCell.y
  rw [h2.2, h3.2]
  exact sameButLog_updateTableItem h3.1 _ _

theorem sameButLog_layoutTableEdgeFromLoadRequest {s t : State} (h : SameButLog s t) :
    SameButLog (layoutTableEdgeFromLoadRequest s) (layoutTableEdgeFromLoadRequest t) := by
  have e1 : t.loadRequest = s.loadRequest := by obtain ⟨l, rfl⟩ := h; rfl
  unfold layoutTableEdgeFromLoadRequest
  rw [e1]
  split
  · exact sameButLog_layoutVerticalEdge h _
  · exact sameButLog_layoutVerticalEdge h _
  · exact sameButLog_layoutHorizontalEdge h _
  · exact sameButLog_layoutHorizontalEdge h _
  · exact sameButLog_layoutTopLeftItem h

theorem sameButLog_createFxTableItem {s t : State} (h : SameButLog s t) (cell : QPoint)
    (mode : IncubationMode) :
    SameButLog (createFxTableItem s cell mode).2 (createFxTableItem t cell mode).2 ∧
      (createFxTableItem t cell mode).1 = (createFxTableItem s cell mode).1 := by
  obtain ⟨l, rfl⟩ := h
  unfold createFxTableItem
  simp only []
  split <;> exact ⟨⟨_, rfl⟩, rfl⟩

theorem sameButLog_loadFxTableItem {s t : State} (h : SameButLog s t) (cell : QPoint)
    (mode : IncubationMode) :
    SameButLog (loadFxTableItem s cell mode).2 (loadFxTableItem t cell mode).2 ∧
      (loadFxTableItem t cell mode).1 = (loadFxTableItem s cell mode).1 := by
  have h0 : SameButLog ({ s with blockItemCreatedCallback := true } : State)
      ({ t with blockItemCreatedCallback := true } : State) := by
    obtain ⟨l, rfl⟩ := h; exact ⟨l, rfl⟩
  have e : t.blockItemCreatedCallback = s.blockItemCreatedCallback := by
    obtain ⟨l, rfl⟩ := h; rfl
  have h1 := sameButLog_createFxTableItem h0 cell mode
  unfold loadFxTableItem
  refine ⟨?_, h1.2⟩
  obtain ⟨l1, e1⟩ := h1.1
  simp only [e1, e]
  exact ⟨l1, rfl⟩

theorem sameButLog_unloadItem {s t : State} (h : SameButLog s t) (cell : QPoint) :
    SameButLog (unloadItem s cell) (unloadItem t cell) := by
  obtain ⟨l, rfl⟩ := h
  unfold unloadItem
  simp only [releaseItem_eq]
  exact ⟨_, rfl⟩

theorem sameButLog_unloadItems {s t : State} (h : SameButLog s t) (items : QLine) :
    SameButLog (unloadItems s items) (unloadItems t items) := by
  unfold unloadItems
  split_ifs
  · apply sameButLog_foldl _ _ _ s t h
    intro a b x hab
    exact sameButLog_unloadItem hab _
  · apply sameButLog_foldl _ _ _ s t h
    intro a b y hab
    exact sameButLog_unloadItem hab _

theorem sameButLog_loadRequestedCells (n : Nat) :
    ∀ {s t : State}, SameButLog s t →
      SameButLog (loadRequestedCells n s).1 (loadRequestedCells n t).1 ∧
        (loadRequestedCells n t).2 = (loadRequestedCells n s).2 := by
  induction n with
  | zero =>
    intro s t h
    have e : t.loadRequest = s.loadRequest := by obtain ⟨l, rfl⟩ := h; rfl
    simp only [loadRequestedCells, e]
    exact ⟨h, trivial⟩
  | succ n ih =>
    intro s t h
    have e : t.loadRequest = s.loadRequest := by obtain ⟨l, rfl⟩ := h; rfl
    have hl := sameButLog_loadFxTableItem h s.loadRequest.currentCell s.loadRequest.incubationMode
    simp only [loadRequestedCells, e]
    split_ifs with hc
    · rw [hl.2]
      split
      · exact ⟨hl.1, rfl⟩
      · apply ih
        obtain ⟨l1, e1⟩ := hl.1
        rw [e1]
        exact ⟨l1, rfl⟩
    · exact ⟨h, rfl⟩

theorem sameButLog_finishLoadRequest {s t : State} (h : SameButLog s t) :
    SameButLog (finishLoadRequest s) (finishLoadRequest t) := by
  have h5 := sameButLog_updateContentHeight (sameButLog_updateContentWidth
    (sameButLog_enforceFirstRowColumnAtOrigo (sameButLog_syncLoadedTableRectFromLoadedTable
      (sameButLog_layoutTableEdgeFromLoadRequest (sameButLog_syncLoadedTableFromLoadRequest h)))))
  obtain ⟨l5, e5⟩ := h5
  unfold finishLoadRequest
  simp only [e5]
  split
  · split_ifs <;> exact ⟨_, rfl⟩
  · exact ⟨_, rfl⟩

theorem sameButLog_processLoadRequest {s t : State} (h : SameButLog s t) :
    SameButLog (processLoadRequest s) (processLoadRequest t) := by
  have e : t.loadRequest = s.loadRequest := by obtain ⟨l, rfl⟩ := h; rfl
  have h1 := sameButLog_loadRequestedCells s.loadRequest.remaining h
  unfold processLoadRequest
  simp only [e, h1.2]
  split_ifs
  · exact sameButLog_finishLoadRequest h1.1
  · exact h1.1

theorem sameButLog_nextEdgeToLoad {s t : State} (h : SameButLog s t) (rect : QRectF) :
    nextEdgeToLoad t rect = nextEdgeToLoad s rect := by
  obtain ⟨l, rfl⟩ := h
  rfl

theorem sameButLog_nextEdgeToUnload {s t : State} (h : SameButLog s t) (rect : QRectF) :
    nextEdgeToUnload t rect = nextEdgeToUnload s rect := by
  obtain ⟨l, rfl⟩ := h
  rfl

theorem sameButLog_unloadEdge {s t : State} (h : SameButLog s t) (edge : Edge) :
    SameButLog (unloadEdge s edge) (unloadEdge t edge) := by
  have e : t.loadedTable = s.loadedTable := sameButLog_loadedTable h
  have h1 := sameButLog_unloadItems h (rectangleEdge s.loadedTable edge)
  unfold unloadEdge
  simp only [e]
  apply sameButLog_syncLoadedTableRectFromLoadedTable
  obtain ⟨l1, e1⟩ := h1
  rw [e1]
  exact ⟨l1, rfl⟩

theorem sameButLog_loadEdge {s t : State} (h : SameButLog s t) (edge : Edge)
    (mode : IncubationMode) : SameButLog (loadEdge s edge mode) (loadEdge t edge mode) := by
  unfold loadEdge
  apply sameButLog_processLoadRequest
  obtain ⟨l, rfl⟩ := h
  exact ⟨_, rfl⟩

theorem sameButLog_loadAndUnloadLoop (n : Nat) (rect : QRectF) :
    ∀ {s t : State}, SameButLog s t →
      SameButLog (loadAndUnloadLoop n rect s).state (loadAndUnloadLoop n rect t).state ∧
        (loadAndUnloadLoop n rect t).finished = (loadAndUnloadLoop n rect s).finished := by
  induction n with
  | zero =>
    intro s t h
    exact ⟨h, rfl⟩
  | succ n ih =>
    intro s t h
    simp only [loadAndUnloadLoop, sameButLog_nextEdgeToUnload h rect]
    have hu : SameButLog
        (match nextEdgeToUnload s rect with
          | some edge => (unloadEdge s edge, true)
          | none => (s, false)).1
        (match nextEdgeToUnload s rect with
          | some edge => (unloadEdge t edge, true)
          | none => (t, false)).1 ∧
        (match nextEdgeToUnload s rect with
          | some edge => (unloadEdge t edge, true)
          | none => (t, false)).2 =
        (match nextEdgeToUnload s rect with
          | some edge => (unloadEdge s edge, true)
          | none => (s, false)).2 := by
      split
      · exact ⟨sameButLog_unloadEdge h _, rfl⟩
      · exact ⟨h, rfl⟩
    revert hu
    generalize (match nextEdgeToUnload s rect with
          | some edge => (unloadEdge s edge, true)
          | none => (s, false)) = u
    generalize (match nextEdgeToUnload s rect with
          | some edge => (unloadEdge t edge, true)
          | none => (t, false)) = v
    intro hu
    have ev : v.1.viewportRect = u.1.viewportRect := by
      obtain ⟨l, e⟩ := hu.1
      rw [e]
    rw [ev, sameButLog_nextEdgeToLoad hu.1, hu.2]
    split
    · rename_i edge hn
      have hl := sameButLog_loadEdge hu.1 edge IncubationMode.AsynchronousIfNested
      have ea : (loadEdge v.1 edge IncubationMode.AsynchronousIfNested).loadRequest =
          (loadEdge u.1 edge IncubationMode.AsynchronousIfNested).loadRequest := by
        obtain ⟨l, e⟩ := hl
        rw [e]
      rw [ea]
      split_ifs
      · exact ⟨hl, rfl⟩
      · exact ih hl
    · split_ifs
      · exact ih hu.1
      · exact ⟨hu.1, rfl⟩

theorem loadAndUnloadLoop_split (rect : QRectF) (k : Nat) :
    ∀ s : State, (loadAndUnloadLoop k rect s).finished = false →
      ∀ n, loadAndUnloadLoop (k + n) rect s =
        loadAndUnloadLoop n rect (loadAndUnloadLoop k rect s).state := by
  induction k with
  | zero =>
    intro s _ n
    rw [Nat.zero_add]
    rfl
  | succ k ih =>
    intro s h n
    rw [show k + 1 + n = (k + n) + 1 by omega]
    simp only [loadAndUnloadLoop] at h ⊢
    revert h
    generalize (match nextEdgeToUnload s rect with
        | some edge => (unloadEdge s edge, true)
        | none => (s, false)) = u
    intro h
    split
    · rename_i edge hn
      simp only [hn] at h
      split_ifs with ha
      · rw [if_pos ha] at h
        exact absurd h (by simp)
      · rw [if_neg ha] at h
        exact ih _ h n
    · rename_i hn
      simp only [hn] at h
      split_ifs with hu
      · rw [if_pos hu] at h
        exact ih _ h n
      · rw [if_neg hu] at h
        exact absurd h (by simp)

theorem loadAndUnloadLoop_unfinished_before (rect : QRectF) (s : State) (k n : Nat)
    (hn : n ≤ k) (h : (loadAndUnloadLoop k rect s).finished = false) :
    (loadAndUnloadLoop n rect s).finished = false := by
  cases hf : (loadAndUnloadLoop n rect s).finished with
  | false => rfl
  | true =>
    have e := loadAndUnloadLoop_more (k - n) rect n s hf
    rw [show n + (k - n) = k by omega] at e
    rw [e, hf] at h
    exact absurd h (by simp)

theorem loadAndUnloadLoop_periodic (rect : QRectF) (s : State) (k : Nat) (hk : 0 < k)
    (h : (loadAndUnloadLoop k rect s).finished = false)
    (hper : SameButLog s (loadAndUnloadLoop k rect s).state) :
    ∀ n, (loadAndUnloadLoop n rect s).finished = false := by
  intro n
  induction n using Nat.strong_induction_on with
  | _ n ih =>
    by_cases hn : n ≤ k
    · exact loadAndUnloadLoop_unfinished_before rect s k n hn h
    · rw [show n = k + (n - k) by omega, loadAndUnloadLoop_split rect k s h,
        (sameButLog_loadAndUnloadLoop (n - k) rect hper).2]
      exact ih (n - k) (by omega)

theorem loadAndUnloadLoop_never_finishes (rect : QRectF) (s : State) (j k : Nat) (hk : 0 < k)
    (h : (loadAndUnloadLoop (j + k) rect s).finished = false)
    (hper : ({ (loadAndUnloadLoop j rect s).state with log := [] } : State) =
      { (loadAndUnloadLoop (j + k) rect s).state with log := [] }) :
    ∀ n, (loadAndUnloadLoop n rect s).finished = false := by
  have hj := loadAndUnloadLoop_unfinished_before rect s (j + k) j (by omega) h
  have e := loadAndUnloadLoop_split rect j s hj k
  have hall := loadAndUnloadLoop_periodic rect (loadAndUnloadLoop j rect s).state k hk
    (by rw [← e]; exact h) (by rw [← e]; exact sameButLog_of_eq hper)
  intro n
  by_cases hn : n ≤ j
  · exact loadAndUnloadLoop_unfinished_before rect s j n hn hj
  · rw [show n = j + (n - j) by omega, loadAndUnloadLoop_split rect j s hj]
    exact hall _

theorem beginRebuildTable_unfinished (fuel : Nat) (s : State)
    (ha : (loadInitialTopLeftItem (calculateTableSize
      { clear s with tableInvalid := false, tableRebuilding := true })).loadRequest.isActive = false)
    (hb : (loadInitialTopLeftItem (calculateTableSize
      { clear s with tableInvalid := false, tableRebuilding := true })).loadedItems.isEmpty = false)
    (hc : (loadInitialTopLeftItem (calculateTableSize
      { clear s with tableInvalid := false, tableRebuilding := true })).hasBufferedItems = false)
    (h : (loadAndUnloadLoop fuel
      (loadInitialTopLeftItem (calculateTableSize
        { clear s with tableInvalid := false, tableRebuilding := true })).viewportRect
      (loadInitialTopLeftItem (calculateTableSize
        { clear s with tableInvalid := false, tableRebuilding := true }))).finished = false) :
    (beginRebuildTable fuel s).finished = false := by
  unfold beginRebuildTable loadAndUnloadVisibleEdges
  simp only [ha, hb, hc]
  exact h

theorem updatePolish_unfinished (fuel : Nat) (s : State)
    (h1 : s.loadRequest.isActive = false)
    (h2 : (⟨s.contentX, s.contentY, s.width, s.height⟩ : QRectF).isValid = true)
    (h3 : s.tableInvalid = true)
    (h4 : (beginRebuildTable fuel { s with
      polishing := true, viewportRect := ⟨s.contentX, s.contentY, s.width, s.height⟩ }).finished = false) :
    (updatePolish fuel s).finished = false := by
  unfold updatePolish updatePolishBody
  simp only []
  rw [if_neg (by rw [h1]; exact Bool.false_ne_true), if_neg (by rw [h2]; decide), if_pos h3,
    if_pos (by rw [h4]; rfl)]
  exact h4

set_option maxRecDepth 100000 in
theorem exampleLoopEntry_cycle :
    exampleLoopEntry.loadRequest.isActive = false ∧
    exampleLoopEntry.loadedItems.isEmpty = false ∧
    exampleLoopEntry.hasBufferedItems = false ∧
    exampleLoopEntry.viewportRect = ⟨120, 0, 200, 50⟩ ∧
    (loadAndUnloadLoop 6 ⟨120, 0, 200, 50⟩ exampleLoopEntry).finished = false ∧
    ({ (loadAndUnloadLoop 4 ⟨120, 0, 200, 50⟩ exampleLoopEntry).state with log := [] } : State) =
      { (loadAndUnloadLoop 6 ⟨120, 0, 200, 50⟩ exampleLoopEntry).state with log := [] } := by
  decide!

/-- Claim C21, at the failing input. On `exampleNegativeMargin`, a grid
of ten columns and one row with synchronous delivery of 100 x 50 items, no
cache buffer, a left margin of -10 and the viewport 200 wide at x = 120,
`updatePolish` does not leave the loop of `loadAndUnloadVisibleEdges` within
any number of iterations. -/
theorem updatePolish_never_returns (fuel : Nat) :
    (updatePolish fuel exampleNegativeMargin).finished = false := by
  obtain ⟨ha, hb, hc, hv, h6, hper⟩ := exampleLoopEntry_cycle
  apply updatePolish_unfinished fuel exampleNegativeMargin (by decide) (by decide!) (by decide)
  apply beginRebuildTable_unfinished fuel _ ha hb hc
  show (loadAndUnloadLoop fuel exampleLoopEntry.viewportRect exampleLoopEntry).finished = false
  rw [hv]
  exact loadAndUnloadLoop_never_finishes ⟨120, 0, 200, 50⟩ exampleLoopEntry 4 2 (by decide) h6 hper fuel

/-! ## Where `enforceFirstRowColumnAtOrigo` leaves the outer rectangle -/

theorem foldl_keeps {α β : Type} (g : State → β) (f : State → α → State)
    (h : ∀ s a, g (f s a) = g s) (l : List α) (s : State) : g (l.foldl f s) = g s := by
  induction l generalizing s with
  | nil => rfl
  | cons a l ih =>
    simp only [List.foldl_cons]
    rw [ih, h]

theorem foldl_pair_keeps {α β γ : Type} (g : State → β) (f : State × γ → α → State × γ)
    (h : ∀ acc a, g (f acc a).1 = g acc.1) (l : List α) (acc : State × γ) :
    g (l.foldl f acc).1 = g acc.1 := by
  induction l generalizing acc with
  | nil => rfl
  | cons a l ih =>
    simp only [List.foldl_cons]
    rw [ih, h]

theorem issueLayoutWarning_outerRect (s : State) :
    (issueLayoutWarning s).loadedTableOuterRect = s.loadedTableOuterRect := by
  unfold issueLayoutWarning
  split <;> rfl

theorem resolveColumnWidth_outerRect (s : State) (column : Int) :
    (resolveColumnWidth s column).2.loadedTableOuterRect = s.loadedTableOuterRect := by
  unfold resolveColumnWidth
  split
  · split
    · exact issueLayoutWarning_outerRect s
    · split
      · exact issueLayoutWarning_outerRect s
      · rfl
  · exact issueLayoutWarning_outerRect s
  · simp only
    split
    · exact issueLayoutWarning_outerRect s
    · rfl

theorem resolveRowHeight_outerRect (s : State) (row : Int) :
    (resolveRowHeight s row).2.loadedTableOuterRect = s.loadedTableOuterRect := by
  unfold resolveRowHeight
  split
  · split
    · exact issueLayoutWarning_outerRect s
    · split
      · exact issueLayoutWarning_outerRect s
      · rfl
  · exact issueLayoutWarning_outerRect s
  · simp only
    split
    · exact issueLayoutWarning_outerRect s
    · rfl

theorem relayoutTableItems_outerRect (s : State) :
    (relayoutTableItems s).loadedTableOuterRect = s.loadedTableOuterRect := by
  have hc : ∀ (acc : State × ℚ) (column : Int),
      (relayoutColumnStep acc column).1.loadedTableOuterRect = acc.1.loadedTableOuterRect := by
    intro acc column
    simp only [relayoutColumnStep, relayoutColumnCells]
    refine (foldl_keeps State.loadedTableOuterRect _ ?_ _ _).trans
      (resolveColumnWidth_outerRect _ _)
    intro st row
    rfl
  have hr : ∀ (acc : State × ℚ) (row : Int),
      (relayoutRowStep acc row).1.loadedTableOuterRect = acc.1.loadedTableOuterRect := by
    intro acc row
    simp only [relayoutRowStep, relayoutRowCells]
    refine (foldl_keeps State.loadedTableOuterRect _ ?_ _ _).trans
      (resolveRowHeight_outerRect _ _)
    intro st column
    rfl
  simp only [relayoutTableItems]
  rw [foldl_pair_keeps State.loadedTableOuterRect relayoutRowStep hr,
    foldl_pair_keeps State.loadedTableOuterRect relayoutColumnStep hc]

theorem enforceFirstColumnAtOrigo_x (s : State) (hx : s.loadedTable.x = 0) :
    (enforceFirstColumnAtOrigo s).1.loadedTableOuterRect.x =
      if s.loadedTableOuterRect.x = s.tableMargins.left ∧ s.tableMargins.left < 0 then flickMargin
      else s.tableMargins.left := by
  unfold enforceFirstColumnAtOrigo
  rw [hx]
  simp only [Int.cast_zero, add_zero, true_and]
  by_cases hm : s.loadedTableOuterRect.x = s.tableMargins.left
  · rw [if_neg (fun h => h hm)]
    by_cases hn : s.tableMargins.left < 0
    · have h1 : s.loadedTableOuterRect.x < 0 := by rw [hm]; exact hn
      have h2 : ¬ s.tableMargins.left = 0 := ne_of_lt hn
      have h3 : s.loadedTableOuterRect.x = s.tableMargins.left ∧ s.tableMargins.left < 0 := ⟨hm, hn⟩
      rw [if_pos h1, if_neg h2, if_pos h3]
      rfl
    · have h1 : ¬ s.loadedTableOuterRect.x < 0 := by rw [hm]; exact hn
      have h3 : ¬ (s.loadedTableOuterRect.x = s.tableMargins.left ∧ s.tableMargins.left < 0) :=
        fun h => hn h.2
      rw [if_neg h1, if_neg h3]
      exact hm
  · have h3 : ¬ (s.loadedTableOuterRect.x = s.tableMargins.left ∧ s.tableMargins.left < 0) :=
      fun h => hm h.1
    rw [if_pos hm, if_neg h3]
    rfl

theorem enforceFirstRowAtOrigo_y (s : State) (f : Bool) (hy : s.loadedTable.y = 0) :
    (enforceFirstRowAtOrigo s f).1.loadedTableOuterRect.y =
      if s.loadedTableOuterRect.y = s.tableMargins.top ∧ s.tableMargins.top < 0 then flickMargin
      else s.tableMargins.top := by
  unfold enforceFirstRowAtOrigo
  rw [hy]
  simp only [Int.cast_zero, add_zero, true_and]
  by_cases hm : s.loadedTableOuterRect.y = s.tableMargins.top
  · rw [if_neg (fun h => h hm)]
    by_cases hn : s.tableMargins.top < 0
    · have h1 : s.loadedTableOuterRect.y < 0 := by rw [hm]; exact hn
      have h2 : ¬ s.tableMargins.top = 0 := ne_of_lt hn
      have h3 : s.loadedTableOuterRect.y = s.tableMargins.top ∧ s.tableMargins.top < 0 := ⟨hm, hn⟩
      rw [if_pos h1, if_neg h2, if_pos h3]
      rfl
    · have h1 : ¬ s.loadedTableOuterRect.y < 0 := by rw [hm]; exact hn
      have h3 : ¬ (s.loadedTableOuterRect.y = s.tableMargins.top ∧ s.tableMargins.top < 0) :=
        fun h => hn h.2
      rw [if_neg h1, if_neg h3]
      exact hm
  · have h3 : ¬ (s.loadedTableOuterRect.y = s.tableMargins.top ∧ s.tableMargins.top < 0) :=
      fun h => hm h.1
    rw [if_pos hm, if_neg h3]
    rfl

theorem enforceFirstRowAtOrigo_x (s : State) (f : Bool) :
    (enforceFirstRowAtOrigo s f).1.loadedTableOuterRect.x = s.loadedTableOuterRect.x := by
  unfold enforceFirstRowAtOrigo
  split_ifs <;> rfl

theorem enforceFirstColumnAtOrigo_keeps (s : State) :
    (enforceFirstColumnAtOrigo s).1.loadedTableOuterRect.y = s.loadedTableOuterRect.y ∧
      (enforceFirstColumnAtOrigo s).1.loadedTable = s.loadedTable ∧
      (enforceFirstColumnAtOrigo s).1.tableMargins = s.tableMargins := by
  unfold enforceFirstColumnAtOrigo
  split_ifs <;> exact ⟨rfl, rfl, rfl⟩

/-- Where `enforceFirstRowColumnAtOrigo` leaves the outer rectangle when the
window starts at column 0: at the left margin, unless the rectangle is at the
margin already and the margin is negative; then it is at `flickMargin`. -/
theorem enforceFirstRowColumnAtOrigo_first_column (s : State) (hx : s.loadedTable.x = 0) :
    (enforceFirstRowColumnAtOrigo s).loadedTableOuterRect.x =
      if s.loadedTableOuterRect.x = s.tableMargins.left ∧ s.tableMargins.left < 0 then flickMargin
      else s.tableMargins.left := by
  unfold enforceFirstRowColumnAtOrigo
  simp only []
  by_cases hb : (enforceFirstRowAtOrigo (enforceFirstColumnAtOrigo s).1
      (enforceFirstColumnAtOrigo s).2).2 = true
  · rw [if_pos hb, relayoutTableItems_outerRect, enforceFirstRowAtOrigo_x,
      enforceFirstColumnAtOrigo_x s hx]
  · rw [if_neg hb, enforceFirstRowAtOrigo_x, enforceFirstColumnAtOrigo_x s hx]

/-- Where `enforceFirstRowColumnAtOrigo` leaves the outer rectangle when the
window starts at row 0: at the top margin, unless the rectangle is at the
margin already and the margin is negative; then it is at `flickMargin`. -/
theorem enforceFirstRowColumnAtOrigo_first_row (s : State) (hy : s.loadedTable.y = 0) :
    (enforceFirstRowColumnAtOrigo s).loadedTableOuterRect.y =
      if s.loadedTableOuterRect.y = s.tableMargins.top ∧ s.tableMargins.top < 0 then flickMargin
      else s.tableMargins.top := by
  have e := enforceFirstRowAtOrigo_y (enforceFirstColumnAtOrigo s).1 (enforceFirstColumnAtOrigo s).2
    (by rw [(enforceFirstColumnAtOrigo_keeps s).2.1]; exact hy)
  rw [(enforceFirstColumnAtOrigo_keeps s).1, (enforceFirstColumnAtOrigo_keeps s).2.2] at e
  unfold enforceFirstRowColumnAtOrigo
  simp only []
  by_cases hb : (enforceFirstRowAtOrigo (enforceFirstColumnAtOrigo s).1
      (enforceFirstColumnAtOrigo s).2).2 = true
  · rw [if_pos hb, relayoutTableItems_outerRect, e]
  · rw [if_neg hb, e]

/-! ## Content size reported by a sequence of edge loads -/

theorem reportedWidths_append (l m : List Event) :
    reportedWidths (l ++ m) = reportedWidths l ++ reportedWidths m := by
  simp [reportedWidths, List.filterMap_append]

theorem reportedHeights_append (l m : List Event) :
    reportedHeights (l ++ m) = reportedHeights l ++ reportedHeights m := by
  simp [reportedHeights, List.filterMap_append]

theorem reportFrame_issueLayoutWarning (s : State) :
    reportFrame (issueLayoutWarning s) = reportFrame s := by
  unfold issueLayoutWarning
  split <;> rfl

theorem reportFrame_resolveColumnWidth (s : State) (column : Int) :
    reportFrame (resolveColumnWidth s column).2 = reportFrame s := by
  unfold resolveColumnWidth
  split
  · split
    · exact reportFrame_issueLayoutWarning s
    · split
      · exact reportFrame_issueLayoutWarning s
      · rfl
  · exact reportFrame_issueLayoutWarning s
  · simp only
    split
    · exact reportFrame_issueLayoutWarning s
    · rfl

theorem reportFrame_resolveRowHeight (s : State) (row : Int) :
    reportFrame (resolveRowHeight s row).2 = reportFrame s := by
  unfold resolveRowHeight
  split
  · split
    · exact reportFrame_issueLayoutWarning s
    · split
      · exact reportFrame_issueLayoutWarning s
      · rfl
  · exact reportFrame_issueLayoutWarning s
  · simp only
    split
    · exact reportFrame_issueLayoutWarning s
    · rfl

theorem reportFrame_relayoutTableItems (s : State) :
    reportFrame (relayoutTableItems s) = reportFrame s := by
  have hc : ∀ (acc : State × ℚ) (column : Int),
      reportFrame (relayoutColumnStep acc column).1 = reportFrame acc.1 := by
    intro acc column
    simp only [relayoutColumnStep, relayoutColumnCells]
    refine (foldl_keeps reportFrame _ ?_ _ _).trans (reportFrame_resolveColumnWidth _ _)
    intro st row
    rfl
  have hr : ∀ (acc : State × ℚ) (row : Int),
      reportFrame (relayoutRowStep acc row).1 = reportFrame acc.1 := by
    intro acc row
    simp only [relayoutRowStep, relayoutRowCells]
    refine (foldl_keeps reportFrame _ ?_ _ _).trans (reportFrame_resolveRowHeight _ _)
    intro st column
    rfl
  simp only [relayoutTableItems]
  rw [foldl_pair_keeps reportFrame relayoutRowStep hr,
    foldl_pair_keeps reportFrame relayoutColumnStep hc]
  rfl

theorem reportFrame_enforceFirstRowColumnAtOrigo (s : State) :
    reportFrame (enforceFirstRowColumnAtOrigo s) = reportFrame s := by
  have h1 : reportFrame (enforceFirstColumnAtOrigo s).1 = reportFrame s := by
    unfold enforceFirstColumnAtOrigo
    split_ifs <;> rfl
  have h2 : ∀ (t : State) (f : Bool), reportFrame (enforceFirstRowAtOrigo t f).1 = reportFrame t := by
    intro t f
    unfold enforceFirstRowAtOrigo
    split_ifs <;> rfl
  unfold enforceFirstRowColumnAtOrigo
  simp only []
  split_ifs
  · rw [reportFrame_relayoutTableItems, h2, h1]
  · rw [h2, h1]

theorem reportFrame_layoutVerticalEdge (s : State) (tableEdge : Edge) :
    reportFrame (layoutVerticalEdge s tableEdge) = reportFrame s := by
  simp only [layoutVerticalEdge]
  refine (foldl_pair_keeps reportFrame _ ?_ _ _).trans (reportFrame_resolveColumnWidth _ _)
  intro acc row
  rfl

theorem reportFrame_layoutHorizontalEdge (s : State) (tableEdge : Edge) :
    reportFrame (layoutHorizontalEdge s tableEdge) = reportFrame s := by
  simp only [layoutHorizontalEdge]
  refine (foldl_pair_keeps reportFrame _ ?_ _ _).trans (reportFrame_resolveRowHeight _ _)
  intro acc column
  rfl

theorem reportFrame_layoutTopLeftItem (s : State) :
    reportFrame (layoutTopLeftItem s) = reportFrame s := by
  simp only [layoutTopLeftItem]
  have e : ∀ (t : State) (c : QPoint) (f : FxTableItem → FxTableItem),
      reportFrame (updateTableItem t c f) = reportFrame t := fun _ _ _ => rfl
  rw [e, reportFrame_resolveRowHeight, reportFrame_resolveColumnWidth, e]

theorem reportFrame_layoutTableEdgeFromLoadRequest (s : State) :
    reportFrame (layoutTableEdgeFromLoadRequest s) = reportFrame s := by
  unfold layoutTableEdgeFromLoadRequest
  split
  · exact reportFrame_layoutVerticalEdge _ _
  · exact reportFrame_layoutVerticalEdge _ _
  · exact reportFrame_layoutHorizontalEdge _ _
  · exact reportFrame_layoutHorizontalEdge _ _
  · exact reportFrame_layoutTopLeftItem _

theorem reportFrame_syncLoadedTableFromLoadRequest (s : State) :
    reportFrame (syncLoadedTableFromLoadRequest s) = reportFrame s := by
  unfold syncLoadedTableFromLoadRequest
  split <;> rfl

theorem reportFrame_createFxTableItem (s : State) (cell : QPoint) (mode : IncubationMode) :
    reportFrame (createFxTableItem s cell mode).2 = reportFrame s := by
  unfold createFxTableItem
  simp only []
  split <;> simp [reportFrame, reportedWidths, reportedHeights, List.filterMap_append]

theorem reportFrame_loadFxTableItem (s : State) (cell : QPoint) (mode : IncubationMode) :
    reportFrame (loadFxTableItem s cell mode).2 = reportFrame s := by
  unfold loadFxTableItem
  exact (reportFrame_createFxTableItem { s with blockItemCreatedCallback := true } cell mode)

theorem reportFrame_loadRequestedCells (n : Nat) :
    ∀ s : State, reportFrame (loadRequestedCells n s).1 = reportFrame s := by
  induction n with
  | zero => intro s; rfl
  | succ n ih =>
    intro s
    simp only [loadRequestedCells]
    split_ifs with hc
    · split
      · exact reportFrame_loadFxTableItem _ _ _
      · rw [ih]
        exact reportFrame_loadFxTableItem s _ _
    · rfl

/-- The state in which `finishLoadRequest` calls `updateContentWidth`. -/
theorem reportFrame_laidOut (s : State) :
    reportFrame (enforceFirstRowColumnAtOrigo (syncLoadedTableRectFromLoadedTable
      (layoutTableEdgeFromLoadRequest (syncLoadedTableFromLoadRequest s)))) = reportFrame s := by
  rw [reportFrame_enforceFirstRowColumnAtOrigo]
  exact (reportFrame_layoutTableEdgeFromLoadRequest _).trans
    (reportFrame_syncLoadedTableFromLoadRequest s)

theorem updateContentWidth_keeps (s : State) :
    (updateContentWidth s).loadedTable = s.loadedTable ∧
    (updateContentWidth s).loadedTableOuterRect = s.loadedTableOuterRect ∧
    (updateContentWidth s).tableSize = s.tableSize ∧
    (updateContentWidth s).cellSpacing = s.cellSpacing ∧
    (updateContentWidth s).tableMargins = s.tableMargins ∧
    reportedHeights (updateContentWidth s).log = reportedHeights s.log := by
  rw [updateContentWidth_eq]
  split_ifs <;>
    simp [setContentWidth, reportedHeights, List.filterMap_append]

theorem updateContentHeight_keeps (s : State) :
    (updateContentHeight s).loadedTable = s.loadedTable ∧
    (updateContentHeight s).loadedTableOuterRect = s.loadedTableOuterRect ∧
    (updateContentHeight s).tableSize = s.tableSize ∧
    (updateContentHeight s).cellSpacing = s.cellSpacing ∧
    (updateContentHeight s).tableMargins = s.tableMargins ∧
    reportedWidths (updateContentHeight s).log = reportedWidths s.log := by
  rw [updateContentHeight_eq]
  split_ifs <;>
    simp [setContentHeight, reportedWidths, List.filterMap_append]

/-- What `updateContentWidth` reports: nothing, or one value, the exact width
at the last column and the estimate before it. -/
theorem updateContentWidth_reports (s : State) :
    reportedWidths (updateContentWidth s).log = reportedWidths s.log ∨
    (s.loadedTable.right ≥ s.tableSize.width - 1 ∧
      reportedWidths (updateContentWidth s).log =
        reportedWidths s.log ++ [currentContentWidth s]) ∨
    (s.loadedTable.right < s.tableSize.width - 1 ∧
      reportedWidths (updateContentWidth s).log =
        reportedWidths s.log ++ [estimatedContentWidth s]) := by
  rw [updateContentWidth_eq]
  split_ifs with h1 h2 h3 h4 h5
  · exact Or.inr (Or.inl ⟨h2, by simp [setContentWidth, reportedWidths, List.filterMap_append]⟩)
  · exact Or.inl rfl
  · exact Or.inr (Or.inr ⟨not_le.mp h2,
      by simp [setContentWidth, reportedWidths, List.filterMap_append]⟩)
  · exact Or.inr (Or.inr ⟨not_le.mp h2,
      by simp [setContentWidth, reportedWidths, List.filterMap_append]⟩)
  · exact Or.inl rfl
  · exact Or.inl rfl

/-- What `updateContentHeight` reports: nothing, or one value, the exact
height at the last row and the estimate before it. -/
theorem updateContentHeight_reports (s : State) :
    reportedHeights (updateContentHeight s).log = reportedHeights s.log ∨
    (s.loadedTable.bottom ≥ s.tableSize.height - 1 ∧
      reportedHeights (updateContentHeight s).log =
        reportedHeights s.log ++ [currentContentHeight s]) ∨
    (s.loadedTable.bottom < s.tableSize.height - 1 ∧
      reportedHeights (updateContentHeight s).log =
        reportedHeights s.log ++ [estimatedContentHeight s]) := by
  rw [updateContentHeight_eq]
  split_ifs with h1 h2 h3 h4 h5
  · exact Or.inr (Or.inl ⟨h2, by simp [setContentHeight, reportedHeights, List.filterMap_append]⟩)
  · exact Or.inl rfl
  · exact Or.inr (Or.inr ⟨not_le.mp h2,
      by simp [setContentHeight, reportedHeights, List.filterMap_append]⟩)
  · exact Or.inr (Or.inr ⟨not_le.mp h2,
      by simp [setContentHeight, reportedHeights, List.filterMap_append]⟩)
  · exact Or.inl rfl
  · exact Or.inl rfl

/-- The end of `finishLoadRequest`, after the two reports: the request is
marked as done and the pool is drained; what the reports depend on stays. -/
theorem finishLoadRequest_tail (s : State) :
    (finishLoadRequest s).loadRequest.isActive = false ∧
    (finishLoadRequest s).loadedTable =
      (updateContentHeight (updateContentWidth (enforceFirstRowColumnAtOrigo
        (syncLoadedTableRectFromLoadedTable (layoutTableEdgeFromLoadRequest
          (syncLoadedTableFromLoadRequest s)))))).loadedTable ∧
    (finishLoadRequest s).loadedTableOuterRect =
      (updateContentHeight (updateContentWidth (enforceFirstRowColumnAtOrigo
        (syncLoadedTableRectFromLoadedTable (layoutTableEdgeFromLoadRequest
          (syncLoadedTableFromLoadRequest s)))))).loadedTableOuterRect ∧
    reportFrame (finishLoadRequest s) =
      reportFrame (updateContentHeight (updateContentWidth (enforceFirstRowColumnAtOrigo
        (syncLoadedTableRectFromLoadedTable (layoutTableEdgeFromLoadRequest
          (syncLoadedTableFromLoadRequest s)))))) := by
  unfold finishLoadRequest
  simp only []
  split
  · split_ifs <;>
      simp [reportFrame, reportedWidths, reportedHeights, List.filterMap_append,
        TableEdgeLoadRequest.isActive, TableEdgeLoadRequest.markAsDone]
  · simp [reportFrame, TableEdgeLoadRequest.isActive, TableEdgeLoadRequest.markAsDone]

theorem reportFrame_eq {s t : State} (h : reportFrame t = reportFrame s) :
    t.tableSize = s.tableSize ∧ t.cellSpacing = s.cellSpacing ∧
    t.tableMargins = s.tableMargins ∧ reportedWidths t.log = reportedWidths s.log ∧
    reportedHeights t.log = reportedHeights s.log := by
  simp only [reportFrame, Prod.mk.injEq] at h
  exact h

theorem finishLoadRequest_static (x : State) :
    (finishLoadRequest x).tableSize = x.tableSize ∧
    (finishLoadRequest x).cellSpacing = x.cellSpacing ∧
    (finishLoadRequest x).tableMargins = x.tableMargins := by
  obtain ⟨_, _, _, hf⟩ := finishLoadRequest_tail x
  obtain ⟨f1, f2, f3, _, _⟩ := reportFrame_eq hf
  obtain ⟨_, _, h1, h2, h3, _⟩ := updateContentHeight_keeps
    (updateContentWidth (enforceFirstRowColumnAtOrigo (syncLoadedTableRectFromLoadedTable
      (layoutTableEdgeFromLoadRequest (syncLoadedTableFromLoadRequest x)))))
  obtain ⟨_, _, w1, w2, w3, _⟩ := updateContentWidth_keeps
    (enforceFirstRowColumnAtOrigo (syncLoadedTableRectFromLoadedTable
      (layoutTableEdgeFromLoadRequest (syncLoadedTableFromLoadRequest x))))
  obtain ⟨g1, g2, g3, _, _⟩ := reportFrame_eq (reportFrame_laidOut x)
  exact ⟨by rw [f1, h1, w1, g1], by rw [f2, h2, w2, g2], by rw [f3, h3, w3, g3]⟩

theorem finishLoadRequest_reported_width (x : State) (w : ℚ)
    (h : reportedWidths (finishLoadRequest x).log = reportedWidths x.log ++ [w]) :
    ((finishLoadRequest x).loadedTable.right ≥ (finishLoadRequest x).tableSize.width - 1 ∧
      w = currentContentWidth (finishLoadRequest x)) ∨
    ((finishLoadRequest x).loadedTable.right < (finishLoadRequest x).tableSize.width - 1 ∧
      w = estimatedContentWidth (finishLoadRequest x)) := by
  obtain ⟨_, ht, ho, hf⟩ := finishLoadRequest_tail x
  obtain ⟨f1, f2, f3, f4, _⟩ := reportFrame_eq hf
  obtain ⟨h0, h0o, h1, h2, h3, h4⟩ := updateContentHeight_keeps
    (updateContentWidth (enforceFirstRowColumnAtOrigo (syncLoadedTableRectFromLoadedTable
      (layoutTableEdgeFromLoadRequest (syncLoadedTableFromLoadRequest x)))))
  obtain ⟨w0, w0o, w1, w2, w3, _⟩ := updateContentWidth_keeps
    (enforceFirstRowColumnAtOrigo (syncLoadedTableRectFromLoadedTable
      (layoutTableEdgeFromLoadRequest (syncLoadedTableFromLoadRequest x))))
  obtain ⟨_, _, _, g4, _⟩ := reportFrame_eq (reportFrame_laidOut x)
  rw [f4, h4] at h
  have et : (finishLoadRequest x).loadedTable = (enforceFirstRowColumnAtOrigo
      (syncLoadedTableRectFromLoadedTable (layoutTableEdgeFromLoadRequest
        (syncLoadedTableFromLoadRequest x)))).loadedTable := by rw [ht, h0, w0]
  have eo : (finishLoadRequest x).loadedTableOuterRect = (enforceFirstRowColumnAtOrigo
      (syncLoadedTableRectFromLoadedTable (layoutTableEdgeFromLoadRequest
        (syncLoadedTableFromLoadRequest x)))).loadedTableOuterRect := by rw [ho, h0o, w0o]
  have es : (finishLoadRequest x).tableSize = (enforceFirstRowColumnAtOrigo
      (syncLoadedTableRectFromLoadedTable (layoutTableEdgeFromLoadRequest
        (syncLoadedTableFromLoadRequest x)))).tableSize := by rw [f1, h1, w1]
  have ec : (finishLoadRequest x).cellSpacing = (enforceFirstRowColumnAtOrigo
      (syncLoadedTableRectFromLoadedTable (layoutTableEdgeFromLoadRequest
        (syncLoadedTableFromLoadRequest x)))).cellSpacing := by rw [f2, h2, w2]
  have em : (finishLoadRequest x).tableMargins = (enforceFirstRowColumnAtOrigo
      (syncLoadedTableRectFromLoadedTable (layoutTableEdgeFromLoadRequest
        (syncLoadedTableFromLoadRequest x)))).tableMargins := by rw [f3, h3, w3]
  simp only [currentContentWidth, estimatedContentWidth, et, eo, es, ec, em]
  rcases updateContentWidth_reports (enforceFirstRowColumnAtOrigo
      (syncLoadedTableRectFromLoadedTable (layoutTableEdgeFromLoadRequest
        (syncLoadedTableFromLoadRequest x)))) with c | ⟨c1, c2⟩ | ⟨c1, c2⟩
  · rw [c, g4] at h
    exact absurd h (by simp)
  · rw [c2, g4] at h
    exact Or.inl ⟨c1, by simpa [currentContentWidth] using h.symm⟩
  · rw [c2, g4] at h
    exact Or.inr ⟨c1, by simpa [estimatedContentWidth] using h.symm⟩

theorem finishLoadRequest_reported_height (x : State) (w : ℚ)
    (h : reportedHeights (finishLoadRequest x).log = reportedHeights x.log ++ [w]) :
    ((finishLoadRequest x).loadedTable.bottom ≥ (finishLoadRequest x).tableSize.height - 1 ∧
      w = currentContentHeight (finishLoadRequest x)) ∨
    ((finishLoadRequest x).loadedTable.bottom < (finishLoadRequest x).tableSize.height - 1 ∧
      w = estimatedContentHeight (finishLoadRequest x)) := by
  obtain ⟨_, ht, ho, hf⟩ := finishLoadRequest_tail x
  obtain ⟨f1, f2, f3, _, f5⟩ := reportFrame_eq hf
  obtain ⟨h0, h0o, h1, h2, h3, _⟩ := updateContentHeight_keeps
    (updateContentWidth (enforceFirstRowColumnAtOrigo (syncLoadedTableRectFromLoadedTable
      (layoutTableEdgeFromLoadRequest (syncLoadedTableFromLoadRequest x)))))
  obtain ⟨w0, w0o, w1, w2, w3, w5⟩ := updateContentWidth_keeps
    (enforceFirstRowColumnAtOrigo (syncLoadedTableRectFromLoadedTable
      (layoutTableEdgeFromLoadRequest (syncLoadedTableFromLoadRequest x))))
  obtain ⟨_, _, _, _, g5⟩ := reportFrame_eq (reportFrame_laidOut x)
  rw [f5] at h
  have et : (finishLoadRequest x).loadedTable = (updateContentWidth (enforceFirstRowColumnAtOrigo
      (syncLoadedTableRectFromLoadedTable (layoutTableEdgeFromLoadRequest
        (syncLoadedTableFromLoadRequest x))))).loadedTable := by rw [ht, h0]
  have eo : (finishLoadRequest x).loadedTableOuterRect = (updateContentWidth
      (enforceFirstRowColumnAtOrigo
      (syncLoadedTableRectFromLoadedTable (layoutTableEdgeFromLoadRequest
        (syncLoadedTableFromLoadRequest x))))).loadedTableOuterRect := by rw [ho, h0o]
  have es : (finishLoadRequest x).tableSize = (updateContentWidth (enforceFirstRowColumnAtOrigo
      (syncLoadedTableRectFromLoadedTable (layoutTableEdgeFromLoadRequest
        (syncLoadedTableFromLoadRequest x))))).tableSize := by rw [f1, h1]
  have ec : (finishLoadRequest x).cellSpacing = (updateContentWidth (enforceFirstRowColumnAtOrigo
      (syncLoadedTableRectFromLoadedTable (layoutTableEdgeFromLoadRequest
        (syncLoadedTableFromLoadRequest x))))).cellSpacing := by rw [f2, h2]
  have em : (finishLoadRequest x).tableMargins = (updateContentWidth (enforceFirstRowColumnAtOrigo
      (syncLoadedTableRectFromLoadedTable (layoutTableEdgeFromLoadRequest
        (syncLoadedTableFromLoadRequest x))))).tableMargins := by rw [f3, h3]
  simp only [currentContentHeight, estimatedContentHeight, et, eo, es, ec, em]
  rcases updateContentHeight_reports (updateContentWidth (enforceFirstRowColumnAtOrigo
      (syncLoadedTableRectFromLoadedTable (layoutTableEdgeFromLoadRequest
        (syncLoadedTableFromLoadRequest x))))) with c | ⟨c1, c2⟩ | ⟨c1, c2⟩
  · rw [c, w5, g5] at h
    exact absurd h (by simp)
  · rw [c2, w5, g5] at h
    exact Or.inl ⟨c1, by simpa [currentContentHeight] using h.symm⟩
  · rw [c2, w5, g5] at h
    exact Or.inr ⟨c1, by simpa [estimatedContentHeight] using h.symm⟩

theorem reportFrame_beginLoad (u : State) (edge : Edge) (mode : IncubationMode) :
    reportFrame (loadRequestedCells
      (u.loadRequest.begin (rectangleEdge (expandedRect u.loadedTable edge 1) edge) edge
        mode).remaining
      { u with
        loadRequest := u.loadRequest.begin
          (rectangleEdge (expandedRect u.loadedTable edge 1) edge) edge mode
        log := u.log ++ [Event.begin u.loadRequest.isActive (some edge)
          (rectangleEdge (expandedRect u.loadedTable edge 1) edge)] }).1 = reportFrame u := by
  rw [reportFrame_loadRequestedCells]
  simp [reportFrame, reportedWidths, reportedHeights, List.filterMap_append]

/-- A load keeps the grid size, the spacing and the margins. -/
theorem loadEdge_static (u : State) (edge : Edge) (mode : IncubationMode) :
    (loadEdge u edge mode).tableSize = u.tableSize ∧
    (loadEdge u edge mode).cellSpacing = u.cellSpacing ∧
    (loadEdge u edge mode).tableMargins = u.tableMargins := by
  obtain ⟨g1, g2, g3, _, _⟩ := reportFrame_eq (reportFrame_beginLoad u edge mode)
  unfold loadEdge processLoadRequest
  simp only []
  split_ifs
  · obtain ⟨f1, f2, f3⟩ := finishLoadRequest_static (loadRequestedCells
      (u.loadRequest.begin (rectangleEdge (expandedRect u.loadedTable edge 1) edge) edge
        mode).remaining
      { u with
        loadRequest := u.loadRequest.begin
          (rectangleEdge (expandedRect u.loadedTable edge 1) edge) edge mode
        log := u.log ++ [Event.begin u.loadRequest.isActive (some edge)
          (rectangleEdge (expandedRect u.loadedTable edge 1) edge)] }).1
    exact ⟨f1.trans g1, f2.trans g2, f3.trans g3⟩
  · exact ⟨g1, g2, g3⟩

/-- A load that reports a content width has run to completion, and the value
is the exact width of the window it leaves at the last column, the estimate
made from that window before the last column. -/
theorem loadEdge_reported_width (u : State) (edge : Edge) (mode : IncubationMode) (w : ℚ)
    (h : reportedWidths (loadEdge u edge mode).log = reportedWidths u.log ++ [w]) :
    (loadEdge u edge mode).loadRequest.isActive = false ∧
    (((loadEdge u edge mode).loadedTable.right ≥ (loadEdge u edge mode).tableSize.width - 1 ∧
        w = currentContentWidth (loadEdge u edge mode)) ∨
      ((loadEdge u edge mode).loadedTable.right < (loadEdge u edge mode).tableSize.width - 1 ∧
        w = estimatedContentWidth (loadEdge u edge mode))) := by
  obtain ⟨_, _, _, g4, _⟩ := reportFrame_eq (reportFrame_beginLoad u edge mode)
  revert h
  unfold loadEdge processLoadRequest
  simp only []
  split_ifs
  · intro h
    rw [← g4] at h
    exact ⟨(finishLoadRequest_tail _).1, finishLoadRequest_reported_width _ w h⟩
  · intro h
    rw [g4] at h
    exact absurd h (by simp)

/-- The same for the content height. -/
theorem loadEdge_reported_height (u : State) (edge : Edge) (mode : IncubationMode) (w : ℚ)
    (h : reportedHeights (loadEdge u edge mode).log = reportedHeights u.log ++ [w]) :
    (loadEdge u edge mode).loadRequest.isActive = false ∧
    (((loadEdge u edge mode).loadedTable.bottom ≥ (loadEdge u edge mode).tableSize.height - 1 ∧
        w = currentContentHeight (loadEdge u edge mode)) ∨
      ((loadEdge u edge mode).loadedTable.bottom < (loadEdge u edge mode).tableSize.height - 1 ∧
        w = estimatedContentHeight (loadEdge u edge mode))) := by
  obtain ⟨_, _, _, _, g5⟩ := reportFrame_eq (reportFrame_beginLoad u edge mode)
  revert h
  unfold loadEdge processLoadRequest
  simp only []
  split_ifs
  · intro h
    rw [← g5] at h
    exact ⟨(finishLoadRequest_tail _).1, finishLoadRequest_reported_height _ w h⟩
  · intro h
    rw [g5] at h
    exact absurd h (by simp)

theorem loadEdge_right (u : State) (mode : IncubationMode)
    (hdone : (loadEdge u Edge.RightEdge mode).loadRequest.isActive = false) :
    (loadEdge u Edge.RightEdge mode).loadedTable.right = u.loadedTable.right + 1 := by
  rcases loadEdge_loadedTable u Edge.RightEdge mode with ⟨h1, _⟩ | ⟨_, h2⟩
  · rw [TableEdgeLoadRequest.isActive, h1] at hdone
    exact absurd hdone (by decide)
  · rw [h2]
    have := (expandedRect_sides u.loadedTable Edge.RightEdge).2.1
    simpa [QRect.right] using this

theorem loadEdge_bottom (u : State) (mode : IncubationMode)
    (hdone : (loadEdge u Edge.BottomEdge mode).loadRequest.isActive = false) :
    (loadEdge u Edge.BottomEdge mode).loadedTable.bottom = u.loadedTable.bottom + 1 := by
  rcases loadEdge_loadedTable u Edge.BottomEdge mode with ⟨h1, _⟩ | ⟨_, h2⟩
  · rw [TableEdgeLoadRequest.isActive, h1] at hdone
    exact absurd hdone (by decide)
  · rw [h2]
    have := (expandedRect_sides u.loadedTable Edge.BottomEdge).2.2.2
    simpa [QRect.bottom] using this

theorem edgeLoads_right {s t : State} (h : EdgeLoads Edge.RightEdge s t) :
    t.tableSize = s.tableSize ∧ t.cellSpacing = s.cellSpacing ∧
    t.tableMargins = s.tableMargins ∧ s.loadedTable.right ≤ t.loadedTable.right := by
  induction h with
  | start => exact ⟨rfl, rfl, rfl, le_refl _⟩
  | next u rect mode _ _ hdone ih =>
    obtain ⟨i1, i2, i3, i4⟩ := ih
    obtain ⟨f1, f2, f3⟩ := loadEdge_static u Edge.RightEdge mode
    have f4 := loadEdge_right u mode hdone
    exact ⟨f1.trans i1, f2.trans i2, f3.trans i3, by omega⟩

theorem edgeLoads_bottom {s t : State} (h : EdgeLoads Edge.BottomEdge s t) :
    t.tableSize = s.tableSize ∧ t.cellSpacing = s.cellSpacing ∧
    t.tableMargins = s.tableMargins ∧ s.loadedTable.bottom ≤ t.loadedTable.bottom := by
  induction h with
  | start => exact ⟨rfl, rfl, rfl, le_refl _⟩
  | next u rect mode _ _ hdone ih =>
    obtain ⟨i1, i2, i3, i4⟩ := ih
    obtain ⟨f1, f2, f3⟩ := loadEdge_static u Edge.BottomEdge mode
    have f4 := loadEdge_bottom u mode hdone
    exact ⟨f1.trans i1, f2.trans i2, f3.trans i3, by omega⟩

/-- Order of two content widths reported by right-edge loads of one sequence. -/
theorem reported_width_order (a b : State) (rb : QRectF) (ma mb : IncubationMode) (wA wB : ℚ)
    (h0 : 0 ≤ a.loadedTable.right)
    (hseq : EdgeLoads Edge.RightEdge (loadEdge a Edge.RightEdge ma) b)
    (hb : nextEdgeToLoad b rb = some Edge.RightEdge)
    (hA : reportedWidths (loadEdge a Edge.RightEdge ma).log = reportedWidths a.log ++ [wA])
    (hB : reportedWidths (loadEdge b Edge.RightEdge mb).log = reportedWidths b.log ++ [wB]) :
    ((loadEdge b Edge.RightEdge mb).loadedTable.right < a.tableSize.width - 1 →
      (wA ≤ wB ↔
        (loadEdge a Edge.RightEdge ma).loadedTableOuterRect.right /
            (((loadEdge a Edge.RightEdge ma).loadedTable.right + 1 : Int) : ℚ) ≤
          (loadEdge b Edge.RightEdge mb).loadedTableOuterRect.right /
            (((loadEdge b Edge.RightEdge mb).loadedTable.right + 1 : Int) : ℚ))) ∧
    ((loadEdge b Edge.RightEdge mb).loadedTable.right ≥ a.tableSize.width - 1 →
      (wA ≤ wB ↔
        ((a.tableSize.width : Int) : ℚ) *
            ((loadEdge a Edge.RightEdge ma).loadedTableOuterRect.right /
              (((loadEdge a Edge.RightEdge ma).loadedTable.right + 1 : Int) : ℚ) +
              a.cellSpacing.width) - a.cellSpacing.width ≤
          (loadEdge b Edge.RightEdge mb).loadedTableOuterRect.right)) := by
  obtain ⟨dA, cA⟩ := loadEdge_reported_width a Edge.RightEdge ma wA hA
  obtain ⟨dB, cB⟩ := loadEdge_reported_width b Edge.RightEdge mb wB hB
  obtain ⟨sA1, sA2, sA3⟩ := loadEdge_static a Edge.RightEdge ma
  obtain ⟨sB1, sB2, sB3⟩ := loadEdge_static b Edge.RightEdge mb
  obtain ⟨q1, q2, q3, q4⟩ := edgeLoads_right hseq
  have rA := loadEdge_right a ma dA
  have rB := loadEdge_right b mb dB
  have hroom := edgeHasRoom_of_canLoad b Edge.RightEdge rb (canLoad_of_next b rb Edge.RightEdge hb)
  simp only [edgeHasRoom, QRect.bottomRight, not_le] at hroom
  have hbr : b.loadedTable.right < a.tableSize.width - 1 := by
    have : b.tableSize = a.tableSize := q1.trans sA1
    rw [← this]
    simpa [QRect.right] using hroom
  have eBs : (loadEdge b Edge.RightEdge mb).tableSize = a.tableSize := sB1.trans (q1.trans sA1)
  have eBc : (loadEdge b Edge.RightEdge mb).cellSpacing = a.cellSpacing :=
    sB2.trans (q2.trans sA2)
  have eBm : (loadEdge b Edge.RightEdge mb).tableMargins = a.tableMargins :=
    sB3.trans (q3.trans sA3)
  have hcols : (0 : ℚ) < ((a.tableSize.width : Int) : ℚ) := by
    have : (0 : Int) < a.tableSize.width := by omega
    exact_mod_cast this
  have eA : wA = ((a.tableSize.width : Int) : ℚ) *
      ((loadEdge a Edge.RightEdge ma).loadedTableOuterRect.right /
        (((loadEdge a Edge.RightEdge ma).loadedTable.right + 1 : Int) : ℚ) +
        a.cellSpacing.width) - a.cellSpacing.width + a.tableMargins.right := by
    rw [sA1] at cA
    rcases cA with ⟨c1, _⟩ | ⟨_, c2⟩
    · omega
    · rw [c2, estimatedContentWidth, sA1, sA2, sA3]
  rw [eBs] at cB
  constructor
  · intro hlt
    have eB : wB = ((a.tableSize.width : Int) : ℚ) *
        ((loadEdge b Edge.RightEdge mb).loadedTableOuterRect.right /
          (((loadEdge b Edge.RightEdge mb).loadedTable.right + 1 : Int) : ℚ) +
          a.cellSpacing.width) - a.cellSpacing.width + a.tableMargins.right := by
      rcases cB with ⟨c1, _⟩ | ⟨_, c2⟩
      · omega
      · rw [c2, estimatedContentWidth, eBs, eBc, eBm]
    rw [eA, eB]
    constructor
    · intro h
      have h' : ((a.tableSize.width : Int) : ℚ) *
          ((loadEdge a Edge.RightEdge ma).loadedTableOuterRect.right /
            (((loadEdge a Edge.RightEdge ma).loadedTable.right + 1 : Int) : ℚ)) ≤
          ((a.tableSize.width : Int) : ℚ) *
          ((loadEdge b Edge.RightEdge mb).loadedTableOuterRect.right /
            (((loadEdge b Edge.RightEdge mb).loadedTable.right + 1 : Int) : ℚ)) := by linarith
      exact le_of_mul_le_mul_left h' hcols
    · intro h
      have h' := mul_le_mul_of_nonneg_left h (le_of_lt hcols)
      linarith
  · intro hge
    have eB : wB = (loadEdge b Edge.RightEdge mb).loadedTableOuterRect.right +
        a.tableMargins.right := by
      rcases cB with ⟨_, c2⟩ | ⟨c1, _⟩
      · rw [c2, currentContentWidth, eBm]
      · omega
    rw [eA, eB]
    constructor <;> intro h <;> linarith

/-- Order of two content heights reported by bottom-edge loads of one sequence. -/
theorem reported_height_order (a b : State) (rb : QRectF) (ma mb : IncubationMode) (wA wB : ℚ)
    (h0 : 0 ≤ a.loadedTable.bottom)
    (hseq : EdgeLoads Edge.BottomEdge (loadEdge a Edge.BottomEdge ma) b)
    (hb : nextEdgeToLoad b rb = some Edge.BottomEdge)
    (hA : reportedHeights (loadEdge a Edge.BottomEdge ma).log = reportedHeights a.log ++ [wA])
    (hB : reportedHeights (loadEdge b Edge.BottomEdge mb).log = reportedHeights b.log ++ [wB]) :
    ((loadEdge b Edge.BottomEdge mb).loadedTable.bottom < a.tableSize.height - 1 →
      (wA ≤ wB ↔
        (loadEdge a Edge.BottomEdge ma).loadedTableOuterRect.bottom /
            (((loadEdge a Edge.BottomEdge ma).loadedTable.bottom + 1 : Int) : ℚ) ≤
          (loadEdge b Edge.BottomEdge mb).loadedTableOuterRect.bottom /
            (((loadEdge b Edge.BottomEdge mb).loadedTable.bottom + 1 : Int) : ℚ))) ∧
    ((loadEdge b Edge.BottomEdge mb).loadedTable.bottom ≥ a.tableSize.height - 1 →
      (wA ≤ wB ↔
        ((a.tableSize.height : Int) : ℚ) *
            ((loadEdge a Edge.BottomEdge ma).loadedTableOuterRect.bottom /
              (((loadEdge a Edge.BottomEdge ma).loadedTable.bottom + 1 : Int) : ℚ) +
              a.cellSpacing.height) - a.cellSpacing.height ≤
          (loadEdge b Edge.BottomEdge mb).loadedTableOuterRect.bottom)) := by
  obtain ⟨dA, cA⟩ := loadEdge_reported_height a Edge.BottomEdge ma wA hA
  obtain ⟨dB, cB⟩ := loadEdge_reported_height b Edge.BottomEdge mb wB hB
  obtain ⟨sA1, sA2, sA3⟩ := loadEdge_static a Edge.BottomEdge ma
  obtain ⟨sB1, sB2, sB3⟩ := loadEdge_static b Edge.BottomEdge mb
  obtain ⟨q1, q2, q3, q4⟩ := edgeLoads_bottom hseq
  have rA := loadEdge_bottom a ma dA
  have rB := loadEdge_bottom b mb dB
  have hroom := edgeHasRoom_of_canLoad b Edge.BottomEdge rb
    (canLoad_of_next b rb Edge.BottomEdge hb)
  simp only [edgeHasRoom, QRect.bottomRight, not_le] at hroom
  have hbr : b.loadedTable.bottom < a.tableSize.height - 1 := by
    have : b.tableSize = a.tableSize := q1.trans sA1
    rw [← this]
    simpa [QRect.bottom] using hroom
  have eBs : (loadEdge b Edge.BottomEdge mb).tableSize = a.tableSize := sB1.trans (q1.trans sA1)
  have eBc : (loadEdge b Edge.BottomEdge mb).cellSpacing = a.cellSpacing :=
    sB2.trans (q2.trans sA2)
  have eBm : (loadEdge b Edge.BottomEdge mb).tableMargins = a.tableMargins :=
    sB3.trans (q3.trans sA3)
  have hrows : (0 : ℚ) < ((a.tableSize.height : Int) : ℚ) := by
    have : (0 : Int) < a.tableSize.height := by omega
    exact_mod_cast this
  have eA : wA = ((a.tableSize.height : Int) : ℚ) *
      ((loadEdge a Edge.BottomEdge ma).loadedTableOuterRect.bottom /
        (((loadEdge a Edge.BottomEdge ma).loadedTable.bottom + 1 : Int) : ℚ) +
        a.cellSpacing.height) - a.cellSpacing.height + a.tableMargins.bottom := by
    rw [sA1] at cA
    rcases cA with ⟨c1, _⟩ | ⟨_, c2⟩
    · omega
    · rw [c2, estimatedContentHeight, sA1, sA2, sA3]
  rw [eBs] at cB
  constructor
  · intro hlt
    have eB : wB = ((a.tableSize.height : Int) : ℚ) *
        ((loadEdge b Edge.BottomEdge mb).loadedTableOuterRect.bottom /
          (((loadEdge b Edge.BottomEdge mb).loadedTable.bottom + 1 : Int) : ℚ) +
          a.cellSpacing.height) - a.cellSpacing.height + a.tableMargins.bottom := by
      rcases cB with ⟨c1, _⟩ | ⟨_, c2⟩
      · omega
      · rw [c2, estimatedContentHeight, eBs, eBc, eBm]
    rw [eA, eB]
    constructor
    · intro h
      have h' : ((a.tableSize.height : Int) : ℚ) *
          ((loadEdge a Edge.BottomEdge ma).loadedTableOuterRect.bottom /
            (((loadEdge a Edge.BottomEdge ma).loadedTable.bottom + 1 : Int) : ℚ)) ≤
          ((a.tableSize.height : Int) : ℚ) *
          ((loadEdge b Edge.BottomEdge mb).loadedTableOuterRect.bottom /
            (((loadEdge b Edge.BottomEdge mb).loadedTable.bottom + 1 : Int) : ℚ)) := by linarith
      exact le_of_mul_le_mul_left h' hrows
    · intro h
      have h' := mul_le_mul_of_nonneg_left h (le_of_lt hrows)
      linarith
  · intro hge
    have eB : wB = (loadEdge b Edge.BottomEdge mb).loadedTableOuterRect.bottom +
        a.tableMargins.bottom := by
      rcases cB with ⟨_, c2⟩ | ⟨c1, _⟩
      · rw [c2, currentContentHeight, eBm]
      · omega
    rw [eA, eB]
    constructor <;> intro h <;> linarith

set_option maxRecDepth 100000 in
/-- Claim C16 does not hold as stated. The view `exampleNarrowing`, widened,
loads column 1, 200 wide, and column 2, 20 wide, one after the other with
nothing in between, and reports 1500 and then 3200/3. The view `exampleSpaced`,
whose 5 columns are all 100 wide with a spacing of 10, widened, loads the
columns 1 to 4 and reports 565, 1720/3, 1155/2 and then, at the last column,
the exact width 540. -/
theorem reported_width_decreases :
    (updatePolish 20 exampleNarrowing).finished = true ∧
    (updatePolish 20 exampleNarrowingWidened).finished = true ∧
    (updatePolish 20 exampleNarrowingWidened).state.log.drop exampleNarrowingWidened.log.length =
      [Event.begin false (some Edge.RightEdge) ⟨⟨1, 0⟩, ⟨1, 0⟩⟩,
       Event.object 1000 IncubationMode.AsynchronousIfNested,
       Event.setContentWidth 1500,
       Event.drainReusableItemsPool,
       Event.begin false (some Edge.RightEdge) ⟨⟨2, 0⟩, ⟨2, 0⟩⟩,
       Event.object 2000 IncubationMode.AsynchronousIfNested,
       Event.setContentWidth (3200 / 3),
       Event.drainReusableItemsPool] ∧
    (3200 / 3 : ℚ) < 1500 ∧
    (updatePolish 20 exampleSpaced).finished = true ∧
    (updatePolish 20 exampleSpacedWidened).finished = true ∧
    (updatePolish 20 exampleSpacedWidened).state.tableSize.width = 5 ∧
    (updatePolish 20 exampleSpacedWidened).state.loadedItems.map
        (fun kv => (kv.1, kv.2.geometry.left, kv.2.geometry.width)) =
      [(4, 440, 100), (3, 330, 100), (2, 220, 100), (1, 110, 100), (0, 0, 100)] ∧
    (updatePolish 20 exampleSpacedWidened).state.log.drop exampleSpacedWidened.log.length =
      [Event.begin false (some Edge.RightEdge) ⟨⟨1, 0⟩, ⟨1, 0⟩⟩,
       Event.object 1 IncubationMode.AsynchronousIfNested,
       Event.setContentWidth 565,
       Event.drainReusableItemsPool,
       Event.begin false (some Edge.RightEdge) ⟨⟨2, 0⟩, ⟨2, 0⟩⟩,
       Event.object 2 IncubationMode.AsynchronousIfNested,
       Event.setContentWidth (1720 / 3),
       Event.drainReusableItemsPool,
       Event.begin false (some Edge.RightEdge) ⟨⟨3, 0⟩, ⟨3, 0⟩⟩,
       Event.object 3 IncubationMode.AsynchronousIfNested,
       Event.setContentWidth (1155 / 2),
       Event.drainReusableItemsPool,
       Event.begin false (some Edge.RightEdge) ⟨⟨4, 0⟩, ⟨4, 0⟩⟩,
       Event.object 4 IncubationMode.AsynchronousIfNested,
       Event.setContentWidth 540,
       Event.drainReusableItemsPool] ∧
    (540 : ℚ) < 1155 / 2 := by
  decide!

/-- Claim C16, amended. Take two loads of a sequence of completed right-edge
loads with no other call in between, the second being one that
`nextEdgeToLoad` selects, and let both report a content width. Write `W` for
`loadedTableOuterRect.right()` and `k` for the right column after a load. If
the later load is not at the last column, the value it reports is at least the
earlier one exactly when its average `W / (k + 1)` is at least that of the
earlier load. If it is at the last column, where the exact width is reported,
this is so exactly when its `W` is at least `columnCount * (earlier average +
spacing) - spacing`. The same holds for bottom-edge loads, the content height,
`loadedTableOuterRect.bottom()`, the bottom row and `rowCount`. -/
theorem reported_size_monotone :
    (∀ (a b : State) (rb : QRectF) (ma mb : IncubationMode) (wA wB : ℚ),
      0 ≤ a.loadedTable.right →
      EdgeLoads Edge.RightEdge (loadEdge a Edge.RightEdge ma) b →
      nextEdgeToLoad b rb = some Edge.RightEdge →
      reportedWidths (loadEdge a Edge.RightEdge ma).log = reportedWidths a.log ++ [wA] →
      reportedWidths (loadEdge b Edge.RightEdge mb).log = reportedWidths b.log ++ [wB] →
      ((loadEdge b Edge.RightEdge mb).loadedTable.right < a.tableSize.width - 1 →
        (wA ≤ wB ↔
          (loadEdge a Edge.RightEdge ma).loadedTableOuterRect.right /
              (((loadEdge a Edge.RightEdge ma).loadedTable.right + 1 : Int) : ℚ) ≤
            (loadEdge b Edge.RightEdge mb).loadedTableOuterRect.right /
              (((loadEdge b Edge.RightEdge mb).loadedTable.right + 1 : Int) : ℚ))) ∧
      ((loadEdge b Edge.RightEdge mb).loadedTable.right ≥ a.tableSize.width - 1 →
        (wA ≤ wB ↔
          ((a.tableSize.width : Int) : ℚ) *
              ((loadEdge a Edge.RightEdge ma).loadedTableOuterRect.right /
                (((loadEdge a Edge.RightEdge ma).loadedTable.right + 1 : Int) : ℚ) +
                a.cellSpacing.width) - a.cellSpacing.width ≤
            (loadEdge b Edge.RightEdge mb).loadedTableOuterRect.right))) ∧
    (∀ (a b : State) (rb : QRectF) (ma mb : IncubationMode) (hA hB : ℚ),
      0 ≤ a.loadedTable.bottom →
      EdgeLoads Edge.BottomEdge (loadEdge a Edge.BottomEdge ma) b →
      nextEdgeToLoad b rb = some Edge.BottomEdge →
      reportedHeights (loadEdge a Edge.BottomEdge ma).log = reportedHeights a.log ++ [hA] →
      reportedHeights (loadEdge b Edge.BottomEdge mb).log = reportedHeights b.log ++ [hB] →
      ((loadEdge b Edge.BottomEdge mb).loadedTable.bottom < a.tableSize.height - 1 →
        (hA ≤ hB ↔
          (loadEdge a Edge.BottomEdge ma).loadedTableOuterRect.bottom /
              (((loadEdge a Edge.BottomEdge ma).loadedTable.bottom + 1 : Int) : ℚ) ≤
            (loadEdge b Edge.BottomEdge mb).loadedTableOuterRect.bottom /
              (((loadEdge b Edge.BottomEdge mb).loadedTable.bottom + 1 : Int) : ℚ))) ∧
      ((loadEdge b Edge.BottomEdge mb).loadedTable.bottom ≥ a.tableSize.height - 1 →
        (hA ≤ hB ↔
          ((a.tableSize.height : Int) : ℚ) *
              ((loadEdge a Edge.BottomEdge ma).loadedTableOuterRect.bottom /
                (((loadEdge a Edge.BottomEdge ma).loadedTable.bottom + 1 : Int) : ℚ) +
                a.cellSpacing.height) - a.cellSpacing.height ≤
            (loadEdge b Edge.BottomEdge mb).loadedTableOuterRect.bottom))) :=
  ⟨fun a b rb ma mb wA wB h0 hseq hb hA hB =>
      reported_width_order a b rb ma mb wA wB h0 hseq hb hA hB,
    fun a b rb ma mb wA wB h0 hseq hb hA hB =>
      reported_height_order a b rb ma mb wA wB h0 hseq hb hA hB⟩

set_option maxRecDepth 100000 in
theorem exampleWidening_ready :
    0 ≤ exampleWideningWidened.loadedTable.right ∧
    nextEdgeToLoad exampleWideningFirst ⟨0, 0, 330, 50⟩ = some Edge.RightEdge ∧
    reportedWidths exampleWideningFirst.log =
      reportedWidths exampleWideningWidened.log ++ [1100] ∧
    reportedWidths (loadEdge exampleWideningFirst Edge.RightEdge
        IncubationMode.AsynchronousIfNested).log =
      reportedWidths exampleWideningFirst.log ++ [3500 / 3] ∧
    (loadEdge exampleWideningFirst Edge.RightEdge
        IncubationMode.AsynchronousIfNested).loadedTable.right <
      exampleWideningWidened.tableSize.width - 1 ∧
    exampleWideningFirst.loadedTableOuterRect.right /
        ((exampleWideningFirst.loadedTable.right + 1 : Int) : ℚ) ≤
      (loadEdge exampleWideningFirst Edge.RightEdge
          IncubationMode.AsynchronousIfNested).loadedTableOuterRect.right /
        (((loadEdge exampleWideningFirst Edge.RightEdge
          IncubationMode.AsynchronousIfNested).loadedTable.right + 1 : Int) : ℚ) := by
  decide!

/-- Claim C16, instance: the view `exampleWidening`, widened, loads column 1,
120 wide, and reports 1100, then column 2, 130 wide, and reports 3500/3; the
average width of the loaded columns has grown from 110 to 350/3, and the
second value is at least the first. -/
theorem reported_size_monotone_witness :
    reportedWidths exampleWideningFirst.log =
      reportedWidths exampleWideningWidened.log ++ [1100] ∧
    reportedWidths (loadEdge exampleWideningFirst Edge.RightEdge
        IncubationMode.AsynchronousIfNested).log =
      reportedWidths exampleWideningFirst.log ++ [3500 / 3] ∧
    (1100 : ℚ) ≤ 3500 / 3 :=
  ⟨exampleWidening_ready.2.2.1, exampleWidening_ready.2.2.2.1,
    ((reported_size_monotone.1 exampleWideningWidened exampleWideningFirst ⟨0, 0, 330, 50⟩
      IncubationMode.AsynchronousIfNested IncubationMode.AsynchronousIfNested 1100 (3500 / 3)
      exampleWidening_ready.1 (EdgeLoads.start _) exampleWidening_ready.2.1
      exampleWidening_ready.2.2.1 exampleWidening_ready.2.2.2.1).1
      exampleWidening_ready.2.2.2.2.1).mpr exampleWidening_ready.2.2.2.2.2⟩

end TableView
